import Mathlib

/-!
# Loongson display controller pixel PLL (`drivers/gpu/drm/loongson/lsdc_pixpll.c`)

A shallow embedding of the pixel-PLL parameter lookup, the parameter search,
the per-variant register layouts and the register programming sequences,
of the rate read-out of the ls2k1000 graphics PLL (`lsdc_gfxpll_2k1000.c`) and
of the configuration and state read-out of the PWM controller
(`drivers/pwm/pwm-ls.c`), followed by the properties proved about them.

Conventions
* `unsigned int` / `u32` values are natural numbers; where the C arithmetic can
  wrap, the result is reduced modulo `2 ^ 32` explicitly.
* `int` return values are integers.
* Pointers to structures become values that are passed in and returned; a
  pointer that may be null becomes an `Option`.
* A function that can divide by zero returns an `Option`, `none` being the
  division by zero.
-/

namespace Lsdc

/-! ## Parameter table and lookup -/

/-- The modulus of `unsigned int` / `u32` arithmetic. -/
def U32 : Nat := 4294967296

/-- The modulus of `u64` arithmetic. -/
def U64 : Nat := 18446744073709551616

/-- The structure `struct lsdc_pixpll_parms`.  The declaration lives in a header outside the
sources at hand; the fields are the ones `lsdc_pixpll.c` uses, all
`unsigned int`. -/
structure lsdc_pixpll_parms where
  ref_clock : Nat
  div_ref : Nat
  loopc : Nat
  div_out : Nat
deriving DecidableEq, Repr

/-- The structure `struct clk_to_pixpll_parms_lookup_t`. -/
structure clk_to_pixpll_parms_lookup_t where
  clock : Nat
  width : Nat
  height : Nat
  vrefresh : Nat
  div_out : Nat
  loopc : Nat
  div_ref : Nat
deriving DecidableEq, Repr

/-- The table `pixpll_parms_table`, in source order. -/
def pixpll_parms_table : List clk_to_pixpll_parms_lookup_t :=
  [ ⟨148500, 1920, 1080, 60, 11, 49, 3⟩,
    ⟨141750, 1920, 1080, 60, 11, 78, 5⟩,
    ⟨174500, 1920, 1080, 75, 17, 89, 3⟩,
    ⟨181250, 2560, 1080, 75, 8, 58, 4⟩,
    ⟨297000, 2560, 1080, 30, 8, 95, 4⟩,
    ⟨301992, 1920, 1080, 100, 10, 151, 5⟩,
    ⟨146250, 1680, 1050, 60, 16, 117, 5⟩,
    ⟨135000, 1280, 1024, 75, 10, 54, 4⟩,
    ⟨119000, 1680, 1050, 60, 20, 119, 5⟩,
    ⟨108000, 1600, 900, 60, 15, 81, 5⟩,
    ⟨106500, 1440, 900, 60, 19, 81, 4⟩,
    ⟨88750, 1440, 900, 60, 16, 71, 5⟩,
    ⟨83500, 1280, 800, 60, 17, 71, 5⟩,
    ⟨71000, 1280, 800, 60, 20, 71, 5⟩,
    ⟨74250, 1280, 720, 60, 22, 49, 3⟩,
    ⟨78750, 1024, 768, 75, 16, 63, 5⟩,
    ⟨75000, 1024, 768, 70, 29, 87, 4⟩,
    ⟨65000, 1024, 768, 60, 20, 39, 3⟩,
    ⟨51200, 1024, 600, 60, 25, 64, 5⟩,
    ⟨57284, 832, 624, 75, 24, 55, 4⟩,
    ⟨49500, 800, 600, 75, 40, 99, 5⟩,
    ⟨50000, 800, 600, 72, 44, 88, 4⟩,
    ⟨40000, 800, 600, 60, 30, 36, 3⟩,
    ⟨36000, 800, 600, 56, 50, 72, 4⟩,
    ⟨31500, 640, 480, 75, 40, 63, 5⟩,
    ⟨30240, 640, 480, 67, 62, 75, 4⟩,
    ⟨27000, 720, 576, 50, 50, 54, 4⟩,
    ⟨25175, 640, 480, 60, 85, 107, 5⟩,
    ⟨25200, 640, 480, 60, 50, 63, 5⟩ ]

/-- The `for (i = 0; i < num; ++i)` loop of `lsdc_pixpll_find` over the
remaining table entries: on the first entry whose clock equals `clock` the
three dividers are stored into `pout` and 0 is returned; at the end of the
table -1 is returned and `pout` is as it was. -/
def lsdc_pixpll_find_from : List clk_to_pixpll_parms_lookup_t → Nat →
    lsdc_pixpll_parms → Int × lsdc_pixpll_parms
  | [], _, pout => (-1, pout)
  | pt :: rest, clock, pout =>
    if clock = pt.clock then
      (0, { pout with div_ref := pt.div_ref, loopc := pt.loopc, div_out := pt.div_out })
    else
      lsdc_pixpll_find_from rest clock pout

/-- The function `lsdc_pixpll_find(this, clock, pout)`: the return value and `*pout`. -/
def lsdc_pixpll_find (clock : Nat) (pout : lsdc_pixpll_parms) : Int × lsdc_pixpll_parms :=
  lsdc_pixpll_find_from pixpll_parms_table clock pout

/-! ## Parameter search -/

/-- The expression `refclk / div_ref * loopc / div_out` in `unsigned int`
arithmetic: the product is the only step that can wrap. -/
def pll_clock_out (refclk div_ref loopc div_out : Nat) : Nat :=
  (refclk / div_ref * loopc % U32) / div_out

/-- The `diff` of the search: `clock - computed` or `computed - clock`,
whichever is not negative. -/
def pll_diff (refclk clock div_out div_ref loopc : Nat) : Nat :=
  let computed := pll_clock_out refclk div_ref loopc div_out
  if clock ≥ computed then clock - computed else computed - clock

/-- The locals of `lsdc_pixel_pll_compute` that live across iterations: `min`,
the cached parameters `*pparms` (`this->priv`), and whether the
`return 0` inside the loops has been taken. -/
structure SearchState where
  min : Nat
  pparms : lsdc_pixpll_parms
  returned : Bool
deriving DecidableEq, Repr

/-- One iteration of the innermost `for (loopc ...)` body. -/
def compute_body (refclk clock div_out div_ref : Nat) (s : SearchState) (loopc : Nat) :
    SearchState :=
  if s.returned then s
  else if loopc < 12 * div_ref then s
  else if loopc > 32 * div_ref then s
  else
    let diff := pll_diff refclk clock div_out div_ref loopc
    if diff < s.min then
      { min := diff,
        pparms := { s.pparms with div_ref := div_ref, div_out := div_out, loopc := loopc },
        returned := decide (diff = 0) }
    else s

/-- The loop `for (loopc = 6; loopc < 161; loopc++)`. -/
def compute_loopc (refclk clock div_out div_ref : Nat) (s : SearchState) : SearchState :=
  (List.range' 6 155).foldl (compute_body refclk clock div_out div_ref) s

/-- The loop `for (div_ref = 3; div_ref < 6; div_ref++)`. -/
def compute_div_ref (refclk clock div_out : Nat) (s : SearchState) : SearchState :=
  (List.range' 3 3).foldl (fun s div_ref => compute_loopc refclk clock div_out div_ref s) s

/-- The loop `for (div_out = 6; div_out < 64; div_out++)`. -/
def compute_div_out (refclk clock : Nat) (s : SearchState) : SearchState :=
  (List.range' 6 58).foldl (fun s div_out => compute_div_ref refclk clock div_out s) s

/-- The constant `tolerance` of `lsdc_pixel_pll_compute`. -/
def tolerance : Nat := 1000

/-- The result of `lsdc_pixel_pll_compute`: the `int` returned, the caller's
`*pout` and the handle's cached `*this->priv` after the call. -/
structure ComputeResult where
  ret : Int
  pout : lsdc_pixpll_parms
  priv : lsdc_pixpll_parms
deriving DecidableEq, Repr

/-- The function `lsdc_pixel_pll_compute(this, clock, pout)`, with `priv` the contents of
`this->priv` (whose `ref_clock` is the reference clock). -/
def lsdc_pixel_pll_compute (priv : lsdc_pixpll_parms) (clock : Nat)
    (pout : lsdc_pixpll_parms) : ComputeResult :=
  let refclk := priv.ref_clock
  let found := lsdc_pixpll_find clock pout
  if found.1 = 0 then
    { ret := 0, pout := found.2, priv := priv }
  else
    let s := compute_div_out refclk clock
      { min := tolerance, pparms := priv, returned := false }
    if s.returned then
      { ret := 0, pout := s.pparms, priv := s.pparms }
    else if s.min < tolerance then
      { ret := 0, pout := s.pparms, priv := s.pparms }
    else
      { ret := (s.min : Int), pout := found.2, priv := s.pparms }

/-! ## The search as a single pass over the candidate triples -/

/-- The triples `(div_out, div_ref, loopc)` visited by the three nested loops,
in the order in which they are visited. -/
def search_space : List (Nat × Nat × Nat) :=
  (List.range' 6 58).flatMap fun div_out =>
    (List.range' 3 3).flatMap fun div_ref =>
      (List.range' 6 155).map fun loopc => (div_out, div_ref, loopc)

/-- The loop body seen as a function of the visited triple. -/
def search_step (refclk clock : Nat) (s : SearchState) (t : Nat × Nat × Nat) : SearchState :=
  compute_body refclk clock t.1 t.2.1 s t.2.2

/-- The pruning test of the loop body: `12 * div_ref ≤ loopc ≤ 32 * div_ref`. -/
def ratio_ok (t : Nat × Nat × Nat) : Prop :=
  12 * t.2.1 ≤ t.2.2 ∧ t.2.2 ≤ 32 * t.2.1

instance (t : Nat × Nat × Nat) : Decidable (ratio_ok t) := by
  unfold ratio_ok; infer_instance

/-- The `diff` of a triple `(div_out, div_ref, loopc)`. -/
def triple_diff (refclk clock : Nat) (t : Nat × Nat × Nat) : Nat :=
  pll_diff refclk clock t.1 t.2.1 t.2.2

/-- The cached parameters after the assignments
`pparms->div_ref = div_ref; pparms->div_out = div_out; pparms->loopc = loopc`. -/
def store_triple (p : lsdc_pixpll_parms) (t : Nat × Nat × Nat) : lsdc_pixpll_parms :=
  { p with div_ref := t.2.1, div_out := t.1, loopc := t.2.2 }

/-- A legal triple of the search: inside the loop bounds and passing the
pruning test. -/
def legal_triple (div_out div_ref loopc : Nat) : Prop :=
  (6 ≤ div_out ∧ div_out < 64) ∧ (3 ≤ div_ref ∧ div_ref < 6) ∧ (6 ≤ loopc ∧ loopc < 161) ∧
    12 * div_ref ≤ loopc ∧ loopc ≤ 32 * div_ref

instance (a b c : Nat) : Decidable (legal_triple a b c) := by
  unfold legal_triple; infer_instance

/-- What is known about the search state after the triples of `L` have been
visited, starting from `min = tolerance` and cached parameters `priv`. -/
structure SearchInv (refclk clock : Nat) (priv : lsdc_pixpll_parms)
    (L : List (Nat × Nat × Nat)) (s : SearchState) : Prop where
  min_le : s.min ≤ tolerance
  untouched : s.min = tolerance → s.pparms = priv ∧ s.returned = false
  lower : s.returned = false → ∀ u ∈ L, ratio_ok u → s.min ≤ triple_diff refclk clock u
  ret_zero : s.returned = true → s.min = 0
  best : s.min < tolerance → ∃ pre t post, L = pre ++ t :: post ∧ ratio_ok t ∧
    triple_diff refclk clock t = s.min ∧ s.pparms = store_triple priv t ∧
    ∀ u ∈ pre, ratio_ok u → s.min < triple_diff refclk clock u
  stored : s.pparms = priv ∨ ∃ t, s.pparms = store_triple priv t

/-- The state in which the three loops of `lsdc_pixel_pll_compute` end. -/
def search_result (priv : lsdc_pixpll_parms) (clock : Nat) : SearchState :=
  compute_div_out priv.ref_clock clock { min := tolerance, pparms := priv, returned := false }

/-- Whether the three nested loops of `lsdc_pixel_pll_compute` reach the
triple `u` before the triple `t`: `div_out` is the counter of the outermost
loop, `div_ref` of the middle one and `loopc` of the innermost one, and each
counter only goes up. -/
def visited_before (u t : Nat × Nat × Nat) : Prop :=
  u.1 < t.1 ∨ (u.1 = t.1 ∧ (u.2.1 < t.2.1 ∨ (u.2.1 = t.2.1 ∧ u.2.2 < t.2.2)))

instance (u t : Nat × Nat × Nat) : Decidable (visited_before u t) := by
  unfold visited_before; infer_instance

/-! ## Bit-fields and the register layouts -/

/-- A bit-field member of a register structure: `width` bits starting at bit
`lo` (little endian, fields allocated from bit 0 upwards). -/
structure BitField where
  lo : Nat
  width : Nat
deriving DecidableEq, Repr

/-- The bits of the register that belong to the field. -/
def BitField.mask (f : BitField) : Nat :=
  (2 ^ f.width - 1) <<< f.lo

/-- Reading a bit-field member. -/
def BitField.get (f : BitField) (x : Nat) : Nat :=
  (x >>> f.lo) &&& (2 ^ f.width - 1)

/-- Assigning `v` to a bit-field member: `v` is truncated to the width of the
field and the other bits of the register keep their value. -/
def BitField.set (f : BitField) (x v : Nat) : Nat :=
  (x ^^^ (x &&& f.mask)) ||| ((v &&& (2 ^ f.width - 1)) <<< f.lo)

/-- Member of `struct lsdc_pixpll_reg`, `div_out : 7`, bits 6:0. -/
def lsdc_pixpll_reg.div_out : BitField := ⟨0, 7⟩
/-- Member of `struct lsdc_pixpll_reg`, `_reserved_1_ : 14`, bits 20:7. -/
def lsdc_pixpll_reg.reserved_1 : BitField := ⟨7, 14⟩
/-- Member of `struct lsdc_pixpll_reg`, `loopc : 9`, bits 29:21. -/
def lsdc_pixpll_reg.loopc : BitField := ⟨21, 9⟩
/-- Member of `struct lsdc_pixpll_reg`, `_reserved_2_ : 2`, bits 31:30. -/
def lsdc_pixpll_reg.reserved_2 : BitField := ⟨30, 2⟩
/-- Member of `struct lsdc_pixpll_reg`, `div_ref : 7`, bits 38:32. -/
def lsdc_pixpll_reg.div_ref : BitField := ⟨32, 7⟩
/-- Member of `struct lsdc_pixpll_reg`, `locked : 1`, bit 39. -/
def lsdc_pixpll_reg.locked : BitField := ⟨39, 1⟩
/-- Member of `struct lsdc_pixpll_reg`, `sel_out : 1`, bit 40. -/
def lsdc_pixpll_reg.sel_out : BitField := ⟨40, 1⟩
/-- Member of `struct lsdc_pixpll_reg`, `_reserved_3_ : 2`, bits 42:41. -/
def lsdc_pixpll_reg.reserved_3 : BitField := ⟨41, 2⟩
/-- Member of `struct lsdc_pixpll_reg`, `set_param : 1`, bit 43. -/
def lsdc_pixpll_reg.set_param : BitField := ⟨43, 1⟩
/-- Member of `struct lsdc_pixpll_reg`, `bypass : 1`, bit 44. -/
def lsdc_pixpll_reg.bypass : BitField := ⟨44, 1⟩
/-- Member of `struct lsdc_pixpll_reg`, `powerdown : 1`, bit 45. -/
def lsdc_pixpll_reg.powerdown : BitField := ⟨45, 1⟩
/-- Member of `struct lsdc_pixpll_reg`, `_reserved_4_ : 18`, bits 63:46. -/
def lsdc_pixpll_reg.reserved_4 : BitField := ⟨46, 18⟩

/-- Member of `struct ls2k1000_pixpll_reg`, `sel_out : 1`, bit 0. -/
def ls2k1000_pixpll_reg.sel_out : BitField := ⟨0, 1⟩
/-- Member of `struct ls2k1000_pixpll_reg`, `sw_adj_en : 1`, bit 2. -/
def ls2k1000_pixpll_reg.sw_adj_en : BitField := ⟨2, 1⟩
/-- Member of `struct ls2k1000_pixpll_reg`, `bypass : 1`, bit 3. -/
def ls2k1000_pixpll_reg.bypass : BitField := ⟨3, 1⟩
/-- Member of `struct ls2k1000_pixpll_reg`, `lock_en : 1`, bit 7. -/
def ls2k1000_pixpll_reg.lock_en : BitField := ⟨7, 1⟩
/-- Member of `struct ls2k1000_pixpll_reg`, `lock_check : 2`, bits 11:10. -/
def ls2k1000_pixpll_reg.lock_check : BitField := ⟨10, 2⟩
/-- Member of `struct ls2k1000_pixpll_reg`, `locked : 1`, bit 16. -/
def ls2k1000_pixpll_reg.locked : BitField := ⟨16, 1⟩
/-- Member of `struct ls2k1000_pixpll_reg`, `powerdown : 1`, bit 19. -/
def ls2k1000_pixpll_reg.powerdown : BitField := ⟨19, 1⟩
/-- Member of `struct ls2k1000_pixpll_reg`, `div_ref : 6`, bits 31:26. -/
def ls2k1000_pixpll_reg.div_ref : BitField := ⟨26, 6⟩
/-- Member of `struct ls2k1000_pixpll_reg`, `loopc : 10`, bits 41:32. -/
def ls2k1000_pixpll_reg.loopc : BitField := ⟨32, 10⟩
/-- Member of `struct ls2k1000_pixpll_reg`, `l1_div : 6`, bits 47:42. -/
def ls2k1000_pixpll_reg.l1_div : BitField := ⟨42, 6⟩
/-- Member of `struct ls2k1000_pixpll_reg`, `div_out : 6`, bits 69:64. -/
def ls2k1000_pixpll_reg.div_out : BitField := ⟨64, 6⟩

/-- Member of `struct ls2k0300_pixpll_bitmap`, `sel_out : 1`, bit 0. -/
def ls2k0300_pixpll_bitmap.sel_out : BitField := ⟨0, 1⟩
/-- Member of `struct ls2k0300_pixpll_bitmap`, `sw_adj_en : 1`, bit 3. -/
def ls2k0300_pixpll_bitmap.sw_adj_en : BitField := ⟨3, 1⟩
/-- Member of `struct ls2k0300_pixpll_bitmap`, `bypass : 1`, bit 4. -/
def ls2k0300_pixpll_bitmap.bypass : BitField := ⟨4, 1⟩
/-- Member of `struct ls2k0300_pixpll_bitmap`, `powerdown : 1`, bit 5. -/
def ls2k0300_pixpll_bitmap.powerdown : BitField := ⟨5, 1⟩
/-- Member of `struct ls2k0300_pixpll_bitmap`, `locked : 1`, bit 7. -/
def ls2k0300_pixpll_bitmap.locked : BitField := ⟨7, 1⟩
/-- Member of `struct ls2k0300_pixpll_bitmap`, `div_ref : 7`, bits 14:8. -/
def ls2k0300_pixpll_bitmap.div_ref : BitField := ⟨8, 7⟩
/-- Member of `struct ls2k0300_pixpll_bitmap`, `loopc : 9`, bits 23:15. -/
def ls2k0300_pixpll_bitmap.loopc : BitField := ⟨15, 9⟩
/-- Member of `struct ls2k0300_pixpll_bitmap`, `div_out : 7`, bits 30:24. -/
def ls2k0300_pixpll_bitmap.div_out : BitField := ⟨24, 7⟩

/-! ## The register window -/

/-- One access to the register window: the byte offset from `this->mmio`, the
size of the access in bytes and the value transferred. -/
inductive Access where
  | read (off bytes val : Nat)
  | write (off bytes val : Nat)
deriving DecidableEq, Repr

/-- The device side of the register window: `hw n off v` is the value a read
at byte offset `off` returns when it is the access number `n` of the trace and
`v` is the value last stored there. -/
abbrev Hardware := Nat → Nat → Nat → Nat

/-- Registers behaving as memory: every read returns the value stored. -/
def memory_hw : Hardware := fun _ _ v => v

/-- Registers behaving as memory except for the read-only status bit `f` of
the register at offset 0, which reads as `L n` at access number `n`. -/
def locking_hw (f : BitField) (L : Nat → Bool) : Hardware :=
  fun n off v => if off = 0 then f.set v (if L n then 1 else 0) else v

/-- A device on which every read returns the stored value, except that the
device may drive the status bit `f` of the register at offset 0. -/
def lock_only (f : BitField) (hw : Hardware) : Prop :=
  ∀ n off v, (off = 0 → ∃ b, hw n off v = f.set v b) ∧ (off ≠ 0 → hw n off v = v)

/-- The register window behind `this->mmio`: the 32-bit words stored at each
byte offset and the trace of the accesses made so far, oldest first. -/
structure Mmio where
  mem : Nat → Nat
  log : List Access

/-- A register window holding `mem` on which no access has been made yet. -/
def Mmio.start (mem : Nat → Nat) : Mmio :=
  { mem := mem, log := [] }

/-- The function `readl(this->mmio + off)`: the value read and the window afterwards. -/
def readl (hw : Hardware) (s : Mmio) (off : Nat) : Nat × Mmio :=
  let v := hw s.log.length off (s.mem off % U32) % U32
  (v, { s with log := s.log ++ [Access.read off 4 v] })

/-- The function `writel(val, this->mmio + off)`. -/
def writel (s : Mmio) (val off : Nat) : Mmio :=
  { mem := fun a => if a = off then val % U32 else s.mem a,
    log := s.log ++ [Access.write off 4 (val % U32)] }

/-- The 64-bit value stored at `off`: the word at `off` is the low half. -/
def stored64 (mem : Nat → Nat) (off : Nat) : Nat :=
  mem off % U32 + U32 * (mem (off + 4) % U32)

/-- The function `readq(this->mmio + off)`. -/
def readq (hw : Hardware) (s : Mmio) (off : Nat) : Nat × Mmio :=
  let v := hw s.log.length off (stored64 s.mem off) % U64
  (v, { s with log := s.log ++ [Access.read off 8 v] })

/-- The function `writeq(val, this->mmio + off)`. -/
def writeq (s : Mmio) (val off : Nat) : Mmio :=
  { mem := fun a =>
      if a = off then val % U32 else if a = off + 4 then val / U32 % U32 else s.mem a,
    log := s.log ++ [Access.write off 8 (val % U64)] }

/-- The values written to the register window, oldest first. -/
def Mmio.writes (s : Mmio) : List Nat :=
  s.log.filterMap fun a =>
    match a with
    | Access.write _ _ v => some v
    | Access.read _ _ _ => none

/-- The number of reads made on the register window. -/
def Mmio.reads (s : Mmio) : Nat :=
  (s.log.filter fun a =>
    match a with
    | Access.read _ _ _ => true
    | Access.write _ _ _ => false).length

/-! ## The canonical programming sequence (ls7a1000, ls7a2000, ls2k2000)

The `CONFIG_64BIT` branch of `__pixpll_rreg` and `__pixpll_wreg` is the one
modelled: the register is read and written in one 64-bit access. -/

/-- The function `__pixpll_rreg(this, dst)`. -/
def __pixpll_rreg (hw : Hardware) (s : Mmio) : Nat × Mmio :=
  readq hw s 0

/-- The function `__pixpll_wreg(this, src)`. -/
def __pixpll_wreg (s : Mmio) (src : Nat) : Mmio :=
  writeq s src 0

/-- The function `__pixpll_ops_powerup`. -/
def __pixpll_ops_powerup (hw : Hardware) (s : Mmio) : Mmio :=
  let r := __pixpll_rreg hw s
  __pixpll_wreg r.2 (lsdc_pixpll_reg.powerdown.set r.1 0)

/-- The function `__pixpll_ops_powerdown`. -/
def __pixpll_ops_powerdown (hw : Hardware) (s : Mmio) : Mmio :=
  let r := __pixpll_rreg hw s
  __pixpll_wreg r.2 (lsdc_pixpll_reg.powerdown.set r.1 1)

/-- The function `__pixpll_ops_on`. -/
def __pixpll_ops_on (hw : Hardware) (s : Mmio) : Mmio :=
  let r := __pixpll_rreg hw s
  __pixpll_wreg r.2 (lsdc_pixpll_reg.sel_out.set r.1 1)

/-- The function `__pixpll_ops_off`. -/
def __pixpll_ops_off (hw : Hardware) (s : Mmio) : Mmio :=
  let r := __pixpll_rreg hw s
  __pixpll_wreg r.2 (lsdc_pixpll_reg.sel_out.set r.1 0)

/-- The function `__pixpll_ops_bypass`. -/
def __pixpll_ops_bypass (hw : Hardware) (s : Mmio) : Mmio :=
  let r := __pixpll_rreg hw s
  __pixpll_wreg r.2 (lsdc_pixpll_reg.bypass.set r.1 1)

/-- The function `__pixpll_ops_unbypass`. -/
def __pixpll_ops_unbypass (hw : Hardware) (s : Mmio) : Mmio :=
  let r := __pixpll_rreg hw s
  __pixpll_wreg r.2 (lsdc_pixpll_reg.bypass.set r.1 0)

/-- The function `__pixpll_ops_untoggle_param`. -/
def __pixpll_ops_untoggle_param (hw : Hardware) (s : Mmio) : Mmio :=
  let r := __pixpll_rreg hw s
  __pixpll_wreg r.2 (lsdc_pixpll_reg.set_param.set r.1 0)

/-- The function `__pixpll_ops_set_param(this, p)`. -/
def __pixpll_ops_set_param (hw : Hardware) (s : Mmio) (p : lsdc_pixpll_parms) : Mmio :=
  let r := __pixpll_rreg hw s
  let reg := lsdc_pixpll_reg.div_ref.set r.1 p.div_ref
  let reg := lsdc_pixpll_reg.loopc.set reg p.loopc
  let reg := lsdc_pixpll_reg.div_out.set reg p.div_out
  __pixpll_wreg r.2 reg

/-- The function `__pixpll_ops_toggle_param`. -/
def __pixpll_ops_toggle_param (hw : Hardware) (s : Mmio) : Mmio :=
  let r := __pixpll_rreg hw s
  __pixpll_wreg r.2 (lsdc_pixpll_reg.set_param.set r.1 1)

/-- The `do { ... } while (counter < 2000)` loop of `__pixpll_ops_wait_locked`,
entered with the given `counter`: the register is read, the loop is left when
`locked` is set, otherwise the counter is incremented and tested. -/
def pixpll_wait_locked_loop (hw : Hardware) (counter : Nat) (s : Mmio) : Nat × Mmio :=
  let r := __pixpll_rreg hw s
  if lsdc_pixpll_reg.locked.get r.1 ≠ 0 then (counter, r.2)
  else if counter + 1 < 2000 then pixpll_wait_locked_loop hw (counter + 1) r.2
  else (counter + 1, r.2)
termination_by 2000 - counter

/-- The function `__pixpll_ops_wait_locked`: the counter it reports with `drm_dbg` and the
register window afterwards. -/
def __pixpll_ops_wait_locked (hw : Hardware) (s : Mmio) : Nat × Mmio :=
  pixpll_wait_locked_loop hw 0 s

/-- The function `lsdc_pixpll_update(this, pin)`: the value returned and the register
window afterwards (`udelay(2)` takes time and does nothing else). -/
def lsdc_pixpll_update (hw : Hardware) (pin : lsdc_pixpll_parms) (s : Mmio) : Int × Mmio :=
  let s := __pixpll_ops_bypass hw s
  let s := __pixpll_ops_off hw s
  let s := __pixpll_ops_powerdown hw s
  let s := __pixpll_ops_toggle_param hw s
  let s := __pixpll_ops_set_param hw s pin
  let s := __pixpll_ops_untoggle_param hw s
  let s := __pixpll_ops_powerup hw s
  let s := (__pixpll_ops_wait_locked hw s).2
  let s := __pixpll_ops_on hw s
  let s := __pixpll_ops_unbypass hw s
  (0, s)

/-- What a `get_rate` call leaves behind: the frequency returned, `none` when
the computation divides by zero, the cached parameters `*this->priv` and the
register window. -/
structure RateResult where
  freq : Option Nat
  priv : lsdc_pixpll_parms
  mmio : Mmio

/-- The expression `ref_clock / div_ref * loopc / div_out` of the `get_rate`
functions in `unsigned int` arithmetic; it has no value when a divisor is 0. -/
def rate_of (ref_clock div_ref loopc div_out : Nat) : Option Nat :=
  if div_ref = 0 ∨ div_out = 0 then none
  else some (pll_clock_out ref_clock div_ref loopc div_out)

/-- The function `lsdc_pixpll_get_freq(this)`. -/
def lsdc_pixpll_get_freq (hw : Hardware) (priv : lsdc_pixpll_parms) (s : Mmio) : RateResult :=
  let r := __pixpll_rreg hw s
  let ppar : lsdc_pixpll_parms :=
    { priv with
      div_ref := lsdc_pixpll_reg.div_ref.get r.1,
      loopc := lsdc_pixpll_reg.loopc.get r.1,
      div_out := lsdc_pixpll_reg.div_out.get r.1 }
  { freq := rate_of ppar.ref_clock ppar.div_ref ppar.loopc ppar.div_out,
    priv := ppar, mmio := r.2 }

/-! ## ls2k1000 -/

/-- The `~` of C on a 32-bit operand. -/
def not32 (x : Nat) : Nat := (2 ^ 32 - 1) ^^^ x

/-- The `~` of C on a 64-bit operand. -/
def not64 (x : Nat) : Nat := (2 ^ 64 - 1) ^^^ x

/-- The `do { ... } while (!locked && (counter < 2000))` loop of
`ls2k1000_pixpll_param_update`, entered with the given `counter`: the last
`val` read, the final counter and the register window. -/
def ls2k1000_wait_loop (hw : Hardware) (counter : Nat) (s : Mmio) : Nat × Nat × Mmio :=
  let r := readl hw s 0
  let val := r.1
  let locked : Bool := decide (val &&& 0x10000 ≠ 0)
  if !locked ∧ counter + 1 < 2000 then ls2k1000_wait_loop hw (counter + 1) r.2
  else (val, counter + 1, r.2)
termination_by 2000 - counter

/-- The function `ls2k1000_pixpll_param_update(this, pin)`: the value returned, the counter
reported with `drm_dbg` and the register window afterwards. -/
def ls2k1000_pixpll_param_update (hw : Hardware) (pin : lsdc_pixpll_parms) (s : Mmio) :
    Int × Nat × Mmio :=
  let r := readl hw s 0
  let val := r.1
  let s := r.2
  let val := val &&& not32 (1 <<< 0)
  let s := writel s val 0
  let val := val ||| (1 <<< 19)
  let s := writel s val 0
  let val := val &&& not32 (1 <<< 2)
  let s := writel s val 0
  let val := (1 <<< 7) ||| (3 <<< 10)
  let s := writel s val 0
  let val := val &&& not32 (0x3f <<< 26)
  let val := val ||| ((pin.div_ref <<< 26) % U32)
  let s := writel s val 0
  let r := readl hw s 4
  let val := r.1
  let s := r.2
  let val := val &&& not32 0x0fff
  let val := val ||| pin.loopc
  let s := writel s val 4
  let s := writel s pin.div_out 8
  let r := readl hw s 0
  let val := r.1
  let s := r.2
  let val := val ||| (1 <<< 2)
  let val := val &&& not32 (1 <<< 19)
  let s := writel s val 0
  let w := ls2k1000_wait_loop hw 0 s
  let val := w.1
  let s := w.2.2
  let val := val ||| 1
  let s := writel s val 0
  (0, w.2.1, s)

/-- The value of `union ls2k1000_pixpll_reg_bitmap` whose words are
`w[0] .. w[3]`. -/
def ls2k1000_bitmap (w0 w1 w2 w3 : Nat) : Nat :=
  w0 + 2 ^ 32 * w1 + 2 ^ 64 * w2 + 2 ^ 96 * w3

/-- The function `ls2k1000_pixpll_get_clock_rate(this)`. -/
def ls2k1000_pixpll_get_clock_rate (hw : Hardware) (priv : lsdc_pixpll_parms) (s : Mmio) :
    RateResult :=
  let r0 := readl hw s 0
  let r1 := readl hw r0.2 4
  let r2 := readl hw r1.2 8
  let r3 := readl hw r2.2 12
  let obj := ls2k1000_bitmap r0.1 r1.1 r2.1 r3.1
  { freq := rate_of priv.ref_clock (ls2k1000_pixpll_reg.div_ref.get obj)
      (ls2k1000_pixpll_reg.loopc.get obj) (ls2k1000_pixpll_reg.div_out.get obj),
    priv := priv, mmio := r3.2 }

/-! ## ls2k0300 -/

/-- The `do { ... } while (locked == false)` loop of
`ls2k0300_pixpll_param_update`, entered with the given `counter`.  The loop has
no bound of its own, so the model runs it for at most `fuel` iterations and
has no result when that is not enough. -/
def ls2k0300_wait_loop (hw : Hardware) : Nat → Nat → Mmio → Option (Nat × Nat × Mmio)
  | 0, _, _ => none
  | fuel + 1, counter, s =>
    let r := readl hw s 0
    let val := r.1
    let locked : Bool := decide (val &&& 0x80 ≠ 0)
    let counter := (counter + 1) % U32
    if locked = false then ls2k0300_wait_loop hw fuel counter r.2
    else some (val, counter, r.2)

/-- The function `ls2k0300_pixpll_param_update(this, pin)` with at most `fuel` iterations
of its wait loop: the value returned, the counter reported and the register
window afterwards. -/
def ls2k0300_pixpll_param_update (hw : Hardware) (fuel : Nat) (pin : lsdc_pixpll_parms)
    (s : Mmio) : Option (Int × Nat × Mmio) :=
  let r := readl hw s 0
  let val := r.1
  let s := r.2
  let val := val &&& not64 (1 <<< 0)
  let s := writel s val 0
  let val := val ||| (1 <<< 4)
  let val := val ||| (1 <<< 3)
  let s := writel s val 0
  let r := readl hw s 0
  let val := r.1
  let s := r.2
  let val := val ||| (1 <<< 5)
  let s := writel s val 0
  let val := ((pin.div_out <<< 24) % U32) ||| ((pin.loopc <<< 15) % U32) |||
    ((pin.div_ref <<< 8) % U32)
  let s := writel s val 0
  let val := val &&& not64 (1 <<< 4)
  let val := val &&& not64 (1 <<< 5)
  let s := writel s val 0
  match ls2k0300_wait_loop hw fuel 0 s with
  | none => none
  | some w =>
    let s := writel w.2.2 (w.1 ||| 1) 0
    some (0, w.2.1, s)

/-- The function `ls2k0300_pixpll_get_clock_rate(this)`: only `w[0]` of the union is
filled in, and the three fields lie in that word. -/
def ls2k0300_pixpll_get_clock_rate (hw : Hardware) (priv : lsdc_pixpll_parms) (s : Mmio) :
    RateResult :=
  let r0 := readl hw s 0
  let obj := r0.1
  { freq := rate_of priv.ref_clock (ls2k0300_pixpll_bitmap.div_ref.get obj)
      (ls2k0300_pixpll_bitmap.loopc.get obj) (ls2k0300_pixpll_bitmap.div_out.get obj),
    priv := priv, mmio := r0.2 }

/-! ## Auxiliary notions used to state the properties -/

/-- The register window `m` with the 64-bit register at offset 0 holding `x`. -/
def mem_with_reg64 (m : Nat → Nat) (x : Nat) : Nat → Nat :=
  fun a => if a = 0 then x % U32 else if a = 4 then x / U32 % U32 else m a

/-- The register window `m` with the 32-bit word at offset `off` holding `x`. -/
def mem_with_word (m : Nat → Nat) (off x : Nat) : Nat → Nat :=
  fun a => if a = off then x % U32 else m a

/-- The dividers `(div_ref, loopc, div_out)` that the layout of
`lsdc_pixpll_get_freq` decodes from the stored words `m`. -/
def lsdc_pixpll_decode (m : Nat → Nat) : Nat × Nat × Nat :=
  (lsdc_pixpll_reg.div_ref.get (stored64 m 0), lsdc_pixpll_reg.loopc.get (stored64 m 0),
    lsdc_pixpll_reg.div_out.get (stored64 m 0))

/-- The dividers `(div_ref, loopc, div_out)` that the layout of
`ls2k1000_pixpll_get_clock_rate` decodes from the stored words `m`. -/
def ls2k1000_pixpll_decode (m : Nat → Nat) : Nat × Nat × Nat :=
  let obj := ls2k1000_bitmap (m 0 % U32) (m 4 % U32) (m 8 % U32) (m 12 % U32)
  (ls2k1000_pixpll_reg.div_ref.get obj, ls2k1000_pixpll_reg.loopc.get obj,
    ls2k1000_pixpll_reg.div_out.get obj)

/-- The dividers `(div_ref, loopc, div_out)` that the layout of
`ls2k0300_pixpll_get_clock_rate` decodes from the stored words `m`. -/
def ls2k0300_pixpll_decode (m : Nat → Nat) : Nat × Nat × Nat :=
  let obj := m 0 % U32
  (ls2k0300_pixpll_bitmap.div_ref.get obj, ls2k0300_pixpll_bitmap.loopc.get obj,
    ls2k0300_pixpll_bitmap.div_out.get obj)

/-- The 64-bit register value `x` with the seven fields that
`lsdc_pixpll_update` assigns holding what it assigns last: the dividers of
`pin`, `sel_out = 1`, `set_param = 0`, `bypass = 0` and `powerdown = 0`. -/
def lsdc_pixpll_programmed (x : Nat) (pin : lsdc_pixpll_parms) : Nat :=
  lsdc_pixpll_reg.bypass.set (lsdc_pixpll_reg.powerdown.set (lsdc_pixpll_reg.set_param.set
    (lsdc_pixpll_reg.sel_out.set (lsdc_pixpll_reg.div_out.set (lsdc_pixpll_reg.loopc.set
      (lsdc_pixpll_reg.div_ref.set x pin.div_ref) pin.loopc) pin.div_out) 1) 0) 0) 0

/-! ## The register window of a handle -/

/-- One past the last byte offset that an access touches. -/
def Access.limit : Access → Nat
  | Access.read off bytes _ => off + bytes
  | Access.write off bytes _ => off + bytes

/-- The trace of `t` continues the trace of `s`, and every access made in
between lies below byte offset `n` of the register window. -/
def Mmio.stays_within (n : Nat) (s t : Mmio) : Prop :=
  ∃ l, t.log = s.log ++ l ∧ ∀ a ∈ l, a.limit ≤ n

/-- One element of the array `pixpll` of `struct loongson_gfx_desc`
(`loongson_device.c`). -/
structure pixpll_desc where
  reg_offset : Nat
  reg_size : Nat
deriving DecidableEq, Repr

/-- The members `conf_reg_base` and `pixpll` of `struct loongson_gfx_desc`. -/
structure loongson_gfx_desc where
  conf_reg_base : Nat
  pixpll : List pixpll_desc
deriving DecidableEq, Repr

/-- The descriptor `ls7a1000_gfx`.  The macros that give the register base and
the two register offsets are defined outside the sources at hand, so they are
parameters here; the sizes are the ones written in `loongson_device.c`. -/
def ls7a1000_gfx (conf_reg_base pixpll0_reg pixpll1_reg : Nat) : loongson_gfx_desc :=
  { conf_reg_base := conf_reg_base, pixpll := [⟨pixpll0_reg, 8⟩, ⟨pixpll1_reg, 8⟩] }

/-- The descriptor `ls7a2000_gfx`. -/
def ls7a2000_gfx (conf_reg_base pixpll0_reg pixpll1_reg : Nat) : loongson_gfx_desc :=
  { conf_reg_base := conf_reg_base, pixpll := [⟨pixpll0_reg, 8⟩, ⟨pixpll1_reg, 8⟩] }

/-- The descriptor `ls2k1000_gfx`. -/
def ls2k1000_gfx (conf_reg_base pixpll0_reg pixpll1_reg : Nat) : loongson_gfx_desc :=
  { conf_reg_base := conf_reg_base, pixpll := [⟨pixpll0_reg, 16⟩, ⟨pixpll1_reg, 16⟩] }

/-- The descriptor `ls2k0300_gfx`. -/
def ls2k0300_gfx (conf_reg_base pixpll0_reg pixpll1_reg : Nat) : loongson_gfx_desc :=
  { conf_reg_base := conf_reg_base, pixpll := [⟨pixpll0_reg, 16⟩, ⟨pixpll1_reg, 16⟩] }

/-- The members `reg_base` and `reg_size` of `struct lsdc_pixpll`: the window
that `lsdc_pixel_pll_setup` maps with `ioremap(this->reg_base, this->reg_size)`. -/
structure lsdc_pixpll where
  reg_base : Nat
  reg_size : Nat
deriving DecidableEq, Repr

/-- The function `lsdc_pixpll_init(this, ddev, index)` up to the call of `setup`: the
assignments `this->reg_size = 8` and
`this->reg_base = gfx->conf_reg_base + gfx->pixpll[index].reg_offset`.  There
is no result when `index` is outside the array. -/
def lsdc_pixpll_init (gfx : loongson_gfx_desc) (index : Nat) : Option lsdc_pixpll :=
  match gfx.pixpll[index]? with
  | none => none
  | some d => some { reg_size := 8, reg_base := gfx.conf_reg_base + d.reg_offset }

/-! ## The graphics PLL of ls2k1000 (`lsdc_gfxpll_2k1000.c`)

The two 128-bit registers of the window behind `this->mmio`: the DDR PLL
register at byte offset 0 and the DC PLL register at byte offset 16.  Only the
members that `ls2k1000_gfxpll_get_rates` reads, and the ones below them in the
same word, are listed. -/

/-- Member of `struct ls2k1000_ddr_pll_bitmap`, `bypass : 1`, bit 0. -/
def ls2k1000_ddr_pll_bitmap.bypass : BitField := ⟨0, 1⟩
/-- Member of `struct ls2k1000_ddr_pll_bitmap`, `oe_gpu : 1`, bit 1. -/
def ls2k1000_ddr_pll_bitmap.oe_gpu : BitField := ⟨1, 1⟩
/-- Member of `struct ls2k1000_ddr_pll_bitmap`, `write_en : 1`, bit 2. -/
def ls2k1000_ddr_pll_bitmap.write_en : BitField := ⟨2, 1⟩
/-- Member of `struct ls2k1000_ddr_pll_bitmap`, `_reserved_1_ : 23`, bits 25:3. -/
def ls2k1000_ddr_pll_bitmap.reserved_1 : BitField := ⟨3, 23⟩
/-- Member of `struct ls2k1000_ddr_pll_bitmap`, `div_ref : 6`, bits 31:26. -/
def ls2k1000_ddr_pll_bitmap.div_ref : BitField := ⟨26, 6⟩
/-- Member of `struct ls2k1000_ddr_pll_bitmap`, `loopc : 10`, bits 41:32. -/
def ls2k1000_ddr_pll_bitmap.loopc : BitField := ⟨32, 10⟩
/-- Member of `struct ls2k1000_ddr_pll_bitmap`, `_reserved_2_ : 22`, bits 63:42. -/
def ls2k1000_ddr_pll_bitmap.reserved_2 : BitField := ⟨42, 22⟩
/-- Member of `struct ls2k1000_ddr_pll_bitmap`, `div_out_ddr : 6`, bits 69:64. -/
def ls2k1000_ddr_pll_bitmap.div_out_ddr : BitField := ⟨64, 6⟩
/-- Member of `struct ls2k1000_ddr_pll_bitmap`, `_reserved_3_ : 16`, bits 85:70. -/
def ls2k1000_ddr_pll_bitmap.reserved_3 : BitField := ⟨70, 16⟩
/-- Member of `struct ls2k1000_ddr_pll_bitmap`, `div_out_gpu : 6`, bits 91:86. -/
def ls2k1000_ddr_pll_bitmap.div_out_gpu : BitField := ⟨86, 6⟩

/-- Member of `struct ls2k1000_dc_pll_bitmap`, `_reserved_1_ : 26`, bits 25:0. -/
def ls2k1000_dc_pll_bitmap.reserved_1 : BitField := ⟨0, 26⟩
/-- Member of `struct ls2k1000_dc_pll_bitmap`, `div_ref : 6`, bits 31:26. -/
def ls2k1000_dc_pll_bitmap.div_ref : BitField := ⟨26, 6⟩
/-- Member of `struct ls2k1000_dc_pll_bitmap`, `loopc : 10`, bits 41:32. -/
def ls2k1000_dc_pll_bitmap.loopc : BitField := ⟨32, 10⟩
/-- Member of `struct ls2k1000_dc_pll_bitmap`, `_reserved_2_ : 22`, bits 63:42. -/
def ls2k1000_dc_pll_bitmap.reserved_2 : BitField := ⟨42, 22⟩
/-- Member of `struct ls2k1000_dc_pll_bitmap`, `div_out_dc : 6`, bits 69:64. -/
def ls2k1000_dc_pll_bitmap.div_out_dc : BitField := ⟨64, 6⟩
/-- Member of `struct ls2k1000_dc_pll_bitmap`, `_reserved_3_ : 16`, bits 85:70. -/
def ls2k1000_dc_pll_bitmap.reserved_3 : BitField := ⟨70, 16⟩
/-- Member of `struct ls2k1000_dc_pll_bitmap`, `div_out_gmac : 6`, bits 91:86. -/
def ls2k1000_dc_pll_bitmap.div_out_gmac : BitField := ⟨86, 6⟩
/-- Member of `struct ls2k1000_dc_pll_bitmap`, `_reserved_4_ : 4`, bits 95:92. -/
def ls2k1000_dc_pll_bitmap.reserved_4 : BitField := ⟨92, 4⟩
/-- Member of `struct ls2k1000_dc_pll_bitmap`, `_reserved_5_ : 32`, bits 127:96. -/
def ls2k1000_dc_pll_bitmap.reserved_5 : BitField := ⟨96, 32⟩

/-- The function `__rreg_u128(this->mmio + off, w, d)`, `CONFIG_64BIT` branch:
`d[0] = readq(mmio); d[1] = readq(mmio + 8)`.  The value is the 128-bit object
that `d[0]` and `d[1]` overlay, `d[0]` being the low half. -/
def __rreg_u128 (hw : Hardware) (s : Mmio) (off : Nat) : Nat × Mmio :=
  let d0 := readq hw s off
  let d1 := readq hw d0.2 (off + 8)
  (d0.1 + 2 ^ 64 * d1.1, d1.2)

/-- The three locations behind the output pointers `dc`, `ddr` and `gpu` of
`ls2k1000_gfxpll_get_rates`: `none` is a null pointer, `some v` a pointer to
an `unsigned int` holding `v`. -/
structure gfxpll_rates where
  dc : Option Nat
  ddr : Option Nat
  gpu : Option Nat
deriving DecidableEq, Repr

/-- The statement `if (p) *p = v;`. -/
def store_if_nonnull (p : Option Nat) (v : Nat) : Option Nat :=
  match p with
  | none => none
  | some _ => some v

/-- The function `ls2k1000_gfxpll_get_rates(this, dc, ddr, gpu)`.  The macro
`LSDC_PLL_REF_CLK_KHZ` comes from a header outside the sources at hand and is a
parameter.  The three quotients are computed before any pointer is tested; the
result is `none` when one of the divisions is a division by zero. -/
def ls2k1000_gfxpll_get_rates (hw : Hardware) (LSDC_PLL_REF_CLK_KHZ : Nat)
    (out : gfxpll_rates) (s : Mmio) : Option (gfxpll_rates × Mmio) :=
  let ref_clock_mhz := LSDC_PLL_REF_CLK_KHZ / 1000 % U32
  let r := __rreg_u128 hw s 0
  let div_ref := ls2k1000_ddr_pll_bitmap.div_ref.get r.1
  let loopc := ls2k1000_ddr_pll_bitmap.loopc.get r.1
  let div_out_ddr := ls2k1000_ddr_pll_bitmap.div_out_ddr.get r.1
  let div_out_gpu := ls2k1000_ddr_pll_bitmap.div_out_gpu.get r.1
  match rate_of ref_clock_mhz div_ref loopc div_out_ddr with
  | none => none
  | some ddr_mhz =>
    match rate_of ref_clock_mhz div_ref loopc div_out_gpu with
    | none => none
    | some gpu_mhz =>
      let q := __rreg_u128 hw r.2 16
      let div_out_dc := ls2k1000_dc_pll_bitmap.div_out_dc.get q.1
      let div_ref := ls2k1000_dc_pll_bitmap.div_ref.get q.1
      let loopc := ls2k1000_dc_pll_bitmap.loopc.get q.1
      match rate_of ref_clock_mhz div_ref loopc div_out_dc with
      | none => none
      | some dc_mhz =>
        some ({ dc := store_if_nonnull out.dc dc_mhz,
                ddr := store_if_nonnull out.ddr ddr_mhz,
                gpu := store_if_nonnull out.gpu gpu_mhz }, q.2)

/-! ## The PWM controller (`drivers/pwm/pwm-ls.c`)

The register window is the one behind `ls_pwm->mmio_base`.  `unsigned long`
and `long` are 64 bits wide, as on the 64-bit kernels modelled above. -/

/-- The macro `LOW_BUFFER`. -/
def LOW_BUFFER : Nat := 0x004
/-- The macro `FULL_BUFFER`. -/
def FULL_BUFFER : Nat := 0x008
/-- The macro `CTRL`. -/
def CTRL : Nat := 0x00c
/-- The macro `CTRL_EN`, `BIT(0)`. -/
def CTRL_EN : Nat := 2 ^ 0
/-- The macro `CTRL_INVERT`, `BIT(9)`. -/
def CTRL_INVERT : Nat := 2 ^ 9
/-- The macro `NS_IN_HZ`, `1000000000UL`. -/
def NS_IN_HZ : Nat := 1000000000
/-- The macro `CPU_FRQ_PWM`, `50000000UL`. -/
def CPU_FRQ_PWM : Nat := 50000000

/-- Modelled from the spec: the constant `NSEC_PER_SEC` of the kernel's time
headers, which are not among the sources at hand; the specification scales
nanoseconds to ticks by `10^9`. -/
def NSEC_PER_SEC : Nat := 1000000000

/-- Modelled from the spec: the error number `ERANGE` of the kernel's errno
headers, which are not among the sources at hand. -/
def ERANGE : Int := 34

/-- Modelled from the spec: the kernel macro `do_div(n, base)`, not among the
sources at hand: the floor of the quotient of the 64-bit `n` by `base`, which
the macro takes as a 32-bit unsigned value, replaces `n`.  The result is `none`
on a division by zero. -/
def do_div (n base : Nat) : Option Nat :=
  if base % U32 = 0 then none else some (n % U64 / (base % U32))

/-- The members of `struct ls_pwm_chip` that the driver computes with. -/
structure ls_pwm_chip where
  irq : Nat
  ctrl_reg : Nat
  low_buffer_reg : Nat
  full_buffer_reg : Nat
  clock_frequency : Nat

/-- The type `enum pwm_polarity`. -/
inductive pwm_polarity where
  | PWM_POLARITY_NORMAL
  | PWM_POLARITY_INVERSED
deriving DecidableEq, Repr

/-- The members of `struct pwm_state` that `ls_pwm_get_state` assigns.  The
declaration lives in a header outside the sources at hand. -/
structure pwm_state where
  period : Nat
  duty_cycle : Nat
  polarity : pwm_polarity
  enabled : Bool
deriving DecidableEq, Repr

/-- The conversion of an `int` to `unsigned long` or `unsigned long long`. -/
def int_to_u64 (x : Int) : Nat :=
  (x % (U64 : Int)).toNat

/-- The function `ls_pwm_config(chip, pwm, duty_ns, period_ns)`: the value
returned, the chip structure and the register window afterwards. -/
def ls_pwm_config (ls_pwm : ls_pwm_chip) (duty_ns period_ns : Int) (s : Mmio) :
    Option (Int × ls_pwm_chip × Mmio) :=
  if int_to_u64 period_ns > NS_IN_HZ ∨ int_to_u64 duty_ns > NS_IN_HZ then
    some (-ERANGE, ls_pwm, s)
  else
    match do_div (ls_pwm.clock_frequency * int_to_u64 period_ns % U64) NSEC_PER_SEC with
    | none => none
    | some val0 =>
      let period_reg := (if val0 < 1 then 1 else val0) % U32
      match do_div (ls_pwm.clock_frequency * int_to_u64 duty_ns % U64) NSEC_PER_SEC with
      | none => none
      | some val1 =>
        let duty_reg := (if val1 < 1 then 1 else (val0 + U64 - val1) % U64) % U32
        let s1 := writel s duty_reg LOW_BUFFER
        let s2 := writel s1 period_reg FULL_BUFFER
        some (0, { ls_pwm with full_buffer_reg := period_reg, low_buffer_reg := duty_reg }, s2)

/-- The function `ls_pwm_reg_to_ns(ls_pwm, reg)`. -/
def ls_pwm_reg_to_ns (ls_pwm : ls_pwm_chip) (reg : Nat) : Option Nat :=
  match do_div (reg % U32 * NSEC_PER_SEC % U64) ls_pwm.clock_frequency with
  | none => none
  | some val => some (val % U32)

/-- The function `ls_pwm_get_state(chip, pwm, state)`: the value returned, the
chip structure, `*state` and the register window afterwards. -/
def ls_pwm_get_state (hw : Hardware) (ls_pwm : ls_pwm_chip) (s : Mmio) :
    Option (Int × ls_pwm_chip × pwm_state × Mmio) :=
  let r1 := readl hw s FULL_BUFFER
  match ls_pwm_reg_to_ns ls_pwm r1.1 with
  | none => none
  | some period =>
    let r2 := readl hw r1.2 LOW_BUFFER
    match ls_pwm_reg_to_ns ls_pwm r2.1 with
    | none => none
    | some duty_cycle =>
      let r3 := readl hw r2.2 CTRL
      let r4 := readl hw r3.2 LOW_BUFFER
      let r5 := readl hw r4.2 FULL_BUFFER
      some (0,
        { ls_pwm with ctrl_reg := r3.1, low_buffer_reg := r4.1, full_buffer_reg := r5.1 },
        { period := period, duty_cycle := duty_cycle,
          polarity := if r3.1 &&& CTRL_INVERT ≠ 0 then pwm_polarity.PWM_POLARITY_INVERSED
            else pwm_polarity.PWM_POLARITY_NORMAL,
          enabled := decide (r3.1 &&& CTRL_EN ≠ 0) },
        r5.2)

/-! # Lemmas -/

theorem foldl_flatMap_eq {α β γ : Type} (f : β → γ → β) (g : α → List γ) (l : List α) (s : β) :
    (l.flatMap g).foldl f s = l.foldl (fun s a => (g a).foldl f s) s := by
  induction l generalizing s with
  | nil => rfl
  | cons a l ih => simp [List.flatMap_cons, List.foldl_append, ih]

theorem foldl_compute_body_eq (refclk clock div_out div_ref : Nat) (ls : List Nat)
    (s : SearchState) :
    (ls.map fun loopc => (div_out, div_ref, loopc)).foldl (search_step refclk clock) s =
      ls.foldl (compute_body refclk clock div_out div_ref) s := by
  rw [List.foldl_map]
  rfl

theorem compute_div_out_eq (refclk clock : Nat) (s : SearchState) :
    compute_div_out refclk clock s = search_space.foldl (search_step refclk clock) s := by
  unfold compute_div_out compute_div_ref compute_loopc search_space
  simp only [foldl_flatMap_eq, foldl_compute_body_eq]

theorem mem_search_space (t : Nat × Nat × Nat) :
    t ∈ search_space ↔
      (6 ≤ t.1 ∧ t.1 < 64) ∧ (3 ≤ t.2.1 ∧ t.2.1 < 6) ∧ (6 ≤ t.2.2 ∧ t.2.2 < 161) := by
  obtain ⟨a, b, c⟩ := t
  simp only [search_space, List.mem_flatMap, List.mem_map, List.mem_range'_1, Prod.mk.injEq]
  constructor
  · rintro ⟨o, ho, r, hr, l, hl, rfl, rfl, rfl⟩
    exact ⟨by omega, by omega, by omega⟩
  · rintro ⟨ho, hr, hl⟩
    exact ⟨a, by omega, b, by omega, c, by omega, rfl, rfl, rfl⟩

theorem legal_triple_iff (t : Nat × Nat × Nat) :
    legal_triple t.1 t.2.1 t.2.2 ↔ t ∈ search_space ∧ ratio_ok t := by
  rw [mem_search_space]
  unfold legal_triple ratio_ok
  tauto

theorem SearchInv.init (refclk clock : Nat) (priv : lsdc_pixpll_parms) :
    SearchInv refclk clock priv [] { min := tolerance, pparms := priv, returned := false } where
  min_le := le_refl _
  untouched := fun _ => ⟨rfl, rfl⟩
  lower := fun _ u hu => by simp at hu
  ret_zero := fun h => by simp at h
  best := fun h => by simp at h
  stored := Or.inl rfl

theorem SearchInv.keep {refclk clock : Nat} {priv : lsdc_pixpll_parms}
    {L : List (Nat × Nat × Nat)} {s : SearchState} (h : SearchInv refclk clock priv L s)
    (t : Nat × Nat × Nat)
    (ht : s.returned = false → ratio_ok t → s.min ≤ triple_diff refclk clock t) :
    SearchInv refclk clock priv (L ++ [t]) s where
  min_le := h.min_le
  untouched := h.untouched
  lower := by
    intro hr u hu hok
    rcases List.mem_append.1 hu with hu | hu
    · exact h.lower hr u hu hok
    · rw [List.mem_singleton.1 hu] at hok ⊢
      exact ht hr hok
  ret_zero := h.ret_zero
  best := by
    intro hlt
    obtain ⟨pre, t0, post, hL, hok, hd, hp, hpre⟩ := h.best hlt
    exact ⟨pre, t0, post ++ [t], by simp [hL], hok, hd, hp, hpre⟩
  stored := h.stored

theorem store_triple_idem (priv : lsdc_pixpll_parms) (t u : Nat × Nat × Nat) :
    store_triple (store_triple priv u) t = store_triple priv t := rfl

theorem SearchInv.step {refclk clock : Nat} {priv : lsdc_pixpll_parms}
    {L : List (Nat × Nat × Nat)} {s : SearchState} (h : SearchInv refclk clock priv L s)
    (t : Nat × Nat × Nat) :
    SearchInv refclk clock priv (L ++ [t]) (search_step refclk clock s t) := by
  unfold search_step compute_body
  by_cases hret : s.returned = true
  · rw [if_pos hret]
    exact h.keep t (fun hf => by rw [hret] at hf; cases hf)
  rw [if_neg hret]
  by_cases h1 : t.2.2 < 12 * t.2.1
  · rw [if_pos h1]
    exact h.keep t (fun _ hok => by unfold ratio_ok at hok; omega)
  rw [if_neg h1]
  by_cases h2 : t.2.2 > 32 * t.2.1
  · rw [if_pos h2]
    exact h.keep t (fun _ hok => by unfold ratio_ok at hok; omega)
  rw [if_neg h2]
  have hok : ratio_ok t := ⟨by omega, by omega⟩
  have hd : pll_diff refclk clock t.1 t.2.1 t.2.2 = triple_diff refclk clock t := rfl
  simp only [hd]
  by_cases h3 : triple_diff refclk clock t < s.min
  · rw [if_pos h3]
    have hnr : s.returned = false := by simpa using hret
    have hstore : ({ s.pparms with div_ref := t.2.1, div_out := t.1, loopc := t.2.2 } :
        lsdc_pixpll_parms) = store_triple priv t := by
      rcases h.stored with hs | ⟨u, hs⟩
      · rw [hs]; rfl
      · rw [hs]; rfl
    rw [hstore]
    have hmin := h.min_le
    refine ⟨by simp only; omega, ?_, ?_, ?_, ?_, Or.inr ⟨t, rfl⟩⟩
    · intro he; simp only at he; omega
    · intro _ u hu huok
      simp only
      rcases List.mem_append.1 hu with hu | hu
      · have := h.lower hnr u hu huok; omega
      · rw [List.mem_singleton.1 hu]
    · intro hr; simpa using hr
    · intro _
      refine ⟨L, t, [], rfl, hok, rfl, rfl, ?_⟩
      intro u hu huok
      have := h.lower hnr u hu huok
      simp only; omega
  · rw [if_neg h3]
    exact h.keep t (fun _ _ => by omega)

theorem SearchInv.foldl (refclk clock : Nat) (priv : lsdc_pixpll_parms)
    (L : List (Nat × Nat × Nat)) :
    SearchInv refclk clock priv L
      (L.foldl (search_step refclk clock)
        { min := tolerance, pparms := priv, returned := false }) := by
  induction L using List.reverseRecOn with
  | nil => exact SearchInv.init refclk clock priv
  | append_singleton L t ih =>
    rw [List.foldl_append]
    exact ih.step t

theorem search_result_inv (priv : lsdc_pixpll_parms) (clock : Nat) :
    SearchInv priv.ref_clock clock priv search_space (search_result priv clock) := by
  unfold search_result
  rw [compute_div_out_eq]
  exact SearchInv.foldl _ _ _ _

/-! ## Consequences for `lsdc_pixpll_find` and `lsdc_pixel_pll_compute` -/

theorem find_from_miss (tbl : List clk_to_pixpll_parms_lookup_t) (clock : Nat)
    (pout : lsdc_pixpll_parms) (h : ∀ e ∈ tbl, e.clock ≠ clock) :
    lsdc_pixpll_find_from tbl clock pout = (-1, pout) := by
  induction tbl with
  | nil => rfl
  | cons pt rest ih =>
    have h1 : ¬ clock = pt.clock := fun hc => h pt (List.mem_cons_self _ _) hc.symm
    simp only [lsdc_pixpll_find_from, if_neg h1]
    exact ih (fun e he => h e (List.mem_cons_of_mem _ he))

theorem find_from_hit (tbl : List clk_to_pixpll_parms_lookup_t) (clock : Nat)
    (pout : lsdc_pixpll_parms) (h : ∃ e ∈ tbl, e.clock = clock) :
    ∃ e ∈ tbl, e.clock = clock ∧ lsdc_pixpll_find_from tbl clock pout =
      (0, { pout with div_ref := e.div_ref, loopc := e.loopc, div_out := e.div_out }) := by
  induction tbl with
  | nil => obtain ⟨e, he, _⟩ := h; cases he
  | cons pt rest ih =>
    by_cases h1 : clock = pt.clock
    · exact ⟨pt, List.mem_cons_self _ _, h1.symm, by simp only [lsdc_pixpll_find_from, if_pos h1]⟩
    · obtain ⟨e, he, hc⟩ := h
      have hrest : ∃ e ∈ rest, e.clock = clock := by
        rcases List.mem_cons.1 he with rfl | he
        · exact absurd hc.symm h1
        · exact ⟨e, he, hc⟩
      obtain ⟨e', he', hc', hf⟩ := ih hrest
      exact ⟨e', List.mem_cons_of_mem _ he', hc', by
        simp only [lsdc_pixpll_find_from, if_neg h1, hf]⟩

theorem find_miss (clock : Nat) (pout : lsdc_pixpll_parms)
    (h : ∀ e ∈ pixpll_parms_table, e.clock ≠ clock) :
    lsdc_pixpll_find clock pout = (-1, pout) :=
  find_from_miss _ _ _ h

/-- The loops end with `min < tolerance` exactly when some legal triple has a
diff below the tolerance. -/
theorem search_min_lt_iff (priv : lsdc_pixpll_parms) (clock : Nat) :
    (search_result priv clock).min < tolerance ↔
      ∃ o r l, legal_triple o r l ∧ pll_diff priv.ref_clock clock o r l < tolerance := by
  have inv := search_result_inv priv clock
  constructor
  · intro h
    obtain ⟨pre, t, post, hL, hok, hd, _, _⟩ := inv.best h
    have hmem : t ∈ search_space := by rw [hL]; simp
    refine ⟨t.1, t.2.1, t.2.2, (legal_triple_iff t).2 ⟨hmem, hok⟩, ?_⟩
    have : pll_diff priv.ref_clock clock t.1 t.2.1 t.2.2 = (search_result priv clock).min := hd
    omega
  · rintro ⟨o, r, l, hleg, hlt⟩
    by_contra hge
    have hmin : (search_result priv clock).min = tolerance := by
      have := inv.min_le; omega
    have hnr := (inv.untouched hmin).2
    obtain ⟨hmem, hok⟩ := (legal_triple_iff (o, r, l)).1 hleg
    have := inv.lower hnr (o, r, l) hmem hok
    have hd : triple_diff priv.ref_clock clock (o, r, l) = pll_diff priv.ref_clock clock o r l := rfl
    omega

/-- When the loops end with `min < tolerance`, the cached parameters hold the
first legal triple of least diff, and `min` is that diff. -/
theorem search_best (priv : lsdc_pixpll_parms) (clock : Nat)
    (h : (search_result priv clock).min < tolerance) :
    ∃ pre t post, search_space = pre ++ t :: post ∧
      (search_result priv clock).pparms = store_triple priv t ∧
      legal_triple t.1 t.2.1 t.2.2 ∧
      pll_diff priv.ref_clock clock t.1 t.2.1 t.2.2 = (search_result priv clock).min ∧
      (∀ u ∈ pre, ratio_ok u →
        (search_result priv clock).min < triple_diff priv.ref_clock clock u) ∧
      ∀ o r l, legal_triple o r l →
        (search_result priv clock).min ≤ pll_diff priv.ref_clock clock o r l := by
  have inv := search_result_inv priv clock
  obtain ⟨pre, t, post, hL, hok, hd, hp, hpre⟩ := inv.best h
  have hmem : t ∈ search_space := by rw [hL]; simp
  refine ⟨pre, t, post, hL, hp, (legal_triple_iff t).2 ⟨hmem, hok⟩, hd, hpre, ?_⟩
  intro o r l hleg
  obtain ⟨hm, hk⟩ := (legal_triple_iff (o, r, l)).1 hleg
  by_cases hr : (search_result priv clock).returned = true
  · rw [inv.ret_zero hr]; exact Nat.zero_le _
  · exact inv.lower (by simpa using hr) (o, r, l) hm hk

/-- On a table miss `lsdc_pixel_pll_compute` is decided by the value of `min`
after the loops. -/
theorem compute_of_miss (priv : lsdc_pixpll_parms) (clock : Nat) (pout : lsdc_pixpll_parms)
    (h : ∀ e ∈ pixpll_parms_table, e.clock ≠ clock) :
    lsdc_pixel_pll_compute priv clock pout =
      if (search_result priv clock).min < tolerance then
        { ret := 0, pout := (search_result priv clock).pparms,
          priv := (search_result priv clock).pparms }
      else
        { ret := (tolerance : Int), pout := pout, priv := priv } := by
  have inv := search_result_inv priv clock
  have hs : compute_div_out priv.ref_clock clock
      { min := tolerance, pparms := priv, returned := false } = search_result priv clock := rfl
  unfold lsdc_pixel_pll_compute
  simp only [find_miss clock pout h, hs]
  rw [if_neg (by decide)]
  by_cases hlt : (search_result priv clock).min < tolerance
  · simp only [if_pos hlt, ite_self]
  · have hmin : (search_result priv clock).min = tolerance := by
      have := inv.min_le; omega
    obtain ⟨hp, hnr⟩ := inv.untouched hmin
    simp only [if_neg hlt, hnr, hmin, hp]
    simp

/-- Without wrap-around of the product, `pll_clock_out` is the plain
expression `refclk / div_ref * loopc / div_out`. -/
theorem pll_clock_out_eq (refclk div_ref loopc div_out : Nat)
    (h : refclk / div_ref * loopc < U32) :
    pll_clock_out refclk div_ref loopc div_out = refclk / div_ref * loopc / div_out := by
  unfold pll_clock_out
  rw [Nat.mod_eq_of_lt h]

/-- For a legal triple the product cannot wrap when `refclk / 3 * 160` fits in
32 bits (as with the usual 100 MHz reference). -/
theorem legal_no_wrap (refclk o r l : Nat) (hleg : legal_triple o r l)
    (h : refclk / 3 * 160 < U32) : refclk / r * l < U32 := by
  obtain ⟨_, ⟨hr3, _⟩, ⟨_, hl⟩, _, _⟩ := hleg
  have h1 : refclk / r ≤ refclk / 3 := Nat.div_le_div_left hr3 (by decide)
  have h2 : refclk / r * l ≤ refclk / 3 * 160 := Nat.mul_le_mul h1 (by omega)
  omega

theorem pll_diff_eq_dist (refclk clock div_out div_ref loopc : Nat) :
    pll_diff refclk clock div_out div_ref loopc =
      Nat.dist clock (pll_clock_out refclk div_ref loopc div_out) := by
  unfold pll_diff Nat.dist
  simp only
  split_ifs <;> omega

/-- With the 100 MHz reference every legal triple yields a clock between
19047 kHz and 533333 kHz. -/
theorem clock_out_100000_bounds (o r l : Nat) (h : legal_triple o r l) :
    19047 ≤ pll_clock_out 100000 r l o ∧ pll_clock_out 100000 r l o ≤ 533333 := by
  obtain ⟨⟨ho1, ho2⟩, ⟨hr1, hr2⟩, ⟨hl1, hl2⟩, h12, h32⟩ := h
  unfold pll_clock_out U32
  have hr : r = 3 ∨ r = 4 ∨ r = 5 := by omega
  rcases hr with rfl | rfl | rfl
  all_goals
    simp only [Nat.reduceDiv]
    rw [Nat.mod_eq_of_lt (by omega)]
    constructor
    · rw [Nat.le_div_iff_mul_le (by omega)]; omega
    · apply Nat.le_of_lt_succ
      rw [Nat.div_lt_iff_lt_mul (by omega)]; omega

/-- On a table miss the call succeeds exactly when some legal triple has a
diff below the tolerance. -/
theorem compute_ret_zero_iff (priv : lsdc_pixpll_parms) (clock : Nat) (pout : lsdc_pixpll_parms)
    (h : ∀ e ∈ pixpll_parms_table, e.clock ≠ clock) :
    (lsdc_pixel_pll_compute priv clock pout).ret = 0 ↔
      ∃ o r l, legal_triple o r l ∧ pll_diff priv.ref_clock clock o r l < tolerance := by
  rw [compute_of_miss priv clock pout h, ← search_min_lt_iff]
  by_cases hlt : (search_result priv clock).min < tolerance
  · rw [if_pos hlt]
    exact ⟨fun _ => hlt, fun _ => rfl⟩
  · rw [if_neg hlt]
    have hne : ((tolerance : Nat) : Int) ≠ 0 := by decide
    exact ⟨fun hz => absurd hz hne, fun hz => absurd hz hlt⟩

/-- On a table miss a failing call returns the tolerance and leaves both
parameter sets alone. -/
theorem compute_failure (priv : lsdc_pixpll_parms) (clock : Nat) (pout : lsdc_pixpll_parms)
    (h : ∀ e ∈ pixpll_parms_table, e.clock ≠ clock)
    (hall : ∀ o r l, legal_triple o r l → tolerance ≤ pll_diff priv.ref_clock clock o r l) :
    lsdc_pixel_pll_compute priv clock pout =
      { ret := (tolerance : Int), pout := pout, priv := priv } := by
  rw [compute_of_miss priv clock pout h]
  have hlt : ¬ (search_result priv clock).min < tolerance := by
    rw [search_min_lt_iff]
    rintro ⟨o, r, l, hleg, hd⟩
    have := hall o r l hleg
    omega
  rw [if_neg hlt]

/-- On a table miss a successful call returns a legal triple of least diff. -/
theorem compute_success (priv : lsdc_pixpll_parms) (clock : Nat) (pout : lsdc_pixpll_parms)
    (h : ∀ e ∈ pixpll_parms_table, e.clock ≠ clock)
    (hret : (lsdc_pixel_pll_compute priv clock pout).ret = 0) :
    ∃ t : Nat × Nat × Nat,
      lsdc_pixel_pll_compute priv clock pout =
        { ret := 0, pout := store_triple priv t, priv := store_triple priv t } ∧
      legal_triple t.1 t.2.1 t.2.2 ∧
      pll_diff priv.ref_clock clock t.1 t.2.1 t.2.2 < tolerance ∧
      ∀ o r l, legal_triple o r l →
        pll_diff priv.ref_clock clock t.1 t.2.1 t.2.2 ≤ pll_diff priv.ref_clock clock o r l := by
  have hlt : (search_result priv clock).min < tolerance := by
    rw [search_min_lt_iff]
    exact (compute_ret_zero_iff priv clock pout h).1 hret
  obtain ⟨pre, t, post, _, hp, hleg, hd, _, hall⟩ := search_best priv clock hlt
  refine ⟨t, ?_, hleg, by omega, ?_⟩
  · rw [compute_of_miss priv clock pout h, if_pos hlt, hp]
  · intro o r l hl
    rw [hd]
    exact hall o r l hl

/-! ## Bit-fields -/

theorem BitField.testBit_mask (f : BitField) (i : Nat) :
    f.mask.testBit i = decide (f.lo ≤ i ∧ i < f.lo + f.width) := by
  unfold BitField.mask
  rw [Nat.testBit_shiftLeft, Nat.testBit_two_pow_sub_one]
  by_cases h : f.lo ≤ i
  · have : (i - f.lo < f.width) ↔ (i < f.lo + f.width) := by omega
    simp [h, this]
  · simp [h]

theorem BitField.testBit_get (f : BitField) (x i : Nat) :
    (f.get x).testBit i = (decide (i < f.width) && x.testBit (f.lo + i)) := by
  unfold BitField.get
  rw [Nat.testBit_and, Nat.testBit_shiftRight, Nat.testBit_two_pow_sub_one, Bool.and_comm]

theorem BitField.testBit_set (f : BitField) (x v i : Nat) :
    (f.set x v).testBit i =
      if f.lo ≤ i ∧ i < f.lo + f.width then v.testBit (i - f.lo) else x.testBit i := by
  unfold BitField.set
  rw [Nat.testBit_or, Nat.testBit_xor, Nat.testBit_and, BitField.testBit_mask,
    Nat.testBit_shiftLeft, Nat.testBit_and, Nat.testBit_two_pow_sub_one]
  by_cases h : f.lo ≤ i ∧ i < f.lo + f.width
  · have h1 : i - f.lo < f.width := by omega
    simp [h, h1]
  · rw [if_neg h]
    by_cases h2 : f.lo ≤ i
    · have h1 : ¬ (i - f.lo < f.width) := by omega
      simp [h, h1]
    · simp [h, h2]

theorem BitField.get_set_same (f : BitField) (x v : Nat) :
    f.get (f.set x v) = v % 2 ^ f.width := by
  apply Nat.eq_of_testBit_eq
  intro i
  rw [BitField.testBit_get, BitField.testBit_set, Nat.testBit_mod_two_pow]
  by_cases h : i < f.width
  · have : f.lo ≤ f.lo + i ∧ f.lo + i < f.lo + f.width := by omega
    simp [h, this]
  · simp [h]

theorem BitField.get_set_disjoint (f g : BitField) (x v : Nat)
    (h : g.lo + g.width ≤ f.lo ∨ f.lo + f.width ≤ g.lo) :
    g.get (f.set x v) = g.get x := by
  apply Nat.eq_of_testBit_eq
  intro i
  rw [BitField.testBit_get, BitField.testBit_get, BitField.testBit_set]
  by_cases hi : i < g.width
  · have : ¬ (f.lo ≤ g.lo + i ∧ g.lo + i < f.lo + f.width) := by omega
    simp [hi, this]
  · simp [hi]

theorem BitField.set_lt (f : BitField) (x v n : Nat) (hx : x < 2 ^ n)
    (hf : f.lo + f.width ≤ n) : f.set x v < 2 ^ n := by
  apply Nat.lt_pow_two_of_testBit
  intro i hi
  rw [BitField.testBit_set]
  have : ¬ (f.lo ≤ i ∧ i < f.lo + f.width) := by omega
  rw [if_neg this]
  exact Nat.testBit_lt_two_pow (lt_of_lt_of_le hx (Nat.pow_le_pow_right (by decide) hi))

theorem BitField.get_lt (f : BitField) (x : Nat) : f.get x < 2 ^ f.width := by
  unfold BitField.get
  exact Nat.and_lt_two_pow _ (by have := Nat.two_pow_pos f.width; omega)

theorem BitField.set_get_self (f : BitField) (x : Nat) : f.set x (f.get x) = x := by
  apply Nat.eq_of_testBit_eq
  intro i
  rw [BitField.testBit_set, BitField.testBit_get]
  by_cases h : f.lo ≤ i ∧ i < f.lo + f.width
  · have h1 : i - f.lo < f.width := by omega
    have h2 : f.lo + (i - f.lo) = i := by omega
    simp [h, h1, h2]
  · simp [h]

theorem BitField.get_mod (f : BitField) (x n : Nat) (hf : f.lo + f.width ≤ n) :
    f.get (x % 2 ^ n) = f.get x := by
  apply Nat.eq_of_testBit_eq
  intro i
  rw [BitField.testBit_get, BitField.testBit_get, Nat.testBit_mod_two_pow]
  by_cases hi : i < f.width
  · have : f.lo + i < n := by omega
    simp [hi, this]
  · simp [hi]

theorem BitField.get_of_lt (f : BitField) (v : Nat) (h : v < 2 ^ f.width) (x : Nat) :
    f.get (f.set x v) = v := by
  rw [BitField.get_set_same, Nat.mod_eq_of_lt h]

/-! ## The register window -/

theorem stored64_lt (mem : Nat → Nat) (off : Nat) : stored64 mem off < 2 ^ 64 := by
  unfold stored64 U32
  have h1 := Nat.mod_lt (mem off) (show 4294967296 > 0 by decide)
  have h2 := Nat.mod_lt (mem (off + 4)) (show 4294967296 > 0 by decide)
  omega

theorem stored64_writeq (s : Mmio) (val : Nat) :
    stored64 (writeq s val 0).mem 0 = val % 2 ^ 64 := by
  unfold stored64 writeq U32
  simp only [if_true, Nat.zero_add, Nat.succ_ne_zero, if_false]
  omega
theorem BitField.get_eq_div_mod (f : BitField) (x : Nat) :
    f.get x = x / 2 ^ f.lo % 2 ^ f.width := by
  unfold BitField.get
  rw [Nat.and_pow_two_sub_one_eq_mod, Nat.shiftRight_eq_div_pow]

theorem BitField.set_mod (f : BitField) (x v : Nat) :
    f.set x (v % 2 ^ f.width) = f.set x v := by
  apply Nat.eq_of_testBit_eq
  intro i
  rw [BitField.testBit_set, BitField.testBit_set, Nat.testBit_mod_two_pow]
  by_cases h : f.lo ≤ i ∧ i < f.lo + f.width
  · have h1 : i - f.lo < f.width := by omega
    simp [h, h1]
  · simp [h]

theorem testBit_not32 (x i : Nat) : (not32 x).testBit i = (decide (i < 32) ^^ x.testBit i) := by
  unfold not32
  rw [Nat.testBit_xor, Nat.testBit_two_pow_sub_one]

theorem testBit_not64 (x i : Nat) : (not64 x).testBit i = (decide (i < 64) ^^ x.testBit i) := by
  unfold not64
  rw [Nat.testBit_xor, Nat.testBit_two_pow_sub_one]

/-- The operation `x & ~mask` clears the field (32-bit operands). -/
theorem and_not32_mask (f : BitField) (hf : f.lo + f.width ≤ 32) (x : Nat) (hx : x < 2 ^ 32) :
    x &&& not32 f.mask = f.set x 0 := by
  apply Nat.eq_of_testBit_eq
  intro i
  rw [Nat.testBit_and, testBit_not32, BitField.testBit_mask, BitField.testBit_set]
  by_cases h : f.lo ≤ i ∧ i < f.lo + f.width
  · have : i < 32 := by omega
    simp [h, this]
  · by_cases h32 : i < 32
    · simp [h, h32]
    · have : x.testBit i = false :=
        Nat.testBit_lt_two_pow (lt_of_lt_of_le hx (Nat.pow_le_pow_right (by decide) (by omega)))
      simp [h, this]

/-- The operation `x & ~mask` clears the field (64-bit operands). -/
theorem and_not64_mask (f : BitField) (hf : f.lo + f.width ≤ 64) (x : Nat) (hx : x < 2 ^ 64) :
    x &&& not64 f.mask = f.set x 0 := by
  apply Nat.eq_of_testBit_eq
  intro i
  rw [Nat.testBit_and, testBit_not64, BitField.testBit_mask, BitField.testBit_set]
  by_cases h : f.lo ≤ i ∧ i < f.lo + f.width
  · have : i < 64 := by omega
    simp [h, this]
  · by_cases h64 : i < 64
    · simp [h, h64]
    · have : x.testBit i = false :=
        Nat.testBit_lt_two_pow (lt_of_lt_of_le hx (Nat.pow_le_pow_right (by decide) (by omega)))
      simp [h, this]

/-- The operation `x | mask` sets every bit of the field. -/
theorem or_mask (f : BitField) (x : Nat) : x ||| f.mask = f.set x (2 ^ f.width - 1) := by
  apply Nat.eq_of_testBit_eq
  intro i
  rw [Nat.testBit_or, BitField.testBit_mask, BitField.testBit_set]
  by_cases h : f.lo ≤ i ∧ i < f.lo + f.width
  · have h1 : i - f.lo < f.width := by omega
    simp [h, h1]
  · simp [h]

/-- The operation `x | (v << lo)` stores `v` in a field that holds 0, when `v` fits. -/
theorem or_shift (f : BitField) (x v : Nat) (h0 : f.get x = 0) (hv : v < 2 ^ f.width) :
    x ||| (v <<< f.lo) = f.set x v := by
  apply Nat.eq_of_testBit_eq
  intro i
  rw [Nat.testBit_or, Nat.testBit_shiftLeft, BitField.testBit_set]
  by_cases h : f.lo ≤ i ∧ i < f.lo + f.width
  · have h1 : i - f.lo < f.width := by omega
    have h2 : (f.get x).testBit (i - f.lo) = false := by rw [h0]; simp
    rw [BitField.testBit_get] at h2
    have h3 : f.lo + (i - f.lo) = i := by omega
    simp only [h1, h3, decide_True, Bool.true_and] at h2
    simp [h, h2]
  · rw [if_neg h]
    by_cases h2 : f.lo ≤ i
    · have h3 : v.testBit (i - f.lo) = false :=
        Nat.testBit_lt_two_pow (lt_of_lt_of_le hv (Nat.pow_le_pow_right (by decide) (by omega)))
      simp [h3]
    · simp [h2]

theorem shiftLeft_mod (v lo w : Nat) : (v <<< lo) % 2 ^ (lo + w) = (v % 2 ^ w) <<< lo := by
  apply Nat.eq_of_testBit_eq
  intro i
  rw [Nat.testBit_mod_two_pow, Nat.testBit_shiftLeft, Nat.testBit_shiftLeft,
    Nat.testBit_mod_two_pow]
  by_cases h : lo ≤ i
  · have : (i < lo + w) ↔ (i - lo < w) := by omega
    simp [h, this]
  · simp [h]

/-- The operation `x & (1 << lo)` is non-zero exactly when the bit reads 1. -/
theorem and_bit_ne_zero (lo x : Nat) :
    (x &&& (1 <<< lo) ≠ 0) ↔ (BitField.mk lo 1).get x = 1 := by
  have hm : (1 <<< lo : Nat) = (BitField.mk lo 1).mask := rfl
  have hg := BitField.get_lt (BitField.mk lo 1) x
  have key : x &&& (1 <<< lo) = (BitField.mk lo 1).get x <<< lo := by
    apply Nat.eq_of_testBit_eq
    intro i
    rw [hm, Nat.testBit_and, BitField.testBit_mask, Nat.testBit_shiftLeft, BitField.testBit_get]
    by_cases h : lo ≤ i
    · have h1 : (i < lo + 1) ↔ (i - lo < 1) := by omega
      have h2 : lo + (i - lo) = i := by omega
      simp [h, h1, h2, Bool.and_comm]
    · simp [h]
  rw [key, Nat.shiftLeft_eq]
  have hp : 0 < 2 ^ lo := Nat.two_pow_pos lo
  simp only [pow_one] at hg
  constructor
  · intro hne
    rcases Nat.lt_or_ge ((BitField.mk lo 1).get x) 1 with h | h
    · have : (BitField.mk lo 1).get x = 0 := by omega
      rw [this] at hne; simp at hne
    · omega
  · intro h1
    rw [h1]; omega


theorem BitField.get_mod_U32 (f : BitField) (x : Nat) (hf : f.lo + f.width ≤ 32) :
    f.get (x % U32) = f.get x :=
  BitField.get_mod f x 32 hf

theorem readl_val (hw : Hardware) (s : Mmio) (off : Nat) :
    (readl hw s off).1 = hw s.log.length off (s.mem off % U32) % U32 := rfl

theorem readl_lt (hw : Hardware) (s : Mmio) (off : Nat) : (readl hw s off).1 < 2 ^ 32 :=
  Nat.mod_lt _ (by decide)

theorem readl_mem (hw : Hardware) (s : Mmio) (off : Nat) : (readl hw s off).2.mem = s.mem := rfl

theorem readl_log (hw : Hardware) (s : Mmio) (off : Nat) :
    (readl hw s off).2.log = s.log ++ [Access.read off 4 (readl hw s off).1] := rfl

theorem readl_writes (hw : Hardware) (s : Mmio) (off : Nat) :
    (readl hw s off).2.writes = s.writes := by
  simp [readl_log, Mmio.writes, List.filterMap_append]

theorem writel_mem (s : Mmio) (val off : Nat) :
    (writel s val off).mem = mem_with_word s.mem off val := rfl

theorem writel_log (s : Mmio) (val off : Nat) :
    (writel s val off).log = s.log ++ [Access.write off 4 (val % U32)] := rfl

theorem writel_writes (s : Mmio) (val off : Nat) :
    (writel s val off).writes = s.writes ++ [val % U32] := by
  simp [writel_log, Mmio.writes, List.filterMap_append]

theorem mem_with_word_same (m : Nat → Nat) (off x : Nat) :
    mem_with_word m off x off = x % U32 := by
  simp [mem_with_word]

theorem mem_with_word_other (m : Nat → Nat) (off x a : Nat) (h : a ≠ off) :
    mem_with_word m off x a = m a := by
  simp [mem_with_word, h]

theorem BitField.set_set_same (f : BitField) (x a b : Nat) :
    f.set (f.set x a) b = f.set x b := by
  apply Nat.eq_of_testBit_eq
  intro i
  simp only [BitField.testBit_set]
  split_ifs <;> rfl

theorem BitField.get_set_within (f g : BitField) (x v : Nat) (h1 : f.lo ≤ g.lo)
    (h2 : g.lo + g.width ≤ f.lo + f.width) :
    g.get (f.set x v) = (BitField.mk (g.lo - f.lo) g.width).get v := by
  apply Nat.eq_of_testBit_eq
  intro i
  rw [BitField.testBit_get, BitField.testBit_get, BitField.testBit_set]
  by_cases hi : i < g.width
  · have h3 : f.lo ≤ g.lo + i ∧ g.lo + i < f.lo + f.width := by omega
    have h4 : g.lo + i - f.lo = g.lo - f.lo + i := by omega
    simp [hi, h3, h4]
  · simp [hi]

theorem BitField.get_zero (f : BitField) : f.get 0 = 0 := by
  unfold BitField.get
  simp

theorem BitField.get_low (w v : Nat) : (BitField.mk 0 w).get v = v % 2 ^ w := by
  rw [BitField.get_eq_div_mod]
  simp

/-- The fields of `union ls2k1000_pixpll_reg_bitmap` in terms of its words. -/
theorem ls2k1000_bitmap_fields (w0 w1 w2 w3 : Nat) (h0 : w0 < 2 ^ 32) (h1 : w1 < 2 ^ 32) :
    ls2k1000_pixpll_reg.div_ref.get (ls2k1000_bitmap w0 w1 w2 w3) =
      (BitField.mk 26 6).get w0 ∧
    ls2k1000_pixpll_reg.loopc.get (ls2k1000_bitmap w0 w1 w2 w3) = (BitField.mk 0 10).get w1 ∧
    ls2k1000_pixpll_reg.div_out.get (ls2k1000_bitmap w0 w1 w2 w3) = (BitField.mk 0 6).get w2 := by
  simp only [BitField.get_eq_div_mod, ls2k1000_pixpll_reg.div_ref, ls2k1000_pixpll_reg.loopc,
    ls2k1000_pixpll_reg.div_out, ls2k1000_bitmap]
  norm_num at h0 h1 ⊢
  refine ⟨?_, ?_, ?_⟩ <;> omega

theorem lock_only_P32 (f : BitField) (hf : f.lo + f.width ≤ 32) (hw : Hardware)
    (h : lock_only f hw) (n off v : Nat) :
    (off = 0 → ∃ b, hw n off (v % U32) % U32 = f.set (v % U32) b) ∧
    (off ≠ 0 → hw n off (v % U32) % U32 = v % U32) := by
  have hv : v % U32 < 2 ^ 32 := Nat.mod_lt _ (by decide)
  constructor
  · intro h0
    obtain ⟨b, hb⟩ := (h n off (v % U32)).1 h0
    exact ⟨b, by rw [hb]; exact Nat.mod_eq_of_lt (BitField.set_lt _ _ _ 32 hv hf)⟩
  · intro h0
    rw [(h n off (v % U32)).2 h0]
    exact Nat.mod_mod _ _

theorem mod_U32_of_lt (x : Nat) (h : x < 2 ^ 32) : x % U32 = x := Nat.mod_eq_of_lt h


/-! ## The canonical programming sequence -/

theorem rreg_val (hw : Hardware) (s : Mmio) :
    (__pixpll_rreg hw s).1 = hw s.log.length 0 (stored64 s.mem 0) % 2 ^ 64 := rfl

theorem rreg_mem (hw : Hardware) (s : Mmio) : (__pixpll_rreg hw s).2.mem = s.mem := rfl

theorem rreg_log (hw : Hardware) (s : Mmio) :
    (__pixpll_rreg hw s).2.log = s.log ++ [Access.read 0 8 (__pixpll_rreg hw s).1] := rfl

theorem wreg_mem (s : Mmio) (v : Nat) : (__pixpll_wreg s v).mem = mem_with_reg64 s.mem v := rfl

theorem wreg_log (s : Mmio) (v : Nat) :
    (__pixpll_wreg s v).log = s.log ++ [Access.write 0 8 (v % 2 ^ 64)] := rfl

theorem stored64_mem_with_reg64 (m : Nat → Nat) (x : Nat) :
    stored64 (mem_with_reg64 m x) 0 = x % 2 ^ 64 := by
  unfold stored64 mem_with_reg64 U32
  simp only [if_true, Nat.zero_add, Nat.succ_ne_zero, if_false]
  omega

theorem mem_with_reg64_twice (m : Nat → Nat) (x y : Nat) :
    mem_with_reg64 (mem_with_reg64 m x) y = mem_with_reg64 m y := by
  funext a
  unfold mem_with_reg64
  split_ifs <;> rfl

set_option maxRecDepth 100000 in
theorem pixpll_wait_locked_loop_unfold (hw : Hardware) (c : Nat) (s : Mmio) :
    pixpll_wait_locked_loop hw c s =
      if lsdc_pixpll_reg.locked.get (__pixpll_rreg hw s).1 ≠ 0 then (c, (__pixpll_rreg hw s).2)
      else if c + 1 < 2000 then pixpll_wait_locked_loop hw (c + 1) (__pixpll_rreg hw s).2
      else (c + 1, (__pixpll_rreg hw s).2) := by
  rw [pixpll_wait_locked_loop]

/-- The wait loop only reads: it leaves the stored words alone, makes between
one and `2000 - c` reads and reports a counter of at most 2000. -/
theorem wait_loop_spec (hw : Hardware) (c : Nat) (s : Mmio) (hc : c < 2000) :
    (pixpll_wait_locked_loop hw c s).2.mem = s.mem ∧
    (∃ k, 1 ≤ k ∧ k ≤ 2000 - c ∧
      (pixpll_wait_locked_loop hw c s).2.log.length = s.log.length + k ∧
      (pixpll_wait_locked_loop hw c s).2.reads = s.reads + k ∧
      (pixpll_wait_locked_loop hw c s).2.writes = s.writes) ∧
    (pixpll_wait_locked_loop hw c s).1 ≤ 2000 := by
  induction c, s using pixpll_wait_locked_loop.induct hw with
  | case1 c s r h =>
    rw [pixpll_wait_locked_loop_unfold, if_pos h]
    refine ⟨rfl, ⟨1, le_refl _, by omega, ?_, ?_, ?_⟩, by simp only; omega⟩
    · simp [rreg_log]
    · simp [rreg_log, Mmio.reads, List.filter_append]
    · simp [rreg_log, Mmio.writes, List.filterMap_append]
  | case2 c s r h h2 ih =>
    rw [pixpll_wait_locked_loop_unfold, if_neg h, if_pos h2]
    obtain ⟨hm, ⟨k, hk1, hk2, hl, hr, hw'⟩, hcnt⟩ := ih h2
    refine ⟨hm, ⟨k + 1, by omega, by omega, ?_, ?_, ?_⟩, hcnt⟩
    · rw [hl]; simp [r, rreg_log]; omega
    · rw [hr]; simp [r, rreg_log, Mmio.reads, List.filter_append]; omega
    · rw [hw']; simp [r, rreg_log, Mmio.writes, List.filterMap_append]
  | case3 c s r h h2 =>
    rw [pixpll_wait_locked_loop_unfold, if_neg h, if_neg h2]
    refine ⟨rfl, ⟨1, le_refl _, by omega, ?_, ?_, ?_⟩, by simp only; omega⟩
    · simp [rreg_log]
    · simp [rreg_log, Mmio.reads, List.filter_append]
    · simp [rreg_log, Mmio.writes, List.filterMap_append]


theorem wait_locked_spec (hw : Hardware) (s : Mmio) :
    (__pixpll_ops_wait_locked hw s).2.mem = s.mem ∧
    (∃ k, 1 ≤ k ∧ k ≤ 2000 ∧
      (__pixpll_ops_wait_locked hw s).2.log.length = s.log.length + k ∧
      (__pixpll_ops_wait_locked hw s).2.reads = s.reads + k ∧
      (__pixpll_ops_wait_locked hw s).2.writes = s.writes) ∧
    (__pixpll_ops_wait_locked hw s).1 ≤ 2000 :=
  wait_loop_spec hw 0 s (by decide)

theorem writes_wreg_rreg (hw : Hardware) (t : Mmio) (v : Nat) :
    (__pixpll_wreg (__pixpll_rreg hw t).2 v).writes = t.writes ++ [v % 2 ^ 64] := by
  simp [wreg_log, rreg_log, Mmio.writes, List.filterMap_append]

/-- A read-modify-write of the 64-bit register on a window whose register
holds `x`: `r` is what the read returns and `F` the modification, which stays
within 64 bits.  `P v r` is any relation that holds between the value stored
and the value read on the device at hand. -/
theorem rmw_next (hw : Hardware) (P : Nat → Nat → Prop)
    (hP : ∀ n v, v < 2 ^ 64 → P v (hw n 0 v % 2 ^ 64))
    (F : Nat → Nat) (hF : ∀ x, x < 2 ^ 64 → F x < 2 ^ 64)
    (m : Nat → Nat) (t : Mmio) (x : Nat) (ws : List Nat)
    (ht : stored64 t.mem 0 = x ∧ mem_with_reg64 t.mem = mem_with_reg64 m ∧ t.writes = ws) :
    ∃ r, P x r ∧ F r < 2 ^ 64 ∧
      stored64 (__pixpll_wreg (__pixpll_rreg hw t).2 (F (__pixpll_rreg hw t).1)).mem 0 = F r ∧
      mem_with_reg64 (__pixpll_wreg (__pixpll_rreg hw t).2 (F (__pixpll_rreg hw t).1)).mem =
        mem_with_reg64 m ∧
      (__pixpll_wreg (__pixpll_rreg hw t).2 (F (__pixpll_rreg hw t).1)).mem =
        mem_with_reg64 m (F r) ∧
      (__pixpll_wreg (__pixpll_rreg hw t).2 (F (__pixpll_rreg hw t).1)).writes = ws ++ [F r] := by
  have hx : x < 2 ^ 64 := by rw [← ht.1]; exact stored64_lt _ _
  have hr : (__pixpll_rreg hw t).1 = hw t.log.length 0 x % 2 ^ 64 := by
    rw [rreg_val, ht.1]
  have hlt := hF _ (Nat.mod_lt (hw t.log.length 0 x) (show 2 ^ 64 > 0 by decide))
  refine ⟨hw t.log.length 0 x % 2 ^ 64, hP _ _ hx, hlt, ?_, ?_, ?_, ?_⟩
  · rw [hr, wreg_mem, stored64_mem_with_reg64, Nat.mod_eq_of_lt hlt]
  · funext y
    rw [wreg_mem, rreg_mem, mem_with_reg64_twice, ht.2.1]
  · rw [hr, wreg_mem, rreg_mem, ht.2.1]
  · rw [hr, writes_wreg_rreg, Nat.mod_eq_of_lt hlt, ht.2.2]

theorem rmw_field (hw : Hardware) (P : Nat → Nat → Prop)
    (hP : ∀ n v, v < 2 ^ 64 → P v (hw n 0 v % 2 ^ 64))
    (f : BitField) (c : Nat) (hf : f.lo + f.width ≤ 64)
    (m : Nat → Nat) (t : Mmio) (x : Nat) (ws : List Nat)
    (ht : stored64 t.mem 0 = x ∧ mem_with_reg64 t.mem = mem_with_reg64 m ∧ t.writes = ws) :
    ∃ r, P x r ∧ f.set r c < 2 ^ 64 ∧
      stored64 (__pixpll_wreg (__pixpll_rreg hw t).2 (f.set (__pixpll_rreg hw t).1 c)).mem 0 =
        f.set r c ∧
      mem_with_reg64 (__pixpll_wreg (__pixpll_rreg hw t).2 (f.set (__pixpll_rreg hw t).1 c)).mem =
        mem_with_reg64 m ∧
      (__pixpll_wreg (__pixpll_rreg hw t).2 (f.set (__pixpll_rreg hw t).1 c)).mem =
        mem_with_reg64 m (f.set r c) ∧
      (__pixpll_wreg (__pixpll_rreg hw t).2 (f.set (__pixpll_rreg hw t).1 c)).writes =
        ws ++ [f.set r c] :=
  rmw_next hw P hP (fun x => f.set x c) (fun x hx => BitField.set_lt f x c 64 hx hf) m t x ws ht

/-- The effect of `lsdc_pixpll_update` on the register and the values it
writes, in terms of the values `r1 .. r9` returned by the reads of the nine
read-modify-write steps.  `P v r` is any relation that holds between the value
stored and the value read on the device at hand. -/
theorem update_chain (hw : Hardware) (P : Nat → Nat → Prop)
    (hP : ∀ n v, v < 2 ^ 64 → P v (hw n 0 v % 2 ^ 64))
    (pin : lsdc_pixpll_parms) (s : Mmio) :
    ∃ r1 r2 r3 r4 r5 r6 r7 r8 r9 : Nat,
      P (stored64 s.mem 0) r1 ∧
      P (lsdc_pixpll_reg.bypass.set r1 1) r2 ∧
      P (lsdc_pixpll_reg.sel_out.set r2 0) r3 ∧
      P (lsdc_pixpll_reg.powerdown.set r3 1) r4 ∧
      P (lsdc_pixpll_reg.set_param.set r4 1) r5 ∧
      P (lsdc_pixpll_reg.div_out.set (lsdc_pixpll_reg.loopc.set
          (lsdc_pixpll_reg.div_ref.set r5 pin.div_ref) pin.loopc) pin.div_out) r6 ∧
      P (lsdc_pixpll_reg.set_param.set r6 0) r7 ∧
      P (lsdc_pixpll_reg.powerdown.set r7 0) r8 ∧
      P (lsdc_pixpll_reg.sel_out.set r8 1) r9 ∧
      lsdc_pixpll_reg.bypass.set r9 0 < 2 ^ 64 ∧
      (lsdc_pixpll_update hw pin s).2.mem =
        mem_with_reg64 s.mem (lsdc_pixpll_reg.bypass.set r9 0) ∧
      (lsdc_pixpll_update hw pin s).2.writes = s.writes ++
        [lsdc_pixpll_reg.bypass.set r1 1, lsdc_pixpll_reg.sel_out.set r2 0,
         lsdc_pixpll_reg.powerdown.set r3 1, lsdc_pixpll_reg.set_param.set r4 1,
         lsdc_pixpll_reg.div_out.set (lsdc_pixpll_reg.loopc.set
          (lsdc_pixpll_reg.div_ref.set r5 pin.div_ref) pin.loopc) pin.div_out,
         lsdc_pixpll_reg.set_param.set r6 0, lsdc_pixpll_reg.powerdown.set r7 0,
         lsdc_pixpll_reg.sel_out.set r8 1, lsdc_pixpll_reg.bypass.set r9 0] := by
  obtain ⟨r1, p1, -, e1, k1, -, w1⟩ := rmw_field hw P hP lsdc_pixpll_reg.bypass 1 (by decide)
    s.mem s _ s.writes ⟨rfl, rfl, rfl⟩
  obtain ⟨r2, p2, -, e2, k2, -, w2⟩ := rmw_field hw P hP lsdc_pixpll_reg.sel_out 0 (by decide)
    s.mem _ _ _ ⟨e1, k1, w1⟩
  obtain ⟨r3, p3, -, e3, k3, -, w3⟩ := rmw_field hw P hP lsdc_pixpll_reg.powerdown 1 (by decide)
    s.mem _ _ _ ⟨e2, k2, w2⟩
  obtain ⟨r4, p4, -, e4, k4, -, w4⟩ := rmw_field hw P hP lsdc_pixpll_reg.set_param 1 (by decide)
    s.mem _ _ _ ⟨e3, k3, w3⟩
  obtain ⟨r5, p5, -, e5, k5, -, w5⟩ := rmw_next hw P hP
    (fun x => lsdc_pixpll_reg.div_out.set (lsdc_pixpll_reg.loopc.set
      (lsdc_pixpll_reg.div_ref.set x pin.div_ref) pin.loopc) pin.div_out)
    (fun x hx => BitField.set_lt _ _ _ 64 (BitField.set_lt _ _ _ 64
      (BitField.set_lt _ _ _ 64 hx (by decide)) (by decide)) (by decide))
    s.mem _ _ _ ⟨e4, k4, w4⟩
  obtain ⟨r6, p6, -, e6, k6, -, w6⟩ := rmw_field hw P hP lsdc_pixpll_reg.set_param 0 (by decide)
    s.mem _ _ _ ⟨e5, k5, w5⟩
  obtain ⟨r7, p7, -, e7, k7, -, w7⟩ := rmw_field hw P hP lsdc_pixpll_reg.powerdown 0 (by decide)
    s.mem _ _ _ ⟨e6, k6, w6⟩
  obtain ⟨wm, ⟨k, -, -, -, -, ww⟩, -⟩ := wait_locked_spec hw
    (__pixpll_ops_powerup hw (__pixpll_ops_untoggle_param hw (__pixpll_ops_set_param hw
      (__pixpll_ops_toggle_param hw (__pixpll_ops_powerdown hw (__pixpll_ops_off hw
        (__pixpll_ops_bypass hw s)))) pin)))
  obtain ⟨r8, p8, -, e8, k8, -, w8⟩ := rmw_field hw P hP lsdc_pixpll_reg.sel_out 1 (by decide)
    s.mem _ _ _ ⟨(congrArg (fun m => stored64 m 0) wm).trans e7,
      (congrArg mem_with_reg64 wm).trans k7, ww.trans w7⟩
  obtain ⟨r9, p9, l9, -, -, m9, w9⟩ := rmw_field hw P hP lsdc_pixpll_reg.bypass 0 (by decide)
    s.mem _ _ _ ⟨e8, k8, w8⟩
  refine ⟨r1, r2, r3, r4, r5, r6, r7, r8, r9, p1, p2, p3, p4, p5, p6, p7, p8, p9, l9, m9, ?_⟩
  rw [show (lsdc_pixpll_update hw pin s).2.writes = _ from w9]
  simp only [List.append_assoc, List.singleton_append, List.cons_append, List.nil_append]
theorem memory_hw_lock_only (f : BitField) : lock_only f memory_hw := by
  intro n off v
  exact ⟨fun _ => ⟨f.get v, (BitField.set_get_self f v).symm⟩, fun _ => rfl⟩

theorem locking_hw_lock_only (f : BitField) (L : Nat → Bool) : lock_only f (locking_hw f L) := by
  intro n off v
  constructor
  · intro h0
    exact ⟨if L n then 1 else 0, by simp [locking_hw, h0]⟩
  · intro h0
    simp [locking_hw, h0]

theorem lock_only_P (hw : Hardware) (h : lock_only lsdc_pixpll_reg.locked hw) :
    ∀ n v, v < 2 ^ 64 → ∃ b, hw n 0 v % 2 ^ 64 = lsdc_pixpll_reg.locked.set v b := by
  intro n v hv
  obtain ⟨b, hb⟩ := (h n 0 v).1 rfl
  exact ⟨b, by rw [hb]; exact Nat.mod_eq_of_lt (BitField.set_lt _ _ _ 64 hv (by decide))⟩

/-- On a device that stores what is written and may drive the locked bit, the
register left by `lsdc_pixpll_update` holds the dividers of `pin` truncated to
their field widths, with `sel_out = 1`, `set_param = 0`, `bypass = 0` and
`powerdown = 0`. -/
theorem canonical_fields (hw : Hardware) (h : lock_only lsdc_pixpll_reg.locked hw)
    (pin : lsdc_pixpll_parms) (s : Mmio) :
    lsdc_pixpll_reg.div_ref.get (stored64 (lsdc_pixpll_update hw pin s).2.mem 0) =
      pin.div_ref % 2 ^ 7 ∧
    lsdc_pixpll_reg.loopc.get (stored64 (lsdc_pixpll_update hw pin s).2.mem 0) =
      pin.loopc % 2 ^ 9 ∧
    lsdc_pixpll_reg.div_out.get (stored64 (lsdc_pixpll_update hw pin s).2.mem 0) =
      pin.div_out % 2 ^ 7 ∧
    lsdc_pixpll_reg.sel_out.get (stored64 (lsdc_pixpll_update hw pin s).2.mem 0) = 1 ∧
    lsdc_pixpll_reg.set_param.get (stored64 (lsdc_pixpll_update hw pin s).2.mem 0) = 0 ∧
    lsdc_pixpll_reg.bypass.get (stored64 (lsdc_pixpll_update hw pin s).2.mem 0) = 0 ∧
    lsdc_pixpll_reg.powerdown.get (stored64 (lsdc_pixpll_update hw pin s).2.mem 0) = 0 := by
  obtain ⟨r1, r2, r3, r4, r5, r6, r7, r8, r9, ⟨b1, rfl⟩, ⟨b2, rfl⟩, ⟨b3, rfl⟩, ⟨b4, rfl⟩,
    ⟨b5, rfl⟩, ⟨b6, rfl⟩, ⟨b7, rfl⟩, ⟨b8, rfl⟩, ⟨b9, rfl⟩, hlt, hm, -⟩ :=
    update_chain hw (fun v r => ∃ b, r = lsdc_pixpll_reg.locked.set v b) (lock_only_P hw h) pin s
  rw [hm, stored64_mem_with_reg64, Nat.mod_eq_of_lt hlt]
  simp [BitField.get_set_same, BitField.get_set_disjoint, lsdc_pixpll_reg.div_ref,
    lsdc_pixpll_reg.loopc, lsdc_pixpll_reg.div_out, lsdc_pixpll_reg.sel_out,
    lsdc_pixpll_reg.set_param, lsdc_pixpll_reg.bypass, lsdc_pixpll_reg.powerdown,
    lsdc_pixpll_reg.locked]

theorem lsdc_pixpll_programmed_lt (x : Nat) (pin : lsdc_pixpll_parms) (hx : x < 2 ^ 64) :
    lsdc_pixpll_programmed x pin < 2 ^ 64 := by
  unfold lsdc_pixpll_programmed
  have lt : ∀ (f : BitField) (x c : Nat), f.lo + f.width ≤ 64 → x < 2 ^ 64 →
      f.set x c < 2 ^ 64 := fun f x c hf hx => BitField.set_lt f x c 64 hx hf
  exact lt _ _ _ (by decide) (lt _ _ _ (by decide) (lt _ _ _ (by decide) (lt _ _ _ (by decide)
    (lt _ _ _ (by decide) (lt _ _ _ (by decide) (lt _ _ _ (by decide) hx))))))

/-- With registers behaving as memory, `lsdc_pixpll_update` leaves the register
as it was before the call except for the seven fields it assigns. -/
theorem update_memory_mem (pin : lsdc_pixpll_parms) (s : Mmio) :
    (lsdc_pixpll_update memory_hw pin s).2.mem =
      mem_with_reg64 s.mem (lsdc_pixpll_programmed (stored64 s.mem 0) pin) := by
  obtain ⟨r1, r2, r3, r4, r5, r6, r7, r8, r9, rfl, rfl, rfl, rfl, rfl, rfl, rfl, rfl, rfl,
    -, hm, -⟩ :=
    update_chain memory_hw (fun v r => r = v)
      (fun n v hv => Nat.mod_eq_of_lt hv) pin s
  rw [hm]
  refine congrArg (mem_with_reg64 s.mem) ?_
  apply Nat.eq_of_testBit_eq
  intro i
  simp only [lsdc_pixpll_programmed, BitField.testBit_set, lsdc_pixpll_reg.div_ref,
    lsdc_pixpll_reg.loopc, lsdc_pixpll_reg.div_out, lsdc_pixpll_reg.sel_out,
    lsdc_pixpll_reg.set_param, lsdc_pixpll_reg.bypass, lsdc_pixpll_reg.powerdown]
  split_ifs <;> first | rfl | omega

theorem lsdc_pixpll_programmed_twice (x : Nat) (p1 p2 : lsdc_pixpll_parms) :
    lsdc_pixpll_programmed (lsdc_pixpll_programmed x p1) p2 = lsdc_pixpll_programmed x p2 := by
  apply Nat.eq_of_testBit_eq
  intro i
  simp only [lsdc_pixpll_programmed, BitField.testBit_set, lsdc_pixpll_reg.div_ref,
    lsdc_pixpll_reg.loopc, lsdc_pixpll_reg.div_out, lsdc_pixpll_reg.sel_out,
    lsdc_pixpll_reg.set_param, lsdc_pixpll_reg.bypass, lsdc_pixpll_reg.powerdown]
  split_ifs <;> rfl

/-! ## ls2k1000 -/

set_option maxRecDepth 100000 in
theorem ls2k1000_wait_loop_unfold (hw : Hardware) (c : Nat) (s : Mmio) :
    ls2k1000_wait_loop hw c s =
      if (!decide ((readl hw s 0).1 &&& 0x10000 ≠ 0)) = true ∧ c + 1 < 2000 then
        ls2k1000_wait_loop hw (c + 1) (readl hw s 0).2
      else ((readl hw s 0).1, c + 1, (readl hw s 0).2) := by
  rw [ls2k1000_wait_loop]


/-- The wait loop of ls2k1000 only reads word 0: it leaves the stored words
alone, makes between one and `2000 - c` reads, reports a counter of at most
2000, and hands back what its last read returned. -/
theorem ls2k1000_wait_loop_spec (hw : Hardware) (c : Nat) (s : Mmio) (hc : c < 2000) :
    (ls2k1000_wait_loop hw c s).2.2.mem = s.mem ∧
    (ls2k1000_wait_loop hw c s).2.2.writes = s.writes ∧
    (∃ k, 1 ≤ k ∧ k ≤ 2000 - c ∧
      (ls2k1000_wait_loop hw c s).2.2.log.length = s.log.length + k ∧
      (ls2k1000_wait_loop hw c s).2.2.reads = s.reads + k ∧
      (ls2k1000_wait_loop hw c s).2.1 = c + k ∧
      (ls2k1000_wait_loop hw c s).1 =
        hw (s.log.length + (k - 1)) 0 (s.mem 0 % U32) % U32) := by
  induction c, s using ls2k1000_wait_loop.induct hw with
  | case1 c s r val locked h ih =>
    rw [ls2k1000_wait_loop_unfold, if_pos h]
    obtain ⟨hm, hw', k, hk1, hk2, hl, hr, hcnt, hv⟩ := ih h.2
    refine ⟨hm, ?_, k + 1, by omega, by omega, ?_, ?_, ?_, ?_⟩
    · rw [hw']; exact readl_writes hw s 0
    · rw [hl]; simp [r, readl_log]; omega
    · rw [hr]; simp [r, readl_log, Mmio.reads, List.filter_append]; omega
    · rw [hcnt]; omega
    · rw [hv]
      have e1 : r.2.log.length + (k - 1) = s.log.length + (k + 1 - 1) := by
        simp [r, readl_log]; omega
      rw [e1]; rfl
  | case2 c s r val locked h =>
    rw [ls2k1000_wait_loop_unfold, if_neg h]
    refine ⟨rfl, readl_writes hw s 0, 1, le_refl _, by omega, ?_, ?_, rfl, ?_⟩
    · simp [readl_log]
    · simp [readl_log, Mmio.reads, List.filter_append]
    · rfl


/-- The effect of `ls2k1000_pixpll_param_update` on the stored words and the
values it writes, in terms of the values returned by its reads: `r1` by the
first read of word 0, `r2` by the read of word 1, `r3` by the second read of
word 0 and `r4` by the last poll of the wait loop.  `P off v r` is any
relation that holds between the value stored at `off` and the value read there
on the device at hand. -/
theorem ls2k1000_update_chain (hw : Hardware) (P : Nat → Nat → Nat → Prop)
    (hP : ∀ n off v, P off (v % U32) (hw n off (v % U32) % U32))
    (pin : lsdc_pixpll_parms) (s : Mmio) :
    ∃ r1 r2 r3 r4 : Nat,
      r1 < 2 ^ 32 ∧ r2 < 2 ^ 32 ∧ r3 < 2 ^ 32 ∧ r4 < 2 ^ 32 ∧
      P 0 (s.mem 0 % U32) r1 ∧
      P 4 (s.mem 4 % U32) r2 ∧
      P 0 (((((1 <<< 7) ||| (3 <<< 10)) &&& not32 (0x3f <<< 26)) |||
        ((pin.div_ref <<< 26) % U32)) % U32) r3 ∧
      P 0 (((r3 ||| (1 <<< 2)) &&& not32 (1 <<< 19)) % U32) r4 ∧
      (ls2k1000_pixpll_param_update hw pin s).2.2.mem =
        mem_with_word (mem_with_word (mem_with_word s.mem 4
          ((r2 &&& not32 0x0fff) ||| pin.loopc)) 8 pin.div_out) 0 (r4 ||| 1) ∧
      (ls2k1000_pixpll_param_update hw pin s).2.2.writes = s.writes ++
        [(r1 &&& not32 (1 <<< 0)) % U32,
         ((r1 &&& not32 (1 <<< 0)) ||| (1 <<< 19)) % U32,
         (((r1 &&& not32 (1 <<< 0)) ||| (1 <<< 19)) &&& not32 (1 <<< 2)) % U32,
         ((1 <<< 7) ||| (3 <<< 10)) % U32,
         ((((1 <<< 7) ||| (3 <<< 10)) &&& not32 (0x3f <<< 26)) |||
           ((pin.div_ref <<< 26) % U32)) % U32,
         ((r2 &&& not32 0x0fff) ||| pin.loopc) % U32,
         pin.div_out % U32,
         ((r3 ||| (1 <<< 2)) &&& not32 (1 <<< 19)) % U32,
         (r4 ||| 1) % U32] := by
  unfold ls2k1000_pixpll_param_update
  simp only []
  generalize h1 : readl hw s 0 = r1
  generalize h2 : readl hw _ 4 = r2
  generalize h3 : readl hw _ 0 = r3
  generalize h4 : ls2k1000_wait_loop hw 0 _ = w
  have e1v : r1.1 = hw s.log.length 0 (s.mem 0 % U32) % U32 := by rw [← h1]; rfl
  have e1m : r1.2.mem = s.mem := by rw [← h1]; rfl
  have e1w : r1.2.writes = s.writes := by rw [← h1]; exact readl_writes hw s 0
  have e2v : ∃ n, r2.1 = hw n 4 (s.mem 4 % U32) % U32 := by
    rw [← h2, readl_val]
    simp only [writel_mem, mem_with_word, e1m]
    exact ⟨_, rfl⟩
  have e2m : ∀ a, a ≠ 0 → r2.2.mem a = s.mem a := by
    intro a ha
    rw [← h2, readl_mem]
    simp only [writel_mem, mem_with_word, e1m, if_neg ha]
  have e2w : r2.2.writes = s.writes ++
      [(r1.1 &&& not32 (1 <<< 0)) % U32,
       ((r1.1 &&& not32 (1 <<< 0)) ||| (1 <<< 19)) % U32,
       (((r1.1 &&& not32 (1 <<< 0)) ||| (1 <<< 19)) &&& not32 (1 <<< 2)) % U32,
       ((1 <<< 7) ||| (3 <<< 10)) % U32,
       ((((1 <<< 7) ||| (3 <<< 10)) &&& not32 (0x3f <<< 26)) |||
         ((pin.div_ref <<< 26) % U32)) % U32] := by
    rw [← h2, readl_writes]
    simp only [writel_writes, e1w, List.append_assoc, List.singleton_append, List.cons_append,
      List.nil_append]
  have e2z : r2.2.mem 0 = ((((1 <<< 7) ||| (3 <<< 10)) &&& not32 (0x3f <<< 26)) |||
      ((pin.div_ref <<< 26) % U32)) % U32 := by
    rw [← h2, readl_mem, writel_mem, mem_with_word_same]
  have e3v : ∃ n, r3.1 = hw n 0 ((((((1 <<< 7) ||| (3 <<< 10)) &&& not32 (0x3f <<< 26)) |||
      ((pin.div_ref <<< 26) % U32)) % U32) % U32) % U32 := by
    rw [← h3, readl_val]
    simp only [writel_mem, mem_with_word, e2z]
    exact ⟨_, rfl⟩
  have e3m : r3.2.mem = mem_with_word (mem_with_word r2.2.mem 4
      ((r2.1 &&& not32 0x0fff) ||| pin.loopc)) 8 pin.div_out := by
    rw [← h3, readl_mem, writel_mem, writel_mem]
  have e3w : r3.2.writes = r2.2.writes ++
      [((r2.1 &&& not32 0x0fff) ||| pin.loopc) % U32, pin.div_out % U32] := by
    rw [← h3, readl_writes]
    simp only [writel_writes, List.append_assoc, List.singleton_append, List.cons_append,
      List.nil_append]
  obtain ⟨lm, lw, k, -, -, -, -, -, lv⟩ := ls2k1000_wait_loop_spec hw 0
    (writel r3.2 ((r3.1 ||| (1 <<< 2)) &&& not32 (1 <<< 19)) 0) (by decide)
  rw [h4] at lm lw lv
  rw [writel_mem, mem_with_word_same] at lv
  obtain ⟨n2, e2v⟩ := e2v
  obtain ⟨n3, e3v⟩ := e3v
  refine ⟨r1.1, r2.1, r3.1, w.1, ?_, ?_, ?_, ?_, ?_, ?_, ?_, ?_, ?_, ?_⟩
  · rw [e1v]; exact Nat.mod_lt _ (by decide)
  · rw [e2v]; exact Nat.mod_lt _ (by decide)
  · rw [e3v]; exact Nat.mod_lt _ (by decide)
  · rw [lv]; exact Nat.mod_lt _ (by decide)
  · rw [e1v]; exact hP _ _ _
  · rw [e2v]; exact hP _ _ _
  · rw [e3v, Nat.mod_mod]; exact hP _ _ _
  · rw [lv, Nat.mod_mod]; exact hP _ _ _
  · funext a
    rw [writel_mem, lm, writel_mem, e3m]
    unfold mem_with_word
    by_cases h0 : a = 0
    · simp [h0]
    · simp only [if_neg h0]
      split_ifs
      · rfl
      · rfl
      · exact e2m a h0
  · rw [writel_writes, lw, writel_writes, e3w, e2w]
    simp only [List.append_assoc, List.singleton_append, List.cons_append, List.nil_append]

/-- The operation `val &= ~(0x3f << 26); val |= div_ref << 26` on the constant written
before: the 6-bit field at bit 26 receives `div_ref`. -/
theorem ls2k1000_stage_word (div_ref : Nat) :
    ((((1 <<< 7) ||| (3 <<< 10)) &&& not32 (0x3f <<< 26)) ||| ((div_ref <<< 26) % U32)) =
      (BitField.mk 26 6).set ((1 <<< 7) ||| (3 <<< 10)) div_ref := by
  have hC : ((1 <<< 7) ||| (3 <<< 10) : Nat) < 2 ^ 32 := by decide
  have hmask : (0x3f <<< 26 : Nat) = (BitField.mk 26 6).mask := by decide
  rw [hmask, and_not32_mask _ (by decide) _ hC]
  have hU : U32 = 2 ^ (26 + 6) := by decide
  rw [hU, shiftLeft_mod]
  rw [or_shift (BitField.mk 26 6) _ _ (by rw [BitField.get_set_same]; rfl)
    (Nat.mod_lt _ (by decide)), BitField.set_mod, BitField.set_set_same]

theorem ls2k1000_stage_word_lt (div_ref : Nat) :
    (BitField.mk 26 6).set ((1 <<< 7) ||| (3 <<< 10)) div_ref < 2 ^ 32 :=
  BitField.set_lt _ _ _ 32 (by decide) (by decide)

/-- The operation `val |= (1 << 2); val &= ~(1 << 19)` sets bit 2 and clears bit 19. -/
theorem ls2k1000_powerup_word (r : Nat) (hr : r < 2 ^ 32) :
    ((r ||| (1 <<< 2)) &&& not32 (1 <<< 19)) =
      (BitField.mk 19 1).set ((BitField.mk 2 1).set r 1) 0 := by
  have hm2 : (1 <<< 2 : Nat) = (BitField.mk 2 1).mask := by decide
  have hm19 : (1 <<< 19 : Nat) = (BitField.mk 19 1).mask := by decide
  rw [hm2, or_mask, hm19, and_not32_mask _ (by decide) _
    (BitField.set_lt _ _ _ 32 hr (by decide))]
  rfl

/-- The operation `val | 1` sets bit 0. -/
theorem or_one_eq (r : Nat) : r ||| 1 = (BitField.mk 0 1).set r 1 := by
  have hm0 : (1 : Nat) = (BitField.mk 0 1).mask := by decide
  conv_lhs => rw [hm0]
  rw [or_mask]
  rfl

/-- The operation `val &= ~0x0fff; val |= loopc` stores `loopc` in the low 12 bits when it
fits there. -/
theorem ls2k1000_loopc_word (r loopc : Nat) (hr : r < 2 ^ 32) (hl : loopc < 2 ^ 12) :
    (r &&& not32 0x0fff) ||| loopc = (BitField.mk 0 12).set r loopc := by
  have hm12 : (0x0fff : Nat) = (BitField.mk 0 12).mask := by decide
  rw [hm12, and_not32_mask _ (by decide) _ hr]
  have := or_shift (BitField.mk 0 12) ((BitField.mk 0 12).set r 0) loopc
    (by rw [BitField.get_set_same]; rfl) hl
  rw [Nat.shiftLeft_zero] at this
  rw [this, BitField.set_set_same]

/-- The words left by `ls2k1000_pixpll_param_update` on a device that stores
what is written and may drive the locked bit, in terms of bit-field
assignments; `b3` and `b4` are the values of the locked bit returned by the
second read of word 0 and by the last poll. -/
theorem ls2k1000_update_words (hw : Hardware) (h : lock_only ls2k1000_pixpll_reg.locked hw)
    (pin : lsdc_pixpll_parms) (hl : pin.loopc < 2 ^ 12) (s : Mmio) :
    ∃ b3 b4,
      (ls2k1000_pixpll_param_update hw pin s).2.2.mem =
        mem_with_word (mem_with_word (mem_with_word s.mem 4
          ((BitField.mk 0 12).set (s.mem 4 % U32) pin.loopc)) 8 pin.div_out) 0
          ((BitField.mk 0 1).set (ls2k1000_pixpll_reg.locked.set
            ((BitField.mk 19 1).set ((BitField.mk 2 1).set (ls2k1000_pixpll_reg.locked.set
              ((BitField.mk 26 6).set ((1 <<< 7) ||| (3 <<< 10)) pin.div_ref) b3) 1) 0) b4) 1) ∧
      (BitField.mk 0 1).set (ls2k1000_pixpll_reg.locked.set
            ((BitField.mk 19 1).set ((BitField.mk 2 1).set (ls2k1000_pixpll_reg.locked.set
              ((BitField.mk 26 6).set ((1 <<< 7) ||| (3 <<< 10)) pin.div_ref) b3) 1) 0) b4) 1
        < 2 ^ 32 ∧
      (BitField.mk 0 12).set (s.mem 4 % U32) pin.loopc < 2 ^ 32 := by
  obtain ⟨r1, r2, r3, r4, -, h2lt, h3lt, -, -, p2, p3, p4, hm, -⟩ :=
    ls2k1000_update_chain hw
      (fun off v r => (off = 0 → ∃ b, r = ls2k1000_pixpll_reg.locked.set v b) ∧ (off ≠ 0 → r = v))
      (fun n off v => lock_only_P32 _ (by decide) hw h n off v) pin s
  have lt : ∀ (f : BitField) (x c : Nat), f.lo + f.width ≤ 32 → x < 2 ^ 32 →
      f.set x c < 2 ^ 32 := fun f x c hf hx => BitField.set_lt f x c 32 hx hf
  have e2 : r2 = s.mem 4 % U32 := p2.2 (by decide)
  rw [ls2k1000_stage_word, mod_U32_of_lt _ (ls2k1000_stage_word_lt _)] at p3
  obtain ⟨b3, e3⟩ := p3.1 rfl
  have hTlt := lt (BitField.mk 19 1) _ 0 (by decide) (lt (BitField.mk 2 1) _ 1 (by decide) h3lt)
  rw [ls2k1000_powerup_word _ h3lt, mod_U32_of_lt _ hTlt] at p4
  obtain ⟨b4, e4⟩ := p4.1 rfl
  refine ⟨b3, b4, ?_, ?_, ?_⟩
  · rw [hm, ls2k1000_loopc_word _ _ h2lt hl, or_one_eq, e4, e3, e2]
  · exact lt _ _ _ (by decide) (lt _ _ _ (by decide) (by rw [← e3]; exact hTlt))
  · exact lt _ _ _ (by decide) (Nat.mod_lt _ (by decide))

/-- The words left by `ls2k1000_pixpll_param_update` with registers behaving
as memory. -/
theorem ls2k1000_update_words_memory (pin : lsdc_pixpll_parms) (hl : pin.loopc < 2 ^ 12)
    (s : Mmio) :
    (ls2k1000_pixpll_param_update memory_hw pin s).2.2.mem =
      mem_with_word (mem_with_word (mem_with_word s.mem 4
        ((BitField.mk 0 12).set (s.mem 4 % U32) pin.loopc)) 8 pin.div_out) 0
        ((BitField.mk 0 1).set ((BitField.mk 19 1).set ((BitField.mk 2 1).set
          ((BitField.mk 26 6).set ((1 <<< 7) ||| (3 <<< 10)) pin.div_ref) 1) 0) 1) := by
  obtain ⟨r1, r2, r3, r4, -, h2lt, h3lt, -, -, p2, p3, p4, hm, -⟩ :=
    ls2k1000_update_chain memory_hw (fun _ v r => r = v)
      (fun n off v => Nat.mod_mod _ _) pin s
  rw [ls2k1000_stage_word, mod_U32_of_lt _ (ls2k1000_stage_word_lt _)] at p3
  have hTlt : (BitField.mk 19 1).set ((BitField.mk 2 1).set r3 1) 0 < 2 ^ 32 :=
    BitField.set_lt _ _ _ 32 (BitField.set_lt _ _ _ 32 h3lt (by decide)) (by decide)
  rw [ls2k1000_powerup_word _ h3lt, mod_U32_of_lt _ hTlt] at p4
  rw [hm, ls2k1000_loopc_word _ _ h2lt hl, or_one_eq, p4, p3, p2]

/-! ## ls2k0300 -/

theorem ls2k0300_wait_loop_hit (hw : Hardware) (s : Mmio) (c f : Nat)
    (h0 : (readl hw s 0).1 &&& 0x80 ≠ 0) :
    ls2k0300_wait_loop hw (f + 1) c s =
      some ((readl hw s 0).1, (c + 1) % U32, (readl hw s 0).2) := by
  unfold ls2k0300_wait_loop
  simp only
  rw [if_neg (by simpa using h0)]

theorem ls2k0300_wait_loop_miss (hw : Hardware) (s : Mmio) (c f : Nat)
    (h0 : (readl hw s 0).1 &&& 0x80 = 0) :
    ls2k0300_wait_loop hw (f + 1) c s =
      ls2k0300_wait_loop hw f ((c + 1) % U32) (readl hw s 0).2 := by
  conv_lhs => unfold ls2k0300_wait_loop
  simp only
  rw [if_pos (by simpa using h0)]

/-- A device whose locked bit never reads as set keeps the wait loop of
ls2k0300 running: no amount of fuel lets it return. -/
theorem ls2k0300_wait_loop_none (hw : Hardware)
    (h : ∀ n v, hw n 0 v % U32 &&& 0x80 = 0) (fuel : Nat) :
    ∀ (c : Nat) (s : Mmio), ls2k0300_wait_loop hw fuel c s = none := by
  induction fuel with
  | zero => intro c s; rfl
  | succ fuel ih =>
    intro c s
    rw [ls2k0300_wait_loop_miss hw s c fuel (h _ _)]
    exact ih _ _

/-- When the read made by poll number `j` of the wait loop of ls2k0300 shows
the locked bit, more than `j` units of fuel let the loop return: it returns at
the first poll `i ≤ j` that shows the bit, with what that poll read. -/
theorem ls2k0300_wait_loop_some (hw : Hardware) (j : Nat) :
    ∀ (s : Mmio) (c fuel : Nat), j < fuel →
      hw (s.log.length + j) 0 (s.mem 0 % U32) % U32 &&& 0x80 ≠ 0 →
      ∃ i val cnt t, i ≤ j ∧ ls2k0300_wait_loop hw fuel c s = some (val, cnt, t) ∧
        val = hw (s.log.length + i) 0 (s.mem 0 % U32) % U32 ∧ val &&& 0x80 ≠ 0 ∧
        t.mem = s.mem ∧ t.writes = s.writes ∧ t.reads = s.reads + (i + 1) ∧
        t.log.length = s.log.length + (i + 1) := by
  have hit : ∀ (s : Mmio) (c f j : Nat), (readl hw s 0).1 &&& 0x80 ≠ 0 →
      ∃ i val cnt t, i ≤ j ∧ ls2k0300_wait_loop hw (f + 1) c s = some (val, cnt, t) ∧
        val = hw (s.log.length + i) 0 (s.mem 0 % U32) % U32 ∧ val &&& 0x80 ≠ 0 ∧
        t.mem = s.mem ∧ t.writes = s.writes ∧ t.reads = s.reads + (i + 1) ∧
        t.log.length = s.log.length + (i + 1) := by
    intro s c f j h0
    refine ⟨0, (readl hw s 0).1, (c + 1) % U32, (readl hw s 0).2, Nat.zero_le _,
      ls2k0300_wait_loop_hit hw s c f h0, rfl, h0, rfl, readl_writes hw s 0, ?_, ?_⟩
    · simp [readl_log, Mmio.reads, List.filter_append]
    · simp [readl_log]
  induction j with
  | zero =>
    intro s c fuel hf hl
    obtain ⟨f, rfl⟩ : ∃ f, fuel = f + 1 := ⟨fuel - 1, by omega⟩
    exact hit s c f 0 hl
  | succ j ih =>
    intro s c fuel hf hl
    obtain ⟨f, rfl⟩ : ∃ f, fuel = f + 1 := ⟨fuel - 1, by omega⟩
    by_cases h0 : (readl hw s 0).1 &&& 0x80 ≠ 0
    · exact hit s c f (j + 1) h0
    · have h0' : (readl hw s 0).1 &&& 0x80 = 0 := by simpa using h0
      have hlen : (readl hw s 0).2.log.length = s.log.length + 1 := by simp [readl_log]
      have hl' : hw ((readl hw s 0).2.log.length + j) 0 ((readl hw s 0).2.mem 0 % U32) % U32
          &&& 0x80 ≠ 0 := by
        rw [hlen, readl_mem]
        have : s.log.length + 1 + j = s.log.length + (j + 1) := by omega
        rw [this]; exact hl
      obtain ⟨i, val, cnt, t, hi, hres, hval, hlk, hm, hw', hr, hlg⟩ :=
        ih (readl hw s 0).2 ((c + 1) % U32) f (by omega) hl'
      refine ⟨i + 1, val, cnt, t, by omega, ?_, ?_, hlk, ?_, ?_, ?_, ?_⟩
      · rw [← hres]
        exact ls2k0300_wait_loop_miss hw s c f h0'
      · rw [hval, hlen, readl_mem]
        have : s.log.length + 1 + i = s.log.length + (i + 1) := by omega
        rw [this]
      · rw [hm, readl_mem]
      · rw [hw', readl_writes]
      · rw [hr]; simp [readl_log, Mmio.reads, List.filter_append]; omega
      · rw [hlg, hlen]; omega

/-- The effect of `ls2k0300_pixpll_param_update` when poll number `j` of its
wait loop reads the locked bit as set and the fuel exceeds `j`: the call
returns 0, and the stored words and the values written are given in terms of
the values returned by the reads, `r1` and `r2` by the two reads before the
parameters are written and `r3` by the last poll.  `P v r` is any relation
that holds between the value stored at offset 0 and the value read there on
the device at hand. -/
theorem ls2k0300_update_chain_at (hw : Hardware) (P : Nat → Nat → Prop)
    (hP : ∀ n v, P (v % U32) (hw n 0 (v % U32) % U32))
    (pin : lsdc_pixpll_parms) (s : Mmio) (fuel j : Nat) (hf : j < fuel)
    (hl : hw (s.log.length + 7 + j) 0
      ((((((pin.div_out <<< 24) % U32) ||| ((pin.loopc <<< 15) % U32) |||
        ((pin.div_ref <<< 8) % U32)) &&& not64 (1 <<< 4)) &&& not64 (1 <<< 5)) % U32) % U32
      &&& 0x80 ≠ 0) :
    ∃ r1 r2 r3 cnt t, ls2k0300_pixpll_param_update hw fuel pin s = some (0, cnt, t) ∧
      r1 < 2 ^ 32 ∧ r2 < 2 ^ 32 ∧ r3 < 2 ^ 32 ∧
      P (s.mem 0 % U32) r1 ∧
      P ((((r1 &&& not64 (1 <<< 0)) ||| (1 <<< 4)) ||| (1 <<< 3)) % U32) r2 ∧
      P ((((((pin.div_out <<< 24) % U32) ||| ((pin.loopc <<< 15) % U32) |||
        ((pin.div_ref <<< 8) % U32)) &&& not64 (1 <<< 4)) &&& not64 (1 <<< 5)) % U32) r3 ∧
      r3 &&& 0x80 ≠ 0 ∧
      t.mem = mem_with_word s.mem 0 (r3 ||| 1) ∧
      t.writes = s.writes ++
        [(r1 &&& not64 (1 <<< 0)) % U32,
         (((r1 &&& not64 (1 <<< 0)) ||| (1 <<< 4)) ||| (1 <<< 3)) % U32,
         (r2 ||| (1 <<< 5)) % U32,
         (((pin.div_out <<< 24) % U32) ||| ((pin.loopc <<< 15) % U32) |||
           ((pin.div_ref <<< 8) % U32)) % U32,
         (((((pin.div_out <<< 24) % U32) ||| ((pin.loopc <<< 15) % U32) |||
           ((pin.div_ref <<< 8) % U32)) &&& not64 (1 <<< 4)) &&& not64 (1 <<< 5)) % U32,
         (r3 ||| 1) % U32] := by
  unfold ls2k0300_pixpll_param_update
  simp only []
  generalize h1 : readl hw s 0 = r1
  generalize h2 : readl hw _ 0 = r2
  have e1v : r1.1 = hw s.log.length 0 (s.mem 0 % U32) % U32 := by rw [← h1]; rfl
  have e1m : r1.2.mem = s.mem := by rw [← h1]; rfl
  have e1w : r1.2.writes = s.writes := by rw [← h1]; exact readl_writes hw s 0
  have e1l : r1.2.log.length = s.log.length + 1 := by rw [← h1]; simp [readl_log]
  have e2v : ∃ n, r2.1 = hw n 0 (((((r1.1 &&& not64 (1 <<< 0)) ||| (1 <<< 4)) ||| (1 <<< 3))
      % U32) % U32) % U32 := by
    rw [← h2, readl_val]
    simp only [writel_mem, mem_with_word_same]
    exact ⟨_, rfl⟩
  have e2m : ∀ a, a ≠ 0 → r2.2.mem a = s.mem a := by
    intro a ha
    rw [← h2, readl_mem]
    simp only [writel_mem, mem_with_word, e1m, if_neg ha]
  have e2w : r2.2.writes = s.writes ++
      [(r1.1 &&& not64 (1 <<< 0)) % U32,
       (((r1.1 &&& not64 (1 <<< 0)) ||| (1 <<< 4)) ||| (1 <<< 3)) % U32] := by
    rw [← h2, readl_writes]
    simp only [writel_writes, e1w, List.append_assoc, List.singleton_append, List.cons_append,
      List.nil_append]
  have e2l : r2.2.log.length = s.log.length + 4 := by
    rw [← h2]; simp [readl_log, writel_log, e1l]
  generalize hS : writel (writel (writel r2.2 _ 0) _ 0) _ 0 = S
  have eSm : S.mem = mem_with_word s.mem 0
      ((((((pin.div_out <<< 24) % U32) ||| ((pin.loopc <<< 15) % U32) |||
        ((pin.div_ref <<< 8) % U32)) &&& not64 (1 <<< 4)) &&& not64 (1 <<< 5))) := by
    funext a
    rw [← hS]
    simp only [writel_mem, mem_with_word]
    by_cases h0 : a = 0
    · simp [h0]
    · simp only [if_neg h0]; exact e2m a h0
  have eSl : S.log.length = s.log.length + 7 := by
    rw [← hS]; simp [writel_log, e2l]
  have eSw : S.writes = r2.2.writes ++
      [(r2.1 ||| (1 <<< 5)) % U32,
       (((pin.div_out <<< 24) % U32) ||| ((pin.loopc <<< 15) % U32) |||
           ((pin.div_ref <<< 8) % U32)) % U32,
       (((((pin.div_out <<< 24) % U32) ||| ((pin.loopc <<< 15) % U32) |||
           ((pin.div_ref <<< 8) % U32)) &&& not64 (1 <<< 4)) &&& not64 (1 <<< 5)) % U32] := by
    rw [← hS]
    simp only [writel_writes, List.append_assoc, List.singleton_append, List.cons_append,
      List.nil_append]
  obtain ⟨i, val, cnt, t, -, hres, hval, hlk, hm, hw', -, -⟩ :=
    ls2k0300_wait_loop_some hw j S 0 fuel hf
      (by rw [eSl, eSm, mem_with_word_same, Nat.mod_mod]; exact hl)
  rw [hres]
  obtain ⟨n2, e2v⟩ := e2v
  refine ⟨r1.1, r2.1, val, cnt, _, rfl, ?_, ?_, ?_, ?_, ?_, ?_, hlk, ?_, ?_⟩
  · rw [e1v]; exact Nat.mod_lt _ (by decide)
  · rw [e2v]; exact Nat.mod_lt _ (by decide)
  · rw [hval]; exact Nat.mod_lt _ (by decide)
  · rw [e1v]; exact hP _ _
  · rw [e2v, Nat.mod_mod]; exact hP _ _
  · rw [hval, eSm, mem_with_word_same, Nat.mod_mod]; exact hP _ _
  · funext a
    simp only [writel_mem, hm, eSm, mem_with_word]
    split_ifs <;> rfl
  · simp only [writel_writes, hw', eSw, e2w, List.append_assoc, List.singleton_append,
      List.cons_append, List.nil_append]

/-- The effect of `ls2k0300_pixpll_param_update` when poll number `j` of its
wait loop is sure to read the locked bit as set, whatever is stored, and the
fuel exceeds `j`. -/
theorem ls2k0300_update_chain (hw : Hardware) (P : Nat → Nat → Prop)
    (hP : ∀ n v, P (v % U32) (hw n 0 (v % U32) % U32))
    (pin : lsdc_pixpll_parms) (s : Mmio) (fuel j : Nat) (hf : j < fuel)
    (hl : ∀ v, hw (s.log.length + 7 + j) 0 v % U32 &&& 0x80 ≠ 0) :
    ∃ r1 r2 r3 cnt t, ls2k0300_pixpll_param_update hw fuel pin s = some (0, cnt, t) ∧
      r1 < 2 ^ 32 ∧ r2 < 2 ^ 32 ∧ r3 < 2 ^ 32 ∧
      P (s.mem 0 % U32) r1 ∧
      P ((((r1 &&& not64 (1 <<< 0)) ||| (1 <<< 4)) ||| (1 <<< 3)) % U32) r2 ∧
      P ((((((pin.div_out <<< 24) % U32) ||| ((pin.loopc <<< 15) % U32) |||
        ((pin.div_ref <<< 8) % U32)) &&& not64 (1 <<< 4)) &&& not64 (1 <<< 5)) % U32) r3 ∧
      r3 &&& 0x80 ≠ 0 ∧
      t.mem = mem_with_word s.mem 0 (r3 ||| 1) ∧
      t.writes = s.writes ++
        [(r1 &&& not64 (1 <<< 0)) % U32,
         (((r1 &&& not64 (1 <<< 0)) ||| (1 <<< 4)) ||| (1 <<< 3)) % U32,
         (r2 ||| (1 <<< 5)) % U32,
         (((pin.div_out <<< 24) % U32) ||| ((pin.loopc <<< 15) % U32) |||
           ((pin.div_ref <<< 8) % U32)) % U32,
         (((((pin.div_out <<< 24) % U32) ||| ((pin.loopc <<< 15) % U32) |||
           ((pin.div_ref <<< 8) % U32)) &&& not64 (1 <<< 4)) &&& not64 (1 <<< 5)) % U32,
         (r3 ||| 1) % U32] :=
  ls2k0300_update_chain_at hw P hP pin s fuel j hf (hl _)

/-- On a device whose locked bit never reads as set
`ls2k0300_pixpll_param_update` does not return, whatever the fuel. -/
theorem ls2k0300_update_none (hw : Hardware) (h : ∀ n v, hw n 0 v % U32 &&& 0x80 = 0)
    (fuel : Nat) (pin : lsdc_pixpll_parms) (s : Mmio) :
    ls2k0300_pixpll_param_update hw fuel pin s = none := by
  unfold ls2k0300_pixpll_param_update
  simp only [ls2k0300_wait_loop_none hw h]
/-- The value `(div_out << 24) | (loopc << 15) | (div_ref << 8)` of
`ls2k0300_pixpll_param_update` as bit-field assignments, for dividers that fit
the 7, 9 and 7 bits of their fields. -/
theorem ls2k0300_val_eq (o l r : Nat) (ho : o < 2 ^ 7) (hl : l < 2 ^ 9) (hr : r < 2 ^ 7) :
    ((o <<< 24) % U32) ||| ((l <<< 15) % U32) ||| ((r <<< 8) % U32) =
      ls2k0300_pixpll_bitmap.div_ref.set (ls2k0300_pixpll_bitmap.loopc.set
        (ls2k0300_pixpll_bitmap.div_out.set 0 o) l) r := by
  have h1 : (o <<< 24) % U32 = o <<< 24 := by
    rw [Nat.shiftLeft_eq]; apply Nat.mod_eq_of_lt; unfold U32; omega
  have h2 : (l <<< 15) % U32 = l <<< 15 := by
    rw [Nat.shiftLeft_eq]; apply Nat.mod_eq_of_lt; unfold U32; omega
  have h3 : (r <<< 8) % U32 = r <<< 8 := by
    rw [Nat.shiftLeft_eq]; apply Nat.mod_eq_of_lt; unfold U32; omega
  rw [h1, h2, h3]
  have e1 : o <<< 24 = ls2k0300_pixpll_bitmap.div_out.set 0 o := by
    have := or_shift ls2k0300_pixpll_bitmap.div_out 0 o (BitField.get_zero _) ho
    simpa [ls2k0300_pixpll_bitmap.div_out] using this
  rw [e1]
  have e2 := or_shift ls2k0300_pixpll_bitmap.loopc (ls2k0300_pixpll_bitmap.div_out.set 0 o) l
    (by rw [BitField.get_set_disjoint _ _ _ _ (by decide)]; exact BitField.get_zero _) hl
  have e2' : ls2k0300_pixpll_bitmap.div_out.set 0 o ||| l <<< 15 =
      ls2k0300_pixpll_bitmap.loopc.set (ls2k0300_pixpll_bitmap.div_out.set 0 o) l := e2
  rw [e2']
  exact or_shift ls2k0300_pixpll_bitmap.div_ref _ r
    (by rw [BitField.get_set_disjoint _ _ _ _ (by decide),
      BitField.get_set_disjoint _ _ _ _ (by decide)]; exact BitField.get_zero _) hr

/-- The word left by `ls2k0300_pixpll_param_update` on a device that stores
what is written and may drive the locked bit, when poll number `j` of the wait
loop is sure to read the locked bit as set and the fuel exceeds `j`. -/
theorem ls2k0300_update_words (hw : Hardware) (h : lock_only ls2k0300_pixpll_bitmap.locked hw)
    (pin : lsdc_pixpll_parms) (ho : pin.div_out < 2 ^ 7) (hl : pin.loopc < 2 ^ 9)
    (hr : pin.div_ref < 2 ^ 7) (s : Mmio) (fuel j : Nat) (hf : j < fuel)
    (hlock : ∀ v, hw (s.log.length + 7 + j) 0 v % U32 &&& 0x80 ≠ 0) :
    ∃ cnt t, ls2k0300_pixpll_param_update hw fuel pin s = some (0, cnt, t) ∧
      t.mem = mem_with_word s.mem 0
        (ls2k0300_pixpll_bitmap.sel_out.set (ls2k0300_pixpll_bitmap.locked.set
          (ls2k0300_pixpll_bitmap.powerdown.set (ls2k0300_pixpll_bitmap.bypass.set
            (ls2k0300_pixpll_bitmap.div_ref.set (ls2k0300_pixpll_bitmap.loopc.set
              (ls2k0300_pixpll_bitmap.div_out.set 0 pin.div_out) pin.loopc) pin.div_ref)
            0) 0) 1) 1) ∧
      ls2k0300_pixpll_bitmap.sel_out.set (ls2k0300_pixpll_bitmap.locked.set
          (ls2k0300_pixpll_bitmap.powerdown.set (ls2k0300_pixpll_bitmap.bypass.set
            (ls2k0300_pixpll_bitmap.div_ref.set (ls2k0300_pixpll_bitmap.loopc.set
              (ls2k0300_pixpll_bitmap.div_out.set 0 pin.div_out) pin.loopc) pin.div_ref)
            0) 0) 1) 1 < 2 ^ 32 := by
  obtain ⟨r1, r2, r3, cnt, t, hres, -, -, -, -, -, p3, hbit, hm, -⟩ :=
    ls2k0300_update_chain hw (fun v r => ∃ b, r = ls2k0300_pixpll_bitmap.locked.set v b)
      (fun n v => (lock_only_P32 _ (by decide) hw h n 0 v).1 rfl) pin s fuel j hf hlock
  have lt : ∀ (f : BitField) (x c : Nat), f.lo + f.width ≤ 32 → x < 2 ^ 32 →
      f.set x c < 2 ^ 32 := fun f x c hf hx => BitField.set_lt f x c 32 hx hf
  have hAlt : ls2k0300_pixpll_bitmap.div_ref.set (ls2k0300_pixpll_bitmap.loopc.set
        (ls2k0300_pixpll_bitmap.div_out.set 0 pin.div_out) pin.loopc) pin.div_ref < 2 ^ 32 :=
    lt _ _ _ (by decide) (lt _ _ _ (by decide) (lt _ _ _ (by decide) (by decide)))
  have eV : (((((pin.div_out <<< 24) % U32) ||| ((pin.loopc <<< 15) % U32) |||
        ((pin.div_ref <<< 8) % U32)) &&& not64 (1 <<< 4)) &&& not64 (1 <<< 5)) =
      ls2k0300_pixpll_bitmap.powerdown.set (ls2k0300_pixpll_bitmap.bypass.set
        (ls2k0300_pixpll_bitmap.div_ref.set (ls2k0300_pixpll_bitmap.loopc.set
          (ls2k0300_pixpll_bitmap.div_out.set 0 pin.div_out) pin.loopc) pin.div_ref) 0) 0 := by
    rw [ls2k0300_val_eq _ _ _ ho hl hr]
    have hm4 : (1 <<< 4 : Nat) = ls2k0300_pixpll_bitmap.bypass.mask := by decide
    have hm5 : (1 <<< 5 : Nat) = ls2k0300_pixpll_bitmap.powerdown.mask := by decide
    have h64 : ∀ x, x < 2 ^ 32 → x < 2 ^ 64 := fun x hx => lt_trans hx (by decide)
    rw [hm4, and_not64_mask _ (by decide) _ (h64 _ hAlt), hm5,
      and_not64_mask _ (by decide) _ (h64 _ (lt _ _ _ (by decide) hAlt))]
  have hVlt := lt ls2k0300_pixpll_bitmap.powerdown _ 0 (by decide)
    (lt ls2k0300_pixpll_bitmap.bypass _ 0 (by decide) hAlt)
  rw [eV, mod_U32_of_lt _ hVlt] at p3
  obtain ⟨b, e3⟩ := p3
  have hb : b % 2 ^ 1 = 1 := by
    have h80 : (0x80 : Nat) = 1 <<< 7 := by decide
    rw [h80, and_bit_ne_zero, e3] at hbit
    have := BitField.get_set_same ls2k0300_pixpll_bitmap.locked
      (ls2k0300_pixpll_bitmap.powerdown.set (ls2k0300_pixpll_bitmap.bypass.set
        (ls2k0300_pixpll_bitmap.div_ref.set (ls2k0300_pixpll_bitmap.loopc.set
          (ls2k0300_pixpll_bitmap.div_out.set 0 pin.div_out) pin.loopc) pin.div_ref) 0) 0) b
    exact this.symm.trans hbit
  have e3' : r3 = ls2k0300_pixpll_bitmap.locked.set (ls2k0300_pixpll_bitmap.powerdown.set
      (ls2k0300_pixpll_bitmap.bypass.set (ls2k0300_pixpll_bitmap.div_ref.set
        (ls2k0300_pixpll_bitmap.loopc.set (ls2k0300_pixpll_bitmap.div_out.set 0 pin.div_out)
          pin.loopc) pin.div_ref) 0) 0) 1 := by
    rw [e3, ← BitField.set_mod _ _ b]
    have : ls2k0300_pixpll_bitmap.locked.width = 1 := rfl
    rw [this, hb]
  have e1 : r3 ||| 1 = ls2k0300_pixpll_bitmap.sel_out.set r3 1 := by
    have hm0 : (1 : Nat) = ls2k0300_pixpll_bitmap.sel_out.mask := by decide
    conv_lhs => rw [hm0]
    rw [or_mask]
    rfl
  refine ⟨cnt, t, hres, ?_, ?_⟩
  · rw [hm, e1, e3']
  · exact lt _ _ _ (by decide) (lt _ _ _ (by decide) hVlt)

/-! ## Decoding the dividers after an update -/

theorem canonical_decode (hw : Hardware) (h : lock_only lsdc_pixpll_reg.locked hw)
    (pin : lsdc_pixpll_parms) (s : Mmio) :
    lsdc_pixpll_decode (lsdc_pixpll_update hw pin s).2.mem =
      (pin.div_ref % 2 ^ 7, pin.loopc % 2 ^ 9, pin.div_out % 2 ^ 7) := by
  obtain ⟨h1, h2, h3, -⟩ := canonical_fields hw h pin s
  unfold lsdc_pixpll_decode
  rw [h1, h2, h3]

theorem ls2k1000_decode (hw : Hardware) (h : lock_only ls2k1000_pixpll_reg.locked hw)
    (pin : lsdc_pixpll_parms) (hl : pin.loopc < 2 ^ 12) (s : Mmio) :
    ls2k1000_pixpll_decode (ls2k1000_pixpll_param_update hw pin s).2.2.mem =
      (pin.div_ref % 2 ^ 6, pin.loopc % 2 ^ 10, pin.div_out % 2 ^ 6) := by
  obtain ⟨b3, b4, hm, h0, h1⟩ := ls2k1000_update_words hw h pin hl s
  unfold ls2k1000_pixpll_decode
  simp only
  obtain ⟨f1, f2, f3⟩ := ls2k1000_bitmap_fields
    ((ls2k1000_pixpll_param_update hw pin s).2.2.mem 0 % U32)
    ((ls2k1000_pixpll_param_update hw pin s).2.2.mem 4 % U32)
    ((ls2k1000_pixpll_param_update hw pin s).2.2.mem 8 % U32)
    ((ls2k1000_pixpll_param_update hw pin s).2.2.mem 12 % U32)
    (Nat.mod_lt _ (by decide)) (Nat.mod_lt _ (by decide))
  rw [f1, f2, f3, hm]
  have e0 : ∀ m x, mem_with_word m 0 x 0 % U32 = x % U32 := by
    intro m x; rw [mem_with_word_same, Nat.mod_mod]
  have e4 : ∀ m x y z, mem_with_word (mem_with_word (mem_with_word m 4 x) 8 y) 0 z 4 % U32
      = x % U32 := by
    intro m x y z
    rw [mem_with_word_other _ _ _ _ (by decide), mem_with_word_other _ _ _ _ (by decide),
      mem_with_word_same, Nat.mod_mod]
  have e8 : ∀ m x y z, mem_with_word (mem_with_word (mem_with_word m 4 x) 8 y) 0 z 8 % U32
      = y % U32 := by
    intro m x y z
    rw [mem_with_word_other _ _ _ _ (by decide), mem_with_word_same, Nat.mod_mod]
  rw [e0, e4, e8, BitField.get_mod_U32 _ _ (by decide), BitField.get_mod_U32 _ _ (by decide),
    BitField.get_mod_U32 _ _ (by decide)]
  refine Prod.ext ?_ (Prod.ext ?_ ?_)
  · simp [BitField.get_set_same, BitField.get_set_disjoint, ls2k1000_pixpll_reg.locked]
  · simp only
    rw [BitField.get_set_within _ _ _ _ (by decide) (by decide), BitField.get_eq_div_mod]
    simp
  · simp only
    rw [BitField.get_eq_div_mod]
    simp

theorem ls2k0300_decode (hw : Hardware) (h : lock_only ls2k0300_pixpll_bitmap.locked hw)
    (pin : lsdc_pixpll_parms) (ho : pin.div_out < 2 ^ 7) (hl : pin.loopc < 2 ^ 9)
    (hr : pin.div_ref < 2 ^ 7) (s : Mmio) (fuel j : Nat) (hf : j < fuel)
    (hlock : ∀ v, hw (s.log.length + 7 + j) 0 v % U32 &&& 0x80 ≠ 0) :
    ∃ cnt t, ls2k0300_pixpll_param_update hw fuel pin s = some (0, cnt, t) ∧
      ls2k0300_pixpll_decode t.mem = (pin.div_ref, pin.loopc, pin.div_out) := by
  obtain ⟨cnt, t, hres, hm, hlt⟩ := ls2k0300_update_words hw h pin ho hl hr s fuel j hf hlock
  refine ⟨cnt, t, hres, ?_⟩
  unfold ls2k0300_pixpll_decode
  simp only
  rw [hm, mem_with_word_same, Nat.mod_mod, mod_U32_of_lt _ hlt]
  refine Prod.ext ?_ (Prod.ext ?_ ?_)
  · simp only
    rw [BitField.get_set_disjoint _ _ _ _ (by decide), BitField.get_set_disjoint _ _ _ _ (by decide),
      BitField.get_set_disjoint _ _ _ _ (by decide), BitField.get_set_disjoint _ _ _ _ (by decide),
      BitField.get_set_same]
    exact Nat.mod_eq_of_lt hr
  · simp only
    rw [BitField.get_set_disjoint _ _ _ _ (by decide), BitField.get_set_disjoint _ _ _ _ (by decide),
      BitField.get_set_disjoint _ _ _ _ (by decide), BitField.get_set_disjoint _ _ _ _ (by decide),
      BitField.get_set_disjoint _ _ _ _ (by decide), BitField.get_set_same]
    exact Nat.mod_eq_of_lt hl
  · simp only
    rw [BitField.get_set_disjoint _ _ _ _ (by decide), BitField.get_set_disjoint _ _ _ _ (by decide),
      BitField.get_set_disjoint _ _ _ _ (by decide), BitField.get_set_disjoint _ _ _ _ (by decide),
      BitField.get_set_disjoint _ _ _ _ (by decide), BitField.get_set_disjoint _ _ _ _ (by decide),
      BitField.get_set_same]
    exact Nat.mod_eq_of_lt ho
/-- On a device that stores what is written and may drive the locked bit,
`lsdc_pixpll_get_freq` returns the formula applied to the dividers decoded
from the stored register. -/
theorem lsdc_pixpll_get_freq_freq (hw : Hardware) (h : lock_only lsdc_pixpll_reg.locked hw)
    (priv : lsdc_pixpll_parms) (t : Mmio) :
    (lsdc_pixpll_get_freq hw priv t).freq =
      rate_of priv.ref_clock (lsdc_pixpll_decode t.mem).1 (lsdc_pixpll_decode t.mem).2.1
        (lsdc_pixpll_decode t.mem).2.2 := by
  obtain ⟨b, hb⟩ := lock_only_P hw h t.log.length (stored64 t.mem 0) (stored64_lt _ _)
  unfold lsdc_pixpll_get_freq lsdc_pixpll_decode
  simp only [rreg_val, hb]
  rw [BitField.get_set_disjoint _ _ _ _ (by decide), BitField.get_set_disjoint _ _ _ _ (by decide),
    BitField.get_set_disjoint _ _ _ _ (by decide)]

/-- On a device that stores what is written and may drive the locked bit,
`ls2k1000_pixpll_get_clock_rate` returns the formula applied to the dividers
decoded from the stored words. -/
theorem ls2k1000_get_clock_rate_freq (hw : Hardware)
    (h : lock_only ls2k1000_pixpll_reg.locked hw) (priv : lsdc_pixpll_parms) (t : Mmio) :
    (ls2k1000_pixpll_get_clock_rate hw priv t).freq =
      rate_of priv.ref_clock (ls2k1000_pixpll_decode t.mem).1 (ls2k1000_pixpll_decode t.mem).2.1
        (ls2k1000_pixpll_decode t.mem).2.2 := by
  unfold ls2k1000_pixpll_get_clock_rate ls2k1000_pixpll_decode
  simp only [readl_val, readl_mem]
  obtain ⟨b, hb⟩ := (lock_only_P32 _ (by decide) hw h t.log.length 0 (t.mem 0)).1 rfl
  have h4 := fun n => (lock_only_P32 _ (by decide) hw h n 4 (t.mem 4)).2 (by decide)
  have h8 := fun n => (lock_only_P32 _ (by decide) hw h n 8 (t.mem 8)).2 (by decide)
  have h12 := fun n => (lock_only_P32 _ (by decide) hw h n 12 (t.mem 12)).2 (by decide)
  rw [hb, h4, h8, h12]
  have hlt : ls2k1000_pixpll_reg.locked.set (t.mem 0 % U32) b < 2 ^ 32 :=
    BitField.set_lt _ _ _ 32 (Nat.mod_lt _ (by decide)) (by decide)
  obtain ⟨f1, f2, f3⟩ := ls2k1000_bitmap_fields
    (ls2k1000_pixpll_reg.locked.set (t.mem 0 % U32) b) (t.mem 4 % U32) (t.mem 8 % U32)
    (t.mem 12 % U32) hlt (Nat.mod_lt _ (by decide))
  obtain ⟨g1, g2, g3⟩ := ls2k1000_bitmap_fields
    (t.mem 0 % U32) (t.mem 4 % U32) (t.mem 8 % U32)
    (t.mem 12 % U32) (Nat.mod_lt _ (by decide)) (Nat.mod_lt _ (by decide))
  rw [f1, f2, f3, g1, g2, g3, BitField.get_set_disjoint _ _ _ _ (by decide)]

/-- On a device that stores what is written and may drive the locked bit,
`ls2k0300_pixpll_get_clock_rate` returns the formula applied to the dividers
decoded from the stored word. -/
theorem ls2k0300_get_clock_rate_freq (hw : Hardware)
    (h : lock_only ls2k0300_pixpll_bitmap.locked hw) (priv : lsdc_pixpll_parms) (t : Mmio) :
    (ls2k0300_pixpll_get_clock_rate hw priv t).freq =
      rate_of priv.ref_clock (ls2k0300_pixpll_decode t.mem).1 (ls2k0300_pixpll_decode t.mem).2.1
        (ls2k0300_pixpll_decode t.mem).2.2 := by
  unfold ls2k0300_pixpll_get_clock_rate ls2k0300_pixpll_decode
  simp only [readl_val]
  obtain ⟨b, hb⟩ := (lock_only_P32 _ (by decide) hw h t.log.length 0 (t.mem 0)).1 rfl
  rw [hb, BitField.get_set_disjoint _ _ _ _ (by decide),
    BitField.get_set_disjoint _ _ _ _ (by decide), BitField.get_set_disjoint _ _ _ _ (by decide)]

/-! ## Further facts used by the properties -/

theorem compute_of_hit (priv : lsdc_pixpll_parms) (clock : Nat) (pout : lsdc_pixpll_parms)
    (h : ∃ e ∈ pixpll_parms_table, e.clock = clock) :
    ∃ e ∈ pixpll_parms_table, e.clock = clock ∧
      lsdc_pixel_pll_compute priv clock pout =
        { ret := 0,
          pout := { pout with div_ref := e.div_ref, loopc := e.loopc, div_out := e.div_out },
          priv := priv } := by
  obtain ⟨e, he, hc, hf⟩ := find_from_hit pixpll_parms_table clock pout h
  refine ⟨e, he, hc, ?_⟩
  unfold lsdc_pixel_pll_compute lsdc_pixpll_find
  simp only [hf, if_true]

/-- Every table entry meets the ratio constraint and the bounds of the search
on `div_ref` and `loopc`; its `div_out` is at least 6 and, except for the
25175 kHz entry whose `div_out` is 85, below 64. -/
theorem table_entry_bounds :
    ∀ e ∈ pixpll_parms_table,
      12 * e.div_ref ≤ e.loopc ∧ e.loopc ≤ 32 * e.div_ref ∧ 3 ≤ e.div_ref ∧ e.div_ref < 6 ∧
      6 ≤ e.loopc ∧ e.loopc < 161 ∧ 6 ≤ e.div_out ∧ e.div_out < 128 ∧
      (e.clock ≠ 25175 → e.div_out < 64) ∧ (e.clock = 25175 → e.div_out = 85) := by
  decide

/-- The locked bit of ls2k0300 never reads as set on a device that drives it
low. -/
theorem ls2k0300_never_locked (n v : Nat) :
    locking_hw ls2k0300_pixpll_bitmap.locked (fun _ => false) n 0 v % U32 &&& 0x80 = 0 := by
  by_contra hne
  have h80 : (0x80 : Nat) = 1 <<< 7 := by decide
  rw [h80] at hne
  have h1 := (and_bit_ne_zero 7 _).1 hne
  rw [BitField.get_mod_U32 _ _ (by decide)] at h1
  simp only [locking_hw, if_true, Bool.false_eq_true, if_false] at h1
  have h2 := BitField.get_set_same ls2k0300_pixpll_bitmap.locked v 0
  have h3 : (BitField.mk 7 1).get (ls2k0300_pixpll_bitmap.locked.set v 0) = 0 := h2
  omega

/-- The locked bit of ls2k0300 reads as set at every access at which the
device drives it high. -/
theorem ls2k0300_locked_when_driven (L : Nat → Bool) (n : Nat) (h : L n = true) (v : Nat) :
    locking_hw ls2k0300_pixpll_bitmap.locked L n 0 v % U32 &&& 0x80 ≠ 0 := by
  have h80 : (0x80 : Nat) = 1 <<< 7 := by decide
  rw [h80, and_bit_ne_zero, BitField.get_mod_U32 _ _ (by decide)]
  simp only [locking_hw, if_true, h]
  exact BitField.get_set_same ls2k0300_pixpll_bitmap.locked v 1

/-- For a legal triple, the dividers decoded from the word left by the update
of ls2k0300 are those of the triple, once some poll reads the locked bit. -/
theorem ls2k0300_update_decodes (pin : lsdc_pixpll_parms) (s : Mmio)
    (hleg : legal_triple pin.div_out pin.div_ref pin.loopc) :
    ∀ hw fuel j, lock_only ls2k0300_pixpll_bitmap.locked hw → j < fuel →
      (∀ v, hw (s.log.length + 7 + j) 0 v % U32 &&& 0x80 ≠ 0) →
      ∃ cnt t, ls2k0300_pixpll_param_update hw fuel pin s = some (0, cnt, t) ∧
        ls2k0300_pixpll_decode t.mem = (pin.div_ref, pin.loopc, pin.div_out) := by
  obtain ⟨⟨o1, o2⟩, ⟨r1, r2⟩, ⟨l1, l2⟩, -, -⟩ := hleg
  intro hw fuel j h hf hlock
  exact ls2k0300_decode hw h pin (by omega) (by omega) (by omega) s fuel j hf hlock

/-! ## Further facts about the lookup and the search -/

/-- The lookup stops at the first entry whose clock is the requested one. -/
theorem find_from_first (pre post : List clk_to_pixpll_parms_lookup_t)
    (e : clk_to_pixpll_parms_lookup_t) (clock : Nat) (pout : lsdc_pixpll_parms)
    (hpre : ∀ u ∈ pre, u.clock ≠ clock) (he : e.clock = clock) :
    lsdc_pixpll_find_from (pre ++ e :: post) clock pout =
      (0, { pout with div_ref := e.div_ref, loopc := e.loopc, div_out := e.div_out }) := by
  induction pre with
  | nil => simp only [List.nil_append, lsdc_pixpll_find_from, if_pos he.symm]
  | cons pt rest ih =>
    have h1 : ¬ clock = pt.clock := fun hc => hpre pt (List.mem_cons_self _ _) hc.symm
    simp only [List.cons_append, lsdc_pixpll_find_from, if_neg h1]
    exact ih (fun u hu => hpre u (List.mem_cons_of_mem _ hu))

/-- The lookup returns 0 exactly when some entry has the requested clock. -/
theorem find_from_ret (tbl : List clk_to_pixpll_parms_lookup_t) (clock : Nat)
    (pout : lsdc_pixpll_parms) :
    (lsdc_pixpll_find_from tbl clock pout).1 = 0 ↔ ∃ e ∈ tbl, e.clock = clock := by
  constructor
  · intro h
    by_contra hne
    have hall : ∀ e ∈ tbl, e.clock ≠ clock := fun e he hc => hne ⟨e, he, hc⟩
    rw [find_from_miss tbl clock pout hall] at h
    have hne1 : ((-1 : Int), pout).1 ≠ 0 := by simp
    exact hne1 h
  · intro h
    obtain ⟨e, _, _, hf⟩ := find_from_hit tbl clock pout h
    rw [hf]

/-- The list of visited triples is in the order `visited_before`. -/
theorem search_space_sorted : search_space.Pairwise visited_before := by
  unfold search_space
  rw [List.pairwise_flatMap]
  constructor
  · intro o _
    rw [List.pairwise_flatMap]
    constructor
    · intro r _
      rw [List.pairwise_map]
      exact (List.pairwise_lt_range' 6 155).imp
        (fun h => Or.inr ⟨rfl, Or.inr ⟨rfl, h⟩⟩)
    · refine (List.pairwise_lt_range' 3 3).imp ?_
      intro r1 r2 h x hx y hy
      obtain ⟨l1, _, rfl⟩ := List.mem_map.1 hx
      obtain ⟨l2, _, rfl⟩ := List.mem_map.1 hy
      exact Or.inr ⟨rfl, Or.inl h⟩
  · refine (List.pairwise_lt_range' 6 58).imp ?_
    intro o1 o2 h x hx y hy
    obtain ⟨r1, _, hx⟩ := List.mem_flatMap.1 hx
    obtain ⟨l1, _, rfl⟩ := List.mem_map.1 hx
    obtain ⟨r2, _, hy⟩ := List.mem_flatMap.1 hy
    obtain ⟨l2, _, rfl⟩ := List.mem_map.1 hy
    exact Or.inl h

theorem visited_before_asymm (u t : Nat × Nat × Nat) (h : visited_before u t) :
    ¬ visited_before t u := by
  unfold visited_before at *
  omega

/-- In a split of the list of visited triples at `t`, the triples visited
before `t` are those of the first part. -/
theorem mem_pre_of_visited_before (pre post : List (Nat × Nat × Nat)) (t u : Nat × Nat × Nat)
    (hL : search_space = pre ++ t :: post) (hu : u ∈ search_space)
    (hb : visited_before u t) : u ∈ pre := by
  have hs := search_space_sorted
  rw [hL, List.pairwise_append] at hs
  obtain ⟨_, hpost, _⟩ := hs
  rw [hL] at hu
  rcases List.mem_append.1 hu with h | h
  · exact h
  · rcases List.mem_cons.1 h with rfl | h
    · exact absurd hb (visited_before_asymm _ _ hb)
    · exact absurd ((List.pairwise_cons.1 hpost).1 u h) (visited_before_asymm _ _ hb)

/-! ## Further facts about the readback and the programming sequences -/

/-- With non-zero divisors the readback formula has a value, which is the
plain expression when the product cannot wrap around 32 bits. -/
theorem rate_of_some (ref a b c : Nat) (ha : a ≠ 0) (hc : c ≠ 0) :
    rate_of ref a b c = some (pll_clock_out ref a b c) ∧
    (ref / a * b < U32 → rate_of ref a b c = some (ref / a * b / c)) := by
  have hnz : ¬ (a = 0 ∨ c = 0) := by
    rintro (h | h)
    · exact ha h
    · exact hc h
  refine ⟨by rw [rate_of, if_neg hnz], fun h => ?_⟩
  rw [rate_of, if_neg hnz, pll_clock_out_eq _ _ _ _ h]

/-- On a device that stores what is written and may drive the locked bit,
`lsdc_pixpll_update` leaves the register as it was before the call except for
the seven fields it assigns and for the locked bit, which is as the device
drove it at the last read. -/
theorem update_lock_only_reg (hw : Hardware) (h : lock_only lsdc_pixpll_reg.locked hw)
    (pin : lsdc_pixpll_parms) (s : Mmio) :
    ∃ b, (lsdc_pixpll_update hw pin s).2.mem = mem_with_reg64 s.mem
        (lsdc_pixpll_reg.locked.set (lsdc_pixpll_programmed (stored64 s.mem 0) pin) b) ∧
      stored64 (lsdc_pixpll_update hw pin s).2.mem 0 =
        lsdc_pixpll_reg.locked.set (lsdc_pixpll_programmed (stored64 s.mem 0) pin) b := by
  obtain ⟨r1, r2, r3, r4, r5, r6, r7, r8, r9, ⟨b1, rfl⟩, ⟨b2, rfl⟩, ⟨b3, rfl⟩, ⟨b4, rfl⟩,
    ⟨b5, rfl⟩, ⟨b6, rfl⟩, ⟨b7, rfl⟩, ⟨b8, rfl⟩, ⟨b9, rfl⟩, hlt, hm, -⟩ :=
    update_chain hw (fun v r => ∃ b, r = lsdc_pixpll_reg.locked.set v b) (lock_only_P hw h) pin s
  have key : lsdc_pixpll_reg.bypass.set (lsdc_pixpll_reg.locked.set (lsdc_pixpll_reg.sel_out.set
      (lsdc_pixpll_reg.locked.set (lsdc_pixpll_reg.powerdown.set (lsdc_pixpll_reg.locked.set
      (lsdc_pixpll_reg.set_param.set (lsdc_pixpll_reg.locked.set (lsdc_pixpll_reg.div_out.set
      (lsdc_pixpll_reg.loopc.set (lsdc_pixpll_reg.div_ref.set (lsdc_pixpll_reg.locked.set
      (lsdc_pixpll_reg.set_param.set (lsdc_pixpll_reg.locked.set (lsdc_pixpll_reg.powerdown.set
      (lsdc_pixpll_reg.locked.set (lsdc_pixpll_reg.sel_out.set (lsdc_pixpll_reg.locked.set
      (lsdc_pixpll_reg.bypass.set (lsdc_pixpll_reg.locked.set (stored64 s.mem 0) b1) 1) b2) 0)
      b3) 1) b4) 1) b5) pin.div_ref) pin.loopc) pin.div_out) b6) 0) b7) 0) b8) 1) b9) 0 =
      lsdc_pixpll_reg.locked.set (lsdc_pixpll_programmed (stored64 s.mem 0) pin) b9 := by
    apply Nat.eq_of_testBit_eq
    intro i
    simp only [lsdc_pixpll_programmed, BitField.testBit_set, lsdc_pixpll_reg.div_ref,
      lsdc_pixpll_reg.loopc, lsdc_pixpll_reg.div_out, lsdc_pixpll_reg.sel_out,
      lsdc_pixpll_reg.set_param, lsdc_pixpll_reg.bypass, lsdc_pixpll_reg.powerdown,
      lsdc_pixpll_reg.locked]
    split_ifs <;> first | rfl | omega
  refine ⟨b9, ?_, ?_⟩
  · rw [hm, key]
  · rw [hm, stored64_mem_with_reg64, Nat.mod_eq_of_lt hlt, key]

/-- When no read of the register shows the locked bit, the wait loop of
`__pixpll_ops_wait_locked` entered with `counter = c` makes `2000 - c` reads
and ends with `counter = 2000`. -/
theorem wait_loop_never (hw : Hardware)
    (hnl : ∀ n v, lsdc_pixpll_reg.locked.get (hw n 0 v % 2 ^ 64) = 0)
    (c : Nat) (s : Mmio) (hc : c < 2000) :
    (pixpll_wait_locked_loop hw c s).1 = 2000 ∧
    (pixpll_wait_locked_loop hw c s).2.reads = s.reads + (2000 - c) := by
  induction c, s using pixpll_wait_locked_loop.induct hw with
  | case1 c s r h =>
    exact absurd (hnl _ _) h
  | case2 c s r h h2 ih =>
    rw [pixpll_wait_locked_loop_unfold, if_neg h, if_pos h2]
    obtain ⟨h1, hr⟩ := ih h2
    refine ⟨h1, ?_⟩
    rw [hr]; simp [r, rreg_log, Mmio.reads, List.filter_append]; omega
  | case3 c s r h h2 =>
    rw [pixpll_wait_locked_loop_unfold, if_neg h, if_neg h2]
    refine ⟨by simp only; omega, ?_⟩
    simp [rreg_log, Mmio.reads, List.filter_append]; omega

theorem reads_wreg_rreg (hw : Hardware) (t : Mmio) (v : Nat) :
    (__pixpll_wreg (__pixpll_rreg hw t).2 v).reads = t.reads + 1 := by
  simp [wreg_log, rreg_log, Mmio.reads, List.filter_append]

/-- The reads made by `lsdc_pixpll_update`: one by each of its nine
read-modify-write steps, the others by the wait for the locked bit. -/
theorem update_reads (hw : Hardware) (pin : lsdc_pixpll_parms) (s : Mmio) :
    ∃ t : Mmio, (lsdc_pixpll_update hw pin s).2.reads =
      (__pixpll_ops_wait_locked hw t).2.reads + 2 ∧ t.reads = s.reads + 7 := by
  refine ⟨__pixpll_ops_powerup hw (__pixpll_ops_untoggle_param hw (__pixpll_ops_set_param hw
      (__pixpll_ops_toggle_param hw (__pixpll_ops_powerdown hw (__pixpll_ops_off hw
        (__pixpll_ops_bypass hw s)))) pin)), ?_, ?_⟩
  · simp only [lsdc_pixpll_update, __pixpll_ops_on, __pixpll_ops_unbypass, reads_wreg_rreg]
  · simp only [__pixpll_ops_powerup, __pixpll_ops_untoggle_param, __pixpll_ops_set_param,
      __pixpll_ops_toggle_param, __pixpll_ops_powerdown, __pixpll_ops_off, __pixpll_ops_bypass,
      reads_wreg_rreg]

/-- When no read of word 0 shows the locked bit, the wait loop of
`ls2k1000_pixpll_param_update` entered with `counter = c` makes `2000 - c`
reads and ends with `counter = 2000`. -/
theorem ls2k1000_wait_loop_never (hw : Hardware)
    (hnl : ∀ n v, hw n 0 v % U32 &&& 0x10000 = 0)
    (c : Nat) (s : Mmio) (hc : c < 2000) :
    (ls2k1000_wait_loop hw c s).2.1 = 2000 ∧
    (ls2k1000_wait_loop hw c s).2.2.reads = s.reads + (2000 - c) := by
  induction c, s using ls2k1000_wait_loop.induct hw with
  | case1 c s r val locked h ih =>
    rw [ls2k1000_wait_loop_unfold, if_pos h]
    obtain ⟨h1, hr⟩ := ih h.2
    refine ⟨h1, ?_⟩
    rw [hr]; simp [r, readl_log, Mmio.reads, List.filter_append]; omega
  | case2 c s r val locked h =>
    rw [ls2k1000_wait_loop_unfold, if_neg h]
    have hv : (readl hw s 0).1 &&& 0x10000 = 0 := hnl _ _
    have hc2 : ¬ c + 1 < 2000 := by
      intro hlt
      apply h
      refine ⟨?_, hlt⟩
      simp [locked, val, r, hv]
    refine ⟨by simp only; omega, ?_⟩
    simp [readl_log, Mmio.reads, List.filter_append]; omega

/-- The counter that `ls2k1000_pixpll_param_update` reports is the one its
wait loop ends with, and the call returns 0. -/
theorem ls2k1000_update_never (hw : Hardware)
    (hnl : ∀ n v, hw n 0 v % U32 &&& 0x10000 = 0) (pin : lsdc_pixpll_parms) (s : Mmio) :
    (ls2k1000_pixpll_param_update hw pin s).1 = 0 ∧
    (ls2k1000_pixpll_param_update hw pin s).2.1 = 2000 := by
  refine ⟨rfl, ?_⟩
  unfold ls2k1000_pixpll_param_update
  simp only []
  exact (ls2k1000_wait_loop_never hw hnl 0 _ (by decide)).1

/-- Word 0 left by `ls2k1000_pixpll_param_update` on a device that stores what
is written and may drive the locked bit: the constant `(1 << 7) | (3 << 10)`
with `div_ref` in its field, `sw_adj_en = 1`, `powerdown = 0`, `sel_out = 1`
and the locked bit as the device drove it at the last poll. -/
theorem ls2k1000_update_word0 (hw : Hardware) (h : lock_only ls2k1000_pixpll_reg.locked hw)
    (pin : lsdc_pixpll_parms) (s : Mmio) :
    ∃ b, (ls2k1000_pixpll_param_update hw pin s).2.2.mem 0 =
      ls2k1000_pixpll_reg.locked.set (ls2k1000_pixpll_reg.sel_out.set
        (ls2k1000_pixpll_reg.powerdown.set (ls2k1000_pixpll_reg.sw_adj_en.set
          (ls2k1000_pixpll_reg.div_ref.set ((1 <<< 7) ||| (3 <<< 10)) pin.div_ref) 1) 0) 1) b ∧
      (ls2k1000_pixpll_param_update hw pin s).2.2.mem 0 < 2 ^ 32 := by
  obtain ⟨r1, r2, r3, r4, -, h2lt, h3lt, h4lt, -, p2, p3, p4, hm, -⟩ :=
    ls2k1000_update_chain hw
      (fun off v r => (off = 0 → ∃ b, r = ls2k1000_pixpll_reg.locked.set v b) ∧ (off ≠ 0 → r = v))
      (fun n off v => lock_only_P32 _ (by decide) hw h n off v) pin s
  have lt : ∀ (f : BitField) (x c : Nat), f.lo + f.width ≤ 32 → x < 2 ^ 32 →
      f.set x c < 2 ^ 32 := fun f x c hf hx => BitField.set_lt f x c 32 hx hf
  rw [ls2k1000_stage_word, mod_U32_of_lt _ (ls2k1000_stage_word_lt _)] at p3
  obtain ⟨b3, e3⟩ := p3.1 rfl
  have hTlt := lt (BitField.mk 19 1) _ 0 (by decide) (lt (BitField.mk 2 1) _ 1 (by decide) h3lt)
  rw [ls2k1000_powerup_word _ h3lt, mod_U32_of_lt _ hTlt] at p4
  obtain ⟨b4, e4⟩ := p4.1 rfl
  have hlt1 : r4 ||| 1 < 2 ^ 32 := by
    rw [or_one_eq]; exact lt _ _ _ (by decide) h4lt
  refine ⟨b4, ?_, ?_⟩
  · rw [hm, mem_with_word_same, mod_U32_of_lt _ hlt1, or_one_eq, e4, e3]
    apply Nat.eq_of_testBit_eq
    intro i
    simp only [BitField.testBit_set, ls2k1000_pixpll_reg.locked, ls2k1000_pixpll_reg.sel_out,
      ls2k1000_pixpll_reg.powerdown, ls2k1000_pixpll_reg.sw_adj_en, ls2k1000_pixpll_reg.div_ref]
    split_ifs <;> first | rfl | omega
  · rw [hm, mem_with_word_same]
    exact Nat.mod_lt _ (by decide)

/-- The words 1 and 2 left by `ls2k1000_pixpll_param_update` and the words it
leaves alone, on a device that stores what is written and may drive the locked
bit. -/
theorem ls2k1000_update_other_words (hw : Hardware)
    (h : lock_only ls2k1000_pixpll_reg.locked hw) (pin : lsdc_pixpll_parms) (s : Mmio) :
    (ls2k1000_pixpll_param_update hw pin s).2.2.mem 4 =
      (((s.mem 4 % U32) &&& not32 0x0fff) ||| pin.loopc) % U32 ∧
    (ls2k1000_pixpll_param_update hw pin s).2.2.mem 8 = pin.div_out % U32 ∧
    ∀ a, a ≠ 0 → a ≠ 4 → a ≠ 8 → (ls2k1000_pixpll_param_update hw pin s).2.2.mem a = s.mem a := by
  obtain ⟨r1, r2, r3, r4, -, -, -, -, -, p2, -, -, hm, -⟩ :=
    ls2k1000_update_chain hw
      (fun off v r => (off = 0 → ∃ b, r = ls2k1000_pixpll_reg.locked.set v b) ∧ (off ≠ 0 → r = v))
      (fun n off v => lock_only_P32 _ (by decide) hw h n off v) pin s
  have e2 : r2 = s.mem 4 % U32 := p2.2 (by decide)
  rw [hm, e2]
  refine ⟨?_, ?_, ?_⟩
  · rw [mem_with_word_other _ _ _ _ (by decide), mem_with_word_other _ _ _ _ (by decide),
      mem_with_word_same]
  · rw [mem_with_word_other _ _ _ _ (by decide), mem_with_word_same]
  · intro a h0 h4 h8
    rw [mem_with_word_other _ _ _ _ h0, mem_with_word_other _ _ _ _ h8,
      mem_with_word_other _ _ _ _ h4]

/-- When the wait loop of ls2k0300 returns, one of its polls read the locked
bit as set. -/
theorem ls2k0300_wait_loop_of_some (hw : Hardware) (fuel : Nat) :
    ∀ (c : Nat) (s : Mmio) (w : Nat × Nat × Mmio), ls2k0300_wait_loop hw fuel c s = some w →
      ∃ j, j < fuel ∧ hw (s.log.length + j) 0 (s.mem 0 % U32) % U32 &&& 0x80 ≠ 0 := by
  induction fuel with
  | zero =>
    intro c s w h
    simp [ls2k0300_wait_loop] at h
  | succ fuel ih =>
    intro c s w h
    by_cases h0 : (readl hw s 0).1 &&& 0x80 = 0
    · rw [ls2k0300_wait_loop_miss hw s c fuel h0] at h
      obtain ⟨j, hj, hl⟩ := ih _ _ _ h
      have hlen : (readl hw s 0).2.log.length = s.log.length + 1 := by simp [readl_log]
      rw [hlen, readl_mem] at hl
      refine ⟨j + 1, by omega, ?_⟩
      have : s.log.length + (j + 1) = s.log.length + 1 + j := by omega
      rw [this]; exact hl
    · exact ⟨0, by omega, h0⟩

/-- When `ls2k0300_pixpll_param_update` returns, one of the polls of its wait
loop, which starts after seven accesses on a word 0 holding the dividers with
bypass and powerdown cleared, read the locked bit as set. -/
theorem ls2k0300_update_of_some (hw : Hardware) (fuel : Nat) (pin : lsdc_pixpll_parms)
    (s : Mmio) (r : Int × Nat × Mmio) (h : ls2k0300_pixpll_param_update hw fuel pin s = some r) :
    ∃ j, j < fuel ∧ hw (s.log.length + 7 + j) 0
      ((((((pin.div_out <<< 24) % U32) ||| ((pin.loopc <<< 15) % U32) |||
        ((pin.div_ref <<< 8) % U32)) &&& not64 (1 <<< 4)) &&& not64 (1 <<< 5)) % U32) % U32
      &&& 0x80 ≠ 0 := by
  unfold ls2k0300_pixpll_param_update at h
  simp only [] at h
  generalize hS : writel (writel (writel _ _ 0) _ 0) _ 0 = S at h
  have eSl : S.log.length = s.log.length + 7 := by
    rw [← hS]; simp [writel_log, readl_log]
  have eSm : S.mem 0 = (((((pin.div_out <<< 24) % U32) ||| ((pin.loopc <<< 15) % U32) |||
        ((pin.div_ref <<< 8) % U32)) &&& not64 (1 <<< 4)) &&& not64 (1 <<< 5)) % U32 := by
    rw [← hS, writel_mem, mem_with_word_same]
  cases hw' : ls2k0300_wait_loop hw fuel 0 S with
  | none => rw [hw'] at h; simp at h
  | some w =>
    obtain ⟨j, hj, hl⟩ := ls2k0300_wait_loop_of_some hw fuel 0 S w hw'
    rw [eSl, eSm, Nat.mod_mod] at hl
    exact ⟨j, hj, hl⟩

/-- The value `(div_out << 24) | (loopc << 15) | (div_ref << 8)` fits in 32
bits and has its low eight bits clear. -/
theorem ls2k0300_val_lt (o l r : Nat) :
    ((o <<< 24) % U32) ||| ((l <<< 15) % U32) ||| ((r <<< 8) % U32) < 2 ^ 32 :=
  Nat.or_lt_two_pow (Nat.or_lt_two_pow (Nat.mod_lt _ (by decide)) (Nat.mod_lt _ (by decide)))
    (Nat.mod_lt _ (by decide))

theorem ls2k0300_val_low (o l r i : Nat) (hi : i < 8) :
    (((o <<< 24) % U32) ||| ((l <<< 15) % U32) ||| ((r <<< 8) % U32)).testBit i = false := by
  have hU : U32 = 2 ^ 32 := rfl
  simp only [hU, Nat.testBit_or, Nat.testBit_mod_two_pow, Nat.testBit_shiftLeft]
  have h1 : ¬ i ≥ 24 := by omega
  have h2 : ¬ i ≥ 15 := by omega
  have h3 : ¬ i ≥ 8 := by omega
  simp [h1, h2, h3]

/-- The word left by `ls2k0300_pixpll_param_update` when it returns, on a
device that stores what is written and may drive the locked bit: the value
`(div_out << 24) | (loopc << 15) | (div_ref << 8)` with `bypass = 0`,
`powerdown = 0`, `sel_out = 1` and the locked bit as read by the last poll. -/
theorem ls2k0300_update_word_of_some (hw : Hardware)
    (h : lock_only ls2k0300_pixpll_bitmap.locked hw) (fuel : Nat) (pin : lsdc_pixpll_parms)
    (s : Mmio) (r : Int × Nat × Mmio)
    (hr : ls2k0300_pixpll_param_update hw fuel pin s = some r) :
    r.1 = 0 ∧ ∃ b, r.2.2.mem = mem_with_word s.mem 0
      (ls2k0300_pixpll_bitmap.sel_out.set (ls2k0300_pixpll_bitmap.locked.set
        (ls2k0300_pixpll_bitmap.powerdown.set (ls2k0300_pixpll_bitmap.bypass.set
          (((pin.div_out <<< 24) % U32) ||| ((pin.loopc <<< 15) % U32) |||
            ((pin.div_ref <<< 8) % U32)) 0) 0) b) 1) ∧
      ls2k0300_pixpll_bitmap.sel_out.set (ls2k0300_pixpll_bitmap.locked.set
        (ls2k0300_pixpll_bitmap.powerdown.set (ls2k0300_pixpll_bitmap.bypass.set
          (((pin.div_out <<< 24) % U32) ||| ((pin.loopc <<< 15) % U32) |||
            ((pin.div_ref <<< 8) % U32)) 0) 0) b) 1 < 2 ^ 32 := by
  obtain ⟨j, hj, hl⟩ := ls2k0300_update_of_some hw fuel pin s r hr
  obtain ⟨r1, r2, r3, cnt, t, hres, -, -, -, -, -, p3, -, hm, -⟩ :=
    ls2k0300_update_chain_at hw (fun v r => ∃ b, r = ls2k0300_pixpll_bitmap.locked.set v b)
      (fun n v => (lock_only_P32 _ (by decide) hw h n 0 v).1 rfl) pin s fuel j hj hl
  have hrt : r = (0, cnt, t) := Option.some.inj (hr.symm.trans hres)
  have lt : ∀ (f : BitField) (x c : Nat), f.lo + f.width ≤ 32 → x < 2 ^ 32 →
      f.set x c < 2 ^ 32 := fun f x c hf hx => BitField.set_lt f x c 32 hx hf
  have hVlt := ls2k0300_val_lt pin.div_out pin.loopc pin.div_ref
  have h64 : ∀ x, x < 2 ^ 32 → x < 2 ^ 64 := fun x hx => lt_trans hx (by decide)
  have hm4 : (1 <<< 4 : Nat) = ls2k0300_pixpll_bitmap.bypass.mask := by decide
  have hm5 : (1 <<< 5 : Nat) = ls2k0300_pixpll_bitmap.powerdown.mask := by decide
  have hWlt := lt ls2k0300_pixpll_bitmap.powerdown _ 0 (by decide)
    (lt ls2k0300_pixpll_bitmap.bypass _ 0 (by decide) hVlt)
  rw [hm4, and_not64_mask _ (by decide) _ (h64 _ hVlt), hm5,
    and_not64_mask _ (by decide) _ (h64 _ (lt _ _ _ (by decide) hVlt)),
    mod_U32_of_lt _ hWlt] at p3
  obtain ⟨b, e3⟩ := p3
  have e1 : r3 ||| 1 = ls2k0300_pixpll_bitmap.sel_out.set r3 1 := by
    have hm0 : (1 : Nat) = ls2k0300_pixpll_bitmap.sel_out.mask := by decide
    conv_lhs => rw [hm0]
    rw [or_mask]
    rfl
  rw [hrt]
  refine ⟨rfl, b, ?_, ?_⟩
  · show t.mem = _
    rw [hm, e1, e3]
  · exact lt _ _ _ (by decide) (lt _ _ _ (by decide) hWlt)

/-- The locked bit of the canonical layout never reads as set on a device
that drives it low. -/
theorem canonical_never_locked (n v : Nat) :
    lsdc_pixpll_reg.locked.get
      (locking_hw lsdc_pixpll_reg.locked (fun _ => false) n 0 v % 2 ^ 64) = 0 := by
  rw [BitField.get_mod _ _ 64 (by decide)]
  simp only [locking_hw, if_true]
  rw [BitField.get_set_same]
  rfl

/-- The locked bit of ls2k1000 never reads as set on a device that drives it
low. -/
theorem ls2k1000_never_locked (n v : Nat) :
    locking_hw ls2k1000_pixpll_reg.locked (fun _ => false) n 0 v % U32 &&& 0x10000 = 0 := by
  by_contra hne
  have h16 : (0x10000 : Nat) = 1 <<< 16 := by decide
  rw [h16] at hne
  have h1 := (and_bit_ne_zero 16 _).1 hne
  rw [BitField.get_mod_U32 _ _ (by decide)] at h1
  simp only [locking_hw, if_true, Bool.false_eq_true, if_false] at h1
  have h2 := BitField.get_set_same ls2k1000_pixpll_reg.locked v 0
  have h3 : (BitField.mk 16 1).get (ls2k1000_pixpll_reg.locked.set v 0) = 0 := h2
  omega

/-- When no read shows the locked bit, `lsdc_pixpll_update` makes 2009 reads:
nine by its read-modify-write steps and 2000 by the wait. -/
theorem update_reads_never (hw : Hardware)
    (hnl : ∀ n v, lsdc_pixpll_reg.locked.get (hw n 0 v % 2 ^ 64) = 0)
    (pin : lsdc_pixpll_parms) (s : Mmio) :
    (lsdc_pixpll_update hw pin s).2.reads = s.reads + 2009 := by
  obtain ⟨t, h1, h2⟩ := update_reads hw pin s
  rw [h1, show (__pixpll_ops_wait_locked hw t).2.reads = t.reads + (2000 - 0) from
    (wait_loop_never hw hnl 0 t (by decide)).2, h2]

/-- The operation `val | (1 << lo)` on a 32-bit value sets the bit. -/
theorem or_bit_get (lo r : Nat) (hlo : lo + 1 ≤ 32) :
    (BitField.mk lo 1).get ((r ||| (1 <<< lo)) % U32) = 1 := by
  have hm : (1 <<< lo : Nat) = (BitField.mk lo 1).mask := rfl
  rw [BitField.get_mod_U32 _ _ hlo, hm, or_mask, BitField.get_set_same]
  rfl

/-! ## Further facts about `lsdc_pixel_pll_compute` and the table -/

/-- A call of `lsdc_pixel_pll_compute` that returns 0 either hit the table,
and then it stored the dividers of an entry with the requested clock in the
output and left the cached parameters alone, or missed it, and then it stored
a legal triple of diff below the tolerance in both. -/
theorem compute_zero_cases (priv : lsdc_pixpll_parms) (clock : Nat) (pout : lsdc_pixpll_parms)
    (hret : (lsdc_pixel_pll_compute priv clock pout).ret = 0) :
    (∃ e ∈ pixpll_parms_table, e.clock = clock ∧
      lsdc_pixel_pll_compute priv clock pout =
        { ret := 0,
          pout := { pout with div_ref := e.div_ref, loopc := e.loopc, div_out := e.div_out },
          priv := priv }) ∨
    ((∀ e ∈ pixpll_parms_table, e.clock ≠ clock) ∧ ∃ t : Nat × Nat × Nat,
      lsdc_pixel_pll_compute priv clock pout =
        { ret := 0, pout := store_triple priv t, priv := store_triple priv t } ∧
      legal_triple t.1 t.2.1 t.2.2 ∧
      pll_diff priv.ref_clock clock t.1 t.2.1 t.2.2 < tolerance) := by
  by_cases h : ∃ e ∈ pixpll_parms_table, e.clock = clock
  · exact Or.inl (compute_of_hit priv clock pout h)
  · have hmiss : ∀ e ∈ pixpll_parms_table, e.clock ≠ clock := fun e he hc => h ⟨e, he, hc⟩
    obtain ⟨t, hc, hleg, hlt, -⟩ := compute_success priv clock pout hmiss hret
    exact Or.inr ⟨hmiss, t, hc, hleg, hlt⟩

/-- A call of `lsdc_pixel_pll_compute` that does not return 0 missed the table
and found no legal triple of diff below the tolerance; it returns the
tolerance and leaves both parameter sets alone. -/
theorem compute_nonzero (priv : lsdc_pixpll_parms) (clock : Nat) (pout : lsdc_pixpll_parms)
    (hret : (lsdc_pixel_pll_compute priv clock pout).ret ≠ 0) :
    (∀ e ∈ pixpll_parms_table, e.clock ≠ clock) ∧
    lsdc_pixel_pll_compute priv clock pout =
      { ret := (tolerance : Int), pout := pout, priv := priv } := by
  have hmiss : ∀ e ∈ pixpll_parms_table, e.clock ≠ clock := by
    intro e he hc
    obtain ⟨e', _, _, hf⟩ := compute_of_hit priv clock pout ⟨e, he, hc⟩
    rw [hf] at hret
    exact hret rfl
  refine ⟨hmiss, ?_⟩
  rw [compute_of_miss priv clock pout hmiss] at hret ⊢
  by_cases hlt : (search_result priv clock).min < tolerance
  · rw [if_pos hlt] at hret
    exact absurd rfl hret
  · rw [if_neg hlt]

/-- With the 100 MHz reference every table entry yields a clock less than the
tolerance away from its own. -/
theorem table_entry_diff :
    ∀ e ∈ pixpll_parms_table, pll_diff 100000 e.clock e.div_out e.div_ref e.loopc < tolerance := by
  decide

/-- The clocks of the table are pairwise different. -/
theorem table_clocks_nodup : (pixpll_parms_table.map fun e => e.clock).Nodup := by
  decide

/-- With the 100 MHz reference the product of the formula cannot wrap for a
multiplier below 161. -/
theorem no_wrap_100000 (r l : Nat) (hl : l < 161) : 100000 / r * l < U32 := by
  have h1 : 100000 / r ≤ 100000 := Nat.div_le_self _ _
  have h2 : 100000 / r * l ≤ 100000 * 161 := Nat.mul_le_mul h1 (by omega)
  unfold U32
  omega

/-- The lookup gives the same result on any rearrangement of a table in which
entries of equal clock have equal dividers. -/
theorem find_from_perm (L M : List clk_to_pixpll_parms_lookup_t) (hperm : M.Perm L)
    (hcons : ∀ e1 ∈ L, ∀ e2 ∈ L, e1.clock = e2.clock →
      e1.div_out = e2.div_out ∧ e1.loopc = e2.loopc ∧ e1.div_ref = e2.div_ref)
    (clock : Nat) (pout : lsdc_pixpll_parms) :
    lsdc_pixpll_find_from M clock pout = lsdc_pixpll_find_from L clock pout := by
  by_cases h : ∃ e ∈ L, e.clock = clock
  · obtain ⟨e, he, hc, hf⟩ := find_from_hit L clock pout h
    obtain ⟨e0, he0, hc0⟩ := h
    obtain ⟨e', he', hc', hf'⟩ := find_from_hit M clock pout
      ⟨e0, hperm.symm.subset he0, hc0⟩
    obtain ⟨h1, h2, h3⟩ := hcons e' (hperm.subset he') e he (hc'.trans hc.symm)
    rw [hf, hf', h1, h2, h3]
  · have hL : ∀ e ∈ L, e.clock ≠ clock := fun e he hc => h ⟨e, he, hc⟩
    have hM : ∀ e ∈ M, e.clock ≠ clock := fun e he => hL e (hperm.subset he)
    rw [find_from_miss L clock pout hL, find_from_miss M clock pout hM]

/-- Entries of the table with equal clocks have equal dividers. -/
theorem table_consistent : ∀ e1 ∈ pixpll_parms_table, ∀ e2 ∈ pixpll_parms_table,
    e1.clock = e2.clock →
      e1.div_out = e2.div_out ∧ e1.loopc = e2.loopc ∧ e1.div_ref = e2.div_ref := by
  decide

/-! ## How the bounded wait loops end -/

/-- How the wait loop of `__pixpll_ops_wait_locked` entered with `counter = c`
ends: at the first poll `k` that reads the locked bit as set, with
`counter = c + k`, or, when none of its `2000 - c` polls does, with
`counter = 2000`.  Poll number `i` is access number `s.log.length + i`. -/
theorem wait_loop_cases (hw : Hardware) (c : Nat) (s : Mmio) (hc : c < 2000) :
    (∃ k, c + k < 2000 ∧
      (∀ i, i < k → lsdc_pixpll_reg.locked.get
        (hw (s.log.length + i) 0 (stored64 s.mem 0) % 2 ^ 64) = 0) ∧
      lsdc_pixpll_reg.locked.get (hw (s.log.length + k) 0 (stored64 s.mem 0) % 2 ^ 64) ≠ 0 ∧
      (pixpll_wait_locked_loop hw c s).1 = c + k) ∨
    ((∀ i, i < 2000 - c → lsdc_pixpll_reg.locked.get
        (hw (s.log.length + i) 0 (stored64 s.mem 0) % 2 ^ 64) = 0) ∧
      (pixpll_wait_locked_loop hw c s).1 = 2000) := by
  induction c, s using pixpll_wait_locked_loop.induct hw with
  | case1 c s r h =>
    rw [pixpll_wait_locked_loop_unfold, if_pos h]
    exact Or.inl ⟨0, hc, fun i hi => absurd hi (Nat.not_lt_zero i), h, rfl⟩
  | case2 c s r h h2 ih =>
    rw [pixpll_wait_locked_loop_unfold, if_neg h, if_pos h2]
    have h0 : lsdc_pixpll_reg.locked.get (hw (s.log.length + 0) 0 (stored64 s.mem 0) % 2 ^ 64)
        = 0 := by simpa [r, rreg_val] using h
    have hlen : r.2.log.length = s.log.length + 1 := by simp [r, rreg_log]
    have hmem : r.2.mem = s.mem := rfl
    rcases ih h2 with ⟨k, hk, hpre, hat, hcnt⟩ | ⟨hall, hcnt⟩
    · left
      refine ⟨k + 1, by omega, ?_, ?_, by rw [hcnt]; omega⟩
      · intro i hi
        rcases Nat.eq_zero_or_pos i with rfl | hpos
        · exact h0
        · have := hpre (i - 1) (by omega)
          rw [hlen, hmem] at this
          have e : s.log.length + 1 + (i - 1) = s.log.length + i := by omega
          rw [e] at this
          exact this
      · rw [hlen, hmem] at hat
        have e : s.log.length + 1 + k = s.log.length + (k + 1) := by omega
        rw [e] at hat
        exact hat
    · right
      refine ⟨?_, hcnt⟩
      intro i hi
      rcases Nat.eq_zero_or_pos i with rfl | hpos
      · exact h0
      · have := hall (i - 1) (by omega)
        rw [hlen, hmem] at this
        have e : s.log.length + 1 + (i - 1) = s.log.length + i := by omega
        rw [e] at this
        exact this
  | case3 c s r h h2 =>
    rw [pixpll_wait_locked_loop_unfold, if_neg h, if_neg h2]
    have h0 : lsdc_pixpll_reg.locked.get (hw (s.log.length + 0) 0 (stored64 s.mem 0) % 2 ^ 64)
        = 0 := by simpa [r, rreg_val] using h
    right
    refine ⟨?_, by simp only; omega⟩
    intro i hi
    have : i = 0 := by omega
    rw [this]
    exact h0

/-- How the wait loop of `ls2k1000_pixpll_param_update` entered with
`counter = c` ends: at the first poll `k` that reads the locked bit as set,
with `counter = c + k + 1` and that poll's value, or, when none of its
`2000 - c` polls does, with `counter = 2000`.  Poll number `i` is access
number `s.log.length + i`. -/
theorem ls2k1000_wait_loop_cases (hw : Hardware) (c : Nat) (s : Mmio) (hc : c < 2000) :
    (∃ k, c + k < 2000 ∧
      (∀ i, i < k → hw (s.log.length + i) 0 (s.mem 0 % U32) % U32 &&& 0x10000 = 0) ∧
      hw (s.log.length + k) 0 (s.mem 0 % U32) % U32 &&& 0x10000 ≠ 0 ∧
      (ls2k1000_wait_loop hw c s).2.1 = c + k + 1 ∧
      (ls2k1000_wait_loop hw c s).1 = hw (s.log.length + k) 0 (s.mem 0 % U32) % U32) ∨
    ((∀ i, i < 2000 - c → hw (s.log.length + i) 0 (s.mem 0 % U32) % U32 &&& 0x10000 = 0) ∧
      (ls2k1000_wait_loop hw c s).2.1 = 2000) := by
  induction c, s using ls2k1000_wait_loop.induct hw with
  | case1 c s r val locked h ih =>
    rw [ls2k1000_wait_loop_unfold, if_pos h]
    have h0 : hw (s.log.length + 0) 0 (s.mem 0 % U32) % U32 &&& 0x10000 = 0 := by
      have := h.1
      simpa [locked, val, r, readl_val] using this
    have hlen : r.2.log.length = s.log.length + 1 := by simp [r, readl_log]
    have hmem : r.2.mem = s.mem := rfl
    rcases ih h.2 with ⟨k, hk, hpre, hat, hcnt, hval⟩ | ⟨hall, hcnt⟩
    · left
      have e : s.log.length + 1 + k = s.log.length + (k + 1) := by omega
      refine ⟨k + 1, by omega, ?_, ?_, by rw [hcnt]; omega, ?_⟩
      · intro i hi
        rcases Nat.eq_zero_or_pos i with rfl | hpos
        · exact h0
        · have := hpre (i - 1) (by omega)
          rw [hlen, hmem] at this
          have e : s.log.length + 1 + (i - 1) = s.log.length + i := by omega
          rw [e] at this
          exact this
      · rw [hlen, hmem, e] at hat
        exact hat
      · rw [hval, hlen, hmem, e]
    · right
      refine ⟨?_, hcnt⟩
      intro i hi
      rcases Nat.eq_zero_or_pos i with rfl | hpos
      · exact h0
      · have := hall (i - 1) (by omega)
        rw [hlen, hmem] at this
        have e : s.log.length + 1 + (i - 1) = s.log.length + i := by omega
        rw [e] at this
        exact this
  | case2 c s r val locked h =>
    rw [ls2k1000_wait_loop_unfold, if_neg h]
    by_cases hl : hw (s.log.length + 0) 0 (s.mem 0 % U32) % U32 &&& 0x10000 = 0
    · right
      have hc2 : ¬ c + 1 < 2000 := by
        intro hlt
        apply h
        refine ⟨?_, hlt⟩
        have : (readl hw s 0).1 &&& 0x10000 = 0 := hl
        simp [locked, val, r, this]
      refine ⟨?_, by simp only; omega⟩
      intro i hi
      have : i = 0 := by omega
      rw [this]
      exact hl
    · left
      exact ⟨0, hc, fun i hi => absurd hi (Nat.not_lt_zero i), hl, rfl, rfl⟩

/-- On a device that drives the locked bit of ls2k1000, a read of word 0 shows
the bit exactly when the device drives it high at that access. -/
theorem ls2k1000_locked_read (L : Nat → Bool) (n v : Nat) :
    locking_hw ls2k1000_pixpll_reg.locked L n 0 v % U32 &&& 0x10000 ≠ 0 ↔ L n = true := by
  have h16 : (0x10000 : Nat) = 1 <<< 16 := by decide
  rw [h16, and_bit_ne_zero, BitField.get_mod_U32 _ _ (by decide)]
  simp only [locking_hw, if_true]
  have hs : ∀ b, (BitField.mk 16 1).get (ls2k1000_pixpll_reg.locked.set v b) = b % 2 ^ 1 :=
    fun b => BitField.get_set_same ls2k1000_pixpll_reg.locked v b
  cases hL : L n
  · simp [hs]
  · simp [hs]

/-- The wait loop of `ls2k1000_pixpll_param_update` starts after eleven
accesses; the call reports the counter of the loop and writes back what the
last poll read, with bit 0 set. -/
theorem ls2k1000_update_wait (hw : Hardware) (pin : lsdc_pixpll_parms) (s : Mmio) :
    ∃ S : Mmio, S.log.length = s.log.length + 11 ∧
      (ls2k1000_pixpll_param_update hw pin s).2.1 = (ls2k1000_wait_loop hw 0 S).2.1 ∧
      (ls2k1000_pixpll_param_update hw pin s).2.2.mem 0 =
        ((ls2k1000_wait_loop hw 0 S).1 ||| 1) % U32 := by
  unfold ls2k1000_pixpll_param_update
  simp only []
  refine ⟨_, ?_, rfl, ?_⟩
  · simp [writel_log, readl_log]
  · rw [writel_mem, mem_with_word_same]

/-! ## The byte offsets accessed -/

theorem stays_within_refl (n : Nat) (s : Mmio) : Mmio.stays_within n s s :=
  ⟨[], by simp, fun a ha => by cases ha⟩

theorem stays_within_trans {n : Nat} {s t u : Mmio} (h1 : Mmio.stays_within n s t)
    (h2 : Mmio.stays_within n t u) : Mmio.stays_within n s u := by
  obtain ⟨l1, e1, p1⟩ := h1
  obtain ⟨l2, e2, p2⟩ := h2
  refine ⟨l1 ++ l2, by rw [e2, e1, List.append_assoc], ?_⟩
  intro a ha
  rcases List.mem_append.1 ha with h | h
  · exact p1 a h
  · exact p2 a h

theorem stays_within_mono {n m : Nat} (hnm : n ≤ m) {s t : Mmio}
    (h : Mmio.stays_within n s t) : Mmio.stays_within m s t := by
  obtain ⟨l, e, p⟩ := h
  exact ⟨l, e, fun a ha => le_trans (p a ha) hnm⟩

theorem stays_within_readl (hw : Hardware) (s : Mmio) (off : Nat) :
    Mmio.stays_within (off + 4) s (readl hw s off).2 :=
  ⟨[Access.read off 4 (readl hw s off).1], rfl, by
    intro a ha
    rw [List.mem_singleton.1 ha]
    exact le_refl _⟩

theorem stays_within_writel (s : Mmio) (val off : Nat) :
    Mmio.stays_within (off + 4) s (writel s val off) :=
  ⟨[Access.write off 4 (val % U32)], rfl, by
    intro a ha
    rw [List.mem_singleton.1 ha]
    exact le_refl _⟩

theorem stays_within_rreg (hw : Hardware) (s : Mmio) :
    Mmio.stays_within 8 s (__pixpll_rreg hw s).2 :=
  ⟨[Access.read 0 8 (__pixpll_rreg hw s).1], rfl, by
    intro a ha
    rw [List.mem_singleton.1 ha]
    exact le_refl _⟩

theorem stays_within_wreg (s : Mmio) (v : Nat) :
    Mmio.stays_within 8 s (__pixpll_wreg s v) :=
  ⟨[Access.write 0 8 (v % U64)], rfl, by
    intro a ha
    rw [List.mem_singleton.1 ha]
    exact le_refl _⟩

theorem stays_within_then_readl {n : Nat} {s t : Mmio} (hw : Hardware) (off : Nat)
    (hoff : off + 4 ≤ n) (h : Mmio.stays_within n s t) :
    Mmio.stays_within n s (readl hw t off).2 :=
  stays_within_trans h (stays_within_mono hoff (stays_within_readl hw t off))

theorem stays_within_then_writel {n : Nat} {s t : Mmio} (val off : Nat)
    (hoff : off + 4 ≤ n) (h : Mmio.stays_within n s t) :
    Mmio.stays_within n s (writel t val off) :=
  stays_within_trans h (stays_within_mono hoff (stays_within_writel t val off))

theorem stays_within_then_rmw {s t : Mmio} (hw : Hardware) (v : Nat)
    (h : Mmio.stays_within 8 s t) :
    Mmio.stays_within 8 s (__pixpll_wreg (__pixpll_rreg hw t).2 v) :=
  stays_within_trans h (stays_within_trans (stays_within_rreg hw t) (stays_within_wreg _ _))

theorem stays_within_wait_loop (hw : Hardware) (c : Nat) (s : Mmio) :
    Mmio.stays_within 8 s (pixpll_wait_locked_loop hw c s).2 := by
  induction c, s using pixpll_wait_locked_loop.induct hw with
  | case1 c s r h =>
    rw [pixpll_wait_locked_loop_unfold, if_pos h]
    exact stays_within_rreg hw s
  | case2 c s r h h2 ih =>
    rw [pixpll_wait_locked_loop_unfold, if_neg h, if_pos h2]
    exact stays_within_trans (stays_within_rreg hw s) ih
  | case3 c s r h h2 =>
    rw [pixpll_wait_locked_loop_unfold, if_neg h, if_neg h2]
    exact stays_within_rreg hw s

/-- Every access of `lsdc_pixpll_update` lies in the first eight bytes of the
register window. -/
theorem stays_within_update (hw : Hardware) (pin : lsdc_pixpll_parms) (s : Mmio) :
    Mmio.stays_within 8 s (lsdc_pixpll_update hw pin s).2 := by
  unfold lsdc_pixpll_update __pixpll_ops_unbypass __pixpll_ops_on __pixpll_ops_wait_locked
    __pixpll_ops_powerup __pixpll_ops_untoggle_param __pixpll_ops_set_param
    __pixpll_ops_toggle_param __pixpll_ops_powerdown __pixpll_ops_off __pixpll_ops_bypass
  simp only []
  apply stays_within_then_rmw
  apply stays_within_then_rmw
  refine stays_within_trans ?_ (stays_within_wait_loop hw 0 _)
  apply stays_within_then_rmw
  apply stays_within_then_rmw
  apply stays_within_then_rmw
  apply stays_within_then_rmw
  apply stays_within_then_rmw
  apply stays_within_then_rmw
  apply stays_within_then_rmw
  exact stays_within_refl 8 s

theorem stays_within_ls2k1000_loop (hw : Hardware) (c : Nat) (s : Mmio) :
    Mmio.stays_within 4 s (ls2k1000_wait_loop hw c s).2.2 := by
  induction c, s using ls2k1000_wait_loop.induct hw with
  | case1 c s r val locked h ih =>
    rw [ls2k1000_wait_loop_unfold, if_pos h]
    exact stays_within_trans (stays_within_readl hw s 0) ih
  | case2 c s r val locked h =>
    rw [ls2k1000_wait_loop_unfold, if_neg h]
    exact stays_within_readl hw s 0

theorem stays_within_ls2k0300_loop (hw : Hardware) (fuel : Nat) :
    ∀ (c : Nat) (s : Mmio) (w : Nat × Nat × Mmio), ls2k0300_wait_loop hw fuel c s = some w →
      Mmio.stays_within 4 s w.2.2 := by
  induction fuel with
  | zero =>
    intro c s w h
    simp [ls2k0300_wait_loop] at h
  | succ fuel ih =>
    intro c s w h
    by_cases h0 : (readl hw s 0).1 &&& 0x80 = 0
    · rw [ls2k0300_wait_loop_miss hw s c fuel h0] at h
      exact stays_within_trans (stays_within_readl hw s 0) (ih _ _ _ h)
    · rw [ls2k0300_wait_loop_hit hw s c fuel h0] at h
      rw [← Option.some.inj h]
      exact stays_within_readl hw s 0

/-- Every access of `ls2k0300_pixpll_param_update` lies in the first four bytes
of the register window. -/
theorem stays_within_ls2k0300_update (hw : Hardware) (fuel : Nat) (pin : lsdc_pixpll_parms)
    (s : Mmio) (r : Int × Nat × Mmio) (h : ls2k0300_pixpll_param_update hw fuel pin s = some r) :
    Mmio.stays_within 4 s r.2.2 := by
  unfold ls2k0300_pixpll_param_update at h
  simp only [] at h
  generalize hS : writel (writel (writel _ _ 0) _ 0) _ 0 = S at h
  have hS' : Mmio.stays_within 4 s S := by
    rw [← hS]
    apply stays_within_then_writel _ _ (le_refl _)
    apply stays_within_then_writel _ _ (le_refl _)
    apply stays_within_then_writel _ _ (le_refl _)
    apply stays_within_then_readl _ _ (le_refl _)
    apply stays_within_then_writel _ _ (le_refl _)
    apply stays_within_then_writel _ _ (le_refl _)
    apply stays_within_then_readl _ _ (le_refl _)
    exact stays_within_refl 4 s
  cases hw' : ls2k0300_wait_loop hw fuel 0 S with
  | none => rw [hw'] at h; simp at h
  | some w =>
    rw [hw'] at h
    have hr : r = (0, w.2.1, writel w.2.2 (w.1 ||| 1) 0) := (Option.some.inj h).symm
    rw [hr]
    exact stays_within_trans hS' (stays_within_trans
      (stays_within_ls2k0300_loop hw fuel 0 S w hw') (stays_within_writel _ _ 0))

/-- The accesses of `ls2k1000_pixpll_param_update` include a 4-byte write of
`div_out` at byte offset 8, and all lie in the first twelve bytes of the
register window. -/
theorem ls2k1000_update_log (hw : Hardware) (pin : lsdc_pixpll_parms) (s : Mmio) :
    ∃ l, (ls2k1000_pixpll_param_update hw pin s).2.2.log = s.log ++ l ∧
      Access.write 8 4 (pin.div_out % U32) ∈ l ∧ ∀ a ∈ l, a.limit ≤ 12 := by
  unfold ls2k1000_pixpll_param_update
  simp only []
  generalize hA : writel (readl hw _ 4).2 _ 4 = A
  have hA' : Mmio.stays_within 12 s A := by
    rw [← hA]
    apply stays_within_then_writel _ _ (by decide)
    apply stays_within_then_readl _ _ (by decide)
    apply stays_within_then_writel _ _ (by decide)
    apply stays_within_then_writel _ _ (by decide)
    apply stays_within_then_writel _ _ (by decide)
    apply stays_within_then_writel _ _ (by decide)
    apply stays_within_then_writel _ _ (by decide)
    apply stays_within_then_readl _ _ (by decide)
    exact stays_within_refl 12 s
  generalize hB : writel (readl hw (writel A pin.div_out 8) 0).2 _ 0 = B
  have hB' : Mmio.stays_within 12 (writel A pin.div_out 8) B := by
    rw [← hB]
    apply stays_within_then_writel _ _ (by decide)
    apply stays_within_then_readl _ _ (by decide)
    exact stays_within_refl 12 _
  have hC : Mmio.stays_within 12 B
      (writel (ls2k1000_wait_loop hw 0 B).2.2 ((ls2k1000_wait_loop hw 0 B).1 ||| 1) 0) :=
    stays_within_then_writel _ _ (by decide)
      (stays_within_mono (by decide) (stays_within_ls2k1000_loop hw 0 B))
  obtain ⟨l1, e1, p1⟩ := hA'
  obtain ⟨l2, e2, p2⟩ := stays_within_trans hB' hC
  refine ⟨l1 ++ [Access.write 8 4 (pin.div_out % U32)] ++ l2, ?_, ?_, ?_⟩
  · rw [e2, writel_log, e1]
    simp only [List.append_assoc]
  · simp
  · intro a ha
    rcases List.mem_append.1 ha with h | h
    · rcases List.mem_append.1 h with h | h
      · exact p1 a h
      · rw [List.mem_singleton.1 h]
        exact le_refl _
    · exact p2 a h

/-! ## Further facts used by the properties -/

/-- What `lsdc_pixel_pll_compute` does for 3840x2160@60Hz (594000 kHz) with the
100 MHz reference: no legal triple comes within the tolerance, so it returns
1000 and leaves both parameter sets alone. -/
theorem compute_594000 (priv_div pout : lsdc_pixpll_parms) (href : priv_div.ref_clock = 100000) :
    lsdc_pixel_pll_compute priv_div 594000 pout =
      { ret := 1000, pout := pout, priv := priv_div } := by
  have hmiss : ∀ e ∈ pixpll_parms_table, e.clock ≠ 594000 := by decide
  have hall : ∀ o r l, legal_triple o r l →
      tolerance ≤ pll_diff priv_div.ref_clock 594000 o r l := by
    intro o r l hl
    rw [href]
    have hb := (clock_out_100000_bounds o r l hl).2
    unfold pll_diff tolerance
    simp only
    split_ifs <;> omega
  rw [compute_failure priv_div 594000 pout hmiss hall]
  rfl

/-- The dividers that a successful `lsdc_pixel_pll_compute` returns: `div_ref`
in [3,6), `loopc` in [6,161), `div_out` in [6,128) and not a multiple of 64. -/
theorem compute_zero_dividers (priv : lsdc_pixpll_parms) (clock : Nat) (pout : lsdc_pixpll_parms)
    (hret : (lsdc_pixel_pll_compute priv clock pout).ret = 0) :
    (3 ≤ (lsdc_pixel_pll_compute priv clock pout).pout.div_ref ∧
      (lsdc_pixel_pll_compute priv clock pout).pout.div_ref < 6) ∧
    (6 ≤ (lsdc_pixel_pll_compute priv clock pout).pout.loopc ∧
      (lsdc_pixel_pll_compute priv clock pout).pout.loopc < 161) ∧
    (6 ≤ (lsdc_pixel_pll_compute priv clock pout).pout.div_out ∧
      (lsdc_pixel_pll_compute priv clock pout).pout.div_out < 128) ∧
    (lsdc_pixel_pll_compute priv clock pout).pout.div_out % 64 ≠ 0 := by
  rcases compute_zero_cases priv clock pout hret with ⟨e, he, hc, hf⟩ | ⟨-, t, hf, hleg, -⟩
  · rw [hf]
    obtain ⟨-, -, h3, h4, h5, h6, h7, h8, h9, h10⟩ := table_entry_bounds e he
    refine ⟨⟨h3, h4⟩, ⟨h5, h6⟩, ⟨h7, h8⟩, ?_⟩
    simp only
    by_cases h25 : e.clock = 25175
    · rw [h10 h25]; decide
    · have := h9 h25
      omega
  · rw [hf]
    obtain ⟨⟨o1, o2⟩, ⟨r1, r2⟩, ⟨l1, l2⟩, -, -⟩ := hleg
    have o3 : t.1 < 128 := by omega
    have o4 : t.1 % 64 ≠ 0 := by omega
    exact ⟨⟨r1, r2⟩, ⟨l1, l2⟩, ⟨o1, o3⟩, o4⟩

/-- With non-zero divisors the readback formula has a value. -/
theorem rate_of_ne_none (ref a b c : Nat) (ha : a ≠ 0) (hc : c ≠ 0) :
    rate_of ref a b c ≠ none := by
  rw [(rate_of_some ref a b c ha hc).1]
  exact Option.some_ne_none _

/-- When `ls2k0300_pixpll_param_update` returns, on a device that stores what
is written and may drive the locked bit, the dividers decoded from the word it
leaves are those applied, provided each fits its field. -/
theorem ls2k0300_decode_of_some (hw : Hardware)
    (h : lock_only ls2k0300_pixpll_bitmap.locked hw) (fuel : Nat) (pin : lsdc_pixpll_parms)
    (h1 : pin.div_ref < 2 ^ 7) (h2 : pin.loopc < 2 ^ 9) (h3 : pin.div_out < 2 ^ 7)
    (s : Mmio) (r : Int × Nat × Mmio)
    (hr : ls2k0300_pixpll_param_update hw fuel pin s = some r) :
    ls2k0300_pixpll_decode r.2.2.mem = (pin.div_ref, pin.loopc, pin.div_out) := by
  obtain ⟨-, b, hm, hlt⟩ := ls2k0300_update_word_of_some hw h fuel pin s r hr
  unfold ls2k0300_pixpll_decode
  simp only
  rw [hm, mem_with_word_same, Nat.mod_mod, mod_U32_of_lt _ hlt, ls2k0300_val_eq _ _ _ h3 h2 h1]
  refine Prod.ext ?_ (Prod.ext ?_ ?_)
  · simp only
    rw [BitField.get_set_disjoint _ _ _ _ (by decide),
      BitField.get_set_disjoint _ _ _ _ (by decide),
      BitField.get_set_disjoint _ _ _ _ (by decide),
      BitField.get_set_disjoint _ _ _ _ (by decide), BitField.get_set_same]
    exact Nat.mod_eq_of_lt h1
  · simp only
    rw [BitField.get_set_disjoint _ _ _ _ (by decide),
      BitField.get_set_disjoint _ _ _ _ (by decide),
      BitField.get_set_disjoint _ _ _ _ (by decide),
      BitField.get_set_disjoint _ _ _ _ (by decide),
      BitField.get_set_disjoint _ _ _ _ (by decide), BitField.get_set_same]
    exact Nat.mod_eq_of_lt h2
  · simp only
    rw [BitField.get_set_disjoint _ _ _ _ (by decide),
      BitField.get_set_disjoint _ _ _ _ (by decide),
      BitField.get_set_disjoint _ _ _ _ (by decide),
      BitField.get_set_disjoint _ _ _ _ (by decide),
      BitField.get_set_disjoint _ _ _ _ (by decide),
      BitField.get_set_disjoint _ _ _ _ (by decide), BitField.get_set_same]
    exact Nat.mod_eq_of_lt h3

/-! ## The graphics PLL of ls2k1000 -/

theorem readq_mem (hw : Hardware) (s : Mmio) (off : Nat) : (readq hw s off).2.mem = s.mem := rfl

theorem readq_writes (hw : Hardware) (s : Mmio) (off : Nat) :
    (readq hw s off).2.writes = s.writes := by
  simp [readq, Mmio.writes, List.filterMap_append]

theorem readq_memory (s : Mmio) (off : Nat) :
    (readq memory_hw s off).1 = stored64 s.mem off := by
  unfold readq memory_hw
  exact Nat.mod_eq_of_lt (stored64_lt _ _)

/-- On registers behaving as memory `__rreg_u128` returns the four stored
words, and it writes nothing. -/
theorem rreg_u128_memory (s : Mmio) (off : Nat) :
    (__rreg_u128 memory_hw s off).1 =
      ls2k1000_bitmap (s.mem off % U32) (s.mem (off + 4) % U32) (s.mem (off + 8) % U32)
        (s.mem (off + 8 + 4) % U32) ∧
    (__rreg_u128 memory_hw s off).2.mem = s.mem ∧
    (__rreg_u128 memory_hw s off).2.writes = s.writes := by
  unfold __rreg_u128
  simp only [readq_memory, readq_mem, readq_writes]
  refine ⟨?_, trivial, trivial⟩
  unfold stored64 ls2k1000_bitmap U32
  omega

/-- The members that `ls2k1000_gfxpll_get_rates` reads, in terms of the words
of the 128-bit register. -/
theorem gfxpll_bitmap_fields (w0 w1 w2 w3 : Nat) (h0 : w0 < 2 ^ 32) (h1 : w1 < 2 ^ 32) :
    ls2k1000_ddr_pll_bitmap.div_ref.get (ls2k1000_bitmap w0 w1 w2 w3) = w0 / 2 ^ 26 ∧
    ls2k1000_ddr_pll_bitmap.loopc.get (ls2k1000_bitmap w0 w1 w2 w3) = w1 % 2 ^ 10 ∧
    ls2k1000_ddr_pll_bitmap.div_out_ddr.get (ls2k1000_bitmap w0 w1 w2 w3) = w2 % 2 ^ 6 ∧
    ls2k1000_ddr_pll_bitmap.div_out_gpu.get (ls2k1000_bitmap w0 w1 w2 w3) = w2 / 2 ^ 22 % 2 ^ 6 ∧
    ls2k1000_dc_pll_bitmap.div_ref.get (ls2k1000_bitmap w0 w1 w2 w3) = w0 / 2 ^ 26 ∧
    ls2k1000_dc_pll_bitmap.loopc.get (ls2k1000_bitmap w0 w1 w2 w3) = w1 % 2 ^ 10 ∧
    ls2k1000_dc_pll_bitmap.div_out_dc.get (ls2k1000_bitmap w0 w1 w2 w3) = w2 % 2 ^ 6 := by
  simp only [BitField.get_eq_div_mod, ls2k1000_ddr_pll_bitmap.div_ref,
    ls2k1000_ddr_pll_bitmap.loopc, ls2k1000_ddr_pll_bitmap.div_out_ddr,
    ls2k1000_ddr_pll_bitmap.div_out_gpu, ls2k1000_dc_pll_bitmap.div_ref,
    ls2k1000_dc_pll_bitmap.loopc, ls2k1000_dc_pll_bitmap.div_out_dc, ls2k1000_bitmap]
  norm_num at h0 h1 ⊢
  refine ⟨?_, ?_, ?_, ?_, ?_, ?_, ?_⟩ <;> omega

/-- No product `ref / div_ref * loopc` wraps when `ref * 1023` fits 32 bits and
`loopc` is a 10-bit value. -/
theorem gfxpll_no_wrap (ref a b : Nat) (h : ref * 1023 < 2 ^ 32) (hb : b < 2 ^ 10) :
    ref / a * b < U32 := by
  have h1 : ref / a ≤ ref := Nat.div_le_self _ _
  have h2 : ref / a * b ≤ ref * 1023 := Nat.mul_le_mul h1 (by omega)
  unfold U32
  omega

/-! ## The PWM controller -/

/-- An `int` converted to a 64-bit unsigned value exceeds `NS_IN_HZ` exactly
when it is negative or greater than `10^9`. -/
theorem int_to_u64_gt (x : Int) (h : -2 ^ 31 ≤ x ∧ x < 2 ^ 31) :
    int_to_u64 x > NS_IN_HZ ↔ (x < 0 ∨ 10 ^ 9 < x) := by
  unfold int_to_u64 NS_IN_HZ U64
  obtain ⟨h1, h2⟩ := h
  norm_num at h1 h2 ⊢
  omega

theorem int_to_u64_natCast (n : Nat) (h : n < 2 ^ 64) : int_to_u64 (n : Int) = n := by
  unfold int_to_u64 U64
  norm_num at h ⊢
  omega

theorem do_div_NSEC_PER_SEC (n : Nat) : do_div n NSEC_PER_SEC = some (n % U64 / 1000000000) := by
  unfold do_div
  rw [if_neg (by decide)]
  rfl

/-- The tick count of at most `10^9` nanoseconds at a 32-bit clock frequency:
no product wraps and the count is at most the frequency. -/
theorem pwm_ticks_bounds (f n : Nat) (hf : f < 2 ^ 32) (hn : n ≤ 10 ^ 9) :
    f * n < 2 ^ 64 ∧ f * n / 10 ^ 9 ≤ f ∧ f * n / 10 ^ 9 * 10 ^ 9 ≤ f * n := by
  have h1 : f * n ≤ f * 10 ^ 9 := Nat.mul_le_mul_left _ hn
  refine ⟨by omega, ?_, Nat.div_mul_le_self _ _⟩
  calc f * n / 10 ^ 9 ≤ f * 10 ^ 9 / 10 ^ 9 := Nat.div_le_div_right h1
    _ = f := Nat.mul_div_cancel _ (by norm_num)

/-- Converting a tick count back to nanoseconds never exceeds the nanoseconds
it was computed from. -/
theorem pwm_ns_le (f n k : Nat) (hf : 0 < f) (hk : k ≤ f * n / 10 ^ 9) :
    k * 10 ^ 9 / f ≤ n := by
  have h1 : k * 10 ^ 9 ≤ f * n / 10 ^ 9 * 10 ^ 9 := Nat.mul_le_mul_right _ hk
  have h2 : f * n / 10 ^ 9 * 10 ^ 9 ≤ f * n := Nat.div_mul_le_self _ _
  calc k * 10 ^ 9 / f ≤ f * n / f := Nat.div_le_div_right (h1.trans h2)
    _ = n := Nat.mul_div_cancel_left _ hf

/-- What `ls_pwm_config` does on arguments in range whose duty tick count is at
least 1: the low time `period ticks - duty ticks` goes to `LOW_BUFFER`, the
period ticks to `FULL_BUFFER`, and both are cached. -/
theorem ls_pwm_config_in_range (ls_pwm : ls_pwm_chip) (d p : Nat)
    (hf : ls_pwm.clock_frequency < 2 ^ 32) (hp : p ≤ 10 ^ 9) (hdp : d ≤ p)
    (hD : 1 ≤ ls_pwm.clock_frequency * d / 10 ^ 9) (s : Mmio) :
    ls_pwm_config ls_pwm (d : Int) (p : Int) s =
      some (0,
        { ls_pwm with
            full_buffer_reg := ls_pwm.clock_frequency * p / 10 ^ 9,
            low_buffer_reg :=
              ls_pwm.clock_frequency * p / 10 ^ 9 - ls_pwm.clock_frequency * d / 10 ^ 9 },
        writel (writel s
          (ls_pwm.clock_frequency * p / 10 ^ 9 - ls_pwm.clock_frequency * d / 10 ^ 9) LOW_BUFFER)
          (ls_pwm.clock_frequency * p / 10 ^ 9) FULL_BUFFER) := by
  have hd : d ≤ 10 ^ 9 := hdp.trans hp
  obtain ⟨p1, p2, -⟩ := pwm_ticks_bounds _ p hf hp
  obtain ⟨d1, d2, -⟩ := pwm_ticks_bounds _ d hf hd
  have hDP : ls_pwm.clock_frequency * d / 10 ^ 9 ≤ ls_pwm.clock_frequency * p / 10 ^ 9 :=
    Nat.div_le_div_right (Nat.mul_le_mul_left _ hdp)
  have ep : int_to_u64 (p : Int) = p := int_to_u64_natCast p (by omega)
  have ed : int_to_u64 (d : Int) = d := int_to_u64_natCast d (by omega)
  have c1 : ¬ (int_to_u64 (p : Int) > NS_IN_HZ ∨ int_to_u64 (d : Int) > NS_IN_HZ) := by
    rw [ep, ed]
    unfold NS_IN_HZ
    omega
  have v0 : do_div (ls_pwm.clock_frequency * int_to_u64 (p : Int) % U64) NSEC_PER_SEC =
      some (ls_pwm.clock_frequency * p / 10 ^ 9) := by
    rw [do_div_NSEC_PER_SEC, ep, Nat.mod_mod, Nat.mod_eq_of_lt (by unfold U64; omega)]
    norm_num
  have v1 : do_div (ls_pwm.clock_frequency * int_to_u64 (d : Int) % U64) NSEC_PER_SEC =
      some (ls_pwm.clock_frequency * d / 10 ^ 9) := by
    rw [do_div_NSEC_PER_SEC, ed, Nat.mod_mod, Nat.mod_eq_of_lt (by unfold U64; omega)]
    norm_num
  unfold ls_pwm_config
  rw [if_neg c1]
  simp only [v0, v1]
  generalize ls_pwm.clock_frequency * p / 10 ^ 9 = P at *
  generalize ls_pwm.clock_frequency * d / 10 ^ 9 = D at *
  have hpr : (if P < 1 then 1 else P) % U32 = P := by
    rw [if_neg (by omega)]
    exact Nat.mod_eq_of_lt (by unfold U32; omega)
  have hdr : (if D < 1 then 1 else (P + U64 - D) % U64) % U32 = P - D := by
    rw [if_neg (by omega)]
    unfold U64 U32
    omega
  rw [hpr, hdr]

/-- With a non-zero 32-bit clock frequency `ls_pwm_reg_to_ns` returns, and no
intermediate value wraps. -/
theorem ls_pwm_reg_to_ns_eq (c : ls_pwm_chip) (hf0 : 0 < c.clock_frequency)
    (hf : c.clock_frequency < 2 ^ 32) (reg : Nat) :
    ls_pwm_reg_to_ns c reg = some (reg % U32 * 10 ^ 9 / c.clock_frequency % U32) := by
  have h1 : reg % U32 < 4294967296 := Nat.mod_lt _ (by decide)
  have h2 : c.clock_frequency % U32 = c.clock_frequency := Nat.mod_eq_of_lt hf
  have h3 : reg % U32 * NSEC_PER_SEC % U64 = reg % U32 * 10 ^ 9 := by
    unfold NSEC_PER_SEC U64
    omega
  unfold ls_pwm_reg_to_ns do_div
  rw [h2, if_neg (by omega), h3]
  rw [Nat.mod_eq_of_lt (a := reg % U32 * 10 ^ 9) (by unfold U64; omega)]

/-- On registers behaving as memory, with a non-zero 32-bit clock frequency,
`ls_pwm_get_state` returns 0 and reports the two buffer registers converted to
nanoseconds: `FULL_BUFFER` as the period and `LOW_BUFFER` as the duty cycle. -/
theorem ls_pwm_get_state_memory (c : ls_pwm_chip) (hf0 : 0 < c.clock_frequency)
    (hf : c.clock_frequency < 2 ^ 32) (t : Mmio) :
    ∃ c2 st t2, ls_pwm_get_state memory_hw c t = some (0, c2, st, t2) ∧
      st.period = t.mem FULL_BUFFER % U32 * 10 ^ 9 / c.clock_frequency % U32 ∧
      st.duty_cycle = t.mem LOW_BUFFER % U32 * 10 ^ 9 / c.clock_frequency % U32 := by
  have hr : ∀ (u : Mmio) (off : Nat), (readl memory_hw u off).1 = u.mem off % U32 := by
    intro u off
    rw [readl_val]
    exact Nat.mod_mod _ _
  unfold ls_pwm_get_state
  simp only [ls_pwm_reg_to_ns_eq c hf0 hf, hr, readl_mem, Nat.mod_mod]
  exact ⟨_, _, _, rfl, rfl, rfl⟩

/-- Running `ls_pwm_get_state` right after `ls_pwm_config`, on registers behaving
as memory: the reported period is the period tick count converted back, and
the reported duty cycle is the low time `period ticks - duty ticks` converted
back. -/
theorem ls_pwm_config_then_get_state (ls_pwm : ls_pwm_chip) (d p : Nat)
    (hf : ls_pwm.clock_frequency < 2 ^ 32) (hp : p ≤ 10 ^ 9) (hdp : d ≤ p)
    (hD : 1 ≤ ls_pwm.clock_frequency * d / 10 ^ 9) (s : Mmio) :
    ∃ c t c2 st t2, ls_pwm_config ls_pwm (d : Int) (p : Int) s = some (0, c, t) ∧
      ls_pwm_get_state memory_hw c t = some (0, c2, st, t2) ∧
      st.period = ls_pwm.clock_frequency * p / 10 ^ 9 * 10 ^ 9 / ls_pwm.clock_frequency ∧
      st.duty_cycle =
        (ls_pwm.clock_frequency * p / 10 ^ 9 - ls_pwm.clock_frequency * d / 10 ^ 9) * 10 ^ 9 /
          ls_pwm.clock_frequency := by
  have hf0 : 0 < ls_pwm.clock_frequency := by
    rcases Nat.eq_zero_or_pos ls_pwm.clock_frequency with h | h
    · rw [h] at hD
      simp at hD
    · exact h
  have hcfg := ls_pwm_config_in_range ls_pwm d p hf hp hdp hD s
  obtain ⟨-, p2, -⟩ := pwm_ticks_bounds _ p hf hp
  have hDP : ls_pwm.clock_frequency * d / 10 ^ 9 ≤ ls_pwm.clock_frequency * p / 10 ^ 9 :=
    Nat.div_le_div_right (Nat.mul_le_mul_left _ hdp)
  have n1 := pwm_ns_le ls_pwm.clock_frequency p _ hf0 (Nat.le_refl _)
  have n2 := pwm_ns_le ls_pwm.clock_frequency p
    (ls_pwm.clock_frequency * p / 10 ^ 9 - ls_pwm.clock_frequency * d / 10 ^ 9) hf0
    (Nat.sub_le _ _)
  obtain ⟨c2, st, t2, hget, hper, hduty⟩ := ls_pwm_get_state_memory
    { ls_pwm with
        full_buffer_reg := ls_pwm.clock_frequency * p / 10 ^ 9,
        low_buffer_reg :=
          ls_pwm.clock_frequency * p / 10 ^ 9 - ls_pwm.clock_frequency * d / 10 ^ 9 }
    hf0 hf
    (writel (writel s
      (ls_pwm.clock_frequency * p / 10 ^ 9 - ls_pwm.clock_frequency * d / 10 ^ 9) LOW_BUFFER)
      (ls_pwm.clock_frequency * p / 10 ^ 9) FULL_BUFFER)
  refine ⟨_, _, c2, st, t2, hcfg, hget, ?_, ?_⟩
  · rw [hper, writel_mem, mem_with_word_same, Nat.mod_mod,
      Nat.mod_eq_of_lt (a := ls_pwm.clock_frequency * p / 10 ^ 9) (by unfold U32; omega)]
    exact Nat.mod_eq_of_lt (Nat.lt_of_le_of_lt n1 (by unfold U32; omega))
  · rw [hduty, writel_mem, mem_with_word_other _ _ _ _ (by decide), writel_mem,
      mem_with_word_same, Nat.mod_mod,
      Nat.mod_eq_of_lt (a := ls_pwm.clock_frequency * p / 10 ^ 9 -
        ls_pwm.clock_frequency * d / 10 ^ 9) (by unfold U32; omega)]
    exact Nat.mod_eq_of_lt (Nat.lt_of_le_of_lt n2 (by unfold U32; omega))

/-- The duty cycle that `ls_pwm_get_state` reports right after `ls_pwm_config`
is the low time, not the configured duty: whenever the period exceeds twice
the duty plus one nanosecond by a clock tick or more, the reported duty cycle
is greater than the configured one. -/
theorem ls_pwm_get_state_reports_low_time (ls_pwm : ls_pwm_chip) (d p : Nat)
    (hf : ls_pwm.clock_frequency < 2 ^ 32) (hp : p ≤ 10 ^ 9)
    (hD : 1 ≤ ls_pwm.clock_frequency * d / 10 ^ 9)
    (hlow : ls_pwm.clock_frequency * (2 * d + 1) + 10 ^ 9 ≤ ls_pwm.clock_frequency * p)
    (s : Mmio) :
    ∃ c t c2 st t2, ls_pwm_config ls_pwm (d : Int) (p : Int) s = some (0, c, t) ∧
      ls_pwm_get_state memory_hw c t = some (0, c2, st, t2) ∧ d < st.duty_cycle := by
  have hf0 : 0 < ls_pwm.clock_frequency := by
    rcases Nat.eq_zero_or_pos ls_pwm.clock_frequency with h | h
    · rw [h] at hD
      simp at hD
    · exact h
  have hdp : d ≤ p := by
    by_contra hc
    have h1 : ls_pwm.clock_frequency * p ≤ ls_pwm.clock_frequency * d :=
      Nat.mul_le_mul_left _ (by omega)
    have h2 : ls_pwm.clock_frequency * (2 * d + 1) =
        2 * (ls_pwm.clock_frequency * d) + ls_pwm.clock_frequency := by ring
    omega
  obtain ⟨c, t, c2, st, t2, h1, h2, -, h4⟩ := ls_pwm_config_then_get_state ls_pwm d p hf hp hdp hD s
  refine ⟨c, t, c2, st, t2, h1, h2, ?_⟩
  rw [h4]
  show d + 1 ≤ _
  rw [Nat.le_div_iff_mul_le hf0]
  have e1 := Nat.div_add_mod (ls_pwm.clock_frequency * p) (10 ^ 9)
  have e2 := Nat.mod_lt (ls_pwm.clock_frequency * p) (show 10 ^ 9 > 0 by norm_num)
  have e3 := Nat.div_add_mod (ls_pwm.clock_frequency * d) (10 ^ 9)
  have e4 : ls_pwm.clock_frequency * (2 * d + 1) =
      2 * (ls_pwm.clock_frequency * d) + ls_pwm.clock_frequency := by ring
  have e5 : (d + 1) * ls_pwm.clock_frequency =
      ls_pwm.clock_frequency * d + ls_pwm.clock_frequency := by ring
  rw [e5, Nat.sub_mul]
  generalize ls_pwm.clock_frequency * p / 10 ^ 9 = P at *
  generalize ls_pwm.clock_frequency * d / 10 ^ 9 = D at *
  generalize ls_pwm.clock_frequency * p = X at *
  generalize ls_pwm.clock_frequency * d = W at *
  omega

/-! ## Distances over the natural numbers, and ls2k0300 on memory -/

/-- The `diff` of a legal triple is the distance between the requested clock
and `refclk / div_ref * loopc / div_out` over the natural numbers, when the
product cannot wrap around 32 bits. -/
theorem legal_diff_eq_dist (refclk clock o r l : Nat) (hleg : legal_triple o r l)
    (hno : refclk / 3 * 160 < U32) :
    pll_diff refclk clock o r l = Nat.dist clock (refclk / r * l / o) := by
  rw [pll_diff_eq_dist, pll_clock_out_eq _ _ _ _ (legal_no_wrap _ _ _ _ hleg hno)]

/-- On registers behaving as memory `ls2k0300_pixpll_param_update` does not
return, whatever the fuel, the triple and the initial contents: the word it
stores before its wait loop has the locked bit (bit 7) clear, and the loop has
no bound. -/
theorem ls2k0300_update_memory_none (fuel : Nat) (pin : lsdc_pixpll_parms) (s : Mmio) :
    ls2k0300_pixpll_param_update memory_hw fuel pin s = none := by
  cases hres : ls2k0300_pixpll_param_update memory_hw fuel pin s with
  | none => rfl
  | some r =>
    exfalso
    obtain ⟨j, -, hl⟩ := ls2k0300_update_of_some memory_hw fuel pin s r hres
    have h80 : (0x80 : Nat) = 1 <<< 7 := by decide
    rw [h80] at hl
    have h1 := (and_bit_ne_zero 7 _).1 hl
    have h2 : ((BitField.mk 7 1).get (memory_hw (s.log.length + 7 + j) 0
        ((((((pin.div_out <<< 24) % U32) ||| ((pin.loopc <<< 15) % U32) |||
          ((pin.div_ref <<< 8) % U32)) &&& not64 (1 <<< 4)) &&& not64 (1 <<< 5)) % U32)
        % U32)).testBit 0 = false := by
      have hU : U32 = 2 ^ 32 := rfl
      have hv := ls2k0300_val_low pin.div_out pin.loopc pin.div_ref 7 (by decide)
      rw [BitField.testBit_get]
      simp only [memory_hw, Nat.add_zero]
      rw [hU, Nat.testBit_mod_two_pow, Nat.testBit_mod_two_pow, Nat.testBit_and,
        Nat.testBit_and, ← hU, hv]
      simp
    rw [h1] at h2
    exact absurd h2 (by decide)

/-- The word left by `ls2k0300_pixpll_param_update` whenever it returns, on a
device that stores what is written and may drive the locked bit: the value
`(div_out << 24) | (loopc << 15) | (div_ref << 8)` with `bypass = 0`,
`powerdown = 0`, `sel_out = 1` and the locked bit set, as the last poll read
it.  Nothing of the earlier contents of the word is left. -/
theorem ls2k0300_update_mem_of_some (hw : Hardware)
    (h : lock_only ls2k0300_pixpll_bitmap.locked hw) (fuel : Nat) (pin : lsdc_pixpll_parms)
    (s : Mmio) (r : Int × Nat × Mmio)
    (hr : ls2k0300_pixpll_param_update hw fuel pin s = some r) :
    r.2.2.mem = mem_with_word s.mem 0
      (ls2k0300_pixpll_bitmap.sel_out.set (ls2k0300_pixpll_bitmap.locked.set
        (ls2k0300_pixpll_bitmap.powerdown.set (ls2k0300_pixpll_bitmap.bypass.set
          (((pin.div_out <<< 24) % U32) ||| ((pin.loopc <<< 15) % U32) |||
            ((pin.div_ref <<< 8) % U32)) 0) 0) 1) 1) := by
  obtain ⟨j, hj, hl⟩ := ls2k0300_update_of_some hw fuel pin s r hr
  obtain ⟨r1, r2, r3, cnt, t, hres, -, -, -, -, -, p3, hbit, hm, -⟩ :=
    ls2k0300_update_chain_at hw (fun v r => ∃ b, r = ls2k0300_pixpll_bitmap.locked.set v b)
      (fun n v => (lock_only_P32 _ (by decide) hw h n 0 v).1 rfl) pin s fuel j hj hl
  have hrt : r = (0, cnt, t) := Option.some.inj (hr.symm.trans hres)
  have lt : ∀ (f : BitField) (x c : Nat), f.lo + f.width ≤ 32 → x < 2 ^ 32 →
      f.set x c < 2 ^ 32 := fun f x c hf hx => BitField.set_lt f x c 32 hx hf
  have hVlt := ls2k0300_val_lt pin.div_out pin.loopc pin.div_ref
  have h64 : ∀ x, x < 2 ^ 32 → x < 2 ^ 64 := fun x hx => lt_trans hx (by decide)
  have hm4 : (1 <<< 4 : Nat) = ls2k0300_pixpll_bitmap.bypass.mask := by decide
  have hm5 : (1 <<< 5 : Nat) = ls2k0300_pixpll_bitmap.powerdown.mask := by decide
  have hWlt := lt ls2k0300_pixpll_bitmap.powerdown _ 0 (by decide)
    (lt ls2k0300_pixpll_bitmap.bypass _ 0 (by decide) hVlt)
  rw [hm4, and_not64_mask _ (by decide) _ (h64 _ hVlt), hm5,
    and_not64_mask _ (by decide) _ (h64 _ (lt _ _ _ (by decide) hVlt)),
    mod_U32_of_lt _ hWlt] at p3
  obtain ⟨b, e3⟩ := p3
  have hb : b % 2 ^ 1 = 1 := by
    have h80 : (0x80 : Nat) = 1 <<< 7 := by decide
    rw [h80, and_bit_ne_zero, e3] at hbit
    have := BitField.get_set_same ls2k0300_pixpll_bitmap.locked
      (ls2k0300_pixpll_bitmap.powerdown.set (ls2k0300_pixpll_bitmap.bypass.set
        (((pin.div_out <<< 24) % U32) ||| ((pin.loopc <<< 15) % U32) |||
          ((pin.div_ref <<< 8) % U32)) 0) 0) b
    exact this.symm.trans hbit
  have e3' : r3 = ls2k0300_pixpll_bitmap.locked.set (ls2k0300_pixpll_bitmap.powerdown.set
      (ls2k0300_pixpll_bitmap.bypass.set
        (((pin.div_out <<< 24) % U32) ||| ((pin.loopc <<< 15) % U32) |||
          ((pin.div_ref <<< 8) % U32)) 0) 0) 1 := by
    rw [e3, ← BitField.set_mod _ _ b]
    exact congrArg _ hb
  have e1 : r3 ||| 1 = ls2k0300_pixpll_bitmap.sel_out.set r3 1 := by
    have hm0 : (1 : Nat) = ls2k0300_pixpll_bitmap.sel_out.mask := by decide
    conv_lhs => rw [hm0]
    rw [or_mask]
    rfl
  rw [hrt]
  show t.mem = _
  rw [hm, e1, e3']

theorem mem_with_word_twice (m : Nat → Nat) (off x y : Nat) :
    mem_with_word (mem_with_word m off x) off y = mem_with_word m off y := by
  funext a
  unfold mem_with_word
  split_ifs <;> rfl

/-! # The properties of the specification -/

/-- C1: for every frequency that is the clock of an entry of
`pixpll_parms_table`, the lookup succeeds, so that `lsdc_pixel_pll_compute`
returns 0 from its first statement, stores that entry's
`(div_out, loopc, div_ref)` in the output and leaves the cached parameters of
the handle as they were, whatever they are; 148500 kHz gives
`{div_out=11, loopc=49, div_ref=3}` and 25175 kHz gives
`{div_out=85, loopc=107, div_ref=5}`. -/
theorem compute_table_hit (priv pout : lsdc_pixpll_parms) (e : clk_to_pixpll_parms_lookup_t)
    (he : e ∈ pixpll_parms_table) :
    lsdc_pixpll_find e.clock pout =
        (0, { pout with div_ref := e.div_ref, loopc := e.loopc, div_out := e.div_out }) ∧
    lsdc_pixel_pll_compute priv e.clock pout =
        { ret := 0,
          pout := { pout with div_ref := e.div_ref, loopc := e.loopc, div_out := e.div_out },
          priv := priv } ∧
    (lsdc_pixel_pll_compute priv 148500 pout).pout =
        { pout with div_out := 11, loopc := 49, div_ref := 3 } ∧
    (lsdc_pixel_pll_compute priv 25175 pout).pout =
        { pout with div_out := 85, loopc := 107, div_ref := 5 } := by
  refine ⟨?_, ?_, rfl, rfl⟩
  · simp only [pixpll_parms_table, List.mem_cons, List.mem_singleton, List.not_mem_nil,
      or_false] at he
    rcases he with rfl | rfl | rfl | rfl | rfl | rfl | rfl | rfl | rfl | rfl | rfl | rfl |
      rfl | rfl | rfl | rfl | rfl | rfl | rfl | rfl | rfl | rfl | rfl | rfl | rfl | rfl |
      rfl | rfl | rfl <;> rfl
  · simp only [pixpll_parms_table, List.mem_cons, List.mem_singleton, List.not_mem_nil,
      or_false] at he
    rcases he with rfl | rfl | rfl | rfl | rfl | rfl | rfl | rfl | rfl | rfl | rfl | rfl |
      rfl | rfl | rfl | rfl | rfl | rfl | rfl | rfl | rfl | rfl | rfl | rfl | rfl | rfl |
      rfl | rfl | rfl <;> rfl

/-- Witness of C1 at the table entry of 1920x1080@75Hz with made-up cached
and output parameters. -/
theorem compute_table_hit_witness :
    (⟨174500, 1920, 1080, 75, 17, 89, 3⟩ : clk_to_pixpll_parms_lookup_t) ∈ pixpll_parms_table ∧
    lsdc_pixel_pll_compute ⟨100000, 4, 79, 16⟩ 174500 ⟨7, 8, 9, 10⟩ =
      { ret := 0, pout := ⟨7, 3, 89, 17⟩, priv := ⟨100000, 4, 79, 16⟩ } :=
  ⟨by decide,
   (compute_table_hit ⟨100000, 4, 79, 16⟩ ⟨7, 8, 9, 10⟩ ⟨174500, 1920, 1080, 75, 17, 89, 3⟩
      (by decide)).2.1⟩

/-- C2: for a requested frequency that is not in the table and for which
`lsdc_pixel_pll_compute` returns 0, the returned triple is a legal triple
(`div_out` in [6,64), `div_ref` in [3,6), `loopc` in [6,161),
`12*div_ref <= loopc <= 32*div_ref`) whose `|requested - computed|` is the
least among all legal triples, `computed` being `refclk / div_ref * loopc /
div_out` as the code evaluates it; when the product cannot wrap around 32 bits
this is the same expression over the natural numbers. -/
theorem compute_search_minimises_diff (priv : lsdc_pixpll_parms) (clock : Nat)
    (pout : lsdc_pixpll_parms)
    (hmiss : ∀ e ∈ pixpll_parms_table, e.clock ≠ clock)
    (hret : (lsdc_pixel_pll_compute priv clock pout).ret = 0) :
    legal_triple (lsdc_pixel_pll_compute priv clock pout).pout.div_out
        (lsdc_pixel_pll_compute priv clock pout).pout.div_ref
        (lsdc_pixel_pll_compute priv clock pout).pout.loopc ∧
    (∀ div_out div_ref loopc, legal_triple div_out div_ref loopc →
      pll_diff priv.ref_clock clock (lsdc_pixel_pll_compute priv clock pout).pout.div_out
          (lsdc_pixel_pll_compute priv clock pout).pout.div_ref
          (lsdc_pixel_pll_compute priv clock pout).pout.loopc ≤
        pll_diff priv.ref_clock clock div_out div_ref loopc) ∧
    (priv.ref_clock / 3 * 160 < U32 →
      ∀ div_out div_ref loopc, legal_triple div_out div_ref loopc →
        Nat.dist clock (priv.ref_clock / (lsdc_pixel_pll_compute priv clock pout).pout.div_ref *
            (lsdc_pixel_pll_compute priv clock pout).pout.loopc /
            (lsdc_pixel_pll_compute priv clock pout).pout.div_out) ≤
          Nat.dist clock (priv.ref_clock / div_ref * loopc / div_out)) := by
  obtain ⟨t, hc, hleg, _, hmin⟩ := compute_success priv clock pout hmiss hret
  rw [hc]
  refine ⟨hleg, hmin, ?_⟩
  intro hno o r l hl
  have h1 := hmin o r l hl
  rw [pll_diff_eq_dist, pll_diff_eq_dist,
    pll_clock_out_eq _ _ _ _ (legal_no_wrap _ _ _ _ hleg hno),
    pll_clock_out_eq _ _ _ _ (legal_no_wrap _ _ _ _ hl hno)] at h1
  exact h1

/-- Witness of C2: 100000 kHz is not in the table and is reached exactly by
`div_out = 12, div_ref = 4, loopc = 48` with the 100 MHz reference. -/
theorem compute_search_minimises_diff_witness :
    (∀ e ∈ pixpll_parms_table, e.clock ≠ 100000) ∧
    (lsdc_pixel_pll_compute ⟨100000, 0, 0, 0⟩ 100000 ⟨0, 0, 0, 0⟩).ret = 0 ∧
    ∀ div_out div_ref loopc, legal_triple div_out div_ref loopc →
      pll_diff 100000 100000
          (lsdc_pixel_pll_compute ⟨100000, 0, 0, 0⟩ 100000 ⟨0, 0, 0, 0⟩).pout.div_out
          (lsdc_pixel_pll_compute ⟨100000, 0, 0, 0⟩ 100000 ⟨0, 0, 0, 0⟩).pout.div_ref
          (lsdc_pixel_pll_compute ⟨100000, 0, 0, 0⟩ 100000 ⟨0, 0, 0, 0⟩).pout.loopc ≤
        pll_diff 100000 100000 div_out div_ref loopc :=
  have hmiss : ∀ e ∈ pixpll_parms_table, e.clock ≠ 100000 := by decide
  have hret : (lsdc_pixel_pll_compute ⟨100000, 0, 0, 0⟩ 100000 ⟨0, 0, 0, 0⟩).ret = 0 :=
    (compute_ret_zero_iff ⟨100000, 0, 0, 0⟩ 100000 ⟨0, 0, 0, 0⟩ hmiss).2
      ⟨12, 4, 48, by decide, by decide⟩
  ⟨hmiss, hret,
    (compute_search_minimises_diff ⟨100000, 0, 0, 0⟩ 100000 ⟨0, 0, 0, 0⟩ hmiss hret).2.1⟩

/-- C3 (the code at a failing input): with the 100 MHz reference and the
3840x2160@60Hz pixel clock of 594000 kHz, which is not in the table, the
closest legal triple is `div_out = 6, div_ref = 4, loopc = 128` with a diff of
60667 kHz and no legal triple is closer, yet `lsdc_pixel_pll_compute` returns
1000, the tolerance, not that diff. -/
theorem compute_failure_returns_tolerance :
    (∀ e ∈ pixpll_parms_table, e.clock ≠ 594000) ∧
    (lsdc_pixel_pll_compute ⟨100000, 0, 0, 0⟩ 594000 ⟨100000, 0, 0, 0⟩).ret = 1000 ∧
    legal_triple 6 4 128 ∧ pll_diff 100000 594000 6 4 128 = 60667 ∧
    ∀ div_out div_ref loopc, legal_triple div_out div_ref loopc →
      60667 ≤ pll_diff 100000 594000 div_out div_ref loopc := by
  have hmiss : ∀ e ∈ pixpll_parms_table, e.clock ≠ 594000 := by decide
  have hall : ∀ o r l, legal_triple o r l → 60667 ≤ pll_diff 100000 594000 o r l := by
    intro o r l hl
    have hb := (clock_out_100000_bounds o r l hl).2
    unfold pll_diff
    simp only
    split_ifs <;> omega
  refine ⟨hmiss, ?_, by decide, by decide, hall⟩
  rw [compute_failure ⟨100000, 0, 0, 0⟩ 594000 ⟨100000, 0, 0, 0⟩ hmiss
    (fun o r l hl => le_trans (by decide) (hall o r l hl))]
  rfl

/-- C4 (as stated, refuted): with the 100 MHz reference, 18047 kHz is not in
the table and its smallest diff over the legal triples is exactly 1000
(reached by `div_out = 63, div_ref = 3, loopc = 36`), which does not exceed
the tolerance, but `lsdc_pixel_pll_compute` does not return 0. -/
theorem compute_fails_at_diff_equal_tolerance :
    (∀ e ∈ pixpll_parms_table, e.clock ≠ 18047) ∧
    legal_triple 63 3 36 ∧ pll_diff 100000 18047 63 3 36 = 1000 ∧
    (∀ div_out div_ref loopc, legal_triple div_out div_ref loopc →
      1000 ≤ pll_diff 100000 18047 div_out div_ref loopc) ∧
    (lsdc_pixel_pll_compute ⟨100000, 0, 0, 0⟩ 18047 ⟨100000, 0, 0, 0⟩).ret ≠ 0 := by
  have hmiss : ∀ e ∈ pixpll_parms_table, e.clock ≠ 18047 := by decide
  have hall : ∀ o r l, legal_triple o r l → 1000 ≤ pll_diff 100000 18047 o r l := by
    intro o r l hl
    have hb := (clock_out_100000_bounds o r l hl).1
    unfold pll_diff
    simp only
    split_ifs <;> omega
  refine ⟨hmiss, by decide, by decide, hall, ?_⟩
  rw [compute_failure ⟨100000, 0, 0, 0⟩ 18047 ⟨100000, 0, 0, 0⟩ hmiss hall]
  decide

/-- C4 (amended): for a requested frequency that is not in the table,
`lsdc_pixel_pll_compute` returns 0 exactly when some legal triple has
`|requested - computed|` strictly below the tolerance of 1000 kHz, and it
reports failure exactly when every legal triple has a diff of at least
1000 kHz, a smallest diff of exactly 1000 included.  `computed` is
`refclk / div_ref * loopc / div_out` as the code evaluates it; when the product
cannot wrap around 32 bits this is the same expression over the natural
numbers and the diff is the distance `Nat.dist requested computed`. -/
theorem compute_succeeds_iff_below_tolerance (priv : lsdc_pixpll_parms) (clock : Nat)
    (pout : lsdc_pixpll_parms)
    (hmiss : ∀ e ∈ pixpll_parms_table, e.clock ≠ clock) :
    ((lsdc_pixel_pll_compute priv clock pout).ret = 0 ↔
      ∃ div_out div_ref loopc, legal_triple div_out div_ref loopc ∧
        pll_diff priv.ref_clock clock div_out div_ref loopc < 1000) ∧
    ((lsdc_pixel_pll_compute priv clock pout).ret ≠ 0 ↔
      ∀ div_out div_ref loopc, legal_triple div_out div_ref loopc →
        1000 ≤ pll_diff priv.ref_clock clock div_out div_ref loopc) ∧
    (priv.ref_clock / 3 * 160 < U32 →
      ((lsdc_pixel_pll_compute priv clock pout).ret = 0 ↔
        ∃ div_out div_ref loopc, legal_triple div_out div_ref loopc ∧
          Nat.dist clock (priv.ref_clock / div_ref * loopc / div_out) < 1000) ∧
      ((lsdc_pixel_pll_compute priv clock pout).ret ≠ 0 ↔
        ∀ div_out div_ref loopc, legal_triple div_out div_ref loopc →
          1000 ≤ Nat.dist clock (priv.ref_clock / div_ref * loopc / div_out))) := by
  have hiff := compute_ret_zero_iff priv clock pout hmiss
  have hne : (lsdc_pixel_pll_compute priv clock pout).ret ≠ 0 ↔
      ∀ o r l, legal_triple o r l → 1000 ≤ pll_diff priv.ref_clock clock o r l := by
    refine Iff.trans (not_congr hiff) ?_
    constructor
    · intro h o r l hl
      by_contra hlt
      exact h ⟨o, r, l, hl, by unfold tolerance; omega⟩
    · rintro h ⟨o, r, l, hl, hd⟩
      have := h o r l hl
      unfold tolerance at hd
      omega
  refine ⟨hiff, hne, fun hno => ⟨?_, ?_⟩⟩
  · rw [hiff]
    constructor
    · rintro ⟨o, r, l, hl, hd⟩
      exact ⟨o, r, l, hl, by rw [← legal_diff_eq_dist _ _ _ _ _ hl hno]; exact hd⟩
    · rintro ⟨o, r, l, hl, hd⟩
      exact ⟨o, r, l, hl, by rw [legal_diff_eq_dist _ _ _ _ _ hl hno]; exact hd⟩
  · rw [hne]
    constructor
    · intro h o r l hl
      rw [← legal_diff_eq_dist _ _ _ _ _ hl hno]
      exact h o r l hl
    · intro h o r l hl
      rw [legal_diff_eq_dist _ _ _ _ _ hl hno]
      exact h o r l hl

/-- Witness of C4 (amended) at 18047 kHz with the 100 MHz reference, where
the smallest distance is exactly 1000 and the call fails. -/
theorem compute_succeeds_iff_below_tolerance_witness :
    (∀ e ∈ pixpll_parms_table, e.clock ≠ 18047) ∧ 100000 / 3 * 160 < U32 ∧
    ((lsdc_pixel_pll_compute ⟨100000, 0, 0, 0⟩ 18047 ⟨0, 0, 0, 0⟩).ret ≠ 0 ↔
      ∀ div_out div_ref loopc, legal_triple div_out div_ref loopc →
        1000 ≤ Nat.dist 18047 (100000 / div_ref * loopc / div_out)) :=
  ⟨by decide, by decide,
    ((compute_succeeds_iff_below_tolerance ⟨100000, 0, 0, 0⟩ 18047 ⟨0, 0, 0, 0⟩
      (by decide)).2.2 (by decide)).2⟩

/-- C5 (as stated, refuted): 25175 kHz is a table hit, `lsdc_pixel_pll_compute`
returns 0 with `div_out = 85`, which is neither below 64 nor within the 6-bit
`div_out` field of the ls2k1000 layout. -/
theorem compute_table_triple_out_of_bounds :
    (lsdc_pixel_pll_compute ⟨100000, 0, 0, 0⟩ 25175 ⟨100000, 0, 0, 0⟩).ret = 0 ∧
    (lsdc_pixel_pll_compute ⟨100000, 0, 0, 0⟩ 25175 ⟨100000, 0, 0, 0⟩).pout.div_out = 85 ∧
    ¬ (lsdc_pixel_pll_compute ⟨100000, 0, 0, 0⟩ 25175 ⟨100000, 0, 0, 0⟩).pout.div_out < 64 ∧
    ¬ (lsdc_pixel_pll_compute ⟨100000, 0, 0, 0⟩ 25175 ⟨100000, 0, 0, 0⟩).pout.div_out <
      2 ^ ls2k1000_pixpll_reg.div_out.width := by
  decide

/-- C5 (amended): a triple returned by a successful `lsdc_pixel_pll_compute`
(table hit or search) satisfies `12*div_ref <= loopc <= 32*div_ref`,
`div_ref` in [3,6), `loopc` in [6,161) and `div_out >= 6`; its `div_out` is
below 64 unless the request is 25175 kHz, whose table entry has
`div_out = 85`; it fits the field widths of the canonical layout and of the
ls2k0300 layout, the `loopc` and `div_ref` widths of the ls2k1000 layout and,
for requests other than 25175 kHz, the `div_out` width of the ls2k1000
layout. -/
theorem compute_triple_bounds (priv : lsdc_pixpll_parms) (clock : Nat)
    (pout : lsdc_pixpll_parms)
    (hret : (lsdc_pixel_pll_compute priv clock pout).ret = 0) :
    (12 * (lsdc_pixel_pll_compute priv clock pout).pout.div_ref ≤
        (lsdc_pixel_pll_compute priv clock pout).pout.loopc ∧
      (lsdc_pixel_pll_compute priv clock pout).pout.loopc ≤
        32 * (lsdc_pixel_pll_compute priv clock pout).pout.div_ref) ∧
    (3 ≤ (lsdc_pixel_pll_compute priv clock pout).pout.div_ref ∧
      (lsdc_pixel_pll_compute priv clock pout).pout.div_ref < 6) ∧
    (6 ≤ (lsdc_pixel_pll_compute priv clock pout).pout.loopc ∧
      (lsdc_pixel_pll_compute priv clock pout).pout.loopc < 161) ∧
    6 ≤ (lsdc_pixel_pll_compute priv clock pout).pout.div_out ∧
    (clock ≠ 25175 → (lsdc_pixel_pll_compute priv clock pout).pout.div_out < 64) ∧
    (clock = 25175 → (lsdc_pixel_pll_compute priv clock pout).pout.div_out = 85) ∧
    ((lsdc_pixel_pll_compute priv clock pout).pout.div_out < 2 ^ lsdc_pixpll_reg.div_out.width ∧
      (lsdc_pixel_pll_compute priv clock pout).pout.loopc < 2 ^ lsdc_pixpll_reg.loopc.width ∧
      (lsdc_pixel_pll_compute priv clock pout).pout.div_ref <
        2 ^ lsdc_pixpll_reg.div_ref.width) ∧
    ((lsdc_pixel_pll_compute priv clock pout).pout.div_out <
        2 ^ ls2k0300_pixpll_bitmap.div_out.width ∧
      (lsdc_pixel_pll_compute priv clock pout).pout.loopc <
        2 ^ ls2k0300_pixpll_bitmap.loopc.width ∧
      (lsdc_pixel_pll_compute priv clock pout).pout.div_ref <
        2 ^ ls2k0300_pixpll_bitmap.div_ref.width) ∧
    ((lsdc_pixel_pll_compute priv clock pout).pout.loopc < 2 ^ ls2k1000_pixpll_reg.loopc.width ∧
      (lsdc_pixel_pll_compute priv clock pout).pout.div_ref <
        2 ^ ls2k1000_pixpll_reg.div_ref.width ∧
      (clock ≠ 25175 → (lsdc_pixel_pll_compute priv clock pout).pout.div_out <
        2 ^ ls2k1000_pixpll_reg.div_out.width)) := by
  have hw : lsdc_pixpll_reg.div_out.width = 7 ∧ lsdc_pixpll_reg.loopc.width = 9 ∧
      lsdc_pixpll_reg.div_ref.width = 7 ∧ ls2k0300_pixpll_bitmap.div_out.width = 7 ∧
      ls2k0300_pixpll_bitmap.loopc.width = 9 ∧ ls2k0300_pixpll_bitmap.div_ref.width = 7 ∧
      ls2k1000_pixpll_reg.loopc.width = 10 ∧ ls2k1000_pixpll_reg.div_ref.width = 6 ∧
      ls2k1000_pixpll_reg.div_out.width = 6 := ⟨rfl, rfl, rfl, rfl, rfl, rfl, rfl, rfl, rfl⟩
  obtain ⟨w1, w2, w3, w4, w5, w6, w7, w8, w9⟩ := hw
  rw [w1, w2, w3, w4, w5, w6, w7, w8, w9]
  by_cases hin : ∃ e ∈ pixpll_parms_table, e.clock = clock
  · obtain ⟨e, he, hc, hres⟩ := compute_of_hit priv clock pout hin
    obtain ⟨b1, b2, b3, b4, b5, b6, b7, b8, b9, b10⟩ := table_entry_bounds e he
    rw [hres]
    simp only
    rw [hc] at b9 b10
    refine ⟨⟨b1, b2⟩, ⟨b3, b4⟩, ⟨b5, b6⟩, b7, b9, b10, ⟨by omega, by omega, by omega⟩,
      ⟨by omega, by omega, by omega⟩, by omega, by omega, ?_⟩
    intro hne
    have := b9 hne
    omega
  · have hmiss : ∀ e ∈ pixpll_parms_table, e.clock ≠ clock :=
      fun e he hc => hin ⟨e, he, hc⟩
    have h25 : clock ≠ 25175 := by
      intro hc
      exact hmiss ⟨25175, 640, 480, 60, 85, 107, 5⟩ (by decide) hc.symm
    obtain ⟨t, hc, ⟨⟨o1, o2⟩, ⟨r1, r2⟩, ⟨l1, l2⟩, k1, k2⟩, -, -⟩ :=
      compute_success priv clock pout hmiss hret
    rw [hc]
    simp only [store_triple]
    refine ⟨⟨k1, k2⟩, ⟨r1, r2⟩, ⟨l1, l2⟩, o1, fun _ => o2, fun h => absurd h h25,
      ⟨by omega, by omega, by omega⟩, ⟨by omega, by omega, by omega⟩, by omega, by omega,
      fun _ => by omega⟩

/-- Witness of C5 (amended) at the table hit of 148500 kHz. -/
theorem compute_triple_bounds_witness :
    (lsdc_pixel_pll_compute ⟨100000, 0, 0, 0⟩ 148500 ⟨0, 0, 0, 0⟩).ret = 0 ∧
    (12 * (lsdc_pixel_pll_compute ⟨100000, 0, 0, 0⟩ 148500 ⟨0, 0, 0, 0⟩).pout.div_ref ≤
        (lsdc_pixel_pll_compute ⟨100000, 0, 0, 0⟩ 148500 ⟨0, 0, 0, 0⟩).pout.loopc ∧
      (lsdc_pixel_pll_compute ⟨100000, 0, 0, 0⟩ 148500 ⟨0, 0, 0, 0⟩).pout.loopc ≤
        32 * (lsdc_pixel_pll_compute ⟨100000, 0, 0, 0⟩ 148500 ⟨0, 0, 0, 0⟩).pout.div_ref) :=
  ⟨by decide, (compute_triple_bounds ⟨100000, 0, 0, 0⟩ 148500 ⟨0, 0, 0, 0⟩ (by decide)).1⟩

/-- C6 (the code at the failing input): for every triple within the generic
bounds and the ratio constraint and every initial register contents, with
registers behaving as memory.  On the canonical variant and on ls2k1000 the
dividers decoded with the variant's `get_rate` layout from the contents left
by the variant's update are exactly `(div_ref, loopc, div_out)`.  On ls2k0300
the update leaves no contents to decode: its wait loop has no bound and memory
never shows the locked bit, so it returns for no amount of fuel.  Once some
poll `j` reads the locked bit as set, on a device that otherwise stores what
is written, the ls2k0300 update returns and the decoded dividers are those of
the triple. -/
theorem ls2k0300_round_trip_hangs_on_memory (pin : lsdc_pixpll_parms) (s : Mmio)
    (hleg : legal_triple pin.div_out pin.div_ref pin.loopc) :
    lsdc_pixpll_decode (lsdc_pixpll_update memory_hw pin s).2.mem =
      (pin.div_ref, pin.loopc, pin.div_out) ∧
    ls2k1000_pixpll_decode (ls2k1000_pixpll_param_update memory_hw pin s).2.2.mem =
      (pin.div_ref, pin.loopc, pin.div_out) ∧
    (∀ fuel, ls2k0300_pixpll_param_update memory_hw fuel pin s = none) ∧
    (∀ hw fuel j, lock_only ls2k0300_pixpll_bitmap.locked hw → j < fuel →
      (∀ v, hw (s.log.length + 7 + j) 0 v % U32 &&& 0x80 ≠ 0) →
      ∃ cnt t, ls2k0300_pixpll_param_update hw fuel pin s = some (0, cnt, t) ∧
        ls2k0300_pixpll_decode t.mem = (pin.div_ref, pin.loopc, pin.div_out)) := by
  obtain ⟨⟨o1, o2⟩, ⟨r1, r2⟩, ⟨l1, l2⟩, -, -⟩ := hleg
  refine ⟨?_, ?_, fun fuel => ls2k0300_update_memory_none fuel pin s, ?_⟩
  · rw [canonical_decode memory_hw (memory_hw_lock_only _) pin s, Nat.mod_eq_of_lt (by omega),
      Nat.mod_eq_of_lt (by omega), Nat.mod_eq_of_lt (by omega)]
  · rw [ls2k1000_decode memory_hw (memory_hw_lock_only _) pin (by omega) s,
      Nat.mod_eq_of_lt (by omega), Nat.mod_eq_of_lt (by omega), Nat.mod_eq_of_lt (by omega)]
  · intro hw fuel j h hf hlock
    exact ls2k0300_decode hw h pin (by omega) (by omega) (by omega) s fuel j hf hlock

/-- The instance of C6 with the triple of the 1920x1080@60Hz entry and a
zeroed register window behaving as memory: the canonical variant and ls2k1000
decode `(3, 49, 11)`, the ls2k0300 update does not return within 5000 polls. -/
theorem ls2k0300_round_trip_hangs_on_memory_witness :
    legal_triple 11 3 49 ∧
    lsdc_pixpll_decode
      (lsdc_pixpll_update memory_hw ⟨100000, 3, 49, 11⟩ (Mmio.start fun _ => 0)).2.mem =
        (3, 49, 11) ∧
    ls2k1000_pixpll_decode
      (ls2k1000_pixpll_param_update memory_hw ⟨100000, 3, 49, 11⟩
        (Mmio.start fun _ => 0)).2.2.mem = (3, 49, 11) ∧
    ls2k0300_pixpll_param_update memory_hw 5000 ⟨100000, 3, 49, 11⟩ (Mmio.start fun _ => 0) =
      none :=
  ⟨by decide,
    (ls2k0300_round_trip_hangs_on_memory ⟨100000, 3, 49, 11⟩ (Mmio.start fun _ => 0)
      (by decide)).1,
    (ls2k0300_round_trip_hangs_on_memory ⟨100000, 3, 49, 11⟩ (Mmio.start fun _ => 0)
      (by decide)).2.1,
    (ls2k0300_round_trip_hangs_on_memory ⟨100000, 3, 49, 11⟩ (Mmio.start fun _ => 0)
      (by decide)).2.2.1 5000⟩

/-- C7 (the code at a failing input): with the 100 MHz reference a request of
25175 kHz succeeds with the table triple `{div_out=85, loopc=107, div_ref=5}`,
whose frequency is 25176 kHz; on ls2k1000, with registers behaving as memory
and starting from a zeroed register window, `get_rate` right after `update`
with that triple returns 101904 kHz, the 6-bit `div_out` field holding 21. -/
theorem ls2k1000_readback_mismatch :
    lsdc_pixel_pll_compute ⟨100000, 0, 0, 0⟩ 25175 ⟨100000, 0, 0, 0⟩ =
      { ret := 0, pout := ⟨100000, 5, 107, 85⟩, priv := ⟨100000, 0, 0, 0⟩ } ∧
    rate_of 100000 5 107 85 = some 25176 ∧
    ls2k1000_pixpll_decode (ls2k1000_pixpll_param_update memory_hw ⟨100000, 5, 107, 85⟩
      (Mmio.start fun _ => 0)).2.2.mem = (5, 107, 21) ∧
    (ls2k1000_pixpll_get_clock_rate memory_hw ⟨100000, 0, 0, 0⟩
      (ls2k1000_pixpll_param_update memory_hw ⟨100000, 5, 107, 85⟩
        (Mmio.start fun _ => 0)).2.2).freq = some 101904 := by
  have hd := ls2k1000_decode memory_hw (memory_hw_lock_only _) ⟨100000, 5, 107, 85⟩
    (by decide) (Mmio.start fun _ => 0)
  refine ⟨rfl, by decide, hd, ?_⟩
  rw [ls2k1000_get_clock_rate_freq memory_hw (memory_hw_lock_only _), hd]
  decide

/-- C8 (the code at a failing input): on a device that stores what is written
and never shows the locked bit of ls2k0300, `ls2k0300_pixpll_param_update`
returns for no amount of fuel, that is, its wait loop polls for ever; the wait
loops of the canonical variant and of ls2k1000 make at most 2000 reads on
every device. -/
theorem ls2k0300_wait_unbounded :
    (∀ fuel pin s, ls2k0300_pixpll_param_update
      (locking_hw ls2k0300_pixpll_bitmap.locked fun _ => false) fuel pin s = none) ∧
    (∀ hw s, (__pixpll_ops_wait_locked hw s).2.reads ≤ s.reads + 2000) ∧
    (∀ hw s, (ls2k1000_wait_loop hw 0 s).2.2.reads ≤ s.reads + 2000) := by
  refine ⟨fun fuel pin s => ls2k0300_update_none _ ls2k0300_never_locked fuel pin s, ?_, ?_⟩
  · intro hw s
    obtain ⟨-, ⟨k, -, hk, -, hr, -⟩, -⟩ := wait_locked_spec hw s
    omega
  · intro hw s
    obtain ⟨-, -, k, -, hk, -, hr, -, -⟩ := ls2k1000_wait_loop_spec hw 0 s (by decide)
    omega

/-- C9 (as stated, refuted): with registers behaving as memory, a zeroed
register and the triple `{div_ref=3, loopc=49, div_out=11}`,
`lsdc_pixpll_update` makes the nine writes listed; the first write with
`set_param = 1` is the fourth (index 3) and the first write that carries the
three dividers is the fifth (index 4), so the dividers are staged after
`set_param` is raised, not before. -/
theorem update_stages_after_set_param :
    (lsdc_pixpll_update memory_hw ⟨100000, 3, 49, 11⟩ (Mmio.start fun _ => 0)).2.writes =
      [17592186044416, 17592186044416, 52776558133248, 61572651155456, 61585638817803,
        52789545795595, 17605173706763, 18704685334539, 1112499290123] ∧
    List.findIdx (fun w => decide (lsdc_pixpll_reg.set_param.get w = 1))
      (lsdc_pixpll_update memory_hw ⟨100000, 3, 49, 11⟩ (Mmio.start fun _ => 0)).2.writes = 3 ∧
    List.findIdx (fun w => decide (lsdc_pixpll_reg.div_ref.get w = 3 ∧
        lsdc_pixpll_reg.loopc.get w = 49 ∧ lsdc_pixpll_reg.div_out.get w = 11))
      (lsdc_pixpll_update memory_hw ⟨100000, 3, 49, 11⟩ (Mmio.start fun _ => 0)).2.writes = 4 := by
  have hws : (lsdc_pixpll_update memory_hw ⟨100000, 3, 49, 11⟩
      (Mmio.start fun _ => 0)).2.writes =
      [17592186044416, 17592186044416, 52776558133248, 61572651155456, 61585638817803,
        52789545795595, 17605173706763, 18704685334539, 1112499290123] := by
    obtain ⟨r1, r2, r3, r4, r5, r6, r7, r8, r9, rfl, rfl, rfl, rfl, rfl, rfl, rfl, rfl, rfl,
      -, -, hw⟩ :=
      update_chain memory_hw (fun v r => r = v) (fun n v hv => Nat.mod_eq_of_lt hv)
        ⟨100000, 3, 49, 11⟩ (Mmio.start fun _ => 0)
    rw [hw]
    decide
  rw [hws]
  exact ⟨rfl, by decide, by decide⟩

/-- C9 (amended): on a device that stores what is written and may drive the
locked bit, the nine writes of `lsdc_pixpll_update` are, from the third to the
seventh: the power-down write, the write that sets `set_param = 1` (made on
the dividers the register held before the call), the write that stages
`div_ref`, `loopc` and `div_out` (made with `set_param` still 1), the write
that clears `set_param`, and the power-up write; `powerdown` is 1 in the
second, third and fourth of these. -/
theorem update_write_order (hw : Hardware) (h : lock_only lsdc_pixpll_reg.locked hw)
    (pin : lsdc_pixpll_parms) (s : Mmio) :
    ∃ w1 w2 r3 r4 r5 r6 r7 w8 w9 : Nat,
      (lsdc_pixpll_update hw pin s).2.writes = s.writes ++
        [w1, w2, lsdc_pixpll_reg.powerdown.set r3 1, lsdc_pixpll_reg.set_param.set r4 1,
          lsdc_pixpll_reg.div_out.set (lsdc_pixpll_reg.loopc.set
            (lsdc_pixpll_reg.div_ref.set r5 pin.div_ref) pin.loopc) pin.div_out,
          lsdc_pixpll_reg.set_param.set r6 0, lsdc_pixpll_reg.powerdown.set r7 0, w8, w9] ∧
      lsdc_pixpll_reg.powerdown.get (lsdc_pixpll_reg.powerdown.set r3 1) = 1 ∧
      (lsdc_pixpll_reg.set_param.get (lsdc_pixpll_reg.set_param.set r4 1) = 1 ∧
        lsdc_pixpll_reg.powerdown.get (lsdc_pixpll_reg.set_param.set r4 1) = 1 ∧
        lsdc_pixpll_reg.div_ref.get (lsdc_pixpll_reg.set_param.set r4 1) =
          lsdc_pixpll_reg.div_ref.get (stored64 s.mem 0) ∧
        lsdc_pixpll_reg.loopc.get (lsdc_pixpll_reg.set_param.set r4 1) =
          lsdc_pixpll_reg.loopc.get (stored64 s.mem 0) ∧
        lsdc_pixpll_reg.div_out.get (lsdc_pixpll_reg.set_param.set r4 1) =
          lsdc_pixpll_reg.div_out.get (stored64 s.mem 0)) ∧
      (lsdc_pixpll_reg.set_param.get (lsdc_pixpll_reg.div_out.set (lsdc_pixpll_reg.loopc.set
          (lsdc_pixpll_reg.div_ref.set r5 pin.div_ref) pin.loopc) pin.div_out) = 1 ∧
        lsdc_pixpll_reg.powerdown.get (lsdc_pixpll_reg.div_out.set (lsdc_pixpll_reg.loopc.set
          (lsdc_pixpll_reg.div_ref.set r5 pin.div_ref) pin.loopc) pin.div_out) = 1 ∧
        lsdc_pixpll_reg.div_ref.get (lsdc_pixpll_reg.div_out.set (lsdc_pixpll_reg.loopc.set
          (lsdc_pixpll_reg.div_ref.set r5 pin.div_ref) pin.loopc) pin.div_out) =
            pin.div_ref % 2 ^ 7 ∧
        lsdc_pixpll_reg.loopc.get (lsdc_pixpll_reg.div_out.set (lsdc_pixpll_reg.loopc.set
          (lsdc_pixpll_reg.div_ref.set r5 pin.div_ref) pin.loopc) pin.div_out) =
            pin.loopc % 2 ^ 9 ∧
        lsdc_pixpll_reg.div_out.get (lsdc_pixpll_reg.div_out.set (lsdc_pixpll_reg.loopc.set
          (lsdc_pixpll_reg.div_ref.set r5 pin.div_ref) pin.loopc) pin.div_out) =
            pin.div_out % 2 ^ 7) ∧
      (lsdc_pixpll_reg.set_param.get (lsdc_pixpll_reg.set_param.set r6 0) = 0 ∧
        lsdc_pixpll_reg.powerdown.get (lsdc_pixpll_reg.set_param.set r6 0) = 1) ∧
      lsdc_pixpll_reg.powerdown.get (lsdc_pixpll_reg.powerdown.set r7 0) = 0 := by
  obtain ⟨r1, r2, r3, r4, r5, r6, r7, r8, r9, ⟨b1, rfl⟩, ⟨b2, rfl⟩, ⟨b3, rfl⟩, ⟨b4, rfl⟩,
    ⟨b5, rfl⟩, ⟨b6, rfl⟩, ⟨b7, rfl⟩, ⟨b8, rfl⟩, ⟨b9, rfl⟩, -, -, hws⟩ :=
    update_chain hw (fun v r => ∃ b, r = lsdc_pixpll_reg.locked.set v b) (lock_only_P hw h) pin s
  refine ⟨_, _, _, _, _, _, _, _, _, hws, ?_⟩
  simp [BitField.get_set_same, BitField.get_set_disjoint, lsdc_pixpll_reg.div_ref,
    lsdc_pixpll_reg.loopc, lsdc_pixpll_reg.div_out, lsdc_pixpll_reg.sel_out,
    lsdc_pixpll_reg.set_param, lsdc_pixpll_reg.bypass, lsdc_pixpll_reg.powerdown,
    lsdc_pixpll_reg.locked]

/-- Witness of C9 (amended) with registers behaving as memory. -/
theorem update_write_order_witness :
    lock_only lsdc_pixpll_reg.locked memory_hw ∧
    ∃ w1 w2 r3 r4 r5 r6 r7 w8 w9 : Nat,
      (lsdc_pixpll_update memory_hw ⟨100000, 3, 49, 11⟩ (Mmio.start fun _ => 0)).2.writes =
        (Mmio.start fun _ => 0).writes ++
        [w1, w2, lsdc_pixpll_reg.powerdown.set r3 1, lsdc_pixpll_reg.set_param.set r4 1,
          lsdc_pixpll_reg.div_out.set (lsdc_pixpll_reg.loopc.set
            (lsdc_pixpll_reg.div_ref.set r5 3) 49) 11,
          lsdc_pixpll_reg.set_param.set r6 0, lsdc_pixpll_reg.powerdown.set r7 0, w8, w9] :=
  ⟨memory_hw_lock_only _,
    let ⟨w1, w2, r3, r4, r5, r6, r7, w8, w9, hws, _⟩ :=
      update_write_order memory_hw (memory_hw_lock_only _) ⟨100000, 3, 49, 11⟩
        (Mmio.start fun _ => 0)
    ⟨w1, w2, r3, r4, r5, r6, r7, w8, w9, hws⟩⟩

/-- C10 (the code at the failing input): for every two in-bounds triples `p1`
and `p2` and every initial register contents, with registers behaving as
memory.  On the canonical variant and on ls2k1000 the register contents after
`update(p1)` followed by `update(p2)` equal those after `update(p2)` alone,
and the dividers decoded from them are those of `p2`.  On ls2k0300 the first
update returns for no amount of fuel, so the second is never started: the
wait loop has no bound and memory never shows the locked bit.  On a device
that stores what is written and drives the locked bit, whenever the ls2k0300
updates return, the contents after `update(p1)` followed by `update(p2)`,
the second call continuing the trace of the first, equal those after
`update(p2)` alone and decode to the dividers of `p2`. -/
theorem ls2k0300_update_twice_hangs_on_memory (p1 p2 : lsdc_pixpll_parms) (s : Mmio)
    (h1 : legal_triple p1.div_out p1.div_ref p1.loopc)
    (h2 : legal_triple p2.div_out p2.div_ref p2.loopc) :
    ((lsdc_pixpll_update memory_hw p2 (lsdc_pixpll_update memory_hw p1 s).2).2.mem =
        (lsdc_pixpll_update memory_hw p2 s).2.mem ∧
      lsdc_pixpll_decode
        (lsdc_pixpll_update memory_hw p2 (lsdc_pixpll_update memory_hw p1 s).2).2.mem =
          (p2.div_ref, p2.loopc, p2.div_out)) ∧
    ((ls2k1000_pixpll_param_update memory_hw p2
          (ls2k1000_pixpll_param_update memory_hw p1 s).2.2).2.2.mem =
        (ls2k1000_pixpll_param_update memory_hw p2 s).2.2.mem ∧
      ls2k1000_pixpll_decode (ls2k1000_pixpll_param_update memory_hw p2
          (ls2k1000_pixpll_param_update memory_hw p1 s).2.2).2.2.mem =
        (p2.div_ref, p2.loopc, p2.div_out)) ∧
    (∀ fuel, ls2k0300_pixpll_param_update memory_hw fuel p1 s = none) ∧
    (∀ hw fuel1 fuel2 fuel3 r1 r12 r2, lock_only ls2k0300_pixpll_bitmap.locked hw →
      ls2k0300_pixpll_param_update hw fuel1 p1 s = some r1 →
      ls2k0300_pixpll_param_update hw fuel2 p2 r1.2.2 = some r12 →
      ls2k0300_pixpll_param_update hw fuel3 p2 s = some r2 →
      r12.2.2.mem = r2.2.2.mem ∧
      ls2k0300_pixpll_decode r12.2.2.mem = (p2.div_ref, p2.loopc, p2.div_out)) := by
  obtain ⟨⟨a1, a2⟩, ⟨a3, a4⟩, ⟨a5, a6⟩, -, -⟩ := h1
  obtain ⟨⟨c1, c2⟩, ⟨c3, c4⟩, ⟨c5, c6⟩, -, -⟩ := h2
  refine ⟨⟨?_, ?_⟩, ⟨?_, ?_⟩, fun fuel => ls2k0300_update_memory_none fuel p1 s, ?_⟩
  · rw [update_memory_mem p2 (lsdc_pixpll_update memory_hw p1 s).2, update_memory_mem p1 s,
      update_memory_mem p2 s, mem_with_reg64_twice, stored64_mem_with_reg64,
      Nat.mod_eq_of_lt (lsdc_pixpll_programmed_lt _ _ (stored64_lt _ _)),
      lsdc_pixpll_programmed_twice]
  · rw [canonical_decode memory_hw (memory_hw_lock_only _) p2, Nat.mod_eq_of_lt (by omega),
      Nat.mod_eq_of_lt (by omega), Nat.mod_eq_of_lt (by omega)]
  · rw [ls2k1000_update_words_memory p2 (by omega)
        (ls2k1000_pixpll_param_update memory_hw p1 s).2.2,
      ls2k1000_update_words_memory p1 (by omega) s, ls2k1000_update_words_memory p2 (by omega) s]
    funext a
    have hlt : (BitField.mk 0 12).set (s.mem 4 % U32) p1.loopc < 2 ^ 32 :=
      BitField.set_lt _ _ _ 32 (Nat.mod_lt _ (by decide)) (by decide)
    have e4 : mem_with_word (mem_with_word (mem_with_word s.mem 4
        ((BitField.mk 0 12).set (s.mem 4 % U32) p1.loopc)) 8 p1.div_out) 0
        ((BitField.mk 0 1).set ((BitField.mk 19 1).set ((BitField.mk 2 1).set
          ((BitField.mk 26 6).set ((1 <<< 7) ||| (3 <<< 10)) p1.div_ref) 1) 0) 1) 4 % U32 =
        (BitField.mk 0 12).set (s.mem 4 % U32) p1.loopc := by
      rw [mem_with_word_other _ _ _ _ (by decide), mem_with_word_other _ _ _ _ (by decide),
        mem_with_word_same, Nat.mod_mod, mod_U32_of_lt _ hlt]
    rw [e4, BitField.set_set_same]
    unfold mem_with_word
    split_ifs <;> rfl
  · rw [ls2k1000_decode memory_hw (memory_hw_lock_only _) p2 (by omega),
      Nat.mod_eq_of_lt (by omega), Nat.mod_eq_of_lt (by omega), Nat.mod_eq_of_lt (by omega)]
  · intro hw fuel1 fuel2 fuel3 r1 r12 r2 h e1 e12 e2
    have m1 := ls2k0300_update_mem_of_some hw h fuel1 p1 s r1 e1
    have m12 := ls2k0300_update_mem_of_some hw h fuel2 p2 r1.2.2 r12 e12
    have m2 := ls2k0300_update_mem_of_some hw h fuel3 p2 s r2 e2
    refine ⟨?_, ls2k0300_decode_of_some hw h fuel2 p2 (by omega) (by omega) (by omega)
      r1.2.2 r12 e12⟩
    rw [m12, m1, mem_with_word_twice, m2]

/-- The instance of C10 with the triples of the 1920x1080@60Hz and
1280x1024@75Hz entries and a zeroed register window behaving as memory. -/
theorem ls2k0300_update_twice_hangs_on_memory_witness :
    legal_triple 11 3 49 ∧ legal_triple 10 4 54 ∧
    (lsdc_pixpll_update memory_hw ⟨100000, 4, 54, 10⟩
        (lsdc_pixpll_update memory_hw ⟨100000, 3, 49, 11⟩ (Mmio.start fun _ => 0)).2).2.mem =
      (lsdc_pixpll_update memory_hw ⟨100000, 4, 54, 10⟩ (Mmio.start fun _ => 0)).2.mem ∧
    (ls2k1000_pixpll_param_update memory_hw ⟨100000, 4, 54, 10⟩
        (ls2k1000_pixpll_param_update memory_hw ⟨100000, 3, 49, 11⟩
          (Mmio.start fun _ => 0)).2.2).2.2.mem =
      (ls2k1000_pixpll_param_update memory_hw ⟨100000, 4, 54, 10⟩
        (Mmio.start fun _ => 0)).2.2.mem ∧
    ls2k0300_pixpll_param_update memory_hw 5000 ⟨100000, 3, 49, 11⟩ (Mmio.start fun _ => 0) =
      none :=
  ⟨by decide, by decide,
    (ls2k0300_update_twice_hangs_on_memory ⟨100000, 3, 49, 11⟩ ⟨100000, 4, 54, 10⟩
      (Mmio.start fun _ => 0) (by decide) (by decide)).1.1,
    (ls2k0300_update_twice_hangs_on_memory ⟨100000, 3, 49, 11⟩ ⟨100000, 4, 54, 10⟩
      (Mmio.start fun _ => 0) (by decide) (by decide)).2.1.1,
    (ls2k0300_update_twice_hangs_on_memory ⟨100000, 3, 49, 11⟩ ⟨100000, 4, 54, 10⟩
      (Mmio.start fun _ => 0) (by decide) (by decide)).2.2.1 5000⟩

/-- C11 (the code at the failing input): the triple that
`lsdc_pixel_pll_compute` returns for 25175 kHz is
`{div_out=85, loopc=107, div_ref=5}`; after `ls2k1000_pixpll_param_update` has
applied it to a zeroed register window behaving as memory, the 6-bit `div_out`
field holds 21, not 85, so the parameter fields do not hold the applied
triple. -/
theorem ls2k1000_terminal_state_truncates_div_out :
    (lsdc_pixel_pll_compute ⟨100000, 0, 0, 0⟩ 25175 ⟨100000, 0, 0, 0⟩).pout =
      ⟨100000, 5, 107, 85⟩ ∧
    ls2k1000_pixpll_decode (ls2k1000_pixpll_param_update memory_hw ⟨100000, 5, 107, 85⟩
      (Mmio.start fun _ => 0)).2.2.mem = (5, 107, 21) ∧
    (ls2k1000_pixpll_decode (ls2k1000_pixpll_param_update memory_hw ⟨100000, 5, 107, 85⟩
      (Mmio.start fun _ => 0)).2.2.mem).2.2 ≠ 85 := by
  have h := ls2k1000_decode memory_hw (memory_hw_lock_only _) ⟨100000, 5, 107, 85⟩ (by decide)
    (Mmio.start fun _ => 0)
  refine ⟨rfl, ?_, ?_⟩
  · rw [h]; rfl
  · rw [h]; decide

/-- The terminal state of the three updates: on a device that stores what is
written and may drive the read-only locked bit, from any register contents and for any triple, each
variant's update returns 0 and leaves `sel_out = 1`, `bypass = 0` and
`powerdown = 0` (and `set_param = 0` on the canonical variant); when each
divider fits its field of the variant's layout (7/9/7 bits canonical, 6/10/6
bits ls2k1000, 7/9/7 bits ls2k0300) the parameter fields hold the applied
triple.  For ls2k0300, whose wait loop has no bound, this is what holds
whenever the update returns, and it returns once some poll `j` of the wait
loop reads the locked bit as set. -/
theorem update_terminal_state (pin : lsdc_pixpll_parms) (s : Mmio) :
    (∀ hw, lock_only lsdc_pixpll_reg.locked hw →
      (lsdc_pixpll_update hw pin s).1 = 0 ∧
      lsdc_pixpll_reg.sel_out.get (stored64 (lsdc_pixpll_update hw pin s).2.mem 0) = 1 ∧
      lsdc_pixpll_reg.bypass.get (stored64 (lsdc_pixpll_update hw pin s).2.mem 0) = 0 ∧
      lsdc_pixpll_reg.powerdown.get (stored64 (lsdc_pixpll_update hw pin s).2.mem 0) = 0 ∧
      lsdc_pixpll_reg.set_param.get (stored64 (lsdc_pixpll_update hw pin s).2.mem 0) = 0 ∧
      (pin.div_ref < 2 ^ 7 → pin.loopc < 2 ^ 9 → pin.div_out < 2 ^ 7 →
        lsdc_pixpll_decode (lsdc_pixpll_update hw pin s).2.mem =
          (pin.div_ref, pin.loopc, pin.div_out))) ∧
    (∀ hw, lock_only ls2k1000_pixpll_reg.locked hw →
      (ls2k1000_pixpll_param_update hw pin s).1 = 0 ∧
      ls2k1000_pixpll_reg.sel_out.get ((ls2k1000_pixpll_param_update hw pin s).2.2.mem 0) = 1 ∧
      ls2k1000_pixpll_reg.bypass.get ((ls2k1000_pixpll_param_update hw pin s).2.2.mem 0) = 0 ∧
      ls2k1000_pixpll_reg.powerdown.get
        ((ls2k1000_pixpll_param_update hw pin s).2.2.mem 0) = 0 ∧
      (pin.div_ref < 2 ^ 6 → pin.loopc < 2 ^ 10 → pin.div_out < 2 ^ 6 →
        ls2k1000_pixpll_decode (ls2k1000_pixpll_param_update hw pin s).2.2.mem =
          (pin.div_ref, pin.loopc, pin.div_out))) ∧
    (∀ hw fuel r, lock_only ls2k0300_pixpll_bitmap.locked hw →
      ls2k0300_pixpll_param_update hw fuel pin s = some r →
      r.1 = 0 ∧
      ls2k0300_pixpll_bitmap.sel_out.get (r.2.2.mem 0) = 1 ∧
      ls2k0300_pixpll_bitmap.bypass.get (r.2.2.mem 0) = 0 ∧
      ls2k0300_pixpll_bitmap.powerdown.get (r.2.2.mem 0) = 0 ∧
      (pin.div_ref < 2 ^ 7 → pin.loopc < 2 ^ 9 → pin.div_out < 2 ^ 7 →
        ls2k0300_pixpll_decode r.2.2.mem = (pin.div_ref, pin.loopc, pin.div_out))) ∧
    (∀ hw fuel j, j < fuel → (∀ v, hw (s.log.length + 7 + j) 0 v % U32 &&& 0x80 ≠ 0) →
      ∃ r, ls2k0300_pixpll_param_update hw fuel pin s = some r) := by
  refine ⟨?_, ?_, ?_, ?_⟩
  rotate_left 3
  · intro hw fuel j hj hl
    obtain ⟨r1, r2, r3, cnt, t, hres, -⟩ :=
      ls2k0300_update_chain hw (fun _ _ => True) (fun _ _ => trivial) pin s fuel j hj hl
    exact ⟨_, hres⟩
  · intro hw h
    obtain ⟨-, -, -, f4, f5, f6, f7⟩ := canonical_fields hw h pin s
    refine ⟨rfl, f4, f6, f7, f5, fun h1 h2 h3 => ?_⟩
    rw [canonical_decode hw h pin s, Nat.mod_eq_of_lt h1, Nat.mod_eq_of_lt h2,
      Nat.mod_eq_of_lt h3]
  · intro hw h
    obtain ⟨b, e0, -⟩ := ls2k1000_update_word0 hw h pin s
    have hb : ls2k1000_pixpll_reg.bypass.get ((1 <<< 7) ||| (3 <<< 10)) = 0 := by decide
    refine ⟨rfl, ?_, ?_, ?_, fun h1 h2 h3 => ?_⟩
    · rw [e0, BitField.get_set_disjoint _ _ _ _ (by decide), BitField.get_set_same]
      rfl
    · rw [e0, BitField.get_set_disjoint _ _ _ _ (by decide),
        BitField.get_set_disjoint _ _ _ _ (by decide),
        BitField.get_set_disjoint _ _ _ _ (by decide),
        BitField.get_set_disjoint _ _ _ _ (by decide),
        BitField.get_set_disjoint _ _ _ _ (by decide), hb]
    · rw [e0, BitField.get_set_disjoint _ _ _ _ (by decide),
        BitField.get_set_disjoint _ _ _ _ (by decide), BitField.get_set_same]
      rfl
    · rw [ls2k1000_decode hw h pin (lt_trans h2 (by decide)) s, Nat.mod_eq_of_lt h1,
        Nat.mod_eq_of_lt h2, Nat.mod_eq_of_lt h3]
  · intro hw fuel r h hr
    obtain ⟨hret, b, hm, hlt⟩ := ls2k0300_update_word_of_some hw h fuel pin s r hr
    have e0 : r.2.2.mem 0 = ls2k0300_pixpll_bitmap.sel_out.set
        (ls2k0300_pixpll_bitmap.locked.set (ls2k0300_pixpll_bitmap.powerdown.set
          (ls2k0300_pixpll_bitmap.bypass.set
            (((pin.div_out <<< 24) % U32) ||| ((pin.loopc <<< 15) % U32) |||
              ((pin.div_ref <<< 8) % U32)) 0) 0) b) 1 := by
      rw [hm, mem_with_word_same, mod_U32_of_lt _ hlt]
    refine ⟨hret, ?_, ?_, ?_, fun h1 h2 h3 => ?_⟩
    · rw [e0, BitField.get_set_same]
      rfl
    · rw [e0, BitField.get_set_disjoint _ _ _ _ (by decide),
        BitField.get_set_disjoint _ _ _ _ (by decide),
        BitField.get_set_disjoint _ _ _ _ (by decide), BitField.get_set_same]
      rfl
    · rw [e0, BitField.get_set_disjoint _ _ _ _ (by decide),
        BitField.get_set_disjoint _ _ _ _ (by decide), BitField.get_set_same]
      rfl
    · unfold ls2k0300_pixpll_decode
      simp only
      rw [e0, mod_U32_of_lt _ hlt, ls2k0300_val_eq _ _ _ h3 h2 h1]
      refine Prod.ext ?_ (Prod.ext ?_ ?_)
      · simp only
        rw [BitField.get_set_disjoint _ _ _ _ (by decide),
          BitField.get_set_disjoint _ _ _ _ (by decide),
          BitField.get_set_disjoint _ _ _ _ (by decide),
          BitField.get_set_disjoint _ _ _ _ (by decide), BitField.get_set_same]
        exact Nat.mod_eq_of_lt h1
      · simp only
        rw [BitField.get_set_disjoint _ _ _ _ (by decide),
          BitField.get_set_disjoint _ _ _ _ (by decide),
          BitField.get_set_disjoint _ _ _ _ (by decide),
          BitField.get_set_disjoint _ _ _ _ (by decide),
          BitField.get_set_disjoint _ _ _ _ (by decide), BitField.get_set_same]
        exact Nat.mod_eq_of_lt h2
      · simp only
        rw [BitField.get_set_disjoint _ _ _ _ (by decide),
          BitField.get_set_disjoint _ _ _ _ (by decide),
          BitField.get_set_disjoint _ _ _ _ (by decide),
          BitField.get_set_disjoint _ _ _ _ (by decide),
          BitField.get_set_disjoint _ _ _ _ (by decide),
          BitField.get_set_disjoint _ _ _ _ (by decide), BitField.get_set_same]
        exact Nat.mod_eq_of_lt h3

/-- An instance of `update_terminal_state`: the triple of the 1920x1080@60Hz
entry applied to a zeroed register window. -/
theorem update_terminal_state_witness :
    lsdc_pixpll_decode
      (lsdc_pixpll_update memory_hw ⟨100000, 3, 49, 11⟩ (Mmio.start fun _ => 0)).2.mem =
        (3, 49, 11) ∧
    ls2k1000_pixpll_decode
      (ls2k1000_pixpll_param_update memory_hw ⟨100000, 3, 49, 11⟩
        (Mmio.start fun _ => 0)).2.2.mem = (3, 49, 11) ∧
    ∃ r, ls2k0300_pixpll_param_update
        (locking_hw ls2k0300_pixpll_bitmap.locked fun _ => true) 1 ⟨100000, 3, 49, 11⟩
        (Mmio.start fun _ => 0) = some r ∧
      r.1 = 0 ∧ ls2k0300_pixpll_bitmap.sel_out.get (r.2.2.mem 0) = 1 ∧
      ls2k0300_pixpll_bitmap.bypass.get (r.2.2.mem 0) = 0 ∧
      ls2k0300_pixpll_bitmap.powerdown.get (r.2.2.mem 0) = 0 ∧
      ls2k0300_pixpll_decode r.2.2.mem = (3, 49, 11) := by
  refine ⟨?_, ?_, ?_⟩
  · exact ((update_terminal_state ⟨100000, 3, 49, 11⟩ (Mmio.start fun _ => 0)).1
      memory_hw (memory_hw_lock_only _)).2.2.2.2.2 (by decide) (by decide) (by decide)
  · exact ((update_terminal_state ⟨100000, 3, 49, 11⟩ (Mmio.start fun _ => 0)).2.1
      memory_hw (memory_hw_lock_only _)).2.2.2.2 (by decide) (by decide) (by decide)
  · obtain ⟨r, hres⟩ := (update_terminal_state ⟨100000, 3, 49, 11⟩
      (Mmio.start fun _ => 0)).2.2.2
      (locking_hw ls2k0300_pixpll_bitmap.locked fun _ => true) 1 0 (by decide)
      (ls2k0300_locked_when_driven _ _ rfl)
    have h := (update_terminal_state ⟨100000, 3, 49, 11⟩ (Mmio.start fun _ => 0)).2.2.1
      (locking_hw ls2k0300_pixpll_bitmap.locked fun _ => true) 1 r
      (locking_hw_lock_only _ _) hres
    exact ⟨r, hres, h.1, h.2.1, h.2.2.1, h.2.2.2.1,
      h.2.2.2.2 (by decide) (by decide) (by decide)⟩

/-- C12: on the canonical variant and on ls2k1000, on a device that stores
what is written and never shows the locked bit, the update still returns 0
after its wait has used the whole budget of 2000 polls (2009 reads in all on
the canonical variant, a reported counter of 2000 on ls2k1000), and it still
makes the writes that follow the wait: `sel_out = 1` and then `bypass = 0` on
the canonical variant, `val | 1` on ls2k1000, so that `sel_out` ends as 1 (and
`bypass` as 0 on the canonical variant).  This is as on any other such device
`hw2`, in particular one that shows the locked bit: the same return value, the
same number of writes, and the same stored words but for the locked bit, which
the device drives. -/
theorem update_completes_without_lock (pin : lsdc_pixpll_parms) (s : Mmio) :
    (∀ hw, lock_only lsdc_pixpll_reg.locked hw →
      (∀ n v, lsdc_pixpll_reg.locked.get (hw n 0 v % 2 ^ 64) = 0) →
      (lsdc_pixpll_update hw pin s).1 = 0 ∧
      (lsdc_pixpll_update hw pin s).2.reads = s.reads + 2009 ∧
      (∃ w1 w2 w3 w4 w5 w6 w7 r8 r9, (lsdc_pixpll_update hw pin s).2.writes =
        s.writes ++ [w1, w2, w3, w4, w5, w6, w7, lsdc_pixpll_reg.sel_out.set r8 1,
          lsdc_pixpll_reg.bypass.set r9 0]) ∧
      lsdc_pixpll_reg.sel_out.get (stored64 (lsdc_pixpll_update hw pin s).2.mem 0) = 1 ∧
      lsdc_pixpll_reg.bypass.get (stored64 (lsdc_pixpll_update hw pin s).2.mem 0) = 0 ∧
      ∀ hw2, lock_only lsdc_pixpll_reg.locked hw2 →
        (lsdc_pixpll_update hw2 pin s).1 = (lsdc_pixpll_update hw pin s).1 ∧
        (lsdc_pixpll_update hw2 pin s).2.writes.length =
          (lsdc_pixpll_update hw pin s).2.writes.length ∧
        lsdc_pixpll_reg.locked.set (stored64 (lsdc_pixpll_update hw2 pin s).2.mem 0) 0 =
          lsdc_pixpll_reg.locked.set (stored64 (lsdc_pixpll_update hw pin s).2.mem 0) 0) ∧
    (∀ hw, lock_only ls2k1000_pixpll_reg.locked hw →
      (∀ n v, hw n 0 v % U32 &&& 0x10000 = 0) →
      (ls2k1000_pixpll_param_update hw pin s).1 = 0 ∧
      (ls2k1000_pixpll_param_update hw pin s).2.1 = 2000 ∧
      (∃ w1 w2 w3 w4 w5 w6 w7 w8 r4, (ls2k1000_pixpll_param_update hw pin s).2.2.writes =
        s.writes ++ [w1, w2, w3, w4, w5, w6, w7, w8, (r4 ||| 1) % U32]) ∧
      ls2k1000_pixpll_reg.sel_out.get ((ls2k1000_pixpll_param_update hw pin s).2.2.mem 0) = 1 ∧
      ∀ hw2, lock_only ls2k1000_pixpll_reg.locked hw2 →
        (ls2k1000_pixpll_param_update hw2 pin s).1 = (ls2k1000_pixpll_param_update hw pin s).1 ∧
        (ls2k1000_pixpll_param_update hw2 pin s).2.2.writes.length =
          (ls2k1000_pixpll_param_update hw pin s).2.2.writes.length ∧
        (∀ a, a ≠ 0 → (ls2k1000_pixpll_param_update hw2 pin s).2.2.mem a =
          (ls2k1000_pixpll_param_update hw pin s).2.2.mem a) ∧
        ls2k1000_pixpll_reg.locked.set ((ls2k1000_pixpll_param_update hw2 pin s).2.2.mem 0) 0 =
          ls2k1000_pixpll_reg.locked.set
            ((ls2k1000_pixpll_param_update hw pin s).2.2.mem 0) 0) := by
  have wl : ∀ hw, lock_only lsdc_pixpll_reg.locked hw →
      ∃ w1 w2 w3 w4 w5 w6 w7 r8 r9, (lsdc_pixpll_update hw pin s).2.writes =
        s.writes ++ [w1, w2, w3, w4, w5, w6, w7, lsdc_pixpll_reg.sel_out.set r8 1,
          lsdc_pixpll_reg.bypass.set r9 0] := by
    intro hw h
    obtain ⟨r1, r2, r3, r4, r5, r6, r7, r8, r9, -, -, -, -, -, -, -, -, -, -, -, hws⟩ :=
      update_chain hw (fun v r => ∃ b, r = lsdc_pixpll_reg.locked.set v b) (lock_only_P hw h)
        pin s
    exact ⟨_, _, _, _, _, _, _, r8, r9, hws⟩
  have wl2 : ∀ hw : Hardware,
      ∃ w1 w2 w3 w4 w5 w6 w7 w8 r4, (ls2k1000_pixpll_param_update hw pin s).2.2.writes =
        s.writes ++ [w1, w2, w3, w4, w5, w6, w7, w8, (r4 ||| 1) % U32] := by
    intro hw
    obtain ⟨r1, r2, r3, r4, -, -, -, -, -, -, -, -, -, hws⟩ :=
      ls2k1000_update_chain hw (fun _ _ _ => True) (fun _ _ _ => trivial) pin s
    exact ⟨_, _, _, _, _, _, _, _, r4, hws⟩
  refine ⟨?_, ?_⟩
  · intro hw h hnl
    obtain ⟨-, -, -, f4, -, f6, -⟩ := canonical_fields hw h pin s
    obtain ⟨b, -, e⟩ := update_lock_only_reg hw h pin s
    refine ⟨rfl, update_reads_never hw hnl pin s, wl hw h, f4, f6, ?_⟩
    intro hw2 h2
    obtain ⟨b2, -, e2⟩ := update_lock_only_reg hw2 h2 pin s
    obtain ⟨_, _, _, _, _, _, _, _, _, hws⟩ := wl hw h
    obtain ⟨_, _, _, _, _, _, _, _, _, hws2⟩ := wl hw2 h2
    refine ⟨rfl, ?_, ?_⟩
    · rw [hws, hws2]; simp
    · rw [e, e2, BitField.set_set_same, BitField.set_set_same]
  · intro hw h hnl
    obtain ⟨hr, hc⟩ := ls2k1000_update_never hw hnl pin s
    obtain ⟨b, e0, -⟩ := ls2k1000_update_word0 hw h pin s
    obtain ⟨e4, e8, eo⟩ := ls2k1000_update_other_words hw h pin s
    refine ⟨hr, hc, wl2 hw, ?_, ?_⟩
    · rw [e0, BitField.get_set_disjoint _ _ _ _ (by decide), BitField.get_set_same]
      rfl
    · intro hw2 h2
      obtain ⟨b2, e02, -⟩ := ls2k1000_update_word0 hw2 h2 pin s
      obtain ⟨e42, e82, eo2⟩ := ls2k1000_update_other_words hw2 h2 pin s
      obtain ⟨_, _, _, _, _, _, _, _, _, hws⟩ := wl2 hw
      obtain ⟨_, _, _, _, _, _, _, _, _, hws2⟩ := wl2 hw2
      refine ⟨rfl, ?_, ?_, ?_⟩
      · rw [hws, hws2]; simp
      · intro a ha
        by_cases h4 : a = 4
        · rw [h4, e4, e42]
        · by_cases h8 : a = 8
          · rw [h8, e8, e82]
          · rw [eo a ha h4 h8, eo2 a ha h4 h8]
      · rw [e0, e02, BitField.set_set_same, BitField.set_set_same]

/-- Witness of C12: the triple of the 1920x1080@60Hz entry applied to a zeroed
register window on devices that drive the locked bit low, compared with
devices that drive it high. -/
theorem update_completes_without_lock_witness :
    (lsdc_pixpll_update (locking_hw lsdc_pixpll_reg.locked fun _ => false) ⟨100000, 3, 49, 11⟩
        (Mmio.start fun _ => 0)).2.reads = (Mmio.start fun _ => 0).reads + 2009 ∧
    (ls2k1000_pixpll_param_update (locking_hw ls2k1000_pixpll_reg.locked fun _ => false)
        ⟨100000, 3, 49, 11⟩ (Mmio.start fun _ => 0)).2.1 = 2000 ∧
    lsdc_pixpll_reg.locked.set (stored64 (lsdc_pixpll_update
        (locking_hw lsdc_pixpll_reg.locked fun _ => true) ⟨100000, 3, 49, 11⟩
        (Mmio.start fun _ => 0)).2.mem 0) 0 =
      lsdc_pixpll_reg.locked.set (stored64 (lsdc_pixpll_update
        (locking_hw lsdc_pixpll_reg.locked fun _ => false) ⟨100000, 3, 49, 11⟩
        (Mmio.start fun _ => 0)).2.mem 0) 0 ∧
    ls2k1000_pixpll_reg.locked.set ((ls2k1000_pixpll_param_update
        (locking_hw ls2k1000_pixpll_reg.locked fun _ => true) ⟨100000, 3, 49, 11⟩
        (Mmio.start fun _ => 0)).2.2.mem 0) 0 =
      ls2k1000_pixpll_reg.locked.set ((ls2k1000_pixpll_param_update
        (locking_hw ls2k1000_pixpll_reg.locked fun _ => false) ⟨100000, 3, 49, 11⟩
        (Mmio.start fun _ => 0)).2.2.mem 0) 0 :=
  ⟨((update_completes_without_lock ⟨100000, 3, 49, 11⟩ (Mmio.start fun _ => 0)).1
      (locking_hw lsdc_pixpll_reg.locked fun _ => false) (locking_hw_lock_only _ _)
      canonical_never_locked).2.1,
   ((update_completes_without_lock ⟨100000, 3, 49, 11⟩ (Mmio.start fun _ => 0)).2
      (locking_hw ls2k1000_pixpll_reg.locked fun _ => false) (locking_hw_lock_only _ _)
      ls2k1000_never_locked).2.1,
   (((update_completes_without_lock ⟨100000, 3, 49, 11⟩ (Mmio.start fun _ => 0)).1
      (locking_hw lsdc_pixpll_reg.locked fun _ => false) (locking_hw_lock_only _ _)
      canonical_never_locked).2.2.2.2.2
      (locking_hw lsdc_pixpll_reg.locked fun _ => true) (locking_hw_lock_only _ _)).2.2,
   (((update_completes_without_lock ⟨100000, 3, 49, 11⟩ (Mmio.start fun _ => 0)).2
      (locking_hw ls2k1000_pixpll_reg.locked fun _ => false) (locking_hw_lock_only _ _)
      ls2k1000_never_locked).2.2.2.2
      (locking_hw ls2k1000_pixpll_reg.locked fun _ => true) (locking_hw_lock_only _ _)).2.2.2⟩

/-- C13: on a device that stores what is written and may drive the read-only
locked bit, for every variant and every register contents whose `div_ref`
and `div_out` fields are not zero, `get_rate` returns
`ref_clock / div_ref * loopc / div_out` evaluated as the code does, in
`unsigned int` from left to right, on the fields that the variant's layout
decodes from the register; when the product does not wrap around 32 bits (as
with the 100 MHz reference) this is the same expression over the natural
numbers. -/
theorem get_rate_formula (hw : Hardware) (priv : lsdc_pixpll_parms) (s : Mmio) :
    (lock_only lsdc_pixpll_reg.locked hw →
      (lsdc_pixpll_decode s.mem).1 ≠ 0 → (lsdc_pixpll_decode s.mem).2.2 ≠ 0 →
      (lsdc_pixpll_get_freq hw priv s).freq =
        some (pll_clock_out priv.ref_clock (lsdc_pixpll_decode s.mem).1
          (lsdc_pixpll_decode s.mem).2.1 (lsdc_pixpll_decode s.mem).2.2) ∧
      (priv.ref_clock / (lsdc_pixpll_decode s.mem).1 * (lsdc_pixpll_decode s.mem).2.1 < U32 →
        (lsdc_pixpll_get_freq hw priv s).freq =
          some (priv.ref_clock / (lsdc_pixpll_decode s.mem).1 *
            (lsdc_pixpll_decode s.mem).2.1 / (lsdc_pixpll_decode s.mem).2.2))) ∧
    (lock_only ls2k1000_pixpll_reg.locked hw →
      (ls2k1000_pixpll_decode s.mem).1 ≠ 0 → (ls2k1000_pixpll_decode s.mem).2.2 ≠ 0 →
      (ls2k1000_pixpll_get_clock_rate hw priv s).freq =
        some (pll_clock_out priv.ref_clock (ls2k1000_pixpll_decode s.mem).1
          (ls2k1000_pixpll_decode s.mem).2.1 (ls2k1000_pixpll_decode s.mem).2.2) ∧
      (priv.ref_clock / (ls2k1000_pixpll_decode s.mem).1 *
          (ls2k1000_pixpll_decode s.mem).2.1 < U32 →
        (ls2k1000_pixpll_get_clock_rate hw priv s).freq =
          some (priv.ref_clock / (ls2k1000_pixpll_decode s.mem).1 *
            (ls2k1000_pixpll_decode s.mem).2.1 / (ls2k1000_pixpll_decode s.mem).2.2))) ∧
    (lock_only ls2k0300_pixpll_bitmap.locked hw →
      (ls2k0300_pixpll_decode s.mem).1 ≠ 0 → (ls2k0300_pixpll_decode s.mem).2.2 ≠ 0 →
      (ls2k0300_pixpll_get_clock_rate hw priv s).freq =
        some (pll_clock_out priv.ref_clock (ls2k0300_pixpll_decode s.mem).1
          (ls2k0300_pixpll_decode s.mem).2.1 (ls2k0300_pixpll_decode s.mem).2.2) ∧
      (priv.ref_clock / (ls2k0300_pixpll_decode s.mem).1 *
          (ls2k0300_pixpll_decode s.mem).2.1 < U32 →
        (ls2k0300_pixpll_get_clock_rate hw priv s).freq =
          some (priv.ref_clock / (ls2k0300_pixpll_decode s.mem).1 *
            (ls2k0300_pixpll_decode s.mem).2.1 / (ls2k0300_pixpll_decode s.mem).2.2))) := by
  refine ⟨fun h h1 h2 => ?_, fun h h1 h2 => ?_, fun h h1 h2 => ?_⟩
  · rw [lsdc_pixpll_get_freq_freq hw h]
    exact rate_of_some _ _ _ _ h1 h2
  · rw [ls2k1000_get_clock_rate_freq hw h]
    exact rate_of_some _ _ _ _ h1 h2
  · rw [ls2k0300_get_clock_rate_freq hw h]
    exact rate_of_some _ _ _ _ h1 h2

/-- Witness of C13: register windows holding `div_ref = 3, loopc = 49,
div_out = 11` in the layout of each variant, read with the 100 MHz
reference. -/
theorem get_rate_formula_witness :
    (lsdc_pixpll_get_freq memory_hw ⟨100000, 0, 0, 0⟩
        (Mmio.start (mem_with_reg64 (fun _ => 0) 12987662347))).freq = some 148483 ∧
    (ls2k1000_pixpll_get_clock_rate memory_hw ⟨100000, 0, 0, 0⟩
        (Mmio.start (mem_with_word (mem_with_word (mem_with_word (fun _ => 0) 0 201326592)
          4 49) 8 11))).freq = some 148483 ∧
    (ls2k0300_pixpll_get_clock_rate memory_hw ⟨100000, 0, 0, 0⟩
        (Mmio.start (mem_with_word (fun _ => 0) 0 186155776))).freq = some 148483 :=
  ⟨(((get_rate_formula memory_hw ⟨100000, 0, 0, 0⟩
      (Mmio.start (mem_with_reg64 (fun _ => 0) 12987662347))).1
        (memory_hw_lock_only _) (by decide) (by decide)).1).trans (by decide),
   (((get_rate_formula memory_hw ⟨100000, 0, 0, 0⟩
      (Mmio.start (mem_with_word (mem_with_word (mem_with_word (fun _ => 0) 0 201326592)
          4 49) 8 11))).2.1
        (memory_hw_lock_only _) (by decide) (by decide)).2 (by decide)).trans (by decide),
   (((get_rate_formula memory_hw ⟨100000, 0, 0, 0⟩
      (Mmio.start (mem_with_word (fun _ => 0) 0 186155776))).2.2
        (memory_hw_lock_only _) (by decide) (by decide)).2 (by decide)).trans (by decide)⟩

/-- C14: for every variant, every device and every register window, two
handles with the same `ref_clock` get the same frequency from `get_rate`,
whatever `div_ref`, `loopc` and `div_out` each of them has cached. -/
theorem get_rate_ignores_cached_dividers (hw : Hardware) (s : Mmio)
    (p1 p2 : lsdc_pixpll_parms) (href : p1.ref_clock = p2.ref_clock) :
    (lsdc_pixpll_get_freq hw p1 s).freq = (lsdc_pixpll_get_freq hw p2 s).freq ∧
    (ls2k1000_pixpll_get_clock_rate hw p1 s).freq =
      (ls2k1000_pixpll_get_clock_rate hw p2 s).freq ∧
    (ls2k0300_pixpll_get_clock_rate hw p1 s).freq =
      (ls2k0300_pixpll_get_clock_rate hw p2 s).freq := by
  refine ⟨?_, ?_, ?_⟩
  · simp only [lsdc_pixpll_get_freq, href]
  · simp only [ls2k1000_pixpll_get_clock_rate, href]
  · simp only [ls2k0300_pixpll_get_clock_rate, href]

/-- Witness of C14: two handles with the 100 MHz reference and different
cached dividers reading a register that holds `div_ref = 3, loopc = 49,
div_out = 11`. -/
theorem get_rate_ignores_cached_dividers_witness :
    (lsdc_pixpll_get_freq memory_hw ⟨100000, 4, 79, 16⟩
        (Mmio.start (mem_with_reg64 (fun _ => 0) 12987662347))).freq =
      (lsdc_pixpll_get_freq memory_hw ⟨100000, 5, 107, 85⟩
        (Mmio.start (mem_with_reg64 (fun _ => 0) 12987662347))).freq :=
  (get_rate_ignores_cached_dividers memory_hw
    (Mmio.start (mem_with_reg64 (fun _ => 0) 12987662347))
    ⟨100000, 4, 79, 16⟩ ⟨100000, 5, 107, 85⟩ rfl).1

/-- C15 (as stated, refuted): with the 100 MHz reference the table triple of
148500 kHz, `{div_out=11, loopc=49, div_ref=3}`, does not give 148484 kHz,
neither as the code evaluates `refclk / div_ref * loopc / div_out` nor over
the natural numbers. -/
theorem table_148500_clock_is_not_148484 :
    (lsdc_pixel_pll_compute ⟨100000, 0, 0, 0⟩ 148500 ⟨100000, 0, 0, 0⟩).pout =
      ⟨100000, 3, 49, 11⟩ ∧
    pll_clock_out 100000 3 49 11 ≠ 148484 ∧
    100000 / 3 * 49 / 11 ≠ 148484 := by
  refine ⟨rfl, by decide, by decide⟩

/-- C15 (amended): with the 100 MHz reference the table triple of 148500 kHz,
`{div_out=11, loopc=49, div_ref=3}`, gives 148483 kHz: 100000 / 3 = 33333,
33333 * 49 = 1633317 and 1633317 / 11 = 148483.  This is what the formula of
`get_rate` yields, what `lsdc_pixpll_get_freq` reads back after
`lsdc_pixpll_update` has applied the triple, and it is 17 kHz from the request,
within the tolerance. -/
theorem table_148500_clock_is_148483 :
    (⟨148500, 1920, 1080, 60, 11, 49, 3⟩ : clk_to_pixpll_parms_lookup_t) ∈ pixpll_parms_table ∧
    (lsdc_pixel_pll_compute ⟨100000, 0, 0, 0⟩ 148500 ⟨100000, 0, 0, 0⟩).pout =
      ⟨100000, 3, 49, 11⟩ ∧
    pll_clock_out 100000 3 49 11 = 148483 ∧
    100000 / 3 * 49 / 11 = 148483 ∧
    rate_of 100000 3 49 11 = some 148483 ∧
    (lsdc_pixpll_get_freq memory_hw ⟨100000, 0, 0, 0⟩
      (lsdc_pixpll_update memory_hw ⟨100000, 3, 49, 11⟩ (Mmio.start fun _ => 0)).2).freq =
        some 148483 ∧
    pll_diff 100000 148500 11 3 49 = 17 ∧ 17 < tolerance := by
  refine ⟨by decide, rfl, by decide, by decide, by decide, ?_, by decide, by decide⟩
  rw [lsdc_pixpll_get_freq_freq memory_hw (memory_hw_lock_only _),
    canonical_decode memory_hw (memory_hw_lock_only _)]
  decide

/-- C16: `lsdc_pixpll_find` returns 0 exactly when the requested clock is the
clock of some table entry; it then stores the dividers of the first such
entry in the output, whose `ref_clock` it leaves alone.  When no entry has
that clock it returns -1 and the output is as it was.  The function has no
other effect: its result is the return value and the output parameters. -/
theorem find_first_match_or_miss (clock : Nat) (pout : lsdc_pixpll_parms) :
    ((lsdc_pixpll_find clock pout).1 = 0 ↔ ∃ e ∈ pixpll_parms_table, e.clock = clock) ∧
    (∀ pre e post, pixpll_parms_table = pre ++ e :: post → (∀ u ∈ pre, u.clock ≠ clock) →
      e.clock = clock →
      lsdc_pixpll_find clock pout =
        (0, { pout with div_ref := e.div_ref, loopc := e.loopc, div_out := e.div_out })) ∧
    ((∀ e ∈ pixpll_parms_table, e.clock ≠ clock) → lsdc_pixpll_find clock pout = (-1, pout)) ∧
    (lsdc_pixpll_find clock pout).2.ref_clock = pout.ref_clock := by
  refine ⟨find_from_ret _ _ _, ?_, find_miss clock pout, ?_⟩
  · intro pre e post htbl hpre he
    unfold lsdc_pixpll_find
    rw [htbl]
    exact find_from_first pre post e clock pout hpre he
  · by_cases h : ∃ e ∈ pixpll_parms_table, e.clock = clock
    · obtain ⟨e, _, _, hf⟩ := find_from_hit pixpll_parms_table clock pout h
      unfold lsdc_pixpll_find
      rw [hf]
    · rw [find_miss clock pout (fun e he hc => h ⟨e, he, hc⟩)]

/-- Witness of C16: 174500 kHz is the clock of the third entry and of no
earlier one; 594000 kHz is the clock of no entry. -/
theorem find_first_match_or_miss_witness :
    pixpll_parms_table =
      [⟨148500, 1920, 1080, 60, 11, 49, 3⟩, ⟨141750, 1920, 1080, 60, 11, 78, 5⟩] ++
        ⟨174500, 1920, 1080, 75, 17, 89, 3⟩ :: pixpll_parms_table.drop 3 ∧
    lsdc_pixpll_find 174500 ⟨7, 8, 9, 10⟩ = (0, ⟨7, 3, 89, 17⟩) ∧
    (∀ e ∈ pixpll_parms_table, e.clock ≠ 594000) ∧
    lsdc_pixpll_find 594000 ⟨7, 8, 9, 10⟩ = (-1, ⟨7, 8, 9, 10⟩) :=
  ⟨by decide,
   (find_first_match_or_miss 174500 ⟨7, 8, 9, 10⟩).2.1
     [⟨148500, 1920, 1080, 60, 11, 49, 3⟩, ⟨141750, 1920, 1080, 60, 11, 78, 5⟩]
     ⟨174500, 1920, 1080, 75, 17, 89, 3⟩ (pixpll_parms_table.drop 3) (by decide) (by decide) rfl,
   by decide,
   (find_first_match_or_miss 594000 ⟨7, 8, 9, 10⟩).2.2.1 (by decide)⟩

/-- C17: for every variant, every device and every register window,
`get_rate` leaves the stored words as they were and adds no write to the
trace of accesses: it only reads. -/
theorem get_rate_writes_nothing (hw : Hardware) (priv : lsdc_pixpll_parms) (s : Mmio) :
    ((lsdc_pixpll_get_freq hw priv s).mmio.mem = s.mem ∧
      (lsdc_pixpll_get_freq hw priv s).mmio.writes = s.writes) ∧
    ((ls2k1000_pixpll_get_clock_rate hw priv s).mmio.mem = s.mem ∧
      (ls2k1000_pixpll_get_clock_rate hw priv s).mmio.writes = s.writes) ∧
    ((ls2k0300_pixpll_get_clock_rate hw priv s).mmio.mem = s.mem ∧
      (ls2k0300_pixpll_get_clock_rate hw priv s).mmio.writes = s.writes) := by
  refine ⟨⟨rfl, ?_⟩, ⟨rfl, ?_⟩, ⟨rfl, ?_⟩⟩
  · simp [lsdc_pixpll_get_freq, rreg_log, Mmio.writes, List.filterMap_append]
  · simp [ls2k1000_pixpll_get_clock_rate, readl_writes]
  · simp [ls2k0300_pixpll_get_clock_rate, readl_writes]

/-- C18: for every reference clock, `div_ref >= 1`, `div_out >= 1` and `loopc`
such that `ref / div_ref * (2 * loopc)` does not overflow 32 bits, the
frequency computed with `2 * loopc` is not smaller than the one computed with
`loopc`; both have a value, which is the expression over the natural
numbers. -/
theorem clock_out_double_loopc (refclk div_ref loopc div_out : Nat)
    (hr : 1 ≤ div_ref) (ho : 1 ≤ div_out)
    (hno : refclk / div_ref * (2 * loopc) < U32) :
    rate_of refclk div_ref loopc div_out = some (refclk / div_ref * loopc / div_out) ∧
    rate_of refclk div_ref (2 * loopc) div_out =
      some (refclk / div_ref * (2 * loopc) / div_out) ∧
    refclk / div_ref * loopc / div_out ≤ refclk / div_ref * (2 * loopc) / div_out ∧
    pll_clock_out refclk div_ref loopc div_out ≤
      pll_clock_out refclk div_ref (2 * loopc) div_out := by
  have hle : refclk / div_ref * loopc ≤ refclk / div_ref * (2 * loopc) :=
    Nat.mul_le_mul_left _ (by omega)
  have hnz : ¬ (div_ref = 0 ∨ div_out = 0) := by omega
  have e1 := pll_clock_out_eq refclk div_ref loopc div_out (lt_of_le_of_lt hle hno)
  have e2 := pll_clock_out_eq refclk div_ref (2 * loopc) div_out hno
  refine ⟨?_, ?_, Nat.div_le_div_right hle, ?_⟩
  · rw [rate_of, if_neg hnz, e1]
  · rw [rate_of, if_neg hnz, e2]
  · rw [e1, e2]
    exact Nat.div_le_div_right hle

/-- Witness of C18: the table triple of 148500 kHz with the 100 MHz
reference. -/
theorem clock_out_double_loopc_witness :
    (1 ≤ 3 ∧ 1 ≤ 11 ∧ 100000 / 3 * (2 * 49) < U32) ∧
    pll_clock_out 100000 3 49 11 ≤ pll_clock_out 100000 3 (2 * 49) 11 :=
  ⟨by decide, (clock_out_double_loopc 100000 3 49 11 (by decide) (by decide) (by decide)).2.2.2⟩

/-- C19: for a requested frequency that is not in the table and for which
`lsdc_pixel_pll_compute` returns 0, the returned triple `t` is a legal triple
of least diff, and every legal triple that the loops visit before it
(`div_out` ascending, then `div_ref` ascending, then `loopc` ascending) has a
strictly larger diff: `t` is the first of the legal triples of minimal diff.
When some legal triple has diff 0, `t` has diff 0 and no legal triple visited
before it has.  The diff is `|requested - computed|` with `computed` as the
code evaluates it; when the product `refclk / div_ref * loopc` cannot wrap
around 32 bits, all of this holds with the diff replaced by the distance
between the requested clock and `refclk / div_ref * loopc / div_out` over the
natural numbers. -/
theorem compute_returns_first_minimal (priv : lsdc_pixpll_parms) (clock : Nat)
    (pout : lsdc_pixpll_parms)
    (hmiss : ∀ e ∈ pixpll_parms_table, e.clock ≠ clock)
    (hret : (lsdc_pixel_pll_compute priv clock pout).ret = 0) :
    ∃ t : Nat × Nat × Nat,
      (lsdc_pixel_pll_compute priv clock pout).pout = store_triple priv t ∧
      legal_triple t.1 t.2.1 t.2.2 ∧
      (∀ u : Nat × Nat × Nat, legal_triple u.1 u.2.1 u.2.2 →
        triple_diff priv.ref_clock clock t ≤ triple_diff priv.ref_clock clock u) ∧
      (∀ u : Nat × Nat × Nat, legal_triple u.1 u.2.1 u.2.2 → visited_before u t →
        triple_diff priv.ref_clock clock t < triple_diff priv.ref_clock clock u) ∧
      ((∃ u : Nat × Nat × Nat, legal_triple u.1 u.2.1 u.2.2 ∧
            triple_diff priv.ref_clock clock u = 0) →
        triple_diff priv.ref_clock clock t = 0 ∧
        ∀ u : Nat × Nat × Nat, legal_triple u.1 u.2.1 u.2.2 → visited_before u t →
          triple_diff priv.ref_clock clock u ≠ 0) ∧
      (priv.ref_clock / 3 * 160 < U32 →
        (∀ u : Nat × Nat × Nat, legal_triple u.1 u.2.1 u.2.2 →
          Nat.dist clock (priv.ref_clock / t.2.1 * t.2.2 / t.1) ≤
            Nat.dist clock (priv.ref_clock / u.2.1 * u.2.2 / u.1)) ∧
        (∀ u : Nat × Nat × Nat, legal_triple u.1 u.2.1 u.2.2 → visited_before u t →
          Nat.dist clock (priv.ref_clock / t.2.1 * t.2.2 / t.1) <
            Nat.dist clock (priv.ref_clock / u.2.1 * u.2.2 / u.1)) ∧
        ((∃ u : Nat × Nat × Nat, legal_triple u.1 u.2.1 u.2.2 ∧
              priv.ref_clock / u.2.1 * u.2.2 / u.1 = clock) →
          priv.ref_clock / t.2.1 * t.2.2 / t.1 = clock ∧
          ∀ u : Nat × Nat × Nat, legal_triple u.1 u.2.1 u.2.2 → visited_before u t →
            priv.ref_clock / u.2.1 * u.2.2 / u.1 ≠ clock)) := by
  have hlt : (search_result priv clock).min < tolerance := by
    rw [search_min_lt_iff]
    exact (compute_ret_zero_iff priv clock pout hmiss).1 hret
  obtain ⟨pre, t, post, hL, hp, hleg, hd, hpre, hall⟩ := search_best priv clock hlt
  have hd' : triple_diff priv.ref_clock clock t = (search_result priv clock).min := hd
  have hmin : ∀ u : Nat × Nat × Nat, legal_triple u.1 u.2.1 u.2.2 →
      triple_diff priv.ref_clock clock t ≤ triple_diff priv.ref_clock clock u := by
    intro u hu
    rw [hd']
    exact hall u.1 u.2.1 u.2.2 hu
  have hfirst : ∀ u : Nat × Nat × Nat, legal_triple u.1 u.2.1 u.2.2 → visited_before u t →
      triple_diff priv.ref_clock clock t < triple_diff priv.ref_clock clock u := by
    intro u hu hb
    obtain ⟨hmem, hok⟩ := (legal_triple_iff u).1 hu
    rw [hd']
    exact hpre u (mem_pre_of_visited_before pre post t u hL hmem hb) hok
  have hzero : (∃ u : Nat × Nat × Nat, legal_triple u.1 u.2.1 u.2.2 ∧
        triple_diff priv.ref_clock clock u = 0) →
      triple_diff priv.ref_clock clock t = 0 ∧
      ∀ u : Nat × Nat × Nat, legal_triple u.1 u.2.1 u.2.2 → visited_before u t →
        triple_diff priv.ref_clock clock u ≠ 0 := by
    rintro ⟨u, hu, h0⟩
    have ht0 : triple_diff priv.ref_clock clock t = 0 := by
      have := hmin u hu
      omega
    refine ⟨ht0, fun v hv hb => ?_⟩
    have := hfirst v hv hb
    omega
  refine ⟨t, ?_, hleg, hmin, hfirst, hzero, fun hno => ?_⟩
  · rw [compute_of_miss priv clock pout hmiss, if_pos hlt, hp]
  · have hdist : ∀ u : Nat × Nat × Nat, legal_triple u.1 u.2.1 u.2.2 →
        triple_diff priv.ref_clock clock u =
          Nat.dist clock (priv.ref_clock / u.2.1 * u.2.2 / u.1) :=
      fun u hu => legal_diff_eq_dist _ _ _ _ _ hu hno
    refine ⟨fun u hu => ?_, fun u hu hb => ?_, ?_⟩
    · rw [← hdist t hleg, ← hdist u hu]
      exact hmin u hu
    · rw [← hdist t hleg, ← hdist u hu]
      exact hfirst u hu hb
    · rintro ⟨u, hu, h0⟩
      have hu0 : triple_diff priv.ref_clock clock u = 0 := by
        rw [hdist u hu, h0]
        exact Nat.dist_self _
      obtain ⟨ht0, hnone⟩ := hzero ⟨u, hu, hu0⟩
      rw [hdist t hleg] at ht0
      refine ⟨(Nat.eq_of_dist_eq_zero ht0).symm, fun v hv hb hv0 => ?_⟩
      apply hnone v hv hb
      rw [hdist v hv, hv0]
      exact Nat.dist_self _

/-- Witness of C19: 100000 kHz is not in the table and is reached exactly by
`div_out = 12, div_ref = 4, loopc = 48` with the 100 MHz reference. -/
theorem compute_returns_first_minimal_witness :
    (∀ e ∈ pixpll_parms_table, e.clock ≠ 100000) ∧
    (lsdc_pixel_pll_compute ⟨100000, 0, 0, 0⟩ 100000 ⟨0, 0, 0, 0⟩).ret = 0 ∧
    ∃ t : Nat × Nat × Nat,
      (lsdc_pixel_pll_compute ⟨100000, 0, 0, 0⟩ 100000 ⟨0, 0, 0, 0⟩).pout =
        store_triple ⟨100000, 0, 0, 0⟩ t ∧
      100000 / t.2.1 * t.2.2 / t.1 = 100000 ∧
      ∀ u : Nat × Nat × Nat, legal_triple u.1 u.2.1 u.2.2 → visited_before u t →
        100000 / u.2.1 * u.2.2 / u.1 ≠ 100000 :=
  have hmiss : ∀ e ∈ pixpll_parms_table, e.clock ≠ 100000 := by decide
  have hret : (lsdc_pixel_pll_compute ⟨100000, 0, 0, 0⟩ 100000 ⟨0, 0, 0, 0⟩).ret = 0 :=
    (compute_ret_zero_iff ⟨100000, 0, 0, 0⟩ 100000 ⟨0, 0, 0, 0⟩ hmiss).2
      ⟨12, 4, 48, by decide, by decide⟩
  ⟨hmiss, hret,
    match compute_returns_first_minimal ⟨100000, 0, 0, 0⟩ 100000 ⟨0, 0, 0, 0⟩ hmiss hret with
    | ⟨t, hp, _, _, _, _, hd⟩ =>
      ⟨t, hp, ((hd (by decide)).2.2 ⟨(12, 4, 48), by decide, by decide⟩).1,
        ((hd (by decide)).2.2 ⟨(12, 4, 48), by decide, by decide⟩).2⟩⟩

/-- C20 (the code at failing inputs): for every triple and every initial
register contents.  On ls2k1000, on any device, the second write sets
`powerdown` (bit 19), but the fourth write stores the constant
`(1 << 7) | (3 << 10)`, in which `powerdown` is 0, and the fifth write, which
loads `div_ref` into the control word, carries `powerdown = 0` as well; the
writes of `loopc` and `div_out` to the next two words follow while that word
is in place.  On ls2k0300, with the locked bit reading as set, the third
write sets `powerdown` (bit 5) and the fourth write, which loads the three
dividers, is `(div_out << 24) | (loopc << 15) | (div_ref << 8)`, in which
`powerdown` is 0.  On the canonical variant, with registers behaving as
memory, `powerdown` is 1 in the third to sixth writes, the fifth of which
loads the dividers, and 0 in the seventh. -/
theorem parameters_loaded_with_powerdown_clear (pin : lsdc_pixpll_parms) (s : Mmio) :
    (∀ hw : Hardware, ∃ w1 w2 w3 w6 w8 w9,
      (ls2k1000_pixpll_param_update hw pin s).2.2.writes = s.writes ++
        [w1, w2, w3, (1 <<< 7) ||| (3 <<< 10),
         ls2k1000_pixpll_reg.div_ref.set ((1 <<< 7) ||| (3 <<< 10)) pin.div_ref,
         w6, pin.div_out % U32, w8, w9] ∧
      ls2k1000_pixpll_reg.powerdown.get w2 = 1 ∧
      ls2k1000_pixpll_reg.powerdown.get ((1 <<< 7) ||| (3 <<< 10)) = 0 ∧
      ls2k1000_pixpll_reg.powerdown.get
        (ls2k1000_pixpll_reg.div_ref.set ((1 <<< 7) ||| (3 <<< 10)) pin.div_ref) = 0) ∧
    (∃ cnt t w1 w2 w3 w5 w6,
      ls2k0300_pixpll_param_update (locking_hw ls2k0300_pixpll_bitmap.locked fun _ => true) 1
        pin s = some (0, cnt, t) ∧
      t.writes = s.writes ++
        [w1, w2, w3,
         ((pin.div_out <<< 24) % U32) ||| ((pin.loopc <<< 15) % U32) |||
           ((pin.div_ref <<< 8) % U32), w5, w6] ∧
      ls2k0300_pixpll_bitmap.powerdown.get w3 = 1 ∧
      ls2k0300_pixpll_bitmap.powerdown.get
        (((pin.div_out <<< 24) % U32) ||| ((pin.loopc <<< 15) % U32) |||
           ((pin.div_ref <<< 8) % U32)) = 0) ∧
    (∃ w1 w2 w3 w4 w5 w6 w7 w8 w9,
      (lsdc_pixpll_update memory_hw pin s).2.writes = s.writes ++
        [w1, w2, w3, w4, w5, w6, w7, w8, w9] ∧
      lsdc_pixpll_reg.powerdown.get w3 = 1 ∧ lsdc_pixpll_reg.powerdown.get w4 = 1 ∧
      lsdc_pixpll_reg.powerdown.get w5 = 1 ∧ lsdc_pixpll_reg.powerdown.get w6 = 1 ∧
      lsdc_pixpll_reg.powerdown.get w7 = 0 ∧
      lsdc_pixpll_reg.div_ref.get w5 = pin.div_ref % 2 ^ 7 ∧
      lsdc_pixpll_reg.loopc.get w5 = pin.loopc % 2 ^ 9 ∧
      lsdc_pixpll_reg.div_out.get w5 = pin.div_out % 2 ^ 7) := by
  refine ⟨?_, ?_, ?_⟩
  · intro hw
    obtain ⟨r1, r2, r3, r4, h1, -, -, -, -, -, -, -, -, hws⟩ :=
      ls2k1000_update_chain hw (fun _ _ _ => True) (fun _ _ _ => trivial) pin s
    refine ⟨(r1 &&& not32 (1 <<< 0)) % U32, ((r1 &&& not32 (1 <<< 0)) ||| (1 <<< 19)) % U32,
      (((r1 &&& not32 (1 <<< 0)) ||| (1 <<< 19)) &&& not32 (1 <<< 2)) % U32,
      ((r2 &&& not32 0x0fff) ||| pin.loopc) % U32,
      ((r3 ||| (1 <<< 2)) &&& not32 (1 <<< 19)) % U32, (r4 ||| 1) % U32, ?_, ?_, by decide, ?_⟩
    · rw [hws, ls2k1000_stage_word, mod_U32_of_lt _ (ls2k1000_stage_word_lt _)]
      rfl
    · exact or_bit_get 19 (r1 &&& not32 (1 <<< 0)) (by decide)
    · rw [BitField.get_set_disjoint _ _ _ _ (by decide)]
      decide
  · obtain ⟨r1, r2, r3, cnt, t, hres, -, h2, -, -, -, -, -, -, hws⟩ :=
      ls2k0300_update_chain (locking_hw ls2k0300_pixpll_bitmap.locked fun _ => true)
        (fun _ _ => True) (fun _ _ => trivial) pin s 1 0 (by decide)
        (ls2k0300_locked_when_driven _ _ rfl)
    refine ⟨cnt, t, (r1 &&& not64 (1 <<< 0)) % U32,
      (((r1 &&& not64 (1 <<< 0)) ||| (1 <<< 4)) ||| (1 <<< 3)) % U32,
      (r2 ||| (1 <<< 5)) % U32,
      (((((pin.div_out <<< 24) % U32) ||| ((pin.loopc <<< 15) % U32) |||
           ((pin.div_ref <<< 8) % U32)) &&& not64 (1 <<< 4)) &&& not64 (1 <<< 5)) % U32,
      (r3 ||| 1) % U32, hres, ?_, ?_, ?_⟩
    · rw [hws, mod_U32_of_lt _ (ls2k0300_val_lt _ _ _)]
    · exact or_bit_get 5 r2 (by decide)
    · apply Nat.eq_of_testBit_eq
      intro i
      rw [BitField.testBit_get, Nat.zero_testBit]
      by_cases hi : i < ls2k0300_pixpll_bitmap.powerdown.width
      · have hi0 : i = 0 := by
          have : ls2k0300_pixpll_bitmap.powerdown.width = 1 := rfl
          omega
        rw [hi0]
        have := ls2k0300_val_low pin.div_out pin.loopc pin.div_ref 5 (by decide)
        simp [ls2k0300_pixpll_bitmap.powerdown, this]
      · simp [hi]
  · obtain ⟨r1, r2, r3, r4, r5, r6, r7, r8, r9, rfl, rfl, rfl, rfl, rfl, rfl, rfl, rfl, rfl,
      -, -, hws⟩ :=
      update_chain memory_hw (fun v r => r = v) (fun n v hv => Nat.mod_eq_of_lt hv) pin s
    refine ⟨_, _, _, _, _, _, _, _, _, hws, ?_, ?_, ?_, ?_, ?_, ?_, ?_, ?_⟩ <;>
      simp [BitField.get_set_same, BitField.get_set_disjoint, lsdc_pixpll_reg.div_ref,
        lsdc_pixpll_reg.loopc, lsdc_pixpll_reg.div_out, lsdc_pixpll_reg.sel_out,
        lsdc_pixpll_reg.set_param, lsdc_pixpll_reg.bypass, lsdc_pixpll_reg.powerdown]

/-- C21: in `lsdc_pixpll_update`, on a device that stores what is written and
may drive the read-only locked bit (registers behaving as memory is the case
in which it does not), the first eight of the nine values written to the
register have `bypass = 1` and the ninth, the last one, has `bypass = 0`: the
writes that change `sel_out`, `powerdown`, `set_param` and the dividers are
all made with the PLL bypassed. -/
theorem update_bypassed_until_last_write (hw : Hardware)
    (h : lock_only lsdc_pixpll_reg.locked hw) (pin : lsdc_pixpll_parms) (s : Mmio) :
    ∃ w1 w2 w3 w4 w5 w6 w7 w8 w9,
      (lsdc_pixpll_update hw pin s).2.writes = s.writes ++ [w1, w2, w3, w4, w5, w6, w7, w8, w9] ∧
      lsdc_pixpll_reg.bypass.get w1 = 1 ∧ lsdc_pixpll_reg.bypass.get w2 = 1 ∧
      lsdc_pixpll_reg.bypass.get w3 = 1 ∧ lsdc_pixpll_reg.bypass.get w4 = 1 ∧
      lsdc_pixpll_reg.bypass.get w5 = 1 ∧ lsdc_pixpll_reg.bypass.get w6 = 1 ∧
      lsdc_pixpll_reg.bypass.get w7 = 1 ∧ lsdc_pixpll_reg.bypass.get w8 = 1 ∧
      lsdc_pixpll_reg.bypass.get w9 = 0 := by
  obtain ⟨r1, r2, r3, r4, r5, r6, r7, r8, r9, -, ⟨b2, rfl⟩, ⟨b3, rfl⟩, ⟨b4, rfl⟩,
    ⟨b5, rfl⟩, ⟨b6, rfl⟩, ⟨b7, rfl⟩, ⟨b8, rfl⟩, ⟨b9, rfl⟩, -, -, hws⟩ :=
    update_chain hw (fun v r => ∃ b, r = lsdc_pixpll_reg.locked.set v b) (lock_only_P hw h) pin s
  refine ⟨_, _, _, _, _, _, _, _, _, hws, ?_, ?_, ?_, ?_, ?_, ?_, ?_, ?_, ?_⟩ <;>
    simp [BitField.get_set_same, BitField.get_set_disjoint, lsdc_pixpll_reg.div_ref,
      lsdc_pixpll_reg.loopc, lsdc_pixpll_reg.div_out, lsdc_pixpll_reg.sel_out,
      lsdc_pixpll_reg.set_param, lsdc_pixpll_reg.bypass, lsdc_pixpll_reg.powerdown,
      lsdc_pixpll_reg.locked]

/-- Witness of C21: the triple of the 1920x1080@60Hz entry applied to a zeroed
register window behaving as memory. -/
theorem update_bypassed_until_last_write_witness :
    ∃ w1 w2 w3 w4 w5 w6 w7 w8 w9,
      (lsdc_pixpll_update memory_hw ⟨100000, 3, 49, 11⟩ (Mmio.start fun _ => 0)).2.writes =
        (Mmio.start fun _ => 0).writes ++ [w1, w2, w3, w4, w5, w6, w7, w8, w9] ∧
      lsdc_pixpll_reg.bypass.get w1 = 1 ∧ lsdc_pixpll_reg.bypass.get w2 = 1 ∧
      lsdc_pixpll_reg.bypass.get w3 = 1 ∧ lsdc_pixpll_reg.bypass.get w4 = 1 ∧
      lsdc_pixpll_reg.bypass.get w5 = 1 ∧ lsdc_pixpll_reg.bypass.get w6 = 1 ∧
      lsdc_pixpll_reg.bypass.get w7 = 1 ∧ lsdc_pixpll_reg.bypass.get w8 = 1 ∧
      lsdc_pixpll_reg.bypass.get w9 = 0 :=
  update_bypassed_until_last_write memory_hw (memory_hw_lock_only _) ⟨100000, 3, 49, 11⟩
    (Mmio.start fun _ => 0)

/-- C22 (the code at a failing input): `lsdc_pixpll_init` gives every handle a
register window of 8 bytes, also for ls2k1000 whose descriptor declares 16
bytes per pixel PLL.  For every triple, device and register window,
`ls2k1000_pixpll_param_update` makes a 4-byte write of `div_out` at byte
offset 8, which ends at offset 12, and `ls2k1000_pixpll_get_clock_rate` makes
4-byte reads at offsets 8 and 12, which end at offsets 12 and 16: all three
lie outside the 8 bytes.  The accesses of the canonical variant and of ls2k0300
stay inside them. -/
theorem ls2k1000_accesses_outside_reg_size (conf_reg_base pixpll0_reg pixpll1_reg : Nat)
    (hw : Hardware) (pin priv : lsdc_pixpll_parms) (s : Mmio) :
    (lsdc_pixpll_init (ls2k1000_gfx conf_reg_base pixpll0_reg pixpll1_reg) 0 =
        some { reg_base := conf_reg_base + pixpll0_reg, reg_size := 8 } ∧
      lsdc_pixpll_init (ls2k1000_gfx conf_reg_base pixpll0_reg pixpll1_reg) 1 =
        some { reg_base := conf_reg_base + pixpll1_reg, reg_size := 8 } ∧
      (ls2k1000_gfx conf_reg_base pixpll0_reg pixpll1_reg).pixpll =
        [⟨pixpll0_reg, 16⟩, ⟨pixpll1_reg, 16⟩]) ∧
    (∃ l, (ls2k1000_pixpll_param_update hw pin s).2.2.log = s.log ++ l ∧
      Access.write 8 4 (pin.div_out % U32) ∈ l ∧
      (Access.write 8 4 (pin.div_out % U32)).limit = 12) ∧
    (∃ v0 v1 v2 v3, (ls2k1000_pixpll_get_clock_rate hw priv s).mmio.log = s.log ++
        [Access.read 0 4 v0, Access.read 4 4 v1, Access.read 8 4 v2, Access.read 12 4 v3] ∧
      (Access.read 8 4 v2).limit = 12 ∧ (Access.read 12 4 v3).limit = 16) ∧
    (lsdc_pixpll_init (ls7a1000_gfx conf_reg_base pixpll0_reg pixpll1_reg) 0 =
        some { reg_base := conf_reg_base + pixpll0_reg, reg_size := 8 } ∧
      lsdc_pixpll_init (ls7a2000_gfx conf_reg_base pixpll0_reg pixpll1_reg) 0 =
        some { reg_base := conf_reg_base + pixpll0_reg, reg_size := 8 } ∧
      Mmio.stays_within 8 s (lsdc_pixpll_update hw pin s).2 ∧
      Mmio.stays_within 8 s (lsdc_pixpll_get_freq hw priv s).mmio) ∧
    (lsdc_pixpll_init (ls2k0300_gfx conf_reg_base pixpll0_reg pixpll1_reg) 0 =
        some { reg_base := conf_reg_base + pixpll0_reg, reg_size := 8 } ∧
      (∃ r, ls2k0300_pixpll_param_update
          (locking_hw ls2k0300_pixpll_bitmap.locked fun _ => true) 1 pin s = some r ∧
        Mmio.stays_within 8 s r.2.2) ∧
      Mmio.stays_within 8 s (ls2k0300_pixpll_get_clock_rate hw priv s).mmio) := by
  refine ⟨⟨rfl, rfl, rfl⟩, ?_, ?_, ⟨rfl, rfl, stays_within_update hw pin s, ?_⟩, rfl, ?_, ?_⟩
  · obtain ⟨l, e, hm, -⟩ := ls2k1000_update_log hw pin s
    exact ⟨l, e, hm, rfl⟩
  · exact ⟨_, _, _, _, by
      simp only [ls2k1000_pixpll_get_clock_rate, readl_log, List.append_assoc,
        List.singleton_append, List.cons_append, List.nil_append]; rfl, rfl, rfl⟩
  · exact stays_within_rreg hw s
  · obtain ⟨r1, r2, r3, cnt, t, hres, -⟩ :=
      ls2k0300_update_chain (locking_hw ls2k0300_pixpll_bitmap.locked fun _ => true)
        (fun _ _ => True) (fun _ _ => trivial) pin s 1 0 (by decide)
        (ls2k0300_locked_when_driven _ _ rfl)
    exact ⟨_, hres, stays_within_mono (by decide)
      (stays_within_ls2k0300_update _ 1 pin s _ hres)⟩
  · exact stays_within_mono (by decide) (stays_within_readl hw s 0)

/-- C23: with the 100 MHz reference, whenever `lsdc_pixel_pll_compute` returns
0, by a table hit or by the search, the frequency
`ref / div_ref * loopc / div_out` of the returned triple is less than the
tolerance of 1000 kHz away from the request, both as the code evaluates the
expression and over the natural numbers (the product cannot wrap). -/
theorem compute_success_within_tolerance (priv : lsdc_pixpll_parms) (clock : Nat)
    (pout : lsdc_pixpll_parms) (href : priv.ref_clock = 100000)
    (hret : (lsdc_pixel_pll_compute priv clock pout).ret = 0) :
    pll_diff 100000 clock (lsdc_pixel_pll_compute priv clock pout).pout.div_out
        (lsdc_pixel_pll_compute priv clock pout).pout.div_ref
        (lsdc_pixel_pll_compute priv clock pout).pout.loopc < tolerance ∧
    Nat.dist clock (100000 / (lsdc_pixel_pll_compute priv clock pout).pout.div_ref *
        (lsdc_pixel_pll_compute priv clock pout).pout.loopc /
        (lsdc_pixel_pll_compute priv clock pout).pout.div_out) < 1000 := by
  have hl := (compute_zero_dividers priv clock pout hret).2.1.2
  have h1 : pll_diff 100000 clock (lsdc_pixel_pll_compute priv clock pout).pout.div_out
        (lsdc_pixel_pll_compute priv clock pout).pout.div_ref
        (lsdc_pixel_pll_compute priv clock pout).pout.loopc < tolerance := by
    rcases compute_zero_cases priv clock pout hret with ⟨e, he, hc, hf⟩ | ⟨-, t, hf, -, hlt⟩
    · rw [hf, ← hc]
      exact table_entry_diff e he
    · rw [hf, ← href]
      exact hlt
  refine ⟨h1, ?_⟩
  rw [pll_diff_eq_dist, pll_clock_out_eq _ _ _ _ (no_wrap_100000 _ _ hl)] at h1
  exact h1

/-- Witness of C23: 297000 kHz, whose table triple gives 296875 kHz, the
entry that is farthest from its clock. -/
theorem compute_success_within_tolerance_witness :
    (lsdc_pixel_pll_compute ⟨100000, 0, 0, 0⟩ 297000 ⟨0, 0, 0, 0⟩).ret = 0 ∧
    Nat.dist 297000
      (100000 / (lsdc_pixel_pll_compute ⟨100000, 0, 0, 0⟩ 297000 ⟨0, 0, 0, 0⟩).pout.div_ref *
        (lsdc_pixel_pll_compute ⟨100000, 0, 0, 0⟩ 297000 ⟨0, 0, 0, 0⟩).pout.loopc /
        (lsdc_pixel_pll_compute ⟨100000, 0, 0, 0⟩ 297000 ⟨0, 0, 0, 0⟩).pout.div_out) < 1000 :=
  ⟨rfl, (compute_success_within_tolerance ⟨100000, 0, 0, 0⟩ 297000 ⟨0, 0, 0, 0⟩ rfl rfl).2⟩

/-- C24: when `lsdc_pixel_pll_compute` does not return 0, the caller's output
parameters and the handle's cached parameters are exactly as before the call;
the value returned is then 1000. -/
theorem compute_failure_leaves_parameters (priv : lsdc_pixpll_parms) (clock : Nat)
    (pout : lsdc_pixpll_parms)
    (hret : (lsdc_pixel_pll_compute priv clock pout).ret ≠ 0) :
    (lsdc_pixel_pll_compute priv clock pout).pout = pout ∧
    (lsdc_pixel_pll_compute priv clock pout).priv = priv ∧
    (lsdc_pixel_pll_compute priv clock pout).ret = 1000 := by
  obtain ⟨-, hf⟩ := compute_nonzero priv clock pout hret
  rw [hf]
  exact ⟨rfl, rfl, rfl⟩

/-- Witness of C24: 594000 kHz with the 100 MHz reference and made-up cached
and output parameters. -/
theorem compute_failure_leaves_parameters_witness :
    (lsdc_pixel_pll_compute ⟨100000, 4, 79, 16⟩ 594000 ⟨7, 8, 9, 10⟩).ret ≠ 0 ∧
    (lsdc_pixel_pll_compute ⟨100000, 4, 79, 16⟩ 594000 ⟨7, 8, 9, 10⟩).pout = ⟨7, 8, 9, 10⟩ ∧
    (lsdc_pixel_pll_compute ⟨100000, 4, 79, 16⟩ 594000 ⟨7, 8, 9, 10⟩).priv =
      ⟨100000, 4, 79, 16⟩ :=
  have hne : (lsdc_pixel_pll_compute ⟨100000, 4, 79, 16⟩ 594000 ⟨7, 8, 9, 10⟩).ret ≠ 0 := by
    rw [compute_594000 ⟨100000, 4, 79, 16⟩ ⟨7, 8, 9, 10⟩ rfl]
    decide
  ⟨hne,
    (compute_failure_leaves_parameters ⟨100000, 4, 79, 16⟩ 594000 ⟨7, 8, 9, 10⟩ hne).1,
    (compute_failure_leaves_parameters ⟨100000, 4, 79, 16⟩ 594000 ⟨7, 8, 9, 10⟩ hne).2.1⟩

/-- C25: for a requested frequency that is not in the table, a triple
returned by a successful search has `div_out` in [6,64), `div_ref` in [3,6),
`loopc` in [6,161) and `12*div_ref <= loopc <= 32*div_ref`. -/
theorem search_result_within_bounds (priv : lsdc_pixpll_parms) (clock : Nat)
    (pout : lsdc_pixpll_parms)
    (hmiss : ∀ e ∈ pixpll_parms_table, e.clock ≠ clock)
    (hret : (lsdc_pixel_pll_compute priv clock pout).ret = 0) :
    (6 ≤ (lsdc_pixel_pll_compute priv clock pout).pout.div_out ∧
      (lsdc_pixel_pll_compute priv clock pout).pout.div_out < 64) ∧
    (3 ≤ (lsdc_pixel_pll_compute priv clock pout).pout.div_ref ∧
      (lsdc_pixel_pll_compute priv clock pout).pout.div_ref < 6) ∧
    (6 ≤ (lsdc_pixel_pll_compute priv clock pout).pout.loopc ∧
      (lsdc_pixel_pll_compute priv clock pout).pout.loopc < 161) ∧
    12 * (lsdc_pixel_pll_compute priv clock pout).pout.div_ref ≤
      (lsdc_pixel_pll_compute priv clock pout).pout.loopc ∧
    (lsdc_pixel_pll_compute priv clock pout).pout.loopc ≤
      32 * (lsdc_pixel_pll_compute priv clock pout).pout.div_ref := by
  obtain ⟨t, hc, hleg, -, -⟩ := compute_success priv clock pout hmiss hret
  rw [hc]
  exact hleg

/-- Witness of C25: 100000 kHz is not in the table and the search succeeds for
it with the 100 MHz reference. -/
theorem search_result_within_bounds_witness :
    (∀ e ∈ pixpll_parms_table, e.clock ≠ 100000) ∧
    (lsdc_pixel_pll_compute ⟨100000, 0, 0, 0⟩ 100000 ⟨0, 0, 0, 0⟩).ret = 0 ∧
    (6 ≤ (lsdc_pixel_pll_compute ⟨100000, 0, 0, 0⟩ 100000 ⟨0, 0, 0, 0⟩).pout.div_out ∧
      (lsdc_pixel_pll_compute ⟨100000, 0, 0, 0⟩ 100000 ⟨0, 0, 0, 0⟩).pout.div_out < 64) :=
  have hmiss : ∀ e ∈ pixpll_parms_table, e.clock ≠ 100000 := by decide
  have hret : (lsdc_pixel_pll_compute ⟨100000, 0, 0, 0⟩ 100000 ⟨0, 0, 0, 0⟩).ret = 0 :=
    (compute_ret_zero_iff ⟨100000, 0, 0, 0⟩ 100000 ⟨0, 0, 0, 0⟩ hmiss).2
      ⟨12, 4, 48, by decide, by decide⟩
  ⟨hmiss, hret,
    (search_result_within_bounds ⟨100000, 0, 0, 0⟩ 100000 ⟨0, 0, 0, 0⟩ hmiss hret).1⟩

/-- C26: entries of `pixpll_parms_table` with the same clock have the same
`(div_out, loopc, div_ref)`; in fact no two entries have the same clock.
Hence the loop of `lsdc_pixpll_find` run over any rearrangement of the table
returns what it returns over the table itself, for every request. -/
theorem table_lookup_order_independent :
    (∀ e1 ∈ pixpll_parms_table, ∀ e2 ∈ pixpll_parms_table, e1.clock = e2.clock →
      e1.div_out = e2.div_out ∧ e1.loopc = e2.loopc ∧ e1.div_ref = e2.div_ref) ∧
    (pixpll_parms_table.map fun e => e.clock).Nodup ∧
    ∀ tbl : List clk_to_pixpll_parms_lookup_t, tbl.Perm pixpll_parms_table →
      ∀ clock pout, lsdc_pixpll_find_from tbl clock pout = lsdc_pixpll_find clock pout :=
  ⟨table_consistent, table_clocks_nodup,
    fun tbl hp clock pout => find_from_perm pixpll_parms_table tbl hp table_consistent clock pout⟩

/-- Witness of C26: the table in reverse order, looked up for 25175 kHz. -/
theorem table_lookup_order_independent_witness :
    pixpll_parms_table.reverse.Perm pixpll_parms_table ∧
    lsdc_pixpll_find_from pixpll_parms_table.reverse 25175 ⟨7, 8, 9, 10⟩ =
      lsdc_pixpll_find 25175 ⟨7, 8, 9, 10⟩ :=
  ⟨List.reverse_perm _,
    table_lookup_order_independent.2.2 pixpll_parms_table.reverse (List.reverse_perm _)
      25175 ⟨7, 8, 9, 10⟩⟩

/-- C27 (as stated, refuted): on ls2k1000 a device that shows the locked bit
for the first time at the 2000th poll of the wait loop (access number 2010 of
the call, the loop starting after eleven accesses) makes
`ls2k1000_pixpll_param_update` report a counter of 2000, although that poll
read the locked bit as set: the word written back after the loop, which is
what the last poll read with bit 0 set, has `locked = 1`. -/
theorem ls2k1000_counter_maxed_out_with_lock_seen :
    (ls2k1000_pixpll_param_update
      (locking_hw ls2k1000_pixpll_reg.locked fun n => decide (n = 2010)) ⟨100000, 3, 49, 11⟩
      (Mmio.start fun _ => 0)).2.1 = 2000 ∧
    ls2k1000_pixpll_reg.locked.get ((ls2k1000_pixpll_param_update
      (locking_hw ls2k1000_pixpll_reg.locked fun n => decide (n = 2010)) ⟨100000, 3, 49, 11⟩
      (Mmio.start fun _ => 0)).2.2.mem 0) = 1 := by
  obtain ⟨S, hlen, hcnt, hmem⟩ := ls2k1000_update_wait
    (locking_hw ls2k1000_pixpll_reg.locked fun n => decide (n = 2010)) ⟨100000, 3, 49, 11⟩
    (Mmio.start fun _ => 0)
  have hlen' : S.log.length = 11 := by rw [hlen]; rfl
  rw [hcnt, hmem]
  have hno : ∀ i, i < 1999 → locking_hw ls2k1000_pixpll_reg.locked (fun n => decide (n = 2010))
      (S.log.length + i) 0 (S.mem 0 % U32) % U32 &&& 0x10000 = 0 := by
    intro i hi
    by_contra hne
    have := (ls2k1000_locked_read _ _ _).1 hne
    rw [hlen'] at this
    simp at this
    omega
  have hyes : locking_hw ls2k1000_pixpll_reg.locked (fun n => decide (n = 2010))
      (S.log.length + 1999) 0 (S.mem 0 % U32) % U32 &&& 0x10000 ≠ 0 := by
    rw [ls2k1000_locked_read, hlen']
    decide
  rcases ls2k1000_wait_loop_cases
    (locking_hw ls2k1000_pixpll_reg.locked fun n => decide (n = 2010)) 0 S (by decide) with
    ⟨k, hk, hpre, hat, hc, hv⟩ | ⟨hall, -⟩
  · have hk1 : k = 1999 := by
      by_contra hne
      rcases Nat.lt_or_gt_of_ne hne with hlt | hgt
      · exact hat (hno k hlt)
      · exact hyes (hpre 1999 hgt)
    rw [hk1] at hc hv hat
    refine ⟨by rw [hc], ?_⟩
    rw [hv]
    have h16 : (0x10000 : Nat) = 1 <<< 16 := by decide
    rw [h16, and_bit_ne_zero] at hat
    have hlt : locking_hw ls2k1000_pixpll_reg.locked (fun n => decide (n = 2010))
        (S.log.length + 1999) 0 (S.mem 0 % U32) % U32 < 2 ^ 32 := Nat.mod_lt _ (by decide)
    rw [or_one_eq, BitField.get_mod_U32 _ _ (by decide),
      BitField.get_set_disjoint _ _ _ _ (by decide)]
    exact hat
  · exact absurd (hall 1999 (by decide)) hyes

/-- C27 (amended): poll number `i` of a wait that starts on the window `s` is
access number `s.log.length + i`.  On the canonical variant the counter that
`__pixpll_ops_wait_locked` reports is 2000 exactly when none of the 2000 polls
reads the locked bit as set, and a smaller counter is the number of the poll
that read it as set.  On ls2k1000 the counter is the number of polls made: it
is 2000 exactly when none of the first 1999 polls reads the locked bit as set,
whatever the 2000th reads, and when it is smaller the last poll read the bit
as set.  The counter that `ls2k1000_pixpll_param_update` reports is the one of
its wait loop, which starts after eleven accesses. -/
theorem wait_counter_meaning (hw : Hardware) (s : Mmio) :
    ((__pixpll_ops_wait_locked hw s).1 = 2000 ↔
      ∀ i, i < 2000 → lsdc_pixpll_reg.locked.get
        (hw (s.log.length + i) 0 (stored64 s.mem 0) % 2 ^ 64) = 0) ∧
    ((__pixpll_ops_wait_locked hw s).1 < 2000 →
      lsdc_pixpll_reg.locked.get (hw (s.log.length + (__pixpll_ops_wait_locked hw s).1) 0
        (stored64 s.mem 0) % 2 ^ 64) ≠ 0) ∧
    ((ls2k1000_wait_loop hw 0 s).2.1 = 2000 ↔
      ∀ i, i < 1999 → hw (s.log.length + i) 0 (s.mem 0 % U32) % U32 &&& 0x10000 = 0) ∧
    ((ls2k1000_wait_loop hw 0 s).2.1 < 2000 →
      (ls2k1000_wait_loop hw 0 s).1 &&& 0x10000 ≠ 0) ∧
    (∀ pin, ∃ S : Mmio, S.log.length = s.log.length + 11 ∧
      (ls2k1000_pixpll_param_update hw pin s).2.1 = (ls2k1000_wait_loop hw 0 S).2.1) := by
  refine ⟨?_, ?_, ?_, ?_, ?_⟩
  · rcases wait_loop_cases hw 0 s (by decide) with ⟨k, hk, hpre, hat, hc⟩ | ⟨hall, hc⟩
    · have hc' : (__pixpll_ops_wait_locked hw s).1 = 0 + k := hc
      constructor
      · intro h; omega
      · intro h; exact absurd (h k (by omega)) hat
    · exact ⟨fun _ => hall, fun _ => hc⟩
  · intro hlt
    rcases wait_loop_cases hw 0 s (by decide) with ⟨k, hk, hpre, hat, hc⟩ | ⟨hall, hc⟩
    · have hc' : (__pixpll_ops_wait_locked hw s).1 = 0 + k := hc
      rw [hc', Nat.zero_add]
      exact hat
    · have hc' : (__pixpll_ops_wait_locked hw s).1 = 2000 := hc
      omega
  · rcases ls2k1000_wait_loop_cases hw 0 s (by decide) with
      ⟨k, hk, hpre, hat, hc, hv⟩ | ⟨hall, hc⟩
    · constructor
      · intro h
        have hk1 : k = 1999 := by omega
        rw [hk1] at hpre
        exact hpre
      · intro h
        by_contra hne
        have hk1 : k < 1999 := by omega
        exact hat (h k hk1)
    · exact ⟨fun _ i hi => hall i (by omega), fun _ => hc⟩
  · intro hlt
    rcases ls2k1000_wait_loop_cases hw 0 s (by decide) with
      ⟨k, hk, hpre, hat, hc, hv⟩ | ⟨hall, hc⟩
    · rw [hv]; exact hat
    · omega
  · intro pin
    obtain ⟨S, h1, h2, -⟩ := ls2k1000_update_wait hw pin s
    exact ⟨S, h1, h2⟩

/-- Witness of C27: devices that drive the locked bit low and a zeroed
register window. -/
theorem wait_counter_meaning_witness :
    (__pixpll_ops_wait_locked (locking_hw lsdc_pixpll_reg.locked fun _ => false)
      (Mmio.start fun _ => 0)).1 = 2000 ∧
    (ls2k1000_wait_loop (locking_hw ls2k1000_pixpll_reg.locked fun _ => false) 0
      (Mmio.start fun _ => 0)).2.1 = 2000 :=
  ⟨(wait_counter_meaning (locking_hw lsdc_pixpll_reg.locked fun _ => false)
      (Mmio.start fun _ => 0)).1.2 (fun _ _ => canonical_never_locked _ _),
   (wait_counter_meaning (locking_hw ls2k1000_pixpll_reg.locked fun _ => false)
      (Mmio.start fun _ => 0)).2.2.1.2 (fun _ _ => ls2k1000_never_locked _ _)⟩

/-- C28: for every variant, on a device that stores what is written and may
drive the read-only locked bit, after the variant's update has applied the
triple of a successful `lsdc_pixel_pll_compute` the `div_ref` and `div_out`
fields that the variant's `get_rate` decodes are not zero, so that `get_rate`
has a value for any handle `q`.  On ls2k1000 the table's `div_out = 85` reads
back as 21, which is not zero either.  For ls2k0300 this is what holds
whenever the update returns. -/
theorem get_rate_after_update_has_divisors (priv : lsdc_pixpll_parms) (clock : Nat)
    (pout : lsdc_pixpll_parms) (s : Mmio) (q : lsdc_pixpll_parms)
    (hret : (lsdc_pixel_pll_compute priv clock pout).ret = 0) :
    (∀ hw, lock_only lsdc_pixpll_reg.locked hw →
      (lsdc_pixpll_decode (lsdc_pixpll_update hw
        (lsdc_pixel_pll_compute priv clock pout).pout s).2.mem).1 ≠ 0 ∧
      (lsdc_pixpll_decode (lsdc_pixpll_update hw
        (lsdc_pixel_pll_compute priv clock pout).pout s).2.mem).2.2 ≠ 0 ∧
      (lsdc_pixpll_get_freq hw q (lsdc_pixpll_update hw
        (lsdc_pixel_pll_compute priv clock pout).pout s).2).freq ≠ none) ∧
    (∀ hw, lock_only ls2k1000_pixpll_reg.locked hw →
      (ls2k1000_pixpll_decode (ls2k1000_pixpll_param_update hw
        (lsdc_pixel_pll_compute priv clock pout).pout s).2.2.mem).1 ≠ 0 ∧
      (ls2k1000_pixpll_decode (ls2k1000_pixpll_param_update hw
        (lsdc_pixel_pll_compute priv clock pout).pout s).2.2.mem).2.2 ≠ 0 ∧
      (ls2k1000_pixpll_get_clock_rate hw q (ls2k1000_pixpll_param_update hw
        (lsdc_pixel_pll_compute priv clock pout).pout s).2.2).freq ≠ none) ∧
    (∀ hw fuel r, lock_only ls2k0300_pixpll_bitmap.locked hw →
      ls2k0300_pixpll_param_update hw fuel (lsdc_pixel_pll_compute priv clock pout).pout s =
        some r →
      (ls2k0300_pixpll_decode r.2.2.mem).1 ≠ 0 ∧ (ls2k0300_pixpll_decode r.2.2.mem).2.2 ≠ 0 ∧
      (ls2k0300_pixpll_get_clock_rate hw q r.2.2).freq ≠ none) := by
  obtain ⟨⟨r1, r2⟩, ⟨l1, l2⟩, ⟨o1, o2⟩, o3⟩ := compute_zero_dividers priv clock pout hret
  refine ⟨?_, ?_, ?_⟩
  · intro hw h
    have hd := canonical_decode hw h (lsdc_pixel_pll_compute priv clock pout).pout s
    have h1 : (lsdc_pixpll_decode (lsdc_pixpll_update hw
        (lsdc_pixel_pll_compute priv clock pout).pout s).2.mem).1 ≠ 0 := by
      rw [hd]; simp only; omega
    have h2 : (lsdc_pixpll_decode (lsdc_pixpll_update hw
        (lsdc_pixel_pll_compute priv clock pout).pout s).2.mem).2.2 ≠ 0 := by
      rw [hd]; simp only; omega
    refine ⟨h1, h2, ?_⟩
    rw [lsdc_pixpll_get_freq_freq hw h]
    exact rate_of_ne_none _ _ _ _ h1 h2
  · intro hw h
    have hd := ls2k1000_decode hw h (lsdc_pixel_pll_compute priv clock pout).pout
      (by omega) s
    have h1 : (ls2k1000_pixpll_decode (ls2k1000_pixpll_param_update hw
        (lsdc_pixel_pll_compute priv clock pout).pout s).2.2.mem).1 ≠ 0 := by
      rw [hd]; simp only; omega
    have h2 : (ls2k1000_pixpll_decode (ls2k1000_pixpll_param_update hw
        (lsdc_pixel_pll_compute priv clock pout).pout s).2.2.mem).2.2 ≠ 0 := by
      rw [hd]; simp only; omega
    refine ⟨h1, h2, ?_⟩
    rw [ls2k1000_get_clock_rate_freq hw h]
    exact rate_of_ne_none _ _ _ _ h1 h2
  · intro hw fuel r h hr
    have hd := ls2k0300_decode_of_some hw h fuel (lsdc_pixel_pll_compute priv clock pout).pout
      (by omega) (by omega) (by omega) s r hr
    have h1 : (ls2k0300_pixpll_decode r.2.2.mem).1 ≠ 0 := by
      rw [hd]; simp only; omega
    have h2 : (ls2k0300_pixpll_decode r.2.2.mem).2.2 ≠ 0 := by
      rw [hd]; simp only; omega
    refine ⟨h1, h2, ?_⟩
    rw [ls2k0300_get_clock_rate_freq hw h]
    exact rate_of_ne_none _ _ _ _ h1 h2

/-- Witness of C28: 25175 kHz, whose table triple has `div_out = 85`, on the
canonical variant and on ls2k1000 with registers behaving as memory, and on
ls2k0300 with the locked bit reading as set. -/
theorem get_rate_after_update_has_divisors_witness :
    (lsdc_pixel_pll_compute ⟨100000, 0, 0, 0⟩ 25175 ⟨100000, 0, 0, 0⟩).ret = 0 ∧
    (lsdc_pixpll_get_freq memory_hw ⟨100000, 0, 0, 0⟩ (lsdc_pixpll_update memory_hw
      (lsdc_pixel_pll_compute ⟨100000, 0, 0, 0⟩ 25175 ⟨100000, 0, 0, 0⟩).pout
      (Mmio.start fun _ => 0)).2).freq ≠ none ∧
    (ls2k1000_pixpll_get_clock_rate memory_hw ⟨100000, 0, 0, 0⟩ (ls2k1000_pixpll_param_update
      memory_hw (lsdc_pixel_pll_compute ⟨100000, 0, 0, 0⟩ 25175 ⟨100000, 0, 0, 0⟩).pout
      (Mmio.start fun _ => 0)).2.2).freq ≠ none ∧
    ∃ r, ls2k0300_pixpll_param_update (locking_hw ls2k0300_pixpll_bitmap.locked fun _ => true) 1
        (lsdc_pixel_pll_compute ⟨100000, 0, 0, 0⟩ 25175 ⟨100000, 0, 0, 0⟩).pout
        (Mmio.start fun _ => 0) = some r ∧
      (ls2k0300_pixpll_get_clock_rate (locking_hw ls2k0300_pixpll_bitmap.locked fun _ => true)
        ⟨100000, 0, 0, 0⟩ r.2.2).freq ≠ none :=
  ⟨rfl,
   ((get_rate_after_update_has_divisors ⟨100000, 0, 0, 0⟩ 25175 ⟨100000, 0, 0, 0⟩
      (Mmio.start fun _ => 0) ⟨100000, 0, 0, 0⟩ rfl).1 memory_hw (memory_hw_lock_only _)).2.2,
   ((get_rate_after_update_has_divisors ⟨100000, 0, 0, 0⟩ 25175 ⟨100000, 0, 0, 0⟩
      (Mmio.start fun _ => 0) ⟨100000, 0, 0, 0⟩ rfl).2.1 memory_hw (memory_hw_lock_only _)).2.2,
   match ls2k0300_update_chain (locking_hw ls2k0300_pixpll_bitmap.locked fun _ => true)
      (fun _ _ => True) (fun _ _ => trivial)
      (lsdc_pixel_pll_compute ⟨100000, 0, 0, 0⟩ 25175 ⟨100000, 0, 0, 0⟩).pout
      (Mmio.start fun _ => 0) 1 0 (by decide) (ls2k0300_locked_when_driven _ _ rfl) with
   | ⟨_, _, _, cnt, t, hres, _⟩ =>
     ⟨(0, cnt, t), hres,
      ((get_rate_after_update_has_divisors ⟨100000, 0, 0, 0⟩ 25175 ⟨100000, 0, 0, 0⟩
        (Mmio.start fun _ => 0) ⟨100000, 0, 0, 0⟩ rfl).2.2
        (locking_hw ls2k0300_pixpll_bitmap.locked fun _ => true) 1 (0, cnt, t)
        (locking_hw_lock_only _ _) hres).2.2⟩⟩

/-- C29: with registers behaving as memory, `lsdc_pixpll_update` leaves the
four reserved fields and the locked bit of the 64-bit register as they were,
for every initial contents: the register after the call is the one before it
with `div_ref`, `loopc`, `div_out`, `sel_out`, `set_param`, `bypass` and
`powerdown` assigned, and the words other than the two of the register are
untouched. -/
theorem update_preserves_other_bits (pin : lsdc_pixpll_parms) (s : Mmio) :
    lsdc_pixpll_reg.reserved_1.get (stored64 (lsdc_pixpll_update memory_hw pin s).2.mem 0) =
      lsdc_pixpll_reg.reserved_1.get (stored64 s.mem 0) ∧
    lsdc_pixpll_reg.reserved_2.get (stored64 (lsdc_pixpll_update memory_hw pin s).2.mem 0) =
      lsdc_pixpll_reg.reserved_2.get (stored64 s.mem 0) ∧
    lsdc_pixpll_reg.locked.get (stored64 (lsdc_pixpll_update memory_hw pin s).2.mem 0) =
      lsdc_pixpll_reg.locked.get (stored64 s.mem 0) ∧
    lsdc_pixpll_reg.reserved_3.get (stored64 (lsdc_pixpll_update memory_hw pin s).2.mem 0) =
      lsdc_pixpll_reg.reserved_3.get (stored64 s.mem 0) ∧
    lsdc_pixpll_reg.reserved_4.get (stored64 (lsdc_pixpll_update memory_hw pin s).2.mem 0) =
      lsdc_pixpll_reg.reserved_4.get (stored64 s.mem 0) ∧
    stored64 (lsdc_pixpll_update memory_hw pin s).2.mem 0 =
      lsdc_pixpll_programmed (stored64 s.mem 0) pin ∧
    ∀ a, a = 0 ∨ a = 4 ∨ (lsdc_pixpll_update memory_hw pin s).2.mem a = s.mem a := by
  have hm := update_memory_mem pin s
  have he : stored64 (lsdc_pixpll_update memory_hw pin s).2.mem 0 =
      lsdc_pixpll_programmed (stored64 s.mem 0) pin := by
    rw [hm, stored64_mem_with_reg64,
      Nat.mod_eq_of_lt (lsdc_pixpll_programmed_lt _ _ (stored64_lt _ _))]
  refine ⟨?_, ?_, ?_, ?_, ?_, he, ?_⟩
  · rw [he]; unfold lsdc_pixpll_programmed
    simp [BitField.get_set_disjoint, lsdc_pixpll_reg.div_ref,
      lsdc_pixpll_reg.loopc, lsdc_pixpll_reg.div_out, lsdc_pixpll_reg.sel_out,
      lsdc_pixpll_reg.set_param, lsdc_pixpll_reg.bypass, lsdc_pixpll_reg.powerdown,
      lsdc_pixpll_reg.reserved_1]
  · rw [he]; unfold lsdc_pixpll_programmed
    simp [BitField.get_set_disjoint, lsdc_pixpll_reg.div_ref,
      lsdc_pixpll_reg.loopc, lsdc_pixpll_reg.div_out, lsdc_pixpll_reg.sel_out,
      lsdc_pixpll_reg.set_param, lsdc_pixpll_reg.bypass, lsdc_pixpll_reg.powerdown,
      lsdc_pixpll_reg.reserved_2]
  · rw [he]; unfold lsdc_pixpll_programmed
    simp [BitField.get_set_disjoint, lsdc_pixpll_reg.div_ref,
      lsdc_pixpll_reg.loopc, lsdc_pixpll_reg.div_out, lsdc_pixpll_reg.sel_out,
      lsdc_pixpll_reg.set_param, lsdc_pixpll_reg.bypass, lsdc_pixpll_reg.powerdown,
      lsdc_pixpll_reg.locked]
  · rw [he]; unfold lsdc_pixpll_programmed
    simp [BitField.get_set_disjoint, lsdc_pixpll_reg.div_ref,
      lsdc_pixpll_reg.loopc, lsdc_pixpll_reg.div_out, lsdc_pixpll_reg.sel_out,
      lsdc_pixpll_reg.set_param, lsdc_pixpll_reg.bypass, lsdc_pixpll_reg.powerdown,
      lsdc_pixpll_reg.reserved_3]
  · rw [he]; unfold lsdc_pixpll_programmed
    simp [BitField.get_set_disjoint, lsdc_pixpll_reg.div_ref,
      lsdc_pixpll_reg.loopc, lsdc_pixpll_reg.div_out, lsdc_pixpll_reg.sel_out,
      lsdc_pixpll_reg.set_param, lsdc_pixpll_reg.bypass, lsdc_pixpll_reg.powerdown,
      lsdc_pixpll_reg.reserved_4]
  · intro a
    by_cases h0 : a = 0
    · exact Or.inl h0
    · by_cases h4 : a = 4
      · exact Or.inr (Or.inl h4)
      · right; right
        rw [hm]
        simp [mem_with_reg64, h0, h4]

/-- C30 (as stated, refuted): for 148500 kHz, which is in the table,
`lsdc_pixel_pll_compute` returns 0 and stores `{div_out=11, loopc=49,
div_ref=3}` in the output, but the handle's cached parameters are still the
zeroes they were before the call. -/
theorem table_hit_leaves_cache_stale :
    (lsdc_pixel_pll_compute ⟨100000, 0, 0, 0⟩ 148500 ⟨100000, 0, 0, 0⟩).ret = 0 ∧
    (lsdc_pixel_pll_compute ⟨100000, 0, 0, 0⟩ 148500 ⟨100000, 0, 0, 0⟩).pout =
      ⟨100000, 3, 49, 11⟩ ∧
    (lsdc_pixel_pll_compute ⟨100000, 0, 0, 0⟩ 148500 ⟨100000, 0, 0, 0⟩).priv =
      ⟨100000, 0, 0, 0⟩ ∧
    (lsdc_pixel_pll_compute ⟨100000, 0, 0, 0⟩ 148500 ⟨100000, 0, 0, 0⟩).priv.div_ref ≠
      (lsdc_pixel_pll_compute ⟨100000, 0, 0, 0⟩ 148500 ⟨100000, 0, 0, 0⟩).pout.div_ref := by
  refine ⟨rfl, rfl, rfl, by decide⟩

/-- C30 (amended): when `lsdc_pixel_pll_compute` returns 0 for a frequency
that is not in the table, the handle's cached parameters equal the caller's
output; when it returns 0 for a frequency of the table, the cached parameters
are left as they were before the call. -/
theorem compute_cache_matches_output_after_search (priv : lsdc_pixpll_parms) (clock : Nat)
    (pout : lsdc_pixpll_parms)
    (hret : (lsdc_pixel_pll_compute priv clock pout).ret = 0) :
    ((∀ e ∈ pixpll_parms_table, e.clock ≠ clock) →
      (lsdc_pixel_pll_compute priv clock pout).priv =
        (lsdc_pixel_pll_compute priv clock pout).pout) ∧
    ((∃ e ∈ pixpll_parms_table, e.clock = clock) →
      (lsdc_pixel_pll_compute priv clock pout).priv = priv) := by
  constructor
  · intro hmiss
    rcases compute_zero_cases priv clock pout hret with ⟨e, he, hc, -⟩ | ⟨-, t, hf, -, -⟩
    · exact absurd hc (hmiss e he)
    · rw [hf]
  · intro hhit
    obtain ⟨e, -, -, hf⟩ := compute_of_hit priv clock pout hhit
    rw [hf]

/-- Witness of C30: 100000 kHz, found by the search, and 148500 kHz, found in
the table, with the 100 MHz reference. -/
theorem compute_cache_matches_output_after_search_witness :
    (∀ e ∈ pixpll_parms_table, e.clock ≠ 100000) ∧
    (lsdc_pixel_pll_compute ⟨100000, 0, 0, 0⟩ 100000 ⟨0, 0, 0, 0⟩).ret = 0 ∧
    (lsdc_pixel_pll_compute ⟨100000, 0, 0, 0⟩ 100000 ⟨0, 0, 0, 0⟩).priv =
      (lsdc_pixel_pll_compute ⟨100000, 0, 0, 0⟩ 100000 ⟨0, 0, 0, 0⟩).pout ∧
    (lsdc_pixel_pll_compute ⟨100000, 4, 79, 16⟩ 148500 ⟨0, 0, 0, 0⟩).priv =
      ⟨100000, 4, 79, 16⟩ :=
  have hmiss : ∀ e ∈ pixpll_parms_table, e.clock ≠ 100000 := by decide
  have hret : (lsdc_pixel_pll_compute ⟨100000, 0, 0, 0⟩ 100000 ⟨0, 0, 0, 0⟩).ret = 0 :=
    (compute_ret_zero_iff ⟨100000, 0, 0, 0⟩ 100000 ⟨0, 0, 0, 0⟩ hmiss).2
      ⟨12, 4, 48, by decide, by decide⟩
  ⟨hmiss, hret,
    (compute_cache_matches_output_after_search ⟨100000, 0, 0, 0⟩ 100000 ⟨0, 0, 0, 0⟩ hret).1
      hmiss,
    (compute_cache_matches_output_after_search ⟨100000, 4, 79, 16⟩ 148500 ⟨0, 0, 0, 0⟩ rfl).2
      ⟨⟨148500, 1920, 1080, 60, 11, 49, 3⟩, by decide, rfl⟩⟩

/-! ## The graphics PLL and the PWM controller -/

/-- C31: on registers behaving as memory, whenever the five dividers stored
in the two 128-bit registers are not zero, `ls2k1000_gfxpll_get_rates` returns,
writes no register, and leaves behind each non-null pointer the value
`R / div_ref * loopc / div_out` (truncating divisions, `R` the reference clock
in MHz): `ddr` and `gpu` from the register at offset 0, `dc` from the register
at offset 16, with `div_ref` in bits 26..31 of word 0, `loopc` in bits 0..9 of
word 1 and the output dividers in word 2; nothing is stored behind a null
pointer. -/
theorem gfxpll_get_rates_formula (khz : Nat) (hk : khz / 1000 * 1023 < 2 ^ 32)
    (out : gfxpll_rates) (s : Mmio)
    (h1 : s.mem 0 % U32 / 2 ^ 26 ≠ 0) (h2 : s.mem 8 % U32 % 2 ^ 6 ≠ 0)
    (h3 : s.mem 8 % U32 / 2 ^ 22 % 2 ^ 6 ≠ 0)
    (h4 : s.mem 16 % U32 / 2 ^ 26 ≠ 0) (h5 : s.mem 24 % U32 % 2 ^ 6 ≠ 0) :
    ∃ t, ls2k1000_gfxpll_get_rates memory_hw khz out s =
        some ({ dc := out.dc.map fun _ =>
                  khz / 1000 / (s.mem 16 % U32 / 2 ^ 26) * (s.mem 20 % U32 % 2 ^ 10) /
                    (s.mem 24 % U32 % 2 ^ 6),
                ddr := out.ddr.map fun _ =>
                  khz / 1000 / (s.mem 0 % U32 / 2 ^ 26) * (s.mem 4 % U32 % 2 ^ 10) /
                    (s.mem 8 % U32 % 2 ^ 6),
                gpu := out.gpu.map fun _ =>
                  khz / 1000 / (s.mem 0 % U32 / 2 ^ 26) * (s.mem 4 % U32 % 2 ^ 10) /
                    (s.mem 8 % U32 / 2 ^ 22 % 2 ^ 6) }, t) ∧
      t.mem = s.mem ∧ t.writes = s.writes := by
  have hlt : ∀ x : Nat, x % U32 < 2 ^ 32 := fun x => Nat.mod_lt _ (by decide)
  have hR : khz / 1000 % U32 = khz / 1000 := Nat.mod_eq_of_lt (by unfold U32; omega)
  have hmap : ∀ (p : Option Nat) (v : Nat), store_if_nonnull p v = p.map fun _ => v := by
    intro p v; cases p <;> rfl
  obtain ⟨a1, a2, a3⟩ := rreg_u128_memory s 0
  obtain ⟨b1, b2, b3⟩ := rreg_u128_memory (__rreg_u128 memory_hw s 0).2 16
  rw [a2] at b1 b2
  rw [a3] at b3
  obtain ⟨f1, f2, f3, f4, -, -, -⟩ := gfxpll_bitmap_fields (s.mem 0 % U32) (s.mem (0 + 4) % U32)
    (s.mem (0 + 8) % U32) (s.mem (0 + 8 + 4) % U32) (hlt _) (hlt _)
  obtain ⟨-, -, -, -, g1, g2, g3⟩ := gfxpll_bitmap_fields (s.mem 16 % U32) (s.mem (16 + 4) % U32)
    (s.mem (16 + 8) % U32) (s.mem (16 + 8 + 4) % U32) (hlt _) (hlt _)
  simp only [Nat.zero_add, Nat.reduceAdd] at a1 b1 f1 f2 f3 f4 g1 g2 g3
  have r1 := (rate_of_some (khz / 1000) _ (s.mem 4 % U32 % 2 ^ 10) _ h1 h2).2
    (gfxpll_no_wrap _ _ _ hk (Nat.mod_lt _ (by decide)))
  have r2 := (rate_of_some (khz / 1000) _ (s.mem 4 % U32 % 2 ^ 10) _ h1 h3).2
    (gfxpll_no_wrap _ _ _ hk (Nat.mod_lt _ (by decide)))
  have r3 := (rate_of_some (khz / 1000) _ (s.mem 20 % U32 % 2 ^ 10) _ h4 h5).2
    (gfxpll_no_wrap _ _ _ hk (Nat.mod_lt _ (by decide)))
  refine ⟨(__rreg_u128 memory_hw (__rreg_u128 memory_hw s 0).2 16).2, ?_, b2, b3⟩
  unfold ls2k1000_gfxpll_get_rates
  simp only [a1, b1, f1, f2, f3, f4, g1, g2, g3, hR, r1, r2, r3, hmap]

/-- The instance of `gfxpll_get_rates_formula` with a 100 MHz reference, DDR
register dividers 4, 50, 5 and 7, DC register dividers 2, 30 and 3, and a null
`ddr` pointer. -/
theorem gfxpll_get_rates_formula_witness :
    ∃ t, ls2k1000_gfxpll_get_rates memory_hw 100000 ⟨some 0, none, some 0⟩
        (Mmio.start fun a => if a = 0 then 268435456 else if a = 4 then 50
          else if a = 8 then 29360133 else if a = 16 then 134217728 else if a = 20 then 30
          else if a = 24 then 3 else 0) =
        some (⟨some 500, none, some 178⟩, t) ∧
      t.mem = (fun a => if a = 0 then 268435456 else if a = 4 then 50
          else if a = 8 then 29360133 else if a = 16 then 134217728 else if a = 20 then 30
          else if a = 24 then 3 else 0) ∧ t.writes = [] :=
  gfxpll_get_rates_formula 100000 (by decide) ⟨some 0, none, some 0⟩
    (Mmio.start fun a => if a = 0 then 268435456 else if a = 4 then 50
          else if a = 8 then 29360133 else if a = 16 then 134217728 else if a = 20 then 30
          else if a = 24 then 3 else 0) (by decide) (by decide) (by decide) (by decide) (by decide)

/-- C32: for `int` arguments, `ls_pwm_config` returns; it returns `-ERANGE`
exactly when `period_ns` or `duty_ns` is negative or greater than `10^9`, in
which case the register window (no access is made) and the chip structure,
with its cached `low_buffer_reg` and `full_buffer_reg`, are as before the
call; for every other input it returns 0. -/
theorem pwm_config_erange (ls_pwm : ls_pwm_chip) (duty_ns period_ns : Int)
    (hd : -2 ^ 31 ≤ duty_ns ∧ duty_ns < 2 ^ 31) (hp : -2 ^ 31 ≤ period_ns ∧ period_ns < 2 ^ 31)
    (s : Mmio) :
    ∃ ret c t, ls_pwm_config ls_pwm duty_ns period_ns s = some (ret, c, t) ∧
      (ret = -ERANGE ↔ (period_ns < 0 ∨ 10 ^ 9 < period_ns ∨ duty_ns < 0 ∨ 10 ^ 9 < duty_ns)) ∧
      (ret = -ERANGE → t = s ∧ c = ls_pwm) ∧
      (ret ≠ -ERANGE → ret = 0) := by
  have e1 := int_to_u64_gt period_ns hp
  have e2 := int_to_u64_gt duty_ns hd
  unfold ls_pwm_config
  by_cases hbad : int_to_u64 period_ns > NS_IN_HZ ∨ int_to_u64 duty_ns > NS_IN_HZ
  · rw [if_pos hbad]
    refine ⟨-ERANGE, ls_pwm, s, rfl, ?_, fun _ => ⟨rfl, rfl⟩, fun h => absurd rfl h⟩
    rw [e1, e2] at hbad
    constructor
    · intro _
      rcases hbad with (h | h) | (h | h)
      · exact Or.inl h
      · exact Or.inr (Or.inl h)
      · exact Or.inr (Or.inr (Or.inl h))
      · exact Or.inr (Or.inr (Or.inr h))
    · intro _; rfl
  · rw [if_neg hbad]
    simp only [do_div_NSEC_PER_SEC]
    have hne : (0 : Int) ≠ -ERANGE := by decide
    refine ⟨0, _, _, rfl, ?_, fun h => absurd h hne, fun _ => rfl⟩
    rw [e1, e2] at hbad
    constructor
    · intro h; exact absurd h hne
    · intro h
      exfalso
      apply hbad
      rcases h with h | h | h | h
      · exact Or.inl (Or.inl h)
      · exact Or.inl (Or.inr h)
      · exact Or.inr (Or.inl h)
      · exact Or.inr (Or.inr h)

/-- The instance of `pwm_config_erange` with a duty of 200 ns and a period of
-1 ns. -/
theorem pwm_config_erange_witness :
    ∃ ret c t, ls_pwm_config ⟨0, 0, 7, 9, CPU_FRQ_PWM⟩ 200 (-1) (Mmio.start fun _ => 0) =
        some (ret, c, t) ∧
      (ret = -ERANGE ↔ ((-1 : Int) < 0 ∨ 10 ^ 9 < (-1 : Int) ∨ (200 : Int) < 0 ∨ 10 ^ 9 < (200 : Int))) ∧
      (ret = -ERANGE → t = (Mmio.start fun _ => 0) ∧ c = ⟨0, 0, 7, 9, CPU_FRQ_PWM⟩) ∧
      (ret ≠ -ERANGE → ret = 0) :=
  pwm_config_erange ⟨0, 0, 7, 9, CPU_FRQ_PWM⟩ 200 (-1) (by decide) (by decide) (Mmio.start fun _ => 0)

/-- Above `2 * 10^9` Hz a tick is shorter than the nanosecond in which the
state is reported: with a clock of 3000000001 Hz, `duty_ns = 200` and
`period_ns = 1000` (tick counts 600 and 3000), `ls_pwm_config` succeeds and
`ls_pwm_get_state`, run right after it on registers behaving as memory,
reports the period 999, which is more than two clock ticks below 1000, and the
duty cycle 799, which is greater than 200. -/
theorem pwm_round_trip_outside_two_ticks :
    1 ≤ 3000000001 * 200 / 10 ^ 9 ∧ 1 ≤ 3000000001 * 1000 / 10 ^ 9 ∧
    ∃ c t c2 st t2,
      ls_pwm_config ⟨0, 0, 0, 0, 3000000001⟩ 200 1000 (Mmio.start fun _ => 0) = some (0, c, t) ∧
      ls_pwm_get_state memory_hw c t = some (0, c2, st, t2) ∧
      st.period = 999 ∧ st.duty_cycle = 799 ∧
      ¬ ((1000 - st.period) * 3000000001 ≤ 2 * 10 ^ 9) ∧ ¬ (st.duty_cycle ≤ 200) := by
  refine ⟨by norm_num, by norm_num, ?_⟩
  obtain ⟨c, t, c2, st, t2, h1, h2, h3, h4⟩ := ls_pwm_config_then_get_state
    ⟨0, 0, 0, 0, 3000000001⟩ 200 1000 (by norm_num) (by norm_num) (by norm_num) (by norm_num)
    (Mmio.start fun _ => 0)
  have e3 : st.period = 999 := by rw [h3]; norm_num
  have e4 : st.duty_cycle = 799 := by rw [h4]; norm_num
  refine ⟨c, t, c2, st, t2, h1, h2, e3, e4, ?_, ?_⟩
  · rw [e3]; norm_num
  · rw [e4]; norm_num

/-- The period half of the round trip: for every clock frequency of at most
`2 * 10^9` Hz and every `duty_ns ≤ period_ns ≤ 10^9` whose duty tick count is
at least 1 (so that `duty_ns` is positive and the period tick count is at
least 1 as well), `ls_pwm_config` succeeds and `ls_pwm_get_state`, run right after it on
registers behaving as memory, reports a period that is no greater than the
configured one and within two clock ticks of it. -/
theorem pwm_period_round_trip (ls_pwm : ls_pwm_chip) (duty_ns period_ns : Nat)
    (hf : ls_pwm.clock_frequency ≤ 2 * 10 ^ 9) (h1 : duty_ns ≤ period_ns)
    (h2 : period_ns ≤ 10 ^ 9) (hD : 1 ≤ ls_pwm.clock_frequency * duty_ns / 10 ^ 9) (s : Mmio) :
    ∃ c t c2 st t2,
      ls_pwm_config ls_pwm (duty_ns : Int) (period_ns : Int) s = some (0, c, t) ∧
      ls_pwm_get_state memory_hw c t = some (0, c2, st, t2) ∧
      st.period ≤ period_ns ∧
      (period_ns - st.period) * ls_pwm.clock_frequency ≤ 2 * 10 ^ 9 := by
  have hf0 : 0 < ls_pwm.clock_frequency := by
    rcases Nat.eq_zero_or_pos ls_pwm.clock_frequency with h | h
    · rw [h] at hD
      simp at hD
    · exact h
  obtain ⟨c, t, c2, st, t2, e1, e2, e3, -⟩ := ls_pwm_config_then_get_state ls_pwm duty_ns period_ns
    (by omega) h2 h1 hD s
  refine ⟨c, t, c2, st, t2, e1, e2, ?_, ?_⟩
  · rw [e3]
    exact pwm_ns_le _ _ _ hf0 (Nat.le_refl _)
  · have key : (period_ns - st.period) * ls_pwm.clock_frequency <
        10 ^ 9 + ls_pwm.clock_frequency := by
      have a1 := Nat.div_add_mod (ls_pwm.clock_frequency * period_ns) (10 ^ 9)
      have a2 := Nat.mod_lt (ls_pwm.clock_frequency * period_ns) (show 10 ^ 9 > 0 by norm_num)
      have a3 := Nat.div_add_mod (ls_pwm.clock_frequency * period_ns / 10 ^ 9 * 10 ^ 9)
        ls_pwm.clock_frequency
      have a4 := Nat.mod_lt (ls_pwm.clock_frequency * period_ns / 10 ^ 9 * 10 ^ 9) hf0
      rw [← e3] at a3
      rw [Nat.sub_mul, Nat.mul_comm period_ns, Nat.mul_comm st.period]
      generalize ls_pwm.clock_frequency * period_ns / 10 ^ 9 * 10 ^ 9 % ls_pwm.clock_frequency
        = r at *
      generalize ls_pwm.clock_frequency * period_ns / 10 ^ 9 = P at *
      generalize ls_pwm.clock_frequency * period_ns = X at *
      generalize ls_pwm.clock_frequency * st.period = Z at *
      omega
    rcases Nat.lt_or_ge (period_ns - st.period) 2 with hq | hq
    · have := Nat.mul_le_mul_right ls_pwm.clock_frequency (Nat.le_of_lt_succ hq)
      omega
    · have := Nat.mul_le_mul_right ls_pwm.clock_frequency hq
      omega

/-- The instance of `pwm_period_round_trip` with the default clock
`CPU_FRQ_PWM`, a duty of 200 ns and a period of 1000 ns. -/
theorem pwm_period_round_trip_witness :
    ∃ c t c2 st t2,
      ls_pwm_config ⟨0, 0, 0, 0, CPU_FRQ_PWM⟩ ((200 : Nat) : Int) ((1000 : Nat) : Int)
        (Mmio.start fun _ => 0) = some (0, c, t) ∧
      ls_pwm_get_state memory_hw c t = some (0, c2, st, t2) ∧
      st.period ≤ 1000 ∧ (1000 - st.period) * CPU_FRQ_PWM ≤ 2 * 10 ^ 9 :=
  pwm_period_round_trip ⟨0, 0, 0, 0, CPU_FRQ_PWM⟩ 200 1000 (by decide) (by decide) (by decide)
    (by decide) (Mmio.start fun _ => 0)

/-- C33 (the code at the failing input): with the default clock `CPU_FRQ_PWM`
of 50 MHz, `duty_ns = 200` and `period_ns = 1000` (tick counts 10 and 50),
`ls_pwm_config` returns 0 and leaves the low time, 40 ticks, in `LOW_BUFFER`
and the period, 50 ticks, in `FULL_BUFFER`; `ls_pwm_get_state`, run right after
it on registers behaving as memory, reports the period 1000 and the duty cycle
800, the low time, which is greater than the configured 200. -/
theorem pwm_duty_cycle_read_back_as_low_time :
    ∃ c t c2 st t2,
      ls_pwm_config ⟨0, 0, 0, 0, CPU_FRQ_PWM⟩ 200 1000 (Mmio.start fun _ => 0) =
        some (0, c, t) ∧
      t.mem LOW_BUFFER = 40 ∧ t.mem FULL_BUFFER = 50 ∧
      ls_pwm_get_state memory_hw c t = some (0, c2, st, t2) ∧
      st.period = 1000 ∧ st.duty_cycle = 800 ∧ ¬ (st.duty_cycle ≤ 200) := by
  have hcfg := ls_pwm_config_in_range ⟨0, 0, 0, 0, CPU_FRQ_PWM⟩ 200 1000 (by decide) (by decide)
    (by decide) (by decide) (Mmio.start fun _ => 0)
  obtain ⟨c, t, c2, st, t2, h1, h2, h3, h4⟩ := ls_pwm_config_then_get_state
    ⟨0, 0, 0, 0, CPU_FRQ_PWM⟩ 200 1000 (by decide) (by decide) (by decide) (by decide)
    (Mmio.start fun _ => 0)
  have hct := Option.some.inj (h1.symm.trans hcfg)
  simp only [Prod.mk.injEq, true_and] at hct
  have e3 : st.period = 1000 := by rw [h3]; decide
  have e4 : st.duty_cycle = 800 := by rw [h4]; decide
  refine ⟨c, t, c2, st, t2, h1, ?_, ?_, h2, e3, e4, by rw [e4]; decide⟩
  · rw [hct.2]; decide
  · rw [hct.2]; decide

end Lsdc
